import Mathlib

/-!
# Event control system: a verification development

Shallow embedding of the application layer of the event control system
(`event.cpp`, `control_CLI.cpp`, `control.cpp`, `settings.cpp`, `command.cpp`,
`settings_backend_flash.cpp`, `periodic.cpp`, `input.cpp`, `output.cpp`,
`task_open.cpp`, `uart.cpp`, `gpio.cpp`, `adc.cpp` and `error.cpp` of
`src/application/source`, with the headers of `src/application/include`) and
theorems about it.

Conventions of the embedding:

* C arrays indexed by an enum are functions on `Nat`; the contract checks of
  the source keep every index inside the array.
* `void *` arguments are natural numbers, `nullptr` is `0`.
* A contract check (`REQUIRE`, `INVAR`, `ENSURE`) that fails ends the call at
  that point with the error tag of the check (the propagate-as-fault policy of
  `error.cpp`); the state reached so far is returned next to the fault.
* Calls into other modules (`task::send_signal`, the console output) are
  recorded in the state in call order.
-/

/-! ## Error tags (`error.hpp`) -/

/-- Error tags of `error::Error` raised by the functions embedded below. -/
inductive Error where
  | InvalidID
  | IDNotFound
  | QueueOverflow
  | OperationFail
  | DeviceInitFailed
  | InvalidLength
  | InvalidPointer
  | InvalidPos
  | TooSmall
  | InvalidIndex
  | InitFailed
  | UnknownType
  | ReadFailed
  | WriteFailed
  | InvalidTime
  | TooManyAttempts
  | AppInitFailed
  | InvalidType
  deriving DecidableEq, Repr

namespace task

/-- Signals of `task::Signal` (`task.hpp`). -/
inductive Signal where
  | GlobalOpen
  | GlobalRun
  | GlobalEvent
  | GlobalTerminate
  | GlobalInvalid
  deriving DecidableEq, Repr

end task

namespace event

/-! ## Event bus (`event.hpp`, `event.cpp`) -/

/-- Size of every task ring: `constexpr uint16_t QUEUE_SIZE = 256`. -/
def QUEUE_SIZE : Nat := 256

/-- Modulus of the atomic ring counters (`std::atomic_uint_fast16_t`); the
type has at least 16 bits and `QUEUE_SIZE` divides every such power of two. -/
def COUNTER_MOD : Nat := 65536

/-- The sentinel `event::ID::NullEvent`, first member of the enum. -/
def NullEvent : Nat := 0

/-- Build-time tables included by the module: `tasks.def` gives the number of
tasks `task::ID::NumIDs`; `events.def` is the list of `DEF(task, event)`
lines, kept here as the owner task of each line in file order, so that line
`k` declares the event with id `k + 1`; `lock_free` is what
`std::atomic_is_lock_free` answers on the target. -/
structure Config where
  numTasks : Nat
  events : List Nat
  lock_free : Bool

/-- The value `event::ID::NumEvents`: the sentinel plus one id per line. -/
def Config.NumEvents (cfg : Config) : Nat := cfg.events.length + 1

/-- The tables are coherent: there is a task, and every line of `events.def`
names a task of `tasks.def` (the enum member `task::ID::task_name` exists). -/
def Config.WF (cfg : Config) : Prop :=
  0 < cfg.numTasks ∧ (∀ t ∈ cfg.events, t < cfg.numTasks) ∧ cfg.lock_free = true

/-- The record `event::Event`. -/
structure Event where
  id : Nat
  task : Nat
  arg : Nat
  deriving DecidableEq, Repr

/-- File variables of `event.cpp`, and the record of `task::send_signal`
calls made by the module. -/
structure State where
  task_queues : Nat → Nat → Event
  queue_rears : Nat → Nat
  queue_fronts : Nat → Nat
  event_task_assoc : Nat → Nat
  signals : List (Nat × task.Signal)

/-- Static storage before any code runs: zero-initialised. -/
def boot : State :=
  { task_queues := fun _ _ => { id := 0, task := 0, arg := 0 }
    queue_rears := fun _ => 0
    queue_fronts := fun _ => 0
    event_task_assoc := fun _ => 0
    signals := [] }

/-- The function `event::get_associated_task`. -/
def get_associated_task (s : State) (event_id : Nat) : Nat :=
  s.event_task_assoc event_id

/-- The record `event::QueueInfo`. -/
structure QueueInfo where
  front_pos : Nat
  rear_pos : Nat
  deriving DecidableEq, Repr

/-- The function `event::get_queue_info`. -/
def get_queue_info (s : State) (task_id : Nat) : QueueInfo :=
  { front_pos := s.queue_fronts task_id % QUEUE_SIZE
    rear_pos := s.queue_rears task_id % QUEUE_SIZE }

/-- The function `event::post`: claim a slot with `fetch_add`, check for
overflow, write `id` and `arg` into the claimed slot, signal the owner. -/
def post (cfg : Config) (s : State) (event_id : Nat) (arg : Nat) :
    State × Except Error Unit :=
  if ¬ event_id < cfg.NumEvents then (s, .error .InvalidID) else
  let id := event_id
  let task_id := s.event_task_assoc id
  let pos := s.queue_rears task_id % QUEUE_SIZE
  let rear1 : Nat := (s.queue_rears task_id + 1) % COUNTER_MOD
  let s1 : State := { s with queue_rears := Function.update s.queue_rears task_id rear1 }
  let next_pos := (pos + 1) % QUEUE_SIZE
  let front := s1.queue_fronts task_id % QUEUE_SIZE
  if ¬ next_pos ≠ front then (s1, .error .QueueOverflow) else
  let slot : Event := { (s1.task_queues task_id pos) with id := event_id, arg := arg }
  let ring : Nat → Event := Function.update (s1.task_queues task_id) pos slot
  let s2 : State := { s1 with task_queues := Function.update s1.task_queues task_id ring }
  let s3 : State :=
    { s2 with signals := s2.signals ++ [(s2.event_task_assoc id, task.Signal.GlobalEvent)] }
  (s3, .ok ())

/-- The function `event::handle`: return the slot at the front of the task's
ring and advance the front, or the sentinel event when front and rear agree. -/
def handle (cfg : Config) (s : State) (task_id : Nat) : State × Except Error Event :=
  if ¬ task_id < cfg.numTasks then (s, .error .IDNotFound) else
  let ret0 : Event := { id := NullEvent, task := cfg.numTasks, arg := 0 }
  let id := task_id
  let front := s.queue_fronts id % QUEUE_SIZE
  let rear := s.queue_rears id % QUEUE_SIZE
  let r : State × Event :=
    if front ≠ rear then
      let front1 : Nat := (s.queue_fronts id + 1) % COUNTER_MOD
      ({ s with queue_fronts := Function.update s.queue_fronts id front1 },
        s.task_queues id front)
    else (s, ret0)
  if ¬ r.2.id < cfg.NumEvents then (r.1, .error .InvalidID) else
  if ¬ r.2.task ≤ cfg.numTasks then (r.1, .error .OperationFail) else
  (r.1, .ok r.2)

/-- Body of the outer loop of `event::init` for one task: both counters to
zero and the `task` field of each of the `QUEUE_SIZE` slots to the task. -/
def init_task (s : State) (t : Nat) : State :=
  { s with
    queue_fronts := Function.update s.queue_fronts t 0
    queue_rears := Function.update s.queue_rears t 0
    task_queues := Function.update s.task_queues t (fun i =>
      if i < QUEUE_SIZE then { (s.task_queues t i) with task := t } else s.task_queues t i) }

/-- One expansion of `DEF(task_name, event_name)` inside `event::init`: line
`k` of `events.def` stores its task at the id of its event. -/
def init_assoc (s : State) (kt : Nat × Nat) : State :=
  { s with event_task_assoc := Function.update s.event_task_assoc (kt.1 + 1) kt.2 }

/-- The function `event::init`. -/
def init (cfg : Config) (s : State) : State × Except Error Unit :=
  if ¬ cfg.lock_free then (s, .error .DeviceInitFailed) else
  let s1 := (List.range cfg.numTasks).foldl init_task s
  let s2 := cfg.events.enum.foldl init_assoc s1
  (s2, .ok ())

/-! ### Sequential use of the bus -/

/-- One call made by a client of the bus. -/
inductive Op where
  | post (event_id : Nat) (arg : Nat)
  | handle (task_id : Nat)
  deriving DecidableEq, Repr

/-- What the client observes of one call. -/
inductive Obs where
  | posted (r : Except Error Unit)
  | handled (r : Except Error Event)

/-- Run one call of the code. -/
def step (cfg : Config) (s : State) : Op → State × Obs
  | .post e a => ((post cfg s e a).1, .posted (post cfg s e a).2)
  | .handle t => ((handle cfg s t).1, .handled (handle cfg s t).2)

/-- Run a sequence of calls of the code, collecting the observations. -/
def run (cfg : Config) : State → List Op → State × List Obs
  | s, [] => (s, [])
  | s, op :: ops =>
    let r := step cfg s op
    let rest := run cfg r.1 ops
    (rest.1, r.2 :: rest.2)

/-- Owner task of an event id as the build-time list declares it; the
sentinel, which no line declares, keeps the zero of static storage. -/
def owner (cfg : Config) (e : Nat) : Nat :=
  if e = 0 then 0 else cfg.events.getD (e - 1) 0

/-- Specification-side queue: per task, the undelivered `(id, arg)` pairs,
oldest first. -/
abbrev Fifo := Nat → List (Nat × Nat)

/-- Specification of one call on the per-task FIFO. -/
def specStep (cfg : Config) (q : Fifo) : Op → Fifo × Obs
  | .post e a => (Function.update q (owner cfg e) (q (owner cfg e) ++ [(e, a)]), .posted (.ok ()))
  | .handle t =>
    match q t with
    | [] => (q, .handled (.ok { id := NullEvent, task := cfg.numTasks, arg := 0 }))
    | x :: rest => (Function.update q t rest, .handled (.ok { id := x.1, task := t, arg := x.2 }))

/-- Specification of a sequence of calls on the per-task FIFO. -/
def specRun (cfg : Config) : Fifo → List Op → Fifo × List Obs
  | q, [] => (q, [])
  | q, op :: ops =>
    let r := specStep cfg q op
    let rest := specRun cfg r.1 ops
    (rest.1, r.2 :: rest.2)

/-- The calls are well-formed and no ring ever holds more than
`QUEUE_SIZE - 1` undelivered events. -/
def Bounded (cfg : Config) : Fifo → List Op → Prop
  | _, [] => True
  | q, .post e a :: ops =>
    e < cfg.NumEvents ∧ (q (owner cfg e)).length + 1 ≤ QUEUE_SIZE - 1 ∧
      Bounded cfg (specStep cfg q (.post e a)).1 ops
  | q, .handle t :: ops =>
    t < cfg.numTasks ∧ Bounded cfg (specStep cfg q (.handle t)).1 ops

/-- The empty per-task FIFO. -/
def emptyFifo : Fifo := fun _ => []

/-- Post every `(id, arg)` pair of a list in order, collecting the results. -/
def postAll (cfg : Config) : State → List (Nat × Nat) → State × List (Except Error Unit)
  | s, [] => (s, [])
  | s, x :: xs =>
    let r := post cfg s x.1 x.2
    let rest := postAll cfg r.1 xs
    (rest.1, r.2 :: rest.2)

/-- Refinement relation between the file variables and the per-task FIFO:
the association table is the build-time one and, for every task, the ring
slots from the front hold the undelivered events in order. -/
def Inv (cfg : Config) (s : State) (q : Fifo) : Prop :=
  (∀ e, e < cfg.NumEvents → s.event_task_assoc e = owner cfg e) ∧
  ∀ t, t < cfg.numTasks →
    (q t).length ≤ QUEUE_SIZE - 1 ∧
    s.queue_rears t % QUEUE_SIZE = (s.queue_fronts t + (q t).length) % QUEUE_SIZE ∧
    (∀ i, i < QUEUE_SIZE → (s.task_queues t i).task = t) ∧
    (∀ k, k < (q t).length →
       (s.task_queues t ((s.queue_fronts t + k) % QUEUE_SIZE)).id = ((q t).getD k (0, 0)).1 ∧
       (s.task_queues t ((s.queue_fronts t + k) % QUEUE_SIZE)).arg = ((q t).getD k (0, 0)).2 ∧
       ((q t).getD k (0, 0)).1 < cfg.NumEvents)


/-- The predicate `Bounded` can be evaluated. -/
instance Bounded.decidable (cfg : Config) : (q : Fifo) → (ops : List Op) →
    Decidable (Bounded cfg q ops)
  | _, [] => isTrue trivial
  | q, .post e a :: ops =>
    have := Bounded.decidable cfg (specStep cfg q (.post e a)).1 ops
    inferInstanceAs (Decidable (_ ∧ _ ∧ _))
  | q, .handle t :: ops =>
    have := Bounded.decidable cfg (specStep cfg q (.handle t)).1 ops
    inferInstanceAs (Decidable (_ ∧ _))

/-- A small configuration: two tasks and three events owned by tasks 1, 0, 1. -/
def cfg0 : Config := { numTasks := 2, events := [1, 0, 1], lock_free := true }


end event

namespace control

/-! ## Command-line control (`control.hpp`, `control_CLI.cpp`)

Characters are natural numbers. A `char` array, or the memory a `char *`
points at, is a list of bytes; the C string stored there is its part before
the first zero byte (`cstr`). A read past the end of a list gives zero, so
the functions below describe the source as long as it stays inside its
arrays; where the source can leave an array (the pointer list of `get_args`)
the stores are recorded with their index instead.
-/

/-- The constant `control::CMD_STR_LEN`. -/
def CMD_STR_LEN : Nat := 128

/-- Number of slots of the static `arg_list` of `get_args`:
`(control::CMD_STR_LEN - 2) / 2`. -/
def arg_list_size : Nat := (CMD_STR_LEN - 2) / 2

/-- Bytes of a string literal of the source. -/
def str (s : String) : List Nat := s.toList.map Char.toNat

/-- The C string stored at a pointer: the bytes before the first zero. -/
def cstr (p : List Nat) : List Nat := p.takeWhile (fun c => c != 0)

/-- The library function `strlen`. -/
def strlen (p : List Nat) : Nat := (cstr p).length

/-- The test `strncmp(a, b, n) == 0`: the strings agree on their first `n`
characters, or are equal when one ends before. -/
def strncmp_eq (a b : List Nat) (n : Nat) : Bool :=
  (cstr a).take n == (cstr b).take n

/-- The library call `strncpy(&dst[off], src, n)`: exactly `n` bytes are
written, the characters of `src` followed by zero padding. -/
def strncpy (dst : List Nat) (off : Nat) (src : List Nat) (n : Nat) : List Nat :=
  dst.take off ++ ((cstr src).take n ++ List.replicate (n - strlen src) 0) ++ dst.drop (off + n)

/-- The library call `memset(dst, v, n)`. -/
def memset (dst : List Nat) (v : Nat) (n : Nat) : List Nat :=
  List.replicate n v ++ dst.drop n

/-- The enum `CLIState`. -/
inductive CLIState where
  | WritingPrompt
  | WaitingForInput
  | ExecutingCommand
  deriving DecidableEq, Repr

/-- The enum `control::HandleStatus`. -/
inductive HandleStatus where
  | Handled
  | NotHandled
  deriving DecidableEq, Repr

/-- The members of `event::ID` that `CLI::handle_event` tells apart. -/
inductive EventID where
  | control_UARTInput
  | control_UpdateCLIState
  | control_CLIOutput
  | other
  deriving DecidableEq, Repr

/-- An event as `CLI::handle_event` receives it. -/
structure Event where
  id : EventID
  arg : Nat
  deriving DecidableEq, Repr

/-- One invocation `cmd_func_list[command_pos](argc, argv)`; `argv` holds the
strings the first `argc` recorded pointers point at when the call is made. -/
structure Call where
  command_pos : Nat
  argc : Nat
  argv : List (List Nat)
  deriving DecidableEq, Repr

/-- The build-time command table of `commands.def`, as `command::get_name_list`
and `command::get_func_list` return it: the names, and for each position the
string its function returns for the given `argc` and `argv`. -/
structure Commands where
  names : List (List Nat)
  funcs : Nat → Nat → List (List Nat) → List Nat

/-- File variables of `control_CLI.cpp` and the record of what the control
did to its collaborators: strings written to the console with
`console->set<const char *>`, events passed to `event::post`, and command
functions invoked. -/
structure CLI where
  current_state : CLIState
  current_cmd : List Nat
  last_cmd : List Nat
  current_position : Nat
  console : List (List Nat)
  posted : List Event
  calls : List Call
  deriving DecidableEq, Repr

/-- The call `console->set<const char *>(s)`. -/
def console_set (s : CLI) (text : List Nat) : CLI :=
  { s with console := s.console ++ [cstr text] }

/-- The function `write_header`. -/
def write_header (s : CLI) : CLI :=
  console_set s (str "Starting Command Line Interface:")

/-- The function `write_newline`. -/
def write_newline (s : CLI) : CLI :=
  console_set s [13, 10]

/-- The function `write_prompt`. -/
def write_prompt (s : CLI) : CLI :=
  console_set (write_newline s) (str ">")

/-- The function `write_current_cmd`. -/
def write_current_cmd (s : CLI) : CLI :=
  let s1 := write_newline s
  let s2 := write_prompt s1
  console_set s2 s2.current_cmd

/-- The function `advance_state`. -/
def advance_state (s : CLI) (next_state : CLIState) (advance : Bool) : CLI :=
  let s1 := { s with current_state := next_state }
  if advance then
    { s1 with posted := s1.posted ++ [{ id := .control_UpdateCLIState, arg := 0 }] }
  else s1

/-- The loop of `attempt_completion` over the rest of the name list;
`remaining_chars` is `none` for the null pointer. -/
def completion_scan (current_cmd : List Nat) (cmd_len : Nat) :
    List (List Nat) → Option (List Nat) → Option (List Nat)
  | [], remaining_chars => remaining_chars
  | name :: rest, remaining_chars =>
    let previous_match := remaining_chars.isSome
    let is_match := strncmp_eq current_cmd name cmd_len
    if is_match && !previous_match then
      completion_scan current_cmd cmd_len rest (some (name.drop (strlen current_cmd)))
    else if is_match && previous_match then
      none
    else
      completion_scan current_cmd cmd_len rest remaining_chars

/-- The function `attempt_completion`. -/
def attempt_completion (cmds : Commands) (s : CLI) : CLI × Except Error Bool :=
  let size := cmds.names.length
  if ¬ 0 < size then (s, .error .TooSmall) else
  let cmd_len := strlen s.current_cmd
  match completion_scan s.current_cmd cmd_len cmds.names none with
  | none => (s, .ok false)
  | some remaining_chars =>
    let remaining_len := strlen remaining_chars
    if ¬ cmd_len + remaining_len ≤ CMD_STR_LEN then (s, .error .InvalidLength) else
    let cmd1 := strncpy s.current_cmd s.current_position remaining_chars (remaining_len + 1)
    let cmd2 := cmd1.set CMD_STR_LEN 0
    ({ s with current_cmd := cmd2, current_position := s.current_position + remaining_len },
      .ok true)

/-- The loop of `list_matches` over the rest of the name list. -/
def list_matches_loop (cmd_len : Nat) : CLI → List (List Nat) → CLI
  | s, [] => s
  | s, name :: rest =>
    if cmd_len = 0 then s
    else if strncmp_eq s.current_cmd name cmd_len then
      list_matches_loop cmd_len (console_set (console_set s name) (str " ")) rest
    else
      list_matches_loop cmd_len s rest

/-- The function `list_matches`. -/
def list_matches (cmds : Commands) (s : CLI) : CLI × Except Error Unit :=
  let size := cmds.names.length
  if ¬ 0 < size then (s, .error .TooSmall) else
  let s1 := write_newline s
  let cmd_len := strlen s1.current_cmd
  let s2 := list_matches_loop cmd_len s1 cmds.names
  let s3 := write_newline s2
  let s4 := write_prompt s3
  (console_set s4 s4.current_cmd, .ok ())

/-- The function `handle_null_backspace` (`ECHO_INPUT` is `true`). -/
def handle_null_backspace (s : CLI) : CLI :=
  write_prompt s

/-- The function `process_character`. -/
def process_character (cmds : Commands) (s : CLI) (cmd_char : Nat) : CLI × Except Error Bool :=
  let s0 : CLI :=
    { s with current_position :=
        if s.current_position > CMD_STR_LEN then CMD_STR_LEN else s.current_position }
  let s1 : CLI := { s0 with current_cmd := s0.current_cmd.set s0.current_position 0 }
  let newline := cmd_char == 13 || cmd_char == 10
  let tab := cmd_char == 9
  let backspace := cmd_char == 8 || cmd_char == 127
  if newline then
    ({ s1 with current_position := 0 }, .ok true)
  else if tab then
    match attempt_completion cmds s1 with
    | (s2, .error e) => (s2, .error e)
    | (s2, .ok true) => (write_current_cmd s2, .ok false)
    | (s2, .ok false) =>
      match list_matches cmds s2 with
      | (s3, .error e) => (s3, .error e)
      | (s3, .ok _) => (s3, .ok false)
  else if backspace && s1.current_position == 0 then
    (handle_null_backspace s1, .ok false)
  else if backspace then
    ({ s1 with
        current_cmd := s1.current_cmd.set s1.current_position 0
        current_position := s1.current_position - 1 }, .ok false)
  else
    ({ s1 with
        current_cmd := s1.current_cmd.set s1.current_position cmd_char
        current_position := s1.current_position + 1 }, .ok false)

/-- The function `is_up_arrow`. -/
def is_up_arrow (s : CLI) (curr_char : Nat) : Except Error Bool :=
  if ¬ s.current_position ≥ 2 then .error .InvalidPos else
  let esc := s.current_cmd.getD (s.current_position - 2) 0 == 27
  let lbrack := s.current_cmd.getD (s.current_position - 1) 0 == 91
  let a := curr_char == 65
  .ok (esc && lbrack && a)

/-- The function `is_down_arrow`. -/
def is_down_arrow (s : CLI) (curr_char : Nat) : Except Error Bool :=
  if ¬ s.current_position ≥ 2 then .error .InvalidPos else
  let esc := s.current_cmd.getD (s.current_position - 2) 0 == 27
  let lbrack := s.current_cmd.getD (s.current_position - 1) 0 == 91
  let b := curr_char == 66
  .ok (esc && lbrack && b)

/-- The function `save_last_cmd`. -/
def save_last_cmd (s : CLI) : CLI :=
  let last1 := strncpy s.last_cmd 0 s.current_cmd (CMD_STR_LEN + 1)
  { s with last_cmd := last1.set CMD_STR_LEN 0 }

/-- The function `load_last_cmd`. -/
def load_last_cmd (s : CLI) : CLI :=
  let s1 := if s.current_position ≠ 0 then write_prompt s else s
  let s2 := console_set s1 s1.last_cmd
  let cmd1 := strncpy s2.current_cmd 0 s2.last_cmd (CMD_STR_LEN + 1)
  { s2 with current_cmd := cmd1.set CMD_STR_LEN 0, current_position := strlen s2.last_cmd }

/-- The function `reset_cmd`. -/
def reset_cmd (s : CLI) : CLI :=
  write_newline { s with current_cmd := memset s.current_cmd 0 CMD_STR_LEN, current_position := 0 }

/-- The function `echo` (`ECHO_INPUT` is `true`, `ECHO_EXCEPTIONS` holds the
tab character only). -/
def echo (s : CLI) (rcvd_char : Nat) : CLI :=
  let in_exception_list := [9].contains rcvd_char
  if !in_exception_list then console_set s [rcvd_char, 0] else s

/-- The function `arrow_response`. -/
def arrow_response (s : CLI) : CLI :=
  console_set s (str "B")

/-- The loop of `process_input` over the characters still to process, with
its `break` on `exec_cmd`. -/
def process_input_loop (cmds : Commands) : CLI → List Nat → CLI × Except Error Bool
  | s, [] => (s, .ok false)
  | s, c :: rest =>
    let up := if s.current_position < 2 then .ok false else is_up_arrow s c
    let down := if s.current_position < 2 then .ok false else is_down_arrow s c
    match up, down with
    | .error e, _ => (s, .error e)
    | .ok _, .error e => (s, .error e)
    | .ok true, .ok _ => process_input_loop cmds (load_last_cmd (arrow_response s)) rest
    | .ok false, .ok true => (reset_cmd (arrow_response s), .ok true)
    | .ok false, .ok false =>
      match process_character cmds (echo s c) c with
      | (s1, .error e) => (s1, .error e)
      | (s1, .ok true) => (s1, .ok true)
      | (s1, .ok false) => process_input_loop cmds s1 rest

/-- The function `process_input`; `none` is the null pointer. -/
def process_input (cmds : Commands) (s : CLI) (cmd : Option (List Nat)) :
    CLI × Except Error Bool :=
  match cmd with
  | none => (s, .error .InvalidPointer)
  | some p =>
    let cmd_len := if strlen p > CMD_STR_LEN then CMD_STR_LEN else strlen p
    process_input_loop cmds s ((cstr p).take cmd_len)

/-- What `get_args` leaves behind: the line buffer with separators replaced,
the count written to `*size`, and the pointers stored, as offsets into the
line buffer; the pointer at place `j` of `stores` is the one the source
writes to `arg_list[j]`. -/
structure Args where
  current_cmd : List Nat
  size : Nat
  stores : List Nat
  deriving DecidableEq, Repr

/-- Body of the loop of `get_args` for index `i`. -/
def get_args_step (a : Args) (i : Nat) : Args :=
  if a.current_cmd.getD i 0 = 32 then
    { current_cmd := a.current_cmd.set i 0
      size := a.size + 1
      stores := a.stores ++ [i + 1] }
  else a

/-- Subtraction in `uint32_t` of operands below `2 ^ 32`: the difference
modulo `2 ^ 32`. -/
def uint32_sub (a b : Nat) : Nat :=
  if b ≤ a then a - b else a + 4294967296 - b

/-- The function `get_args`; `strlen(current_cmd) - 1` is computed in
`uint32_t`. -/
def get_args (current_cmd : List Nat) : Args :=
  let current_cmd_len := uint32_sub (strlen current_cmd) 1
  (List.range current_cmd_len).foldl get_args_step
    { current_cmd := current_cmd, size := 0, stores := [] }

/-- The strings `argv[0]`, ..., `argv[argc - 1]` a command function reads. -/
def Args.argv (a : Args) : List (List Nat) :=
  a.stores.map (fun off => cstr (a.current_cmd.drop off))

/-- The search loop of `execute_command` from position `command_pos` on;
`none` when the loop ends with `command_to_exec == nullptr`. -/
def find_command (current_cmd : List Nat) : List (List Nat) → Nat → Option Nat
  | [], _ => none
  | name :: rest, command_pos =>
    let cmd_len := strlen name
    let cmd_match := strncmp_eq current_cmd name cmd_len
    let valid_len := decide (strlen current_cmd ≥ cmd_len)
    let valid_arg_list :=
      if valid_len then
        current_cmd.getD cmd_len 0 == 32 || current_cmd.getD cmd_len 0 == 0
      else false
    if cmd_match && valid_len && valid_arg_list then some command_pos
    else find_command current_cmd rest (command_pos + 1)

/-- The function `execute_command`. -/
def execute_command (cmds : Commands) (s : CLI) : CLI × Except Error Unit :=
  let size := cmds.names.length
  if ¬ 0 < size then (s, .error .InvalidLength) else
  match find_command s.current_cmd cmds.names 0 with
  | none =>
    if strlen s.current_cmd = 0 then (s, .ok ()) else
    let s1 := save_last_cmd s
    let s2 := write_newline s1
    let s3 := console_set s2 (str "Invalid Command")
    let s4 := write_newline s3
    let s5 := console_set s4
      (str "Please type " ++ [39] ++ str "help" ++ [39] ++ str " for a list of commands")
    (write_newline s5, .ok ())
  | some command_pos =>
    let s1 := save_last_cmd s
    let s2 := write_newline s1
    let args := get_args s2.current_cmd
    let argc := args.size
    let out := cmds.funcs command_pos argc args.argv
    let s3 : CLI :=
      { s2 with
        current_cmd := args.current_cmd
        calls := s2.calls ++ [{ command_pos := command_pos, argc := argc, argv := args.argv }] }
    (console_set s3 out, .ok ())

/-- The function `handle_state`. -/
def handle_state (cmds : Commands) (s : CLI) (rcvd_str : Option (List Nat)) :
    CLI × Except Error Unit :=
  match s.current_state with
  | .WaitingForInput =>
    match process_input cmds s rcvd_str with
    | (s1, .error e) => (s1, .error e)
    | (s1, .ok exec_cmd) =>
      let next_state := if exec_cmd then CLIState.ExecutingCommand else CLIState.WaitingForInput
      (advance_state s1 next_state exec_cmd, .ok ())
  | .ExecutingCommand =>
    match execute_command cmds s with
    | (s1, .error e) => (s1, .error e)
    | (s1, .ok _) => (advance_state s1 .WritingPrompt true, .ok ())
  | .WritingPrompt =>
    (advance_state (write_prompt s) .WaitingForInput false, .ok ())

/-- The function `CLI::handle_event`. `console_in` is the string the call
`console->get<const char *>()` returns when the event is handled, and
`mem` reads the string an event argument points at. -/
def handle_event (cmds : Commands) (mem : Nat → List Nat) (s : CLI) (evt : Event)
    (console_in : List Nat) : CLI × Except Error HandleStatus :=
  match evt.id with
  | .control_UARTInput =>
    if s.current_state = .WaitingForInput then
      match handle_state cmds s (some console_in) with
      | (s1, .error e) => (s1, .error e)
      | (s1, .ok _) => (s1, .ok .NotHandled)
    else
      ({ s with posted := s.posted ++ [{ id := evt.id, arg := evt.arg }] }, .ok .NotHandled)
  | .control_UpdateCLIState =>
    match handle_state cmds s none with
    | (s1, .error e) => (s1, .error e)
    | (s1, .ok _) => (s1, .ok .Handled)
  | .control_CLIOutput => (console_set s (mem evt.arg), .ok .NotHandled)
  | .other => (s, .ok .NotHandled)

/-- The function `CLI::init_control`, once the console has been found. -/
def init_control (cmds : Commands) (s : CLI) : CLI × Except Error Unit :=
  let s1 := write_newline s
  let s2 := write_header s1
  handle_state cmds { s2 with current_state := .WritingPrompt } none

/-- Static storage of `control_CLI.cpp` before any code runs. -/
def boot : CLI :=
  { current_state := .WritingPrompt
    current_cmd := List.replicate (CMD_STR_LEN + 1) 0
    last_cmd := List.replicate (CMD_STR_LEN + 1) 0
    current_position := 0
    console := []
    posted := []
    calls := [] }

/-- The line buffer holds the given line with the cursor at its end. -/
def holding (s : CLI) (line : List Nat) : CLI :=
  { s with
    current_cmd := line ++ List.replicate (CMD_STR_LEN + 1 - line.length) 0
    current_position := line.length }

/-- The state after `process_input` has echoed a character and
`process_character` has stored it at the cursor. -/
def typed (s : CLI) (c : Nat) : CLI :=
  { s with
    console := s.console ++ [[c]]
    current_cmd := (s.current_cmd.set s.current_position 0).set s.current_position c
    current_position := s.current_position + 1 }

/-- The editor waits for input and holds the given line. -/
def waiting (line : List Nat) : CLI :=
  { holding boot line with current_state := .WaitingForInput }

/-- The command table of the unit tests: `help`, `tab-one`, `tab-two`, each
function returning the empty string. -/
def testCommands : Commands :=
  { names := [str "help", str "tab-one", str "tab-two"]
    funcs := fun _ _ _ => [] }

/-! ### Specification-side notions for the line editor -/

/-- A command name resolves a line buffer, in the words of the specification:
the name is a beginning of the string in the buffer, and the buffer byte
right after the name is a space or the terminator. -/
def Resolves (current_cmd name : List Nat) : Prop :=
  (cstr current_cmd).take (strlen name) = cstr name ∧
    (current_cmd.getD (strlen name) 0 = 32 ∨ current_cmd.getD (strlen name) 0 = 0)

/-- The predicate `Resolves` can be evaluated. -/
instance Resolves.decidable (current_cmd name : List Nat) :
    Decidable (Resolves current_cmd name) :=
  inferInstanceAs (Decidable (_ ∧ _))

/-- The line the editor holds: the bytes before the cursor, the cursor being
read as `process_character` clamps it. -/
def CLI.line (s : CLI) : List Nat :=
  s.current_cmd.take (min s.current_position CMD_STR_LEN)

/-- The buffers have the size of the arrays of the source and the line holds
no zero byte (console reads are C strings). -/
def CLI.WF (s : CLI) : Prop :=
  s.current_cmd.length = CMD_STR_LEN + 1 ∧ s.last_cmd.length = CMD_STR_LEN + 1 ∧
    ∀ c ∈ s.line, c ≠ 0

/-- The predicate `CLI.WF` can be evaluated. -/
instance CLI.WF.decidable (s : CLI) : Decidable s.WF :=
  inferInstanceAs (Decidable (_ ∧ _ ∧ _))

/-- The command names that begin with the given line, in table order. -/
def completions (names : List (List Nat)) (line : List Nat) : List (List Nat) :=
  names.filter (fun name => (cstr name).take line.length == line)

/-- Deliver events to `CLI::handle_event` in order, each with the string a
console read returns while it is handled; the results are collected. -/
def deliver (cmds : Commands) (mem : Nat → List Nat) :
    CLI → List (Event × List Nat) → CLI × List (Except Error HandleStatus)
  | s, [] => (s, [])
  | s, x :: xs =>
    let r := handle_event cmds mem s x.1 x.2
    let rest := deliver cmds mem r.1 xs
    (rest.1, r.2 :: rest.2)

/-- A `control_UARTInput` event handled while the console read returns `text`. -/
def uart_input (text : List Nat) : Event × List Nat :=
  ({ id := .control_UARTInput, arg := 0 }, text)

/-- A `control_UpdateCLIState` event. -/
def update_state : Event × List Nat :=
  ({ id := .control_UpdateCLIState, arg := 0 }, [])

/-- A newline read while the editor waits, then the two
`control_UpdateCLIState` events the control posts to itself: the one that
executes the line and the one that writes the next prompt. -/
def dispatch_line (cmds : Commands) (mem : Nat → List Nat) (s : CLI) (nl : Nat) : CLI :=
  (deliver cmds mem s [uart_input [nl], update_state, update_state]).1

/-- A console read that holds the up-arrow sequence ESC `[` `A`. -/
def up_arrow (cmds : Commands) (mem : Nat → List Nat) (s : CLI) : CLI :=
  (deliver cmds mem s [uart_input [27, 91, 65]]).1

end control

/-! ## Event dispatch to the controls (`control.cpp`) -/

namespace control

/-- One element of the array `controls` as `disperse_event` sees it: the
member `enabled`, and the status its `handle_event` returns for an event. -/
structure Control where
  enabled : Bool
  handle_event : event.Event → HandleStatus

/-- The `for` loop of `disperse_event` from index `i` on, over the elements of
`controls` not yet visited; the result lists, in call order, the indices whose
`handle_event` was called. -/
def disperse_loop (evt : event.Event) : List Control → Nat → List Nat
  | [], _ => []
  | c :: rest, i =>
    if !c.enabled then disperse_loop evt rest (i + 1)
    else
      let status := c.handle_event evt
      if status != HandleStatus.NotHandled then [i]
      else i :: disperse_loop evt rest (i + 1)

/-- The function `control::disperse_event`; `controls` has `ID::NumIDs`
elements. The result lists the controls that received the event. -/
def disperse_event (cfg : event.Config) (controls : List Control) (evt : event.Event) :
    Except Error (List Nat) :=
  if !(evt.id < cfg.NumEvents) then .error Error.InvalidID
  else .ok (disperse_loop evt controls 0)

/-- Control `i` is enabled and every enabled control before it answers
`NotHandled` to the event. -/
def Reaches (controls : List Control) (evt : event.Event) (i : Nat) : Prop :=
  ∃ c, controls[i]? = some c ∧ c.enabled = true ∧
    ∀ j cj, j < i → controls[j]? = some cj → cj.enabled = true →
      cj.handle_event evt = HandleStatus.NotHandled

end control

/-! ## The settings engine (`settings.cpp`, `settings.hpp`)

The table `settings.def` and the tag values of `errors.def` are build-time
inputs: the table is the list `settings_list` of the state, the tag values are
the fields of `Codes`. Integers have the widths of the 32-bit target:
`long`, `unsigned long` and `uintptr_t` are 32 bits wide. -/

namespace settings

/-- The constant `MAX_STR_LEN`. -/
def MAX_STR_LEN : Nat := 64

/-- The enum `settings::Type`. -/
inductive SettingType where
  | INT
  | UINT
  | HEX
  | STR
  | FLOAT
  | NumTypes
  deriving DecidableEq, Repr

/-- The enum `settings::Permission`. -/
inductive Permission where
  | SET
  | GET
  | SET_GET
  | NumPermissions
  deriving DecidableEq, Repr

/-- The record `settings::Setting`. The callbacks `get_param` and `set_param`
of an entry are those of its module, `module` names it; `str_ptr` is the
address of the entry's static buffer (`0` for `nullptr`) and `str_buf` what
that buffer holds. -/
structure Setting where
  id : Nat
  type : SettingType
  module : Nat
  permission : Permission
  str_ptr : Nat
  str_buf : List Nat
  float_val : Nat
  deriving DecidableEq, Repr

/-- The values of the tags of `error::Error` compared or returned as
`int32_t` by the engine (`errors.def`). -/
structure Codes where
  NoError : Int
  IDNotFound : Int
  WriteFailed : Int
  ReadFailed : Int

/-- What the engine calls and does not define: the callbacks
`MODULE::set_param(id, value, bootup)` and `MODULE::get_param(id, value)` of
the modules over their state `σ` (`get_param` gives the word it stores through
the pointer `value`, if it stores one), the string a module keeps at an
address, the address of `settings_list[pos].float_val`, and the library's
`strtof` and `%f` conversions on the bits of a `float`. -/
structure Env (σ : Type) where
  set_param : Nat → σ → Nat → Nat → Bool → σ × Int
  get_param : Nat → σ → Nat → σ × Option Nat × Int
  string_at : σ → Nat → List Nat
  float_addr : Nat → Nat
  strtof : List Nat → Nat
  format_f : Nat → List Nat

/-- One call `set_param(id, value, bootup)` of the module `module`. -/
structure SetCall where
  module : Nat
  id : Nat
  value : Nat
  bootup : Bool
  deriving DecidableEq, Repr

/-- One call `get_param(id, &val)` of the module `module`. -/
structure GetCall where
  module : Nat
  id : Nat
  deriving DecidableEq, Repr

/-- The file variable `settings_list`, the state of the modules, and the record
of the calls made to the callbacks and to `save_setting` of the backend, in
call order. -/
structure State (σ : Type) where
  settings_list : List Setting
  modules : σ
  set_calls : List SetCall
  get_calls : List GetCall
  saved : List (Nat × List Nat)

/-- The enum member `ID::NumSettings`: `settings_list` has one entry for every
line of `settings.def`. -/
def NumSettings {σ : Type} (s : State σ) : Nat := s.settings_list.length

/-! ### Library conversions (`strtol`, `strtoul`, `snprintf`) -/

/-- The library test `isspace` in the C locale. -/
def isspace (c : Nat) : Bool := c == 32 || (9 ≤ c && c ≤ 13)

/-- The value of a character as a digit, as `strtol` reads it. -/
def digit_value (c : Nat) : Option Nat :=
  if 48 ≤ c ∧ c ≤ 57 then some (c - 48)
  else if 97 ≤ c ∧ c ≤ 122 then some (c - 87)
  else if 65 ≤ c ∧ c ≤ 90 then some (c - 55)
  else none

/-- The digits of the subject sequence, accumulated from the left until the
first character that is no digit of the base. -/
def digits_value (base : Nat) : List Nat → Nat → Nat
  | [], acc => acc
  | c :: cs, acc =>
    match digit_value c with
    | some d => if d < base then digits_value base cs (acc * base + d) else acc
    | none => acc

/-- Leading white space is skipped. -/
def skip_space : List Nat → List Nat
  | [] => []
  | c :: cs => if isspace c then skip_space cs else c :: cs

/-- An optional sign; `true` for `-`. -/
def split_sign : List Nat → Bool × List Nat
  | [] => (false, [])
  | c :: cs => if c = 45 then (true, cs) else if c = 43 then (false, cs) else (false, c :: cs)

/-- With base 16 an optional `0x` or `0X` is skipped. -/
def skip_0x (base : Nat) : List Nat → List Nat
  | c :: x :: cs => if base = 16 ∧ c = 48 ∧ (x = 120 ∨ x = 88) then cs else c :: x :: cs
  | cs => cs

/-- Sign and magnitude of the subject sequence of `strtol` and `strtoul`. -/
def magnitude (s : List Nat) (base : Nat) : Bool × Nat :=
  let r := split_sign (skip_space s)
  (r.1, digits_value base (skip_0x base r.2) 0)

/-- The library call `strtol(s, NULL, base)` with a 32-bit `long`. -/
def strtol (s : List Nat) (base : Nat) : Int :=
  let r := magnitude s base
  if r.1 then (if 2147483648 < r.2 then -2147483648 else -(r.2 : Int))
  else (if 2147483647 < r.2 then 2147483647 else (r.2 : Int))

/-- The library call `strtoul(s, NULL, base)` with a 32-bit `unsigned long`. -/
def strtoul (s : List Nat) (base : Nat) : Nat :=
  let r := magnitude s base
  if 4294967295 < r.2 then 4294967295
  else if r.1 then (if r.2 = 0 then 0 else 4294967296 - r.2)
  else r.2

/-- The cast `(uintptr_t)` of a `long`. -/
def to_uintptr (v : Int) : Nat := if v < 0 then (v + 4294967296).toNat else v.toNat

/-- The cast `(int32_t)` of a 32-bit word. -/
def to_int32 (w : Nat) : Int := if w < 2147483648 then (w : Int) else (w : Int) - 4294967296

/-- Decimal digits of `n`, most significant first, at most `fuel` of them. -/
def dec_digits : Nat → Nat → List Nat
  | 0, _ => []
  | fuel + 1, n => if n < 10 then [48 + n] else dec_digits fuel (n / 10) ++ [48 + n % 10]

/-- The upper-case digit character of a value below 16. -/
def hex_char (d : Nat) : Nat := if d < 10 then 48 + d else 55 + d

/-- Hexadecimal digits of `n`, most significant first, at most `fuel` of them. -/
def hex_digits : Nat → Nat → List Nat
  | 0, _ => []
  | fuel + 1, n => if n < 16 then [hex_char n] else hex_digits fuel (n / 16) ++ [hex_char (n % 16)]

/-- The conversion `%` `PRIi32` of `snprintf`. -/
def format_i32 (v : Int) : List Nat :=
  if v < 0 then 45 :: dec_digits 10 (-v).toNat else dec_digits 10 v.toNat

/-- The conversion `%` `PRIu32` of `snprintf`. -/
def format_u32 (w : Nat) : List Nat := dec_digits 10 w

/-- The conversion `%` `PRIX32` of `snprintf`. -/
def format_X32 (w : Nat) : List Nat := hex_digits 8 w

/-- The library call `snprintf(dst, n, ...)` whose formatted output is `text`:
at most `n - 1` characters are stored, then a terminator. -/
def snprintf (dst : List Nat) (n : Nat) (text : List Nat) : List Nat :=
  let out := text.take (n - 1) ++ [0]
  out ++ dst.drop out.length

end settings

namespace settings

/-! ### The engine -/

/-- The loop of `get_setting_from_id` from index `i` on. -/
def get_setting_loop (id : Nat) : List Setting → Nat → Option (Nat × Setting)
  | [], _ => none
  | e :: rest, i => if e.id = id then some (i, e) else get_setting_loop id rest (i + 1)

/-- The function `get_setting_from_id`: position and entry of the first
element of `settings_list` with the id, `none` for `nullptr`. -/
def get_setting_from_id {σ : Type} (s : State σ) (id : Nat) : Option (Nat × Setting) :=
  get_setting_loop id s.settings_list 0

/-- The function `set_val`. -/
def set_val {σ : Type} (env : Env σ) (c : Codes) (s : State σ) (id : Nat) (value : Nat) :
    State σ × Except Error Int :=
  if !(id < NumSettings s) then (s, .error Error.IDNotFound)
  else
    match get_setting_from_id s id with
    | none => (s, .ok c.IDNotFound)
    | some (_, setting) =>
      let r := env.set_param setting.module s.modules id value false
      let calls := s.set_calls ++ [⟨setting.module, id, value, false⟩]
      ({ s with modules := r.1, set_calls := calls }, .ok r.2)

/-- The function `get_val`; next to the return value, the word the callback
stored through the pointer. -/
def get_val {σ : Type} (env : Env σ) (c : Codes) (s : State σ) (id : Nat) :
    State σ × Except Error (Option Nat × Int) :=
  if !(id < NumSettings s) then (s, .error Error.IDNotFound)
  else
    match get_setting_from_id s id with
    | none => (s, .ok (none, c.IDNotFound))
    | some (_, setting) =>
      let r := env.get_param setting.module s.modules id
      let calls := s.get_calls ++ [⟨setting.module, id⟩]
      ({ s with modules := r.1, get_calls := calls }, .ok (r.2.1, c.NoError))

/-- The call `save_setting(id, value)` of the backend, recorded. -/
def save_setting {σ : Type} (s : State σ) (id : Nat) (value : List Nat) : State σ :=
  { s with saved := s.saved ++ [(id, value)] }

/-- The `switch` of `settings::set`. -/
def set_switch {σ : Type} (env : Env σ) (c : Codes) (s : State σ) (id : Nat)
    (value : List Nat) (pos : Nat) (setting : Setting) : State σ × Except Error Int :=
  match setting.type with
  | SettingType.INT => set_val env c s id (to_uintptr (strtol value 10))
  | SettingType.UINT => set_val env c s id (strtoul value 10)
  | SettingType.HEX => set_val env c s id (strtoul value 16)
  | SettingType.STR =>
    if setting.str_ptr = 0 then (s, .error Error.InitFailed)
    else
      let buf := control.strncpy setting.str_buf 0 value MAX_STR_LEN
      let list := s.settings_list.set pos { setting with str_buf := buf }
      set_val env c { s with settings_list := list } id setting.str_ptr
  | SettingType.FLOAT =>
    let list := s.settings_list.set pos { setting with float_val := env.strtof value }
    set_val env c { s with settings_list := list } id (env.float_addr pos)
  | SettingType.NumTypes => (s, .error Error.UnknownType)

/-- The function `settings::set`; `value` is `none` for `nullptr`. -/
def set {σ : Type} (env : Env σ) (c : Codes) (s : State σ) (id : Nat)
    (value : Option (List Nat)) (save : Bool) : State σ × Except Error Int :=
  if !(id < NumSettings s) then (s, .error Error.IDNotFound)
  else
    match value with
    | none => (s, .error Error.InvalidPointer)
    | some value =>
      match get_setting_from_id s id with
      | none => (s, .error Error.InvalidIndex)
      | some (pos, setting) =>
        if setting.permission = Permission.GET then (s, .ok c.WriteFailed)
        else
          match set_switch env c s id value pos setting with
          | (s1, .error e) => (s1, .error e)
          | (s1, .ok ret_val) =>
            if save && ret_val == c.NoError then (save_setting s1 id value, .ok ret_val)
            else (s1, .ok ret_val)

/-- The `switch` of `settings::get`, on the caller's buffer after `memset`. -/
def get_switch {σ : Type} (env : Env σ) (c : Codes) (s : State σ) (id : Nat)
    (value : List Nat) (setting : Setting) : State σ × List Nat × Except Error Unit :=
  match setting.type with
  | SettingType.NumTypes => (s, value, .error Error.UnknownType)
  | t =>
    match get_val env c s id with
    | (s1, .error e) => (s1, value, .error e)
    | (s1, .ok r) =>
      let val := r.1.getD 0
      match t with
      | SettingType.INT => (s1, snprintf value MAX_STR_LEN (format_i32 (to_int32 val)), .ok ())
      | SettingType.UINT => (s1, snprintf value MAX_STR_LEN (format_u32 val), .ok ())
      | SettingType.HEX =>
        (s1, snprintf value MAX_STR_LEN ([48, 120] ++ format_X32 val), .ok ())
      | SettingType.STR =>
        (s1, snprintf value MAX_STR_LEN (control.cstr (env.string_at s1.modules val)), .ok ())
      | _ => (s1, snprintf value MAX_STR_LEN (env.format_f val), .ok ())

/-- The function `settings::get`; `value` is the caller's buffer (`none` for
`nullptr`), returned as the call leaves it. -/
def get {σ : Type} (env : Env σ) (c : Codes) (s : State σ) (id : Nat)
    (value : Option (List Nat)) : State σ × Option (List Nat) × Except Error Int :=
  if !(id < NumSettings s) then (s, value, .error Error.IDNotFound)
  else
    match value with
    | none => (s, none, .error Error.InvalidPointer)
    | some value =>
      match get_setting_from_id s id with
      | none => (s, some value, .error Error.InvalidIndex)
      | some (_, setting) =>
        if setting.permission = Permission.SET then (s, some value, .ok c.ReadFailed)
        else
          match get_switch env c s id (control.memset value 0 MAX_STR_LEN) setting with
          | (s1, buf, .error e) => (s1, some buf, .error e)
          | (s1, buf, .ok _) => (s1, some buf, .ok c.NoError)

end settings

/-! ## The settings commands (`command.cpp`) -/

namespace command

/-- The constant `INVALID_ARGS`. -/
def INVALID_ARGS : List Nat := control.str "Invalid Number of Arguments\r\n"

/-- The constant `NEWLINE`. -/
def NEWLINE : List Nat := [13, 10]

/-- The command function `setting_set`. -/
def setting_set {σ : Type} (env : settings.Env σ) (c : settings.Codes) (s : settings.State σ)
    (argc : Nat) (argv : List (List Nat)) : settings.State σ × Except Error (List Nat) :=
  if argc ≥ 2 then
    let setting_id := settings.strtoul (argv.getD 0 []) 10
    match settings.set env c s setting_id (some (argv.getD 1 [])) true with
    | (s1, .error e) => (s1, .error e)
    | (s1, .ok _) => (s1, .ok NEWLINE)
  else (s, .ok INVALID_ARGS)

/-- The command function `setting_get`. The static array `setting_val` of
`MAX_STR_LEN + 3` bytes is passed in and returned next to the state; the
result is the array the returned pointer points at. -/
def setting_get {σ : Type} (env : settings.Env σ) (c : settings.Codes) (s : settings.State σ)
    (setting_val : List Nat) (argc : Nat) (argv : List (List Nat)) :
    settings.State σ × List Nat × Except Error (List Nat) :=
  if argc ≥ 1 then
    let setting_id := settings.strtoul (argv.getD 0 []) 10
    match settings.get env c s setting_id (some setting_val) with
    | (s1, buf, .error e) => (s1, buf.getD setting_val, .error e)
    | (s1, buf, .ok _) =>
      let b0 := buf.getD setting_val
      let b1 := b0.set (control.strlen b0) 13
      let b2 := b1.set (control.strlen b1 + 1) 10
      let b3 := b2.set (control.strlen b2 + 2) 0
      (s1, b3, .ok b3)
  else (s, setting_val, .ok INVALID_ARGS)

end command

namespace settings

/-- The word `settings::set` hands to the set callback for a text, by the type
of the setting (the types whose value is a number). -/
def parsed_value (t : SettingType) (text : List Nat) : Nat :=
  match t with
  | SettingType.INT => to_uintptr (strtol text 10)
  | SettingType.UINT => strtoul text 10
  | SettingType.HEX => strtoul text 16
  | _ => 0

/-- A module that keeps the last word set for each id and answers `NoError`
(`0`) to every call. -/
def testEnv : Env (Nat → Nat) where
  set_param := fun _ m id v _ => (fun i => if i = id then v else m i, 0)
  get_param := fun _ m id => (m, some (m id), 0)
  string_at := fun _ _ => []
  float_addr := fun _ => 0
  strtof := fun _ => 0
  format_f := fun _ => []

/-- Tag values for the examples. -/
def testCodes : Codes := ⟨0, -1, -2, -3⟩

/-- A table with an INT, a UINT and a HEX setting that can be written and
read, a GET-only INT setting and a SET-only INT setting. -/
def testTable : List Setting :=
  [⟨0, SettingType.INT, 0, Permission.SET_GET, 0, [], 0⟩,
   ⟨1, SettingType.UINT, 0, Permission.SET_GET, 0, [], 0⟩,
   ⟨2, SettingType.HEX, 0, Permission.SET_GET, 0, [], 0⟩,
   ⟨3, SettingType.INT, 0, Permission.GET, 0, [], 0⟩,
   ⟨4, SettingType.INT, 0, Permission.SET, 0, [], 0⟩]

/-- The state after start-up with `testTable`, every value `0`. -/
def testState : State (Nat → Nat) := ⟨testTable, fun _ => 0, [], [], []⟩

end settings

namespace settings

/-- A decimal numeral without sign: digits only, at least one, and no leading
zero except in the numeral `0`. -/
def IsDecimal (ds : List Nat) : Prop :=
  ds ≠ [] ∧ (∀ c ∈ ds, 48 ≤ c ∧ c ≤ 57) ∧ (ds.head? = some 48 → ds = [48])

/-- The number a decimal numeral denotes. -/
def decimal_value (ds : List Nat) : Nat := ds.foldl (fun a c => a * 10 + (c - 48)) 0

/-- The canonical decimal text of the integer `n`: its numeral, after a minus
sign if `n` is negative. -/
def CanonicalInt (text : List Nat) (n : Int) : Prop :=
  (0 ≤ n ∧ IsDecimal text ∧ (decimal_value text : Int) = n) ∨
  (n < 0 ∧ ∃ ds, text = 45 :: ds ∧ IsDecimal ds ∧ (decimal_value ds : Int) = -n)

/-- An upper-case hexadecimal numeral: characters `0`..`9` and `A`..`F` only,
at least one, and no leading zero except in the numeral `0`. -/
def IsUpperHex (ds : List Nat) : Prop :=
  ds ≠ [] ∧ (∀ c ∈ ds, (48 ≤ c ∧ c ≤ 57) ∨ (65 ≤ c ∧ c ≤ 70)) ∧
    (ds.head? = some 48 → ds = [48])

/-- The number an upper-case hexadecimal numeral denotes. -/
def hex_value (ds : List Nat) : Nat :=
  ds.foldl (fun a c => a * 16 + (if c ≤ 57 then c - 48 else c - 55)) 0

end settings

/-! ## The flash backend of the settings (`settings_backend_flash.cpp`)

The flash device behind `flash_hal` is a byte memory addressed by offset: a
read returns the bytes stored, a write that succeeds stores the bytes given,
an erase that succeeds sets the sector starting at the offset to `0xFF`, and
an operation that fails changes nothing. Which write and which erase fail is
a property of the platform, given by the position of the call among the
calls made. `align` is that of the platform sources (the next multiple of
8), and the sector size is a power of two, so that the masks `& ~0x7` and
`& ~(sector_size - 1)` clear the remainder of the division. -/

namespace settings_backend

/-- The constant `MAX_SETTING_SIZE`. -/
def MAX_SETTING_SIZE : Nat := 128

/-- The constant `NUM_SECTORS`. -/
def NUM_SECTORS : Nat := 2

/-- The constant `STARTING_OFFSET`. -/
def STARTING_OFFSET : Nat := 0

/-- The constant `UNSET_FLASH`. -/
def UNSET_FLASH : Nat := 4294967295

/-- The constant `UINT32_MAX`. -/
def UINT32_MAX : Nat := 4294967295

/-- The constant `header_size`, `sizeof(SettingFlashHeader)`. -/
def header_size : Nat := 16

/-- The record `SettingFlashHeader`. -/
structure SettingFlashHeader where
  id : Nat
  size : Nat
  deleted : Nat
  reserved : Nat
  deriving DecidableEq, Repr

/-- What the platform fixes: the sector size of `flash_hal::get_sector_size`,
the number of settings `ID::NumSettings`, and whether the `n`-th call of
`flash_hal::write` and of `flash_hal::erase` fails. -/
structure Platform where
  sector_size : Nat
  NumSettings : Nat
  write_fails : Nat → Bool
  erase_fails : Nat → Bool

/-- One call `settings::set(id, value, save)` made by `load_settings`; `value`
is the string the callee finds at the pointer. -/
structure SetCall where
  id : Nat
  value : List Nat
  save : Bool
  deriving DecidableEq, Repr

/-- The bytes of the flash device, the number of write and erase calls made so
far, the file variables of `settings_backend_flash.cpp`, the calls made to
`settings::set`, and the number of `All sectors failed` messages printed. -/
structure Backend where
  mem : Nat → Nat
  writes : Nat
  erases : Nat
  curr_sector_addr : Nat
  fail_sector : Nat
  failt_sector_set : Bool
  set_calls : List SetCall
  messages : Nat

/-- Addition of `uint32_t` values. -/
def add32 (a b : Nat) : Nat := if a + b < 4294967296 then a + b else a + b - 4294967296

/-- The platform function `align`, `(val + 0x7) & ~0x7`. -/
def align (val : Nat) : Nat := add32 val 7 - add32 val 7 % 8

/-- The four bytes of a 32-bit word, least significant first. -/
def word_bytes (w : Nat) : List Nat := [w % 256, w / 256 % 256, w / 65536 % 256, w / 16777216 % 256]

/-- The 32-bit word stored at an offset, least significant byte first. -/
def word (mem : Nat → Nat) (a : Nat) : Nat :=
  mem a + 256 * mem (a + 1) + 65536 * mem (a + 2) + 16777216 * mem (a + 3)

/-- The bytes of a header as they lie in memory. -/
def header_bytes (h : SettingFlashHeader) : List Nat :=
  word_bytes h.id ++ word_bytes h.size ++ word_bytes h.deleted ++ word_bytes h.reserved

/-- The call `flash_hal::read(offset, (uint8_t *)(&header), header_size)`. -/
def read_header (mem : Nat → Nat) (offset : Nat) : SettingFlashHeader :=
  ⟨word mem offset, word mem (offset + 4), word mem (offset + 8), word mem (offset + 12)⟩

/-- The call `flash_hal::read(offset, buf, size)`: the bytes read. -/
def flash_read (mem : Nat → Nat) (offset size : Nat) : List Nat :=
  (List.range size).map (fun k => mem (offset + k))

/-- A memory with the bytes `buf` stored from `offset` on. -/
def store (mem : Nat → Nat) (offset : Nat) (buf : List Nat) : Nat → Nat :=
  fun x => if offset ≤ x ∧ x < offset + buf.length then buf.getD (x - offset) 0 else mem x

/-- The call `flash_hal::write(offset, buf, size)` with the `size` bytes
`buf`; `true` for `NoError`. -/
def flash_write (p : Platform) (b : Backend) (offset : Nat) (buf : List Nat) : Backend × Bool :=
  if p.write_fails b.writes then ({ b with writes := b.writes + 1 }, false)
  else ({ b with mem := store b.mem offset buf, writes := b.writes + 1 }, true)

/-- The call `flash_hal::erase(offset)`; `true` for `NoError`. -/
def flash_erase (p : Platform) (b : Backend) (offset : Nat) : Backend × Bool :=
  if p.erase_fails b.erases then ({ b with erases := b.erases + 1 }, false)
  else
    let m := fun x => if offset ≤ x ∧ x < offset + p.sector_size then 255 else b.mem x
    ({ b with mem := m, erases := b.erases + 1 }, true)

/-- The function `empty`. -/
def empty (item : Nat) : Bool := item == UNSET_FLASH

/-- The function `sector_end`. -/
def sector_end (p : Platform) (sector_start : Nat) : Nat :=
  add32 sector_start p.sector_size - add32 sector_start p.sector_size % p.sector_size

/-- The function `increment`. -/
def increment (addr : Nat) (header : SettingFlashHeader) : Nat :=
  align (add32 (add32 addr header_size) header.size)

/-- The loop of `next_entry` with `i` the offset examined next and `stop` the
value of `sector_end(starting_addr)`; `none` when `fuel` passes do not end it. -/
def next_entry_loop (mem : Nat → Nat) (stop : Nat) : Nat → Nat → Option Nat
  | 0, _ => none
  | fuel + 1, i =>
    if i < stop then
      let header := read_header mem i
      if empty header.id then some UINT32_MAX
      else if empty header.deleted then some i
      else next_entry_loop mem stop fuel (increment i header)
    else some UINT32_MAX

/-- The function `next_entry`. -/
def next_entry (p : Platform) (fuel : Nat) (mem : Nat → Nat) (starting_addr : Nat) :
    Option Nat :=
  next_entry_loop mem (sector_end p starting_addr) fuel starting_addr

/-- The loop of `next_empty_addr`. -/
def next_empty_loop (mem : Nat → Nat) (stop : Nat) : Nat → Nat → Option Nat
  | 0, _ => none
  | fuel + 1, i =>
    if i < stop then
      let header := read_header mem i
      if empty header.id then some i
      else next_empty_loop mem stop fuel (increment i header)
    else some UINT32_MAX

/-- The function `next_empty_addr`. -/
def next_empty_addr (p : Platform) (fuel : Nat) (mem : Nat → Nat) (starting_addr : Nat) :
    Option Nat :=
  next_empty_loop mem (sector_end p starting_addr) fuel starting_addr

end settings_backend

namespace settings_backend

/-- The `while` loop of `next_sector` that erases the sector to switch to;
`curr_sector` is the local of that name, the flag returned is `false` when the
function gave up with the message `All sectors failed`. -/
def erase_loop (p : Platform) : Nat → Backend → Nat → Option (Backend × Bool)
  | 0, _, _ => none
  | fuel + 1, b, curr_sector =>
    let r := flash_erase p b b.curr_sector_addr
    if r.2 then some (r.1, true)
    else if curr_sector + 1 = r.1.fail_sector then
      some ({ r.1 with messages := r.1.messages + 1 }, false)
    else if curr_sector + 1 < NUM_SECTORS then
      let addr := (curr_sector + 1) * p.sector_size
      erase_loop p fuel { r.1 with curr_sector_addr := addr } (curr_sector + 1)
    else erase_loop p fuel { r.1 with curr_sector_addr := STARTING_OFFSET } 0

/-- The `for` loop of `next_sector` that copies the entries of the old sector;
`i` is the entry to copy (`UINT32_MAX` for none), `curr_sector_ptr` the local
of that name. The flag returned is `false` when a write failed, the case in
which `next_sector` calls itself. -/
def copy_loop (p : Platform) : Nat → Backend → Nat → Nat → Option (Backend × Bool)
  | 0, _, _, _ => none
  | fuel + 1, b, i, curr_sector_ptr =>
    if i = UINT32_MAX then some (b, true)
    else
      let header := read_header b.mem i
      let buf := flash_read b.mem (add32 i header_size) header.size
      let dst := add32 b.curr_sector_addr curr_sector_ptr
      let w1 := flash_write p b dst (header_bytes header)
      if !w1.2 then some (w1.1, false)
      else
        let w2 := flash_write p w1.1 (add32 dst header_size) buf
        if !w2.2 then some (w2.1, false)
        else
          let ptr := add32 (add32 curr_sector_ptr header_size) header.size
          let deleted := { header with deleted := 0 }
          let w3 := flash_write p w2.1 i (header_bytes deleted)
          if !w3.2 then some (w3.1, false)
          else
            match next_entry p fuel w3.1.mem (increment i deleted) with
            | none => none
            | some j => copy_loop p fuel w3.1 j ptr

/-- The function `next_sector`. -/
def next_sector (p : Platform) : Nat → Backend → Option Backend
  | 0, _ => none
  | fuel + 1, b =>
    let curr_sector := b.curr_sector_addr / p.sector_size + 1
    let old_sector_addr := b.curr_sector_addr
    let addr := if curr_sector < NUM_SECTORS then curr_sector * p.sector_size else STARTING_OFFSET
    let fail := if !b.failt_sector_set then curr_sector else b.fail_sector
    let b1 := { b with curr_sector_addr := addr, failt_sector_set := true, fail_sector := fail }
    match erase_loop p fuel b1 curr_sector with
    | none => none
    | some (b2, false) => some b2
    | some (b2, true) =>
      match next_entry p fuel b2.mem old_sector_addr with
      | none => none
      | some i =>
        match copy_loop p fuel b2 i b2.curr_sector_addr with
        | none => none
        | some (b3, false) => next_sector p fuel b3
        | some (b3, true) => some { b3 with failt_sector_set := false }

/-- The `for` loop of `save_setting` that deletes the entries with the id;
`i` is the entry examined (`UINT32_MAX` for none). The flag returned is
`false` when the write failed. -/
def delete_loop (p : Platform) (id : Nat) : Nat → Backend → Nat → Option (Backend × Bool)
  | 0, _, _ => none
  | fuel + 1, b, i =>
    if i = UINT32_MAX then some (b, true)
    else
      let header := read_header b.mem i
      if header.id = id then
        let deleted := { header with deleted := 0 }
        let w := flash_write p b i (header_bytes deleted)
        if !w.2 then some (w.1, false)
        else
          match next_entry p fuel w.1.mem (increment i deleted) with
          | none => none
          | some j => delete_loop p id fuel w.1 j
      else
        match next_entry p fuel b.mem (increment i header) with
        | none => none
        | some j => delete_loop p id fuel b j

/-- The function `settings::save_setting`; `value` is `none` for `nullptr`. -/
def save_setting (p : Platform) : Nat → Backend → Nat → Option (List Nat) →
    Option (Backend × Except Error Unit)
  | 0, _, _, _ => none
  | fuel + 1, b, id, value =>
    if !(id < p.NumSettings) then some (b, .error Error.InvalidID)
    else
      match value with
      | none => some (b, .error Error.InvalidPointer)
      | some value =>
        if !(control.strlen value < MAX_SETTING_SIZE) then some (b, .error Error.InvalidLength)
        else
          match next_empty_addr p fuel b.mem b.curr_sector_addr with
          | none => none
          | some next_addr =>
            let next_next_addr := add32 (add32 next_addr header_size) (control.strlen value)
            let no_empty_addrs := UINT32_MAX == next_addr
            let past_sector_bounds :=
              decide (next_next_addr > add32 b.curr_sector_addr p.sector_size)
            match (if no_empty_addrs || past_sector_bounds then next_sector p fuel b
                else some b) with
            | none => none
            | some b1 =>
              match next_entry p fuel b1.mem b1.curr_sector_addr with
              | none => none
              | some i =>
                match delete_loop p id fuel b1 i with
                | none => none
                | some (b2, false) =>
                  match next_sector p fuel b2 with
                  | none => none
                  | some b3 => save_setting p fuel b3 id (some value)
                | some (b2, true) =>
                  let header : SettingFlashHeader :=
                    ⟨id, control.strlen value, UNSET_FLASH, UNSET_FLASH⟩
                  let w1 := flash_write p b2 next_addr (header_bytes header)
                  match (if !w1.2 then next_sector p fuel w1.1 else some w1.1) with
                  | none => none
                  | some b3 =>
                    let w2 := flash_write p b3 (add32 next_addr header_size) (control.cstr value)
                    match (if !w2.2 then next_sector p fuel w2.1 else some w2.1) with
                    | none => none
                    | some b4 => some (b4, .ok ())

/-- The `for` loop of `load_settings`; `i` is the entry to load (`UINT32_MAX`
for none). The array `buf` is not initialised by the source: `buf` is what
its `MAX_SETTING_SIZE` bytes hold when a pass begins, which is what the pass
before left there. -/
def load_loop (p : Platform) : Nat → Backend → Nat → List Nat →
    Option (Backend × Except Error Unit)
  | 0, _, _, _ => none
  | fuel + 1, b, i, buf =>
    if i = UINT32_MAX then some (b, .ok ())
    else
      let header := read_header b.mem i
      if !(header.size < MAX_SETTING_SIZE) then some (b, .error Error.ReadFailed)
      else
        let buf1 := flash_read b.mem (add32 i header_size) header.size ++ buf.drop header.size
        let b1 := { b with set_calls := b.set_calls ++ [⟨header.id, control.cstr buf1, false⟩] }
        match next_entry p fuel b1.mem (increment i header) with
        | none => none
        | some j => load_loop p fuel b1 j buf1

/-- The function `settings::load_settings`; `stack` is what the bytes of the
array `buf` hold when the function is entered. -/
def load_settings (p : Platform) (fuel : Nat) (b : Backend) (stack : List Nat) :
    Option (Backend × Except Error Unit) :=
  match next_entry p fuel b.mem b.curr_sector_addr with
  | none => none
  | some i => load_loop p fuel b i stack

/-- The `for` loop of `settings::backend_init`. -/
def backend_init_loop (p : Platform) : Nat → Backend → Nat → Option Backend
  | 0, _, _ => none
  | fuel + 1, b, i =>
    if i < p.sector_size * NUM_SECTORS then
      match next_entry p fuel b.mem i with
      | none => none
      | some e =>
        if e ≠ UINT32_MAX then some { b with curr_sector_addr := i }
        else
          match next_empty_addr p fuel b.mem i with
          | none => none
          | some a =>
            if a ≠ UINT32_MAX then some { b with curr_sector_addr := i }
            else backend_init_loop p fuel b (sector_end p i)
    else some b

/-- The function `settings::backend_init`. -/
def backend_init (p : Platform) (fuel : Nat) (b : Backend) : Option Backend :=
  backend_init_loop p fuel { b with curr_sector_addr := 0 } STARTING_OFFSET

end settings_backend

namespace settings_backend

/-! ### The log a sector holds -/

/-- One entry of the log of a sector: the header fields next to the size, and
the payload, whose length is the size. -/
structure Record where
  id : Nat
  deleted : Nat
  reserved : Nat
  payload : List Nat
  deriving DecidableEq, Repr

/-- The header of an entry. -/
def Record.header (r : Record) : SettingFlashHeader :=
  ⟨r.id, r.payload.length, r.deleted, r.reserved⟩

/-- An entry is live when its field `deleted` is unset flash. -/
def Record.live (r : Record) : Bool := empty r.deleted

/-- The memory holds, from offset `a` on and before `stop`, exactly the
entries `rs` one after the other, each at the aligned offset after the one
before, header then payload, followed by an empty header unless `stop` is
reached. -/
def Holds (mem : Nat → Nat) (stop : Nat) : Nat → List Record → Prop
  | a, [] => stop ≤ a ∨ word mem a = UNSET_FLASH
  | a, r :: rs =>
    a < stop ∧ read_header mem a = r.header ∧ r.id < UNSET_FLASH ∧
      r.deleted ≤ UNSET_FLASH ∧ r.reserved ≤ UNSET_FLASH ∧
      r.payload.length < MAX_SETTING_SIZE ∧
      flash_read mem (a + header_size) r.payload.length = r.payload ∧
      Holds mem stop (increment a r.header) rs

/-- The offset after the last of the entries `rs` laid out from `a`. -/
def end_addr : Nat → List Record → Nat
  | a, [] => a
  | a, r :: rs => end_addr (increment a r.header) rs

/-- The offset of the first live entry of `rs` laid out from `a`, `UINT32_MAX`
if none is live. -/
def first_live : Nat → List Record → Nat
  | _, [] => UINT32_MAX
  | a, r :: rs => if r.live then a else first_live (increment a r.header) rs

/-- The log after every live entry with the id has been marked deleted. -/
def tombstone (id : Nat) (rs : List Record) : List Record :=
  rs.map (fun r => if r.live ∧ r.id = id then { r with deleted := 0 } else r)

/-- The sector starting at `start` (zero or the sector size) of a platform
whose two sectors lie below `2 ^ 31` and are a multiple of 8 bytes long. -/
def SectorAt (p : Platform) (start : Nat) : Prop :=
  0 < p.sector_size ∧ p.sector_size % 8 = 0 ∧ p.sector_size ≤ 1073741824 ∧
    (start = 0 ∨ start = p.sector_size)

end settings_backend

namespace settings_backend

/-- The header of an entry once marked deleted. -/
def Record.deleted_header (r : Record) : SettingFlashHeader :=
  { r.header with deleted := 0 }

/-- The memory after the header of every live entry with the id, among the
entries `rs` laid out from `a`, has been rewritten with `deleted = 0`. -/
def tombstone_mem (id : Nat) : (Nat → Nat) → Nat → List Record → (Nat → Nat)
  | mem, _, [] => mem
  | mem, a, r :: rs =>
    tombstone_mem id
      (if r.live ∧ r.id = id then store mem a (header_bytes r.deleted_header) else mem)
      (increment a r.header) rs

/-- The number of live entries with the id. -/
def live_count (id : Nat) (rs : List Record) : Nat :=
  (rs.filter (fun r => r.live && r.id == id)).length

end settings_backend

namespace settings_backend

/-- The entry `save_setting(id, v)` appends: live, with unset `reserved`. -/
def Record.fresh (id : Nat) (v : List Nat) : Record := ⟨id, UNSET_FLASH, UNSET_FLASH, v⟩

/-- The test of the entries that are live and have the id. -/
def Record.live_with (id : Nat) (r : Record) : Bool := r.live && r.id == id

end settings_backend

namespace settings_backend

/-- A scan of the entries `recs` laid out from `start` finds a live entry, or
an empty header before `stop`. -/
def ScanFinds (start stop : Nat) (recs : List Record) : Prop :=
  (∃ r ∈ recs, r.live = true) ∨ end_addr start recs < stop

/-- The platform of the examples: the sector size of the platform sources,
four settings, no failing write or erase. -/
def testPlatform : Platform := ⟨2048, 4, fun _ => false, fun _ => false⟩

/-- The backend at first start: erased flash, sector 0 active. -/
def erased : Backend := ⟨fun _ => 255, 0, 0, 0, 0, false, [], 0⟩

/-- A backend whose sector 0 holds one live entry, value `1` of setting 1. -/
def testBackend : Backend :=
  ⟨store (store (fun _ => 255) 0 (header_bytes ⟨1, 1, UNSET_FLASH, UNSET_FLASH⟩)) 16 [49],
    0, 0, 0, 0, false, [], 0⟩

end settings_backend

namespace settings_backend

instance Holds.decidable (mem : Nat → Nat) (stop : Nat) :
    ∀ (a : Nat) (rs : List Record), Decidable (Holds mem stop a rs)
  | a, [] => inferInstanceAs (Decidable (stop ≤ a ∨ word mem a = UNSET_FLASH))
  | a, r :: rs =>
    have := Holds.decidable mem stop (increment a r.header) rs
    inferInstanceAs (Decidable (a < stop ∧ read_header mem a = r.header ∧ r.id < UNSET_FLASH ∧
      r.deleted ≤ UNSET_FLASH ∧ r.reserved ≤ UNSET_FLASH ∧
      r.payload.length < MAX_SETTING_SIZE ∧
      flash_read mem (a + header_size) r.payload.length = r.payload ∧
      Holds mem stop (increment a r.header) rs))

instance ScanFinds.decidable (start stop : Nat) (recs : List Record) :
    Decidable (ScanFinds start stop recs) :=
  inferInstanceAs (Decidable ((∃ r ∈ recs, r.live = true) ∨ end_addr start recs < stop))

/-- A backend whose sector 0 is filled to its last byte by sixteen deleted
entries of 112 bytes of payload, and whose sector 1 is erased. -/
def fullBackend : Backend :=
  ⟨fun x => if x < 2048 then
      (if x % 128 = 4 then 112 else if x % 128 < 12 then 0 else if x % 128 < 16 then 255 else 65)
    else 255,
    0, 0, 0, 0, false, [], 0⟩

/-- A backend whose sector 0 holds two live entries: the value `123` of
setting 0 and the value `7` of setting 1. -/
def twoBackend : Backend :=
  ⟨store (store (store (store (fun _ => 255)
      0 (header_bytes ⟨0, 3, UNSET_FLASH, UNSET_FLASH⟩)) 16 [49, 50, 51])
      24 (header_bytes ⟨1, 1, UNSET_FLASH, UNSET_FLASH⟩)) 40 [55],
    0, 0, 0, 0, false, [], 0⟩

/-- A backend whose sector 1 is active and holds two live entries: the value
`1` of setting 0 and the value `2` of setting 1. -/
def upperBackend : Backend :=
  ⟨store (store (store (store (fun _ => 255)
      2048 (header_bytes ⟨0, 1, UNSET_FLASH, UNSET_FLASH⟩)) 2064 [49])
      2072 (header_bytes ⟨1, 1, UNSET_FLASH, UNSET_FLASH⟩)) 2088 [50],
    0, 0, 2048, 0, false, [], 0⟩

/-- The calls `save_setting(id, value)` for the pairs of a list, in order. -/
def save_all (p : Platform) (fuel : Nat) : Backend → List (Nat × List Nat) → Option Backend
  | b, [] => some b
  | b, (id, value) :: rest =>
    match save_setting p fuel b id (some value) with
    | none => none
    | some (b1, _) => save_all p fuel b1 rest

/-- A power cycle: `backend_init` followed by `load_settings`, as
`settings::init` and the start-up run them; the result is the list of calls
made to `settings::set`. -/
def power_cycle (p : Platform) (fuel : Nat) (b : Backend) (stack : List Nat) :
    Option (List SetCall) :=
  match backend_init p fuel b with
  | none => none
  | some b1 => (load_settings p fuel b1 stack).map (fun r => r.1.set_calls)

end settings_backend

/-! ## Periodic callbacks (`periodic.cpp`, `periodic.hpp`)

The software timer of `timer_osal` is a collaborator: the calls made to it
are recorded, `timer_running` is what `timer_osal::is_running` answers (set by
`start`, cleared by `stop`), and whether `timer_osal::create` succeeds and
what `timer_osal::curr_time_ms` returns are arguments. A callback is a
function pointer, kept as a number (`0` for `nullptr`); invoking it is
recorded. -/

namespace periodic

/-- The enum member `periodic::ID::NumIDs`. -/
def NumIDs : Nat := 2

/-- The record `Periodic`. -/
structure Periodic where
  period_ms : Nat
  callback : Nat
  enabled : Bool
  last_call_ms : Nat
  deriving DecidableEq, Repr

/-- One call `periodic_list[entry].callback(curr_time_ms)`. -/
structure Call where
  entry : Nat
  callback : Nat
  curr_time_ms : Nat
  deriving DecidableEq, Repr

/-- A call of `mutex::take` or `mutex::give` on `mutex::ID::Periodic`. -/
inductive MutexCall where
  | take
  | give
  deriving DecidableEq, Repr

/-- A call of `timer_osal::create`, `start` or `stop` on the periodic timer. -/
inductive TimerCall where
  | create
  | start
  | stop
  deriving DecidableEq, Repr

/-- File variables of `periodic.cpp` (`timer_created` is the static flag of
`create_timer`), the state of the software timer, and the calls made to the
callbacks, the mutex and the timer, in call order. -/
structure State where
  periodic_list : Nat → Periodic
  timer_created : Bool
  timer_running : Bool
  calls : List Call
  mutex_calls : List MutexCall
  timer_calls : List TimerCall

/-- Static storage before any code runs. -/
def boot : State :=
  ⟨fun _ => ⟨0, 0, false, 0⟩, false, false, [], [], []⟩

/-- Subtraction of `uint32_t` values. -/
def sub32 (a b : Nat) : Nat := if b ≤ a then a - b else a + 4294967296 - b

/-- The loop of `call_callbacks` from entry `i` on, with `n` entries left. -/
def call_callbacks_loop (curr_time_ms : Nat) : Nat → Nat → State → State × Except Error Unit
  | 0, _, s => (s, .ok ())
  | n + 1, i, s =>
    let elapsed :=
      decide (sub32 curr_time_ms (s.periodic_list i).last_call_ms ≥ (s.periodic_list i).period_ms)
    if (s.periodic_list i).enabled && elapsed then
      if (s.periodic_list i).callback = 0 then (s, .error Error.InvalidPointer)
      else
        let call : Call := ⟨i, (s.periodic_list i).callback, curr_time_ms⟩
        call_callbacks_loop curr_time_ms n (i + 1) { s with calls := s.calls ++ [call] }
    else call_callbacks_loop curr_time_ms n (i + 1) s

/-- The function `call_callbacks`, the callback of the periodic timer. -/
def call_callbacks (s : State) (curr_time_ms : Nat) : State × Except Error Unit :=
  call_callbacks_loop curr_time_ms NumIDs 0 s

/-- The function `create_timer`; `create_ok` tells whether
`timer_osal::create` returns `NoError`. -/
def create_timer (s : State) (create_ok : Bool) : State × Except Error Unit :=
  if s.timer_created then (s, .ok ())
  else
    let s1 := { s with timer_calls := s.timer_calls ++ [TimerCall.create] }
    if !create_ok then (s1, .error Error.AppInitFailed)
    else ({ s1 with timer_created := true }, .ok ())

/-- The function `stop_timer`. -/
def stop_timer (s : State) (create_ok : Bool) : State × Except Error Unit :=
  match create_timer s create_ok with
  | (s1, .error e) => (s1, .error e)
  | (s1, .ok _) =>
    if s1.timer_running then (s1, .ok ())
    else
      ({ s1 with timer_calls := s1.timer_calls ++ [TimerCall.stop], timer_running := false },
        .ok ())

/-- The function `start_timer`. -/
def start_timer (s : State) (create_ok : Bool) : State × Except Error Unit :=
  match create_timer s create_ok with
  | (s1, .error e) => (s1, .error e)
  | (s1, .ok _) =>
    if s1.timer_running then (s1, .ok ())
    else
      ({ s1 with timer_calls := s1.timer_calls ++ [TimerCall.start], timer_running := true },
        .ok ())

/-- The table with entry `id` replaced. -/
def set_entry (s : State) (id : Nat) (e : Periodic) : State :=
  { s with periodic_list := fun i => if i = id then e else s.periodic_list i }

/-- The function `periodic::stop`. -/
def stop (s : State) (id : Nat) (create_ok : Bool) : State × Except Error Unit :=
  if !(id < NumIDs) then (s, .error Error.InvalidID)
  else
    let s1 := { s with mutex_calls := s.mutex_calls ++ [MutexCall.take] }
    let s2 := set_entry s1 id { (s1.periodic_list id) with enabled := false }
    match stop_timer s2 create_ok with
    | (s3, .error e) => (s3, .error e)
    | (s3, .ok _) => ({ s3 with mutex_calls := s3.mutex_calls ++ [MutexCall.give] }, .ok ())

/-- The function `periodic::start`; `now` is what `timer_osal::curr_time_ms`
returns. -/
def start (s : State) (id : Nat) (now : Nat) (create_ok : Bool) : State × Except Error Unit :=
  if !(id < NumIDs) then (s, .error Error.InvalidID)
  else if (s.periodic_list id).callback = 0 then (s, .error Error.InvalidPointer)
  else
    let s1 := { s with mutex_calls := s.mutex_calls ++ [MutexCall.take] }
    let s2 := set_entry s1 id { (s1.periodic_list id) with last_call_ms := now, enabled := true }
    match start_timer s2 create_ok with
    | (s3, .error e) => (s3, .error e)
    | (s3, .ok _) => ({ s3 with mutex_calls := s3.mutex_calls ++ [MutexCall.give] }, .ok ())

/-- The function `periodic::create`. -/
def create (s : State) (id period_ms func : Nat) : State × Except Error Unit :=
  if !(id < NumIDs) then (s, .error Error.InvalidID)
  else if !(period_ms > 0) then (s, .error Error.InvalidTime)
  else if func = 0 then (s, .error Error.InvalidPointer)
  else
    let s1 := { s with mutex_calls := s.mutex_calls ++ [MutexCall.take] }
    if (s1.periodic_list id).enabled = true then
      if !((s1.periodic_list id).period_ms = period_ms) then (s1, .error Error.TooManyAttempts)
      else if !((s1.periodic_list id).callback = func) then (s1, .error Error.TooManyAttempts)
      else ({ s1 with mutex_calls := s1.mutex_calls ++ [MutexCall.give] }, .ok ())
    else
      let e : Periodic := { (s1.periodic_list id) with period_ms := period_ms, callback := func }
      let s2 := set_entry s1 id e
      ({ s2 with mutex_calls := s2.mutex_calls ++ [MutexCall.give] }, .ok ())

/-- Entry `i` is due at time `now`: it is enabled and the time since its last
call, taken modulo `2 ^ 32`, has reached its period. -/
def Due (s : State) (now i : Nat) : Bool :=
  (s.periodic_list i).enabled &&
    decide ((now + 4294967296 - (s.periodic_list i).last_call_ms) % 4294967296
      ≥ (s.periodic_list i).period_ms)

/-- Times and periods are `uint32_t` values, and an enabled entry has a
callback (`start` requires one and nothing removes it). -/
def Valid (s : State) : Prop :=
  ∀ i, i < NumIDs → (s.periodic_list i).last_call_ms < 4294967296 ∧
    ((s.periodic_list i).enabled = true → (s.periodic_list i).callback ≠ 0)

end periodic

/-! ## Typed inputs and outputs (`io.hpp`, `input.hpp`, `input.cpp`,
`output.hpp`, `output.cpp`)

The virtual functions of an element (`get_by_id`, `set_output`, `print`)
belong to the device classes; the calls made to them are recorded, and the
value the device read returns is an argument. Values travel as `void *`,
here 32-bit words. -/

namespace io

/-- The enum `io::IOType`. -/
inductive IOType where
  | GPIO
  | ADC
  | PWM
  | UART
  | SPI
  deriving DecidableEq, Repr

/-- The enum `io::IODirection`. -/
inductive IODirection where
  | none
  | input
  | output
  | input_output
  deriving DecidableEq, Repr

/-- The `std::type_info` objects `typeid(T)` of the types the sources
instantiate `get` and `set` with, and any other. -/
inductive TypeToken where
  | float_ptr
  | bool
  | uint32_t
  | int32_t
  | char_ptr
  | const_char_ptr
  | other (n : Nat)
  deriving DecidableEq, Repr

/-- The data members of the class `io::IO`; `input_type` and `output_type`
are `none` for the null pointer. -/
structure IOElement where
  type : IOType
  id : Nat
  direction : IODirection
  name : List Nat
  print_io : Bool
  reentry_guard : Bool
  input_type : Option TypeToken
  output_type : Option TypeToken
  deriving DecidableEq, Repr

/-- One call of a virtual function of the element. -/
inductive Access where
  | get_by_id
  | set_output (data : Nat)
  | print (data : Nat) (dir : IODirection)
  deriving DecidableEq, Repr

/-- The conversion `(T)(uintptr_t)` of a word: a `bool` is `1` for every
word but zero, the other types keep the word. -/
def cast (T : TypeToken) (w : Nat) : Nat :=
  match T with
  | TypeToken.bool => if w = 0 then 0 else 1
  | _ => w

end io

namespace input

/-- The member template `Input::get<T>`; `device` is the word the call
`get_by_id()` returns, `log` the calls made so far. -/
def get (T : io.TypeToken) (e : io.IOElement) (device : Nat) (log : List io.Access) :
    List io.Access × Except Error Nat :=
  match e.input_type with
  | none => (log, .error Error.InvalidPointer)
  | some t =>
    if !(T = t) then (log, .error Error.InvalidType)
    else
      let ret_val := io.cast T device
      let log1 := log ++ [io.Access.get_by_id]
      if e.print_io then (log1 ++ [io.Access.print ret_val io.IODirection.input], .ok ret_val)
      else (log1, .ok ret_val)

/-- The member function `Input::init_input_info`. -/
def init_input_info (e : io.IOElement) (type_id : Option io.TypeToken) (io_type : io.IOType) : io.IOElement :=
  let e1 := { e with input_type := type_id, type := io_type }
  let e2 :=
    if e1.direction = io.IODirection.output then
      { e1 with direction := io.IODirection.input_output }
    else if e1.direction ≠ io.IODirection.input_output then
      { e1 with direction := io.IODirection.input }
    else e1
  { e2 with print_io := false }

end input

namespace output

/-- The member template `Output::set<T>`; `data` is the word of the value. -/
def set (T : io.TypeToken) (e : io.IOElement) (data : Nat) (log : List io.Access) :
    List io.Access × Except Error Unit :=
  match e.output_type with
  | none => (log, .error Error.InvalidPointer)
  | some t =>
    if !(T = t) then (log, .error Error.InvalidType)
    else
      let log1 :=
        if e.print_io then log ++ [io.Access.print data io.IODirection.output] else log
      (log1 ++ [io.Access.set_output data], .ok ())

/-- The member function `Output::init_output_info`. -/
def init_output_info (e : io.IOElement) (type_id : Option io.TypeToken) (io_type : io.IOType) :
    io.IOElement :=
  let e1 := { e with output_type := type_id, type := io_type }
  let e2 :=
    if e1.direction = io.IODirection.input then
      { e1 with direction := io.IODirection.input_output }
    else if e1.direction ≠ io.IODirection.input_output then
      { e1 with direction := io.IODirection.output }
    else e1
  { e2 with print_io := false }

end output

/-! ## The open task (`task_open.cpp`)

The calls to `setup::open`, `task::broadcast`, `task::wait_any` and
`task::wait_strict` are recorded; the signal sets `task::wait_any` returns,
one per call, are an argument. -/

namespace task_open

/-- Bitwise complement of a `uint32_t` value. -/
def not32 (x : Nat) : Nat := 4294967295 ^^^ x

/-- The function `set_lower_bits`. -/
def set_lower_bits (bits_to_set : Nat) : Nat :=
  let valid := decide (bits_to_set < 4 * 8)
  if valid then (List.range bits_to_set).foldl (fun ret_val i => ret_val ||| (1 <<< i)) 0
  else 0

/-- One call made by `task_func`. -/
inductive Action where
  | setup_open
  | broadcast (signal : task.Signal)
  | wait_any
  | wait_strict (signal : task.Signal)
  deriving DecidableEq, Repr

/-- The loop `while (required_sigs)` of `task_func` over the signal sets the
calls of `task::wait_any` still to come return; the result is the number of
calls made when the loop ends, `none` when the task is still waiting after
the last of them. -/
def wait_loop : List Nat → Nat → Nat → Option Nat
  | [], required_sigs, n => if required_sigs = 0 then some n else none
  | received_sigs :: rest, required_sigs, n =>
    if required_sigs = 0 then some n
    else wait_loop rest (required_sigs &&& not32 received_sigs) (n + 1)

/-- The function `task_func` up to the run phase, as the calls it makes:
`num_tasks` is what `task::num` returns and `signals` what the successive
calls of `task::wait_any` return. After `GlobalRun` the task waits in
`wait_strict` for a signal that is not sent. -/
def task_func (num_tasks : Nat) (signals : List Nat) : List Action :=
  let required_sigs := set_lower_bits num_tasks &&& not32 1
  match wait_loop signals required_sigs 0 with
  | none =>
    [Action.setup_open, Action.broadcast task.Signal.GlobalOpen] ++
      List.replicate (signals.length + 1) Action.wait_any
  | some n =>
    [Action.setup_open, Action.broadcast task.Signal.GlobalOpen] ++
      List.replicate n Action.wait_any ++
      [Action.broadcast task.Signal.GlobalRun, Action.wait_strict task.Signal.GlobalInvalid]

/-- The bitwise OR of the first `k` signal sets. -/
def received (signals : List Nat) (k : Nat) : Nat :=
  (signals.take k).foldl (fun a r => a ||| r) 0

/-- The signal set `acc` has the bit of every task but the open task. -/
def Covers (num_tasks : Nat) (acc : Nat) : Prop :=
  ∀ i, 1 ≤ i → i < num_tasks → acc.testBit i = true

end task_open

/-! ## The UART receive ring (`uart.cpp`)

The receive interrupt stores bytes with `isr_read`, the task reads them with
`UART::get<const char *>`. The counter `rcvd_queue_rear` has the type
`std::atomic_uint_fast16_t`, whose width the platform chooses; the number of
its values is the argument `fast16`. The events handed to `event::post`, the
strings handed to `io::print` and the calls of `uart_hal::open` are
recorded. -/

namespace uart

/-- The constant `RCVD_QUEUE_SIZE`. -/
def RCVD_QUEUE_SIZE : Nat := 64

/-- File variables of `uart.cpp`, the static `ret_buf` of `get_by_id`, and
the record of the calls made to the collaborators. -/
structure State where
  isr_enabled : Bool
  rcvd_queue_front : Nat
  rcvd_queue_rear : Nat
  rcvd_queue : Nat → Nat
  ret_buf : List Nat
  posted : List control.Event
  printed : List (List Nat)
  opens : Nat

/-- Static storage before any code runs. -/
def boot : State :=
  ⟨false, 0, 0, fun _ => 0, List.replicate (RCVD_QUEUE_SIZE + 1) 0, [], [], 0⟩

/-- The function `uart::isr_read`. -/
def isr_read (fast16 : Nat) (s : State) (c : Nat) : State × Except Error Unit :=
  let pos := s.rcvd_queue_rear % RCVD_QUEUE_SIZE
  let s1 := { s with
    rcvd_queue_rear := if s.rcvd_queue_rear + 1 = fast16 then 0 else s.rcvd_queue_rear + 1 }
  let next_pos := (pos + 1) % RCVD_QUEUE_SIZE
  if !(next_pos ≠ s1.rcvd_queue_front % RCVD_QUEUE_SIZE) then (s1, .error Error.QueueOverflow)
  else
    let s2 := { s1 with rcvd_queue := fun i => if i = pos then c else s1.rcvd_queue i }
    if !s2.isr_enabled then (s2, .ok ())
    else
      ({ s2 with posted := s2.posted ++ [⟨control.EventID.control_UARTInput, 0⟩] }, .ok ())

/-- The interrupt taken once for each byte of a list, up to the first
fault. -/
def isr_reads (fast16 : Nat) : State → List Nat → State × Except Error Unit
  | s, [] => (s, .ok ())
  | s, c :: cs =>
    match isr_read fast16 s c with
    | (s1, .error e) => (s1, .error e)
    | (s1, .ok _) => isr_reads fast16 s1 cs

/-- The loop `while (rcvd_queue_front != rear)` of `UART::get_by_id`. -/
def get_by_id_loop (rear : Nat) : Nat → State → Nat → Option (State × Except Error Unit)
  | 0, _, _ => none
  | fuel + 1, s, cnt =>
    if s.rcvd_queue_front ≠ rear then
      if !(cnt ≤ RCVD_QUEUE_SIZE) then some (s, .error Error.InvalidLength)
      else
        get_by_id_loop rear fuel
          ⟨s.isr_enabled, (s.rcvd_queue_front + 1) % RCVD_QUEUE_SIZE, s.rcvd_queue_rear,
            s.rcvd_queue, s.ret_buf.set cnt (s.rcvd_queue s.rcvd_queue_front), s.posted,
            s.printed, s.opens⟩
          (cnt + 1)
    else some (s, .ok ())

/-- The function `UART::get_by_id`; the pointer it returns is `ret_buf`. -/
def get_by_id (fuel : Nat) (s : State) : Option (State × Except Error Unit) :=
  let rear := s.rcvd_queue_rear % RCVD_QUEUE_SIZE
  let s1 := { s with ret_buf := List.replicate (RCVD_QUEUE_SIZE + 1) 0 }
  get_by_id_loop rear fuel s1 0

/-- The member template `Input::get<T>` on a `UART` element `e`; the result
is the string the returned pointer points at. -/
def get (T : io.TypeToken) (e : io.IOElement) (fuel : Nat) (s : State) :
    Option (State × Except Error (List Nat)) :=
  match e.input_type with
  | none => some (s, .error Error.InvalidPointer)
  | some t =>
    if !(T = t) then some (s, .error Error.InvalidType)
    else
      match get_by_id fuel s with
      | none => none
      | some (s1, .error err) => some (s1, .error err)
      | some (s1, .ok _) =>
        if e.print_io then
          some ({ s1 with printed := s1.printed ++ [control.cstr s1.ret_buf] },
            .ok (control.cstr s1.ret_buf))
        else some (s1, .ok (control.cstr s1.ret_buf))

/-- The function `UART::init`; `lock_free` is what `std::atomic_is_lock_free`
answers and `open_ok` whether `uart_hal::open` returns `NoError`. -/
def init (e : io.IOElement) (s : State) (lock_free open_ok : Bool) :
    io.IOElement × State × Except Error Unit :=
  let e1 := { e with reentry_guard := false }
  if e1.reentry_guard then (e1, s, .ok ())
  else
    let e2 := { e1 with reentry_guard := true }
    if !lock_free then (e2, s, .error Error.DeviceInitFailed)
    else
      let s1 := { s with rcvd_queue_rear := 0 }
      let e3 := input.init_input_info e2 (some io.TypeToken.const_char_ptr) io.IOType.UART
      let e4 := output.init_output_info e3 (some io.TypeToken.const_char_ptr) io.IOType.UART
      let s2 := { s1 with opens := s1.opens + 1, isr_enabled := true }
      if !open_ok then (e4, s2, .error Error.DeviceInitFailed)
      else (e4, s2, .ok ())

/-- The ring is drained: the reader has caught up with the writer. -/
def Drained (fast16 : Nat) (s : State) : Prop :=
  s.rcvd_queue_front < RCVD_QUEUE_SIZE ∧ s.rcvd_queue_rear < fast16 ∧
    s.rcvd_queue_rear % RCVD_QUEUE_SIZE = s.rcvd_queue_front

end uart

/-! ## The command `io-get` (`command.cpp`, `input.cpp`)

The enum `io::IOID` is generated at build time from the IO table of the
platform; its members `InvalidID` and `NumIDs`, the registered inputs, and
what the devices and the memory behind the values answer are the fields of
`Inputs`. -/

namespace input

/-- The IO table as the input module sees it: the members `InvalidID` and
`NumIDs` of `io::IOID`, the list handed to `init_input_list`, the word the
device read of an element returns (by element id), the string `cmd_input` of
an element returns, the conversion `%f` of the `float` stored at an address,
and the string stored at an address. -/
structure Inputs where
  InvalidID : Nat
  NumIDs : Nat
  input_list : List io.IOElement
  device : Nat → Nat
  cmd_input : Nat → List Nat
  format_float_at : Nat → List Nat
  string_at : Nat → List Nat

/-- The function `input::get_by_id`. -/
def get_by_id (env : Inputs) (id : Nat) : Except Error (Option io.IOElement) :=
  if !(id < env.NumIDs) then .error Error.InvalidID
  else .ok (env.input_list.find? (fun e => e.id == id))

/-- The function `input::get_by_name`. -/
def get_by_name (env : Inputs) (name : List Nat) : Option io.IOElement :=
  env.input_list.find? (fun e => control.cstr e.name == control.cstr name)

end input

namespace command

/-- The function `_get_input_ptr`. -/
def _get_input_ptr (env : input.Inputs) (name_or_id : List Nat) : Except Error (Option io.IOElement) :=
  let id := settings.strtoul name_or_id 10
  if id = env.InvalidID then .ok (input.get_by_name env name_or_id)
  else input.get_by_id env id

/-- The call `input->get<T>()` followed by the formatting of its value with
`text`. -/
def get_and_format (env : input.Inputs) (T : io.TypeToken) (e : io.IOElement) (log : List io.Access)
    (text : Nat → List Nat) : List io.Access × Except Error (List Nat) :=
  match input.get T e (env.device e.id) log with
  | (log1, .error err) => (log1, .error err)
  | (log1, .ok w) => (log1, .ok (text w ++ control.str "\r\n"))

/-- The function `_get_input_val`; the result is the string written to the
static array `ret_val`. An element without a type token makes the source
read through a null pointer, shown here as the fault `InvalidPointer`. -/
def _get_input_val (env : input.Inputs) (e : io.IOElement) (log : List io.Access) :
    List io.Access × Except Error (List Nat) :=
  match e.input_type with
  | none => (log, .error Error.InvalidPointer)
  | some io.TypeToken.float_ptr =>
    get_and_format env io.TypeToken.float_ptr e log env.format_float_at
  | some io.TypeToken.bool =>
    get_and_format env io.TypeToken.bool e log settings.format_u32
  | some io.TypeToken.uint32_t =>
    get_and_format env io.TypeToken.uint32_t e log settings.format_u32
  | some io.TypeToken.int32_t =>
    get_and_format env io.TypeToken.int32_t e log
      (fun w => settings.format_i32 (settings.to_int32 w))
  | some io.TypeToken.char_ptr =>
    get_and_format env io.TypeToken.char_ptr e log (fun w => control.cstr (env.string_at w))
  | some _ => (log, .ok (control.cstr (env.cmd_input e.id)))

/-- The command function `get_input` of `io-get`. -/
def get_input (env : input.Inputs) (log : List io.Access) (argc : Nat) (argv : List (List Nat)) :
    List io.Access × Except Error (List Nat) :=
  if argc < 2 then (log, .ok INVALID_ARGS)
  else
    match _get_input_ptr env (argv.getD 0 []) with
    | .error err => (log, .error err)
    | .ok none => (log, .ok (control.str "Invalid Input\r\n"))
    | .ok (some e) => _get_input_val env e log

/-- An IO table with `InvalidID = 0`, `NumIDs = 3` and two inputs: the
`uint32_t` input 1, named `adc` and reading 5, and the `bool` input 2, named
`btn` and reading 1. -/
def testInputs : input.Inputs where
  InvalidID := 0
  NumIDs := 3
  input_list :=
    [⟨io.IOType.ADC, 1, io.IODirection.input, control.str "adc", false, false,
        some io.TypeToken.uint32_t, none⟩,
     ⟨io.IOType.GPIO, 2, io.IODirection.input, control.str "btn", false, false,
        some io.TypeToken.bool, none⟩]
  device := fun id => if id = 1 then 5 else 1
  cmd_input := fun _ => control.str "Unrecognized Input Type\r\n"
  format_float_at := fun _ => []
  string_at := fun _ => []

end command

namespace settings_backend

/-- The platform of the examples with one failing write: the call of
`flash_hal::write` number `k`, counted from zero, fails and every other call
succeeds, as the fakes `write_error_0`, `write_error_1` and `write_error_2`
of the unit tests do. -/
def failingWrite (k : Nat) : Platform := ⟨2048, 4, fun n => n == k, fun _ => false⟩

end settings_backend

/-! ## Device initialisation (`gpio.cpp`, `adc.cpp`, `macros.hpp`)

The macro `REENTRY_GUARD_CLASS` is expanded in place in each `init`: it
stores `false` in the member `reentry_guard`, returns if the member is set,
and stores `true`. -/

namespace gpio

/-- The function `GPIO::init`. -/
def init (e : io.IOElement) : io.IOElement :=
  let e1 := { e with reentry_guard := false }
  if e1.reentry_guard then e1
  else
    let e2 := { e1 with reentry_guard := true }
    let e3 := input.init_input_info e2 (some io.TypeToken.bool) io.IOType.GPIO
    output.init_output_info e3 (some io.TypeToken.bool) io.IOType.GPIO

end gpio

namespace adc

/-- The constant `CONVERSION_INTERVAL`. -/
def CONVERSION_INTERVAL : Nat := 1

/-- The member `periodic::ID::ADCConversion`. -/
def ADCConversion : Nat := 1

/-- The function `ADC::init`; `start_conversion` is the address of the
callback, `now` what `timer_osal::curr_time_ms` returns and `create_ok`
whether `timer_osal::create` succeeds. -/
def init (e : io.IOElement) (s : periodic.State) (start_conversion now : Nat) (create_ok : Bool) :
    io.IOElement × periodic.State × Except Error Unit :=
  let e1 := { e with reentry_guard := false }
  if e1.reentry_guard then (e1, s, .ok ())
  else
    let e2 := { e1 with reentry_guard := true }
    let e3 := input.init_input_info e2 (some io.TypeToken.float_ptr) io.IOType.ADC
    match periodic.create s ADCConversion CONVERSION_INTERVAL start_conversion with
    | (s1, .error err) => (e3, s1, .error err)
    | (s1, .ok _) =>
      match periodic.start s1 ADCConversion now create_ok with
      | (s2, .error err) => (e3, s2, .error err)
      | (s2, .ok _) => (e3, s2, .ok ())

end adc

/-! ## Error descriptions (`error.cpp`)

The list `errors.def` of `DEF(error_name, error_string, error_val)` lines is
supplied at build time; it is the argument `defs`, each line as the pair of
its value and its string. -/

namespace error

/-- The member `error::Unknown`, `INT_MIN`. -/
def Unknown : Int := -2147483648

/-- The record `ErrorInfo`; `file` and `func` are `none` for `nullptr`. -/
structure ErrorInfo where
  error : Int
  err_str : List Nat
  file : Option (List Nat)
  func : Option (List Nat)
  line : Nat
  deriving DecidableEq, Repr

/-- The array `error_defaults`: the generic entry, then one entry for each
line of `errors.def`. -/
def error_defaults (defs : List (Int × List Nat)) : List ErrorInfo :=
  ⟨Unknown, control.str "Unknown Error", none, none, 0⟩ ::
    defs.map (fun d => ⟨d.1, d.2, none, none, 0⟩)

/-- The function `get_default` on the array `table`: the loop runs over the
indices below `num_errors - 1` and stops at the first entry with the tag. -/
def get_default (table : List ErrorInfo) (error : Int) : ErrorInfo :=
  let ret_val := table.getD 0 ⟨Unknown, [], none, none, 0⟩
  let num_errors := table.length
  match (table.take (num_errors - 1)).find? (fun x => x.error == error) with
  | some x => x
  | none => ret_val

/-- The function `do_assert`: the record handed to `handle_error`, whose
description `notify` prints, or `none` when the check holds. -/
def do_assert (table : List ErrorInfo) (assert : Bool) (err : Int) (file func : List Nat)
    (line : Nat) : Option ErrorInfo :=
  if !assert then
    let err_info := get_default table err
    some { err_info with file := some file, func := some func, line := line }
  else none

end error

namespace periodic

/-- The timer callback `call_callbacks` run once for each tick time of a
list, up to the first fault. -/
def run_ticks : State → List Nat → State × Except Error Unit
  | s, [] => (s, .ok ())
  | s, t :: ts =>
    match call_callbacks s t with
    | (s1, .error e) => (s1, .error e)
    | (s1, .ok _) => run_ticks s1 ts

end periodic

namespace settings

/-- A module whose get callback stores nothing and returns the error value
`-5`; its set callback answers `NoError` (`0`). -/
def failingEnv : Env (Nat → Nat) where
  set_param := fun _ m _ _ _ => (m, 0)
  get_param := fun _ m _ => (m, none, -5)
  string_at := fun _ _ => []
  float_addr := fun _ => 0
  strtof := fun _ => 0
  format_f := fun _ => []

end settings

/-! ## The line editor behind its event queue

Events for the control task wait in the queue of the event bus and reach
`CLI::handle_event` in the order in which they were posted; what the editor
posts while it handles an event joins the queue at its tail. -/

namespace control

/-- The editor, and the events posted to the control task and not yet
handled, oldest first. -/
structure System where
  cli : CLI
  queue : List Event
  deriving DecidableEq, Repr

/-- Something that happens to the system: another module or an interrupt
posts an event, or the control task takes the event at the front of the queue
and hands it to `CLI::handle_event` (a console read made while it is handled
returns `console_in`). -/
inductive Step where
  | post (evt : Event)
  | handle (console_in : List Nat)
  deriving DecidableEq, Repr

/-- The system after `CLI::init_control`; `none` if it raises a fault. -/
def System.start (cmds : Commands) : Option System :=
  match init_control cmds boot with
  | (_, .error _) => none
  | (s, .ok _) => some ⟨s, s.posted⟩

/-- One step of the system; `none` when `CLI::handle_event` raises a fault.
With an empty queue the control task has nothing to handle. -/
def System.step (cmds : Commands) (mem : Nat → List Nat) (y : System) : Step → Option System
  | .post evt => some ⟨y.cli, y.queue ++ [evt]⟩
  | .handle console_in =>
    match y.queue with
    | [] => some y
    | evt :: rest =>
      match handle_event cmds mem y.cli evt console_in with
      | (_, .error _) => none
      | (s, .ok _) => some ⟨s, rest ++ s.posted.drop y.cli.posted.length⟩

/-- A sequence of steps. -/
def System.run (cmds : Commands) (mem : Nat → List Nat) : System → List Step → Option System
  | y, [] => some y
  | y, x :: xs =>
    match System.step cmds mem y x with
    | none => none
    | some y1 => System.run cmds mem y1 xs

/-- The number of `control_UpdateCLIState` events in a queue. -/
def pending_updates (queue : List Event) : Nat :=
  (queue.filter (fun evt => evt.id == EventID.control_UpdateCLIState)).length

/-- No step is a post of `control_UpdateCLIState` by another module (the
editor alone posts this event). -/
def External (steps : List Step) : Prop :=
  ∀ evt, Step.post evt ∈ steps → evt.id ≠ EventID.control_UpdateCLIState

/-- The predicate `External` can be evaluated. -/
instance External.decidable : (steps : List Step) → Decidable (External steps)
  | [] => isTrue (fun _ h => by simp at h)
  | Step.handle c :: xs =>
    match External.decidable xs with
    | isTrue h => isTrue (fun evt he => by
        simp only [List.mem_cons] at he
        rcases he with he | he
        · cases he
        · exact h evt he)
    | isFalse h => isFalse (fun h2 => h (fun evt he => h2 evt (List.mem_cons_of_mem _ he)))
  | Step.post e :: xs =>
    match External.decidable xs with
    | isTrue h =>
      if hid : e.id = EventID.control_UpdateCLIState then
        isFalse (fun h2 => h2 e (List.mem_cons_self _ _) hid)
      else isTrue (fun evt he => by
        simp only [List.mem_cons] at he
        rcases he with he | he
        · cases he; exact hid
        · exact h evt he)
    | isFalse h => isFalse (fun h2 => h (fun evt he => h2 evt (List.mem_cons_of_mem _ he)))

/-- A key press is posted, the read `help`, CR is handled, and another key
press is posted. -/
def exampleSteps : List Step :=
  [Step.post ⟨EventID.control_UARTInput, 0⟩, Step.handle (str "help\r"),
   Step.post ⟨EventID.control_UARTInput, 0⟩]

end control

/-! ## Where the line editor touches its buffers

The arrays `current_cmd` and `last_cmd` have `CMD_STR_LEN + 1` elements. The
functions below list, for a call made in a given state, the indices the
source uses on `current_cmd` in an index expression or as the range of a
`strncpy`; a store past a list would go unnoticed in `List.set`, so the
indices are given on their own. -/

namespace control

/-- The indices of `current_cmd` that `attempt_completion` stores to: the
`remaining_len + 1` bytes of the `strncpy` at the cursor and the terminator
at `CMD_STR_LEN`; none when the function leaves before the copy. -/
def attempt_completion_indices (cmds : Commands) (s : CLI) : List Nat :=
  let size := cmds.names.length
  if ¬ 0 < size then [] else
  let cmd_len := strlen s.current_cmd
  match completion_scan s.current_cmd cmd_len cmds.names none with
  | none => []
  | some remaining_chars =>
    let remaining_len := strlen remaining_chars
    if ¬ cmd_len + remaining_len ≤ CMD_STR_LEN then [] else
    List.range' s.current_position (remaining_len + 1) ++ [CMD_STR_LEN]

/-- The indices of `current_cmd` that `process_character` stores to, those of
`attempt_completion` included when the character is a tab. -/
def process_character_indices (cmds : Commands) (s : CLI) (cmd_char : Nat) : List Nat :=
  let s0 : CLI :=
    { s with current_position :=
        if s.current_position > CMD_STR_LEN then CMD_STR_LEN else s.current_position }
  let s1 : CLI := { s0 with current_cmd := s0.current_cmd.set s0.current_position 0 }
  let newline := cmd_char == 13 || cmd_char == 10
  let tab := cmd_char == 9
  let backspace := cmd_char == 8 || cmd_char == 127
  if newline then [s0.current_position]
  else if tab then s0.current_position :: attempt_completion_indices cmds s1
  else if backspace && s1.current_position == 0 then [s0.current_position]
  else [s0.current_position, s1.current_position]

/-- The indices of `current_cmd` that `is_up_arrow` and `is_down_arrow` load
from when `process_input` calls them. -/
def arrow_indices (s : CLI) : List Nat :=
  if s.current_position < 2 then [] else [s.current_position - 2, s.current_position - 1]

/-- The buffers have the size of the arrays, the cursor is at most one past
`CMD_STR_LEN`, `last_cmd` holds a terminator, and the line before the
cursor holds no zero byte. -/
def CLI.Core (s : CLI) : Prop :=
  s.current_cmd.length = CMD_STR_LEN + 1 ∧ s.last_cmd.length = CMD_STR_LEN + 1 ∧
    s.current_position ≤ CMD_STR_LEN + 1 ∧ strlen s.last_cmd ≤ CMD_STR_LEN ∧
    ∀ c ∈ s.line, c ≠ 0

/-- The state between two events: `Core`, and outside `WaitingForInput` the
cursor is zero and, in `ExecutingCommand`, `current_cmd` holds a
terminator. -/
def CLI.Safe (s : CLI) : Prop :=
  s.Core ∧ (s.current_state ≠ CLIState.WaitingForInput → s.current_position = 0) ∧
    (s.current_state = CLIState.ExecutingCommand → strlen s.current_cmd ≤ CMD_STR_LEN)

end control
namespace event

/-! ### Theorems about the event bus -/

theorem owner_lt (cfg : Config) (hwf : cfg.WF) (e : Nat) (he : e < cfg.NumEvents) :
    owner cfg e < cfg.numTasks := by
  unfold owner
  split
  · exact hwf.1
  · rename_i h
    have hlt : e - 1 < cfg.events.length := by
      unfold Config.NumEvents at he; omega
    rw [List.getD_eq_getElem _ _ hlt]
    exact hwf.2.1 _ (List.getElem_mem _)

theorem foldl_init_task (n : Nat) (s : State) :
    let s1 := (List.range n).foldl init_task s
    s1.event_task_assoc = s.event_task_assoc ∧ s1.signals = s.signals ∧
    ∀ t, t < n → s1.queue_fronts t = 0 ∧ s1.queue_rears t = 0 ∧
      ∀ i, i < QUEUE_SIZE → (s1.task_queues t i).task = t := by
  induction n with
  | zero => simp
  | succ n ih =>
    simp only [List.range_succ, List.foldl_append, List.foldl_cons, List.foldl_nil]
    obtain ⟨h1, h2, h3⟩ := ih
    refine ⟨by simpa [init_task] using h1, by simpa [init_task] using h2, ?_⟩
    intro t ht
    by_cases hn : t = n
    · subst hn
      simp [init_task]
      intro i hi
      simp [hi]
    · have ht2 : t < n := by omega
      obtain ⟨a, b, c⟩ := h3 t ht2
      simp [init_task, Function.update_noteq hn]
      exact ⟨a, b, c⟩

theorem foldl_init_assoc (l : List Nat) (n : Nat) (s : State) :
    let s1 := (l.enumFrom n).foldl init_assoc s
    s1.queue_fronts = s.queue_fronts ∧ s1.queue_rears = s.queue_rears ∧
    s1.task_queues = s.task_queues ∧ s1.signals = s.signals ∧
    (∀ e, e < n + 1 → s1.event_task_assoc e = s.event_task_assoc e) ∧
    (∀ k, k < l.length → s1.event_task_assoc (n + k + 1) = l.getD k 0) := by
  induction l generalizing n s with
  | nil => simp
  | cons a l ih =>
    simp only [List.enumFrom_cons, List.foldl_cons]
    obtain ⟨h1, h2, h3, h4, h5, h6⟩ := ih (n + 1) (init_assoc s (n, a))
    refine ⟨by simpa [init_assoc] using h1, by simpa [init_assoc] using h2,
      by simpa [init_assoc] using h3, by simpa [init_assoc] using h4, ?_, ?_⟩
    · intro e he
      rw [h5 e (by omega)]
      simp only [init_assoc]
      exact Function.update_noteq (by omega) _ _
    · intro k hk
      cases k with
      | zero =>
        rw [h5 (n + 0 + 1) (by omega)]
        simp [init_assoc]
      | succ k =>
        have := h6 k (by simpa using hk)
        simp only [List.getD_cons_succ]
        rw [← this]
        congr 1
        omega

theorem init_ok (cfg : Config) (hwf : cfg.WF) (s0 : State) : (init cfg s0).2 = .ok () := by
  simp [init, hwf.2.2]

theorem init_fst (cfg : Config) (hwf : cfg.WF) (s0 : State) :
    (init cfg s0).1 =
      (cfg.events.enumFrom 0).foldl init_assoc ((List.range cfg.numTasks).foldl init_task s0) := by
  simp [init, hwf.2.2, List.enum]

theorem inv_init (cfg : Config) (hwf : cfg.WF) (s0 : State)
    (h0 : s0.event_task_assoc NullEvent = 0) : Inv cfg (init cfg s0).1 emptyFifo := by
  have hA := foldl_init_task cfg.numTasks s0
  have hB := foldl_init_assoc cfg.events 0 ((List.range cfg.numTasks).foldl init_task s0)
  simp only at hA hB
  obtain ⟨a1, a2, a3⟩ := hA
  obtain ⟨b1, b2, b3, b4, b5, b6⟩ := hB
  rw [init_fst cfg hwf]
  constructor
  · intro e he
    unfold owner
    by_cases h : e = 0
    · subst h
      rw [b5 0 (by omega), a1]
      simpa using h0
    · have hlen : e - 1 < cfg.events.length := by
        unfold Config.NumEvents at he; omega
      have := b6 (e - 1) hlen
      have e1 : 0 + (e - 1) + 1 = e := by omega
      rw [e1] at this
      rw [this]
      simp [h]
  · intro t ht
    obtain ⟨c1, c2, c3⟩ := a3 t ht
    simp [emptyFifo, b1, b2, b3, c1, c2]
    exact c3


theorem post_refines (cfg : Config) (hwf : cfg.WF) (s : State) (q : Fifo) (e a : Nat)
    (hinv : Inv cfg s q) (he : e < cfg.NumEvents)
    (hlen : (q (owner cfg e)).length + 1 ≤ QUEUE_SIZE - 1) :
    (post cfg s e a).2 = .ok () ∧
    Inv cfg (post cfg s e a).1 (Function.update q (owner cfg e) (q (owner cfg e) ++ [(e, a)])) := by
  obtain ⟨hassoc, hq⟩ := hinv
  have hown := hassoc e he
  have hlt := owner_lt cfg hwf e he
  obtain ⟨h1, h2, h3, h4⟩ := hq (owner cfg e) hlt
  simp only [QUEUE_SIZE] at h1 h2 h3 h4 hlen
  have hno : ¬ ((s.queue_rears (owner cfg e) % 256 + 1) % 256 = s.queue_fronts (owner cfg e) % 256) := by
    omega
  unfold post
  simp only [he, not_true_eq_false, if_false, hown, QUEUE_SIZE, COUNTER_MOD, ne_eq, hno,
    not_false_eq_true, not_not, true_and]
  refine ⟨hassoc, ?_⟩
  intro t ht
  by_cases htt : t = owner cfg e
  · subst htt
    simp only [Function.update_same, List.length_append, List.length_singleton, QUEUE_SIZE]
    refine ⟨by omega, by omega, ?_, ?_⟩
    · intro i hi
      by_cases hip : i = s.queue_rears (owner cfg e) % 256
      · subst hip
        simp only [Function.update_same]
        exact h3 _ hi
      · simp only [Function.update_noteq hip]
        exact h3 _ hi
    · intro k hk
      by_cases hkl : k < (q (owner cfg e)).length
      · have hne : (s.queue_fronts (owner cfg e) + k) % 256 ≠ s.queue_rears (owner cfg e) % 256 := by
          omega
        simp only [Function.update_noteq hne]
        rw [List.getD_append _ _ _ _ hkl]
        exact h4 k hkl
      · have hkeq : k = (q (owner cfg e)).length := by omega
        have hidx : (s.queue_fronts (owner cfg e) + k) % 256 = s.queue_rears (owner cfg e) % 256 := by
          omega
        rw [hidx, hkeq]
        simp only [Function.update_same]
        rw [List.getD_append_right _ _ _ _ (le_refl _)]
        simp [he]
  · simp only [Function.update_noteq htt]
    exact hq t ht

theorem handle_refines (cfg : Config) (s : State) (q : Fifo) (t : Nat)
    (hinv : Inv cfg s q) (ht : t < cfg.numTasks) :
    (handle cfg s t).2 = .ok (match q t with
        | [] => { id := NullEvent, task := cfg.numTasks, arg := 0 }
        | x :: _ => { id := x.1, task := t, arg := x.2 }) ∧
    (q t = [] → (handle cfg s t).1 = s) ∧
    Inv cfg (handle cfg s t).1 (Function.update q t (q t).tail) := by
  obtain ⟨hassoc, hq⟩ := hinv
  obtain ⟨h1, h2, h3, h4⟩ := hq t ht
  simp only [QUEUE_SIZE] at h1 h2 h3 h4
  cases hqt : q t with
  | nil =>
    rw [hqt] at h2
    have heq : s.queue_fronts t % 256 = s.queue_rears t % 256 := by
      simp only [List.length_nil] at h2; omega
    have hst : handle cfg s t =
        (s, .ok { id := NullEvent, task := cfg.numTasks, arg := 0 }) := by
      unfold handle
      simp [ht, QUEUE_SIZE, heq, NullEvent, Config.NumEvents]
    rw [hst]
    refine ⟨rfl, fun _ => rfl, hassoc, ?_⟩
    intro t2 ht2
    by_cases htt : t2 = t
    · subst htt
      simp only [Function.update_same, List.tail_nil]
      have := hq t2 ht2
      rw [hqt] at this
      exact this
    · simp only [Function.update_noteq htt]
      exact hq t2 ht2
  | cons x rest =>
    rw [hqt] at h1 h2 h4
    simp only [List.length_cons] at h1 h2 h4
    have hne : s.queue_fronts t % 256 ≠ s.queue_rears t % 256 := by omega
    have h40 := h4 0 (by omega)
    simp only [Nat.add_zero, List.getD_cons_zero] at h40
    have h3f := h3 (s.queue_fronts t % 256) (by omega)
    have hst : handle cfg s t =
        ({ s with queue_fronts :=
            Function.update s.queue_fronts t ((s.queue_fronts t + 1) % COUNTER_MOD) },
          .ok { id := x.1, task := t, arg := x.2 }) := by
      have hslot : s.task_queues t (s.queue_fronts t % 256) = { id := x.1, task := t, arg := x.2 } := by
        cases hs : s.task_queues t (s.queue_fronts t % 256) with
        | mk i tk ar =>
          rw [hs] at h40 h3f
          simp only at h40 h3f
          rw [h40.1, h40.2.1, h3f]
      unfold handle
      simp only [ht, not_true_eq_false, if_false, QUEUE_SIZE, ne_eq, hne, not_false_eq_true,
        if_true, hslot, h40.2.2, le_of_lt ht]
    rw [hst]
    refine ⟨rfl, fun h => by simp at h, hassoc, ?_⟩
    intro t2 ht2
    by_cases htt : t2 = t
    · subst htt
      simp only [Function.update_same, List.tail_cons, QUEUE_SIZE, COUNTER_MOD]
      refine ⟨by omega, by omega, h3, ?_⟩
      intro k hk
      have h4k := h4 (k + 1) (by omega)
      simp only [List.getD_cons_succ] at h4k
      have hidx : ((s.queue_fronts t2 + 1) % 65536 + k) % 256 = (s.queue_fronts t2 + (k + 1)) % 256 := by
        omega
      rw [hidx]
      exact h4k
    · simp only [Function.update_noteq htt]
      exact hq t2 ht2

theorem step_refines (cfg : Config) (hwf : cfg.WF) (s : State) (q : Fifo) (op : Op)
    (ops : List Op) (hinv : Inv cfg s q) (hb : Bounded cfg q (op :: ops)) :
    (step cfg s op).2 = (specStep cfg q op).2 ∧
    Inv cfg (step cfg s op).1 (specStep cfg q op).1 ∧
    Bounded cfg (specStep cfg q op).1 ops := by
  cases op with
  | post e a =>
    obtain ⟨he, hlen, hrest⟩ := hb
    obtain ⟨r1, r2⟩ := post_refines cfg hwf s q e a hinv he hlen
    exact ⟨by simp only [step, specStep, r1], r2, hrest⟩
  | handle t =>
    obtain ⟨ht, hrest⟩ := hb
    obtain ⟨r1, _, r3⟩ := handle_refines cfg s q t hinv ht
    refine ⟨?_, ?_, hrest⟩
    · simp only [step, specStep, r1]
      cases q t <;> rfl
    · simp only [step, specStep]
      cases hqt : q t with
      | nil =>
        rw [hqt] at r3
        simp only [List.tail_nil] at r3
        have : Function.update q t [] = q := by
          rw [← hqt]; exact Function.update_eq_self t q
        rw [this] at r3
        exact r3
      | cons x rest =>
        rw [hqt] at r3
        exact r3

theorem run_refines (cfg : Config) (hwf : cfg.WF) (ops : List Op) (s : State) (q : Fifo)
    (hinv : Inv cfg s q) (hb : Bounded cfg q ops) :
    (run cfg s ops).2 = (specRun cfg q ops).2 ∧
    Inv cfg (run cfg s ops).1 (specRun cfg q ops).1 := by
  induction ops generalizing s q with
  | nil => exact ⟨rfl, hinv⟩
  | cons op ops ih =>
    obtain ⟨r1, r2, r3⟩ := step_refines cfg hwf s q op ops hinv hb
    obtain ⟨i1, i2⟩ := ih (step cfg s op).1 (specStep cfg q op).1 r2 r3
    exact ⟨by simp only [run, specRun, r1, i1], by simpa only [run, specRun] using i2⟩


theorem postAll_refines (cfg : Config) (hwf : cfg.WF) (t : Nat) (es : List (Nat × Nat))
    (s : State) (q : Fifo) (hinv : Inv cfg s q)
    (hall : ∀ y ∈ es, y.1 < cfg.NumEvents ∧ owner cfg y.1 = t)
    (hlen : (q t).length + es.length ≤ QUEUE_SIZE - 1) :
    (postAll cfg s es).2 = List.replicate es.length (.ok ()) ∧
    Inv cfg (postAll cfg s es).1 (Function.update q t (q t ++ es)) := by
  induction es generalizing s q with
  | nil =>
    simp only [postAll, List.length_nil, List.replicate_zero, List.append_nil, true_and]
    rw [Function.update_eq_self]
    exact hinv
  | cons x xs ih =>
    obtain ⟨hx1, hx2⟩ := hall x (List.mem_cons_self _ _)
    simp only [List.length_cons] at hlen
    obtain ⟨r1, r2⟩ := post_refines cfg hwf s q x.1 x.2 hinv hx1 (by rw [hx2]; omega)
    rw [hx2] at r2
    have hall2 : ∀ y ∈ xs, y.1 < cfg.NumEvents ∧ owner cfg y.1 = t :=
      fun y hy => hall y (List.mem_cons_of_mem _ hy)
    obtain ⟨i1, i2⟩ := ih (post cfg s x.1 x.2).1 _ r2 hall2
      (by simp only [Function.update_same, List.length_append, List.length_singleton]; omega)
    simp only [Function.update_same, Function.update_idem, List.append_assoc,
      List.singleton_append] at i2
    refine ⟨?_, i2⟩
    simp only [postAll, r1, i1, List.length_cons, List.replicate_succ]

theorem handles_refines (cfg : Config) (t : Nat) (ht : t < cfg.numTasks) (n : Nat)
    (s : State) (q : Fifo) (hinv : Inv cfg s q) :
    Inv cfg (run cfg s (List.replicate n (.handle t))).1 (Function.update q t ((q t).drop n)) := by
  induction n generalizing s q with
  | zero =>
    simp only [List.replicate_zero, run, List.drop_zero]
    rw [Function.update_eq_self]
    exact hinv
  | succ n ih =>
    obtain ⟨_, _, r3⟩ := handle_refines cfg s q t hinv ht
    have := ih (handle cfg s t).1 _ r3
    simp only [Function.update_same, Function.update_idem, List.drop_tail] at this
    simpa only [List.replicate_succ, run, step] using this

theorem post_overflow_iff (cfg : Config) (s : State) (e a : Nat) :
    (post cfg s e a).2 = .error .QueueOverflow ↔
      (e < cfg.NumEvents ∧
        (s.queue_rears (get_associated_task s e) % QUEUE_SIZE + 1) % QUEUE_SIZE =
          s.queue_fronts (get_associated_task s e) % QUEUE_SIZE) := by
  unfold post get_associated_task
  by_cases he : e < cfg.NumEvents
  · simp only [he, not_true_eq_false, if_false, ne_eq, not_not, true_and]
    split
    · rename_i hc
      exact ⟨(fun _ => hc), (fun _ => rfl)⟩
    · rename_i hc
      exact ⟨(fun h => by cases h), (fun h => absurd h hc)⟩
  · simp only [he, not_false_eq_true, if_true, false_and, iff_false]
    intro h
    cases h

theorem post_frame (cfg : Config) (s : State) (e a : Nat) :
    (post cfg s e a).1.event_task_assoc = s.event_task_assoc ∧
    (post cfg s e a).1.queue_fronts = s.queue_fronts ∧
    (∀ t2, t2 ≠ get_associated_task s e →
      (post cfg s e a).1.queue_rears t2 = s.queue_rears t2 ∧
      (post cfg s e a).1.task_queues t2 = s.task_queues t2) ∧
    (∀ i, i ≠ s.queue_rears (get_associated_task s e) % QUEUE_SIZE →
      (post cfg s e a).1.task_queues (get_associated_task s e) i =
        s.task_queues (get_associated_task s e) i) ∧
    ((post cfg s e a).2 = .ok () →
      (post cfg s e a).1.signals =
        s.signals ++ [(get_associated_task s e, task.Signal.GlobalEvent)]) ∧
    ((post cfg s e a).2 ≠ .ok () → (post cfg s e a).1.signals = s.signals) := by
  unfold post get_associated_task
  by_cases he : e < cfg.NumEvents
  · simp only [he, not_true_eq_false, if_false, ne_eq, not_not]
    split
    · refine ⟨rfl, rfl, ?_, ?_, ?_, ?_⟩
      · intro t2 ht2
        exact ⟨Function.update_noteq ht2 _ _, rfl⟩
      · intro i _
        rfl
      · intro h
        cases h
      · intro _
        rfl
    · refine ⟨rfl, rfl, ?_, ?_, ?_, ?_⟩
      · intro t2 ht2
        exact ⟨Function.update_noteq ht2 _ _, Function.update_noteq ht2 _ _⟩
      · intro i hi
        simp only [Function.update_same]
        exact Function.update_noteq hi _ _
      · intro _
        rfl
      · intro h
        exact absurd rfl h
  · simp [he]

/-- C1: `event::post` and `event::handle` implement one FIFO queue per task.
Starting from `event::init`, for every sequence of `post` and `handle` calls
in which no ring ever holds more than `QUEUE_SIZE - 1` undelivered events,
no call raises a fault and the calls observe exactly what the per-task FIFO
`specRun` observes: each `handle t` returns the oldest undelivered event
posted to `t` with its id, its argument and task `t`, so every posted event
is returned once and in order. When `t` has no undelivered event `handle t`
returns the `NullEvent` sentinel and leaves the whole state, front and rear
indices included, as it was. -/
theorem post_handle_fifo (cfg : Config) (hwf : cfg.WF) (s0 : State)
    (h0 : s0.event_task_assoc NullEvent = 0) (ops : List Op)
    (hb : Bounded cfg emptyFifo ops) :
    (init cfg s0).2 = .ok () ∧
    (run cfg (init cfg s0).1 ops).2 = (specRun cfg emptyFifo ops).2 ∧
    ∀ t, t < cfg.numTasks → (specRun cfg emptyFifo ops).1 t = [] →
      handle cfg (run cfg (init cfg s0).1 ops).1 t =
        ((run cfg (init cfg s0).1 ops).1,
          .ok { id := NullEvent, task := cfg.numTasks, arg := 0 }) := by
  obtain ⟨r1, r2⟩ := run_refines cfg hwf ops _ _ (inv_init cfg hwf s0 h0) hb
  refine ⟨init_ok cfg hwf s0, r1, ?_⟩
  intro t ht hempty
  obtain ⟨a1, a2, _⟩ := handle_refines cfg _ _ t r2 ht
  rw [hempty] at a1
  exact Prod.ext (a2 hempty) a1

/-- C2: `event::post` raises `QueueOverflow` exactly when its id is valid and
the claimed slot `pos = rear mod QUEUE_SIZE` satisfies
`(pos + 1) mod QUEUE_SIZE = front mod QUEUE_SIZE`. In particular, after
`event::init` and with no `handle` call, `QUEUE_SIZE - 1` posts to one task
all succeed and the next post to that task raises the fault. -/
theorem post_overflow (cfg : Config) (hwf : cfg.WF) (s0 : State)
    (h0 : s0.event_task_assoc NullEvent = 0) (s : State) (e a : Nat) (t : Nat)
    (es : List (Nat × Nat)) (x : Nat × Nat) (hlen : es.length = QUEUE_SIZE - 1)
    (hall : ∀ y ∈ x :: es, y.1 < cfg.NumEvents ∧ get_associated_task (init cfg s0).1 y.1 = t) :
    ((post cfg s e a).2 = .error .QueueOverflow ↔
      (e < cfg.NumEvents ∧
        (s.queue_rears (get_associated_task s e) % QUEUE_SIZE + 1) % QUEUE_SIZE =
          s.queue_fronts (get_associated_task s e) % QUEUE_SIZE)) ∧
    (postAll cfg (init cfg s0).1 es).2 = List.replicate (QUEUE_SIZE - 1) (.ok ()) ∧
    (post cfg (postAll cfg (init cfg s0).1 es).1 x.1 x.2).2 = .error .QueueOverflow := by
  have hinv := inv_init cfg hwf s0 h0
  have hall2 : ∀ y ∈ x :: es, y.1 < cfg.NumEvents ∧ owner cfg y.1 = t := by
    intro y hy
    obtain ⟨y1, y2⟩ := hall y hy
    exact ⟨y1, by rw [← hinv.1 y.1 y1]; exact y2⟩
  obtain ⟨r1, r2⟩ := postAll_refines cfg hwf t es _ _ hinv
    (fun y hy => hall2 y (List.mem_cons_of_mem _ hy))
    (by simp only [emptyFifo, List.length_nil]; omega)
  refine ⟨post_overflow_iff cfg s e a, by rw [r1, hlen], ?_⟩
  obtain ⟨hx1, hx2⟩ := hall2 x (List.mem_cons_self _ _)
  rw [post_overflow_iff]
  refine ⟨hx1, ?_⟩
  have hassoc := r2.1 x.1 hx1
  unfold get_associated_task
  rw [hassoc, hx2]
  have ht : t < cfg.numTasks := by rw [← hx2]; exact owner_lt cfg hwf x.1 hx1
  obtain ⟨_, b2, _, _⟩ := r2.2 t ht
  simp only [Function.update_same, emptyFifo, List.nil_append, hlen, QUEUE_SIZE] at b2 ⊢
  omega

/-- C3: after `event::init`, `get_associated_task` sends every event id to a
registered task and the event declared by line `k` of the build-time list to
the task of that line. A `post` leaves the association table, every front
index, and the rear index and slots of every other task unchanged, changes
at most the claimed slot of the owner ring, and records exactly one
`GlobalEvent` signal, to the owner, when it succeeds (none when it faults).
After any bounded history, once the events queued before it are handled, the
next `handle` of the owner returns the posted id, the posted argument and the
owner as task field. -/
theorem owner_map_post_frame (cfg : Config) (hwf : cfg.WF) (s0 : State)
    (h0 : s0.event_task_assoc NullEvent = 0) :
    (∀ e, e < cfg.NumEvents → get_associated_task (init cfg s0).1 e < cfg.numTasks) ∧
    (∀ k, k < cfg.events.length →
      get_associated_task (init cfg s0).1 (k + 1) = cfg.events.getD k 0) ∧
    (∀ (s : State) (e a : Nat),
      (post cfg s e a).1.event_task_assoc = s.event_task_assoc ∧
      (post cfg s e a).1.queue_fronts = s.queue_fronts ∧
      (∀ t2, t2 ≠ get_associated_task s e →
        (post cfg s e a).1.queue_rears t2 = s.queue_rears t2 ∧
        (post cfg s e a).1.task_queues t2 = s.task_queues t2) ∧
      (∀ i, i ≠ s.queue_rears (get_associated_task s e) % QUEUE_SIZE →
        (post cfg s e a).1.task_queues (get_associated_task s e) i =
          s.task_queues (get_associated_task s e) i) ∧
      ((post cfg s e a).2 = .ok () →
        (post cfg s e a).1.signals =
          s.signals ++ [(get_associated_task s e, task.Signal.GlobalEvent)]) ∧
      ((post cfg s e a).2 ≠ .ok () → (post cfg s e a).1.signals = s.signals)) ∧
    (∀ (ops : List Op) (e a : Nat), Bounded cfg emptyFifo ops → e < cfg.NumEvents →
      ((specRun cfg emptyFifo ops).1 (owner cfg e)).length + 1 ≤ QUEUE_SIZE - 1 →
      (post cfg (run cfg (init cfg s0).1 ops).1 e a).2 = .ok () ∧
      (handle cfg
        (run cfg (post cfg (run cfg (init cfg s0).1 ops).1 e a).1
          (List.replicate ((specRun cfg emptyFifo ops).1 (owner cfg e)).length
            (.handle (get_associated_task (init cfg s0).1 e)))).1
        (get_associated_task (init cfg s0).1 e)).2 =
        .ok { id := e, task := get_associated_task (init cfg s0).1 e, arg := a }) := by
  have hinv := inv_init cfg hwf s0 h0
  refine ⟨?_, ?_, post_frame cfg, ?_⟩
  · intro e he
    unfold get_associated_task
    rw [hinv.1 e he]
    exact owner_lt cfg hwf e he
  · intro k hk
    unfold get_associated_task
    rw [hinv.1 (k + 1) (by unfold Config.NumEvents; omega)]
    simp [owner]
  · intro ops e a hb he hlen
    have hown : get_associated_task (init cfg s0).1 e = owner cfg e := hinv.1 e he
    have ht := owner_lt cfg hwf e he
    rw [hown]
    obtain ⟨_, r2⟩ := run_refines cfg hwf ops _ _ hinv hb
    obtain ⟨p1, p2⟩ := post_refines cfg hwf _ _ e a r2 he hlen
    refine ⟨p1, ?_⟩
    have h3 := handles_refines cfg (owner cfg e) ht
      ((specRun cfg emptyFifo ops).1 (owner cfg e)).length _ _ p2
    simp only [Function.update_same, Function.update_idem, List.drop_left] at h3
    obtain ⟨a1, _, _⟩ := handle_refines cfg _ _ (owner cfg e) h3 ht
    simpa only [Function.update_same] using a1

theorem cfg0_wf : cfg0.WF := ⟨by decide, by decide, rfl⟩

/-- Two posts to task 1 followed by three handles: the events come back in
order and the third handle returns the sentinel. -/
theorem post_handle_fifo_witness :
    (run cfg0 (init cfg0 boot).1 [.post 1 7, .post 3 5, .handle 1, .handle 1, .handle 1]).2 =
      [.posted (.ok ()), .posted (.ok ()),
       .handled (.ok { id := 1, task := 1, arg := 7 }),
       .handled (.ok { id := 3, task := 1, arg := 5 }),
       .handled (.ok { id := NullEvent, task := 2, arg := 0 })] :=
  (post_handle_fifo cfg0 cfg0_wf boot rfl
    [.post 1 7, .post 3 5, .handle 1, .handle 1, .handle 1] (by decide)).2.1

/-- After 255 posts to task 1 the next post to task 1 raises `QueueOverflow`. -/
theorem post_overflow_witness :
    (postAll cfg0 (init cfg0 boot).1 (List.replicate 255 (1, 0))).2 =
        List.replicate (QUEUE_SIZE - 1) (.ok ()) ∧
      (post cfg0 (postAll cfg0 (init cfg0 boot).1 (List.replicate 255 (1, 0))).1 3 9).2 =
        .error .QueueOverflow :=
  (post_overflow cfg0 cfg0_wf boot rfl boot 1 0 1 (List.replicate 255 (1, 0)) (3, 9)
    (by rw [List.length_replicate]; rfl)
    (by
      intro y hy
      simp only [List.mem_cons, List.mem_replicate] at hy
      rcases hy with h | ⟨_, h⟩ <;> subst h <;> exact ⟨by decide, rfl⟩)).2

/-- The second line of the event list of `cfg0` is owned by task 0. -/
theorem owner_map_post_frame_witness :
    get_associated_task (init cfg0 boot).1 (1 + 1) = 0 :=
  (owner_map_post_frame cfg0 cfg0_wf boot rfl).2.1 1 (by decide)

end event

namespace control

/-! ### Theorems about the command-line control -/

theorem cstr_nonzero (p : List Nat) : ∀ c ∈ cstr p, c ≠ 0 := by
  intro c hc
  have := List.mem_takeWhile_imp hc
  simpa using this

theorem cstr_append_zero (a r : List Nat) (ha : ∀ c ∈ a, c ≠ 0) : cstr (a ++ 0 :: r) = a := by
  induction a with
  | nil => simp [cstr]
  | cons x xs ih =>
    have hx : x ≠ 0 := ha x (List.mem_cons_self _ _)
    have := ih (fun c hc => ha c (List.mem_cons_of_mem _ hc))
    simp only [cstr] at this ⊢
    simp [List.takeWhile_cons, hx, this]

theorem cstr_of_nonzero (a : List Nat) (ha : ∀ c ∈ a, c ≠ 0) : cstr a = a := by
  induction a with
  | nil => simp [cstr]
  | cons x xs ih =>
    have hx : x ≠ 0 := ha x (List.mem_cons_self _ _)
    have := ih (fun c hc => ha c (List.mem_cons_of_mem _ hc))
    simp only [cstr] at this ⊢
    simp [List.takeWhile_cons, hx, this]

theorem cstr_split (p : List Nat) : p = cstr p ∨ ∃ r, p = cstr p ++ 0 :: r := by
  induction p with
  | nil => left; simp [cstr]
  | cons x xs ih =>
    by_cases hx : x = 0
    · right
      subst hx
      exact ⟨xs, by simp [cstr]⟩
    · have hc : cstr (x :: xs) = x :: cstr xs := by simp [cstr, List.takeWhile_cons, hx]
      rcases ih with h | ⟨r, h⟩
      · left; rw [hc, ← h]
      · right; exact ⟨r, by rw [hc, List.cons_append, ← h]⟩

/-- Writing a terminator at or after the end of the string keeps the string. -/
theorem cstr_append_zero_set (a r : List Nat) (ha : ∀ c ∈ a, c ≠ 0) (i : Nat)
    (hi : a.length ≤ i) : cstr ((a ++ 0 :: r).set i 0) = a := by
  rw [List.set_append_right _ _ hi]
  cases h : i - a.length with
  | zero => simpa using cstr_append_zero a r ha
  | succ k => simpa using cstr_append_zero a (r.set k 0) ha

/-- Writing a terminator at the cursor leaves the line as the string. -/
theorem cstr_set_zero (l : List Nat) (i : Nat) (hi : i < l.length)
    (hnz : ∀ c ∈ l.take i, c ≠ 0) : cstr (l.set i 0) = l.take i := by
  rw [List.set_eq_take_append_cons_drop, if_pos hi]
  exact cstr_append_zero _ _ hnz

theorem cstr_drop (n : List Nat) (k : Nat) (hk : k ≤ strlen n) :
    cstr (n.drop k) = (cstr n).drop k := by
  induction n generalizing k with
  | nil => simp [cstr]
  | cons x xs ih =>
    cases k with
    | zero => simp
    | succ k =>
      by_cases hx : x = 0
      · subst hx
        simp [strlen, cstr] at hk
      · have hc : cstr (x :: xs) = x :: cstr xs := by simp [cstr, List.takeWhile_cons, hx]
        have hk2 : k ≤ strlen xs := by
          unfold strlen at hk ⊢
          rw [hc] at hk
          simpa using hk
        simp only [List.drop_succ_cons, hc]
        exact ih k hk2

/-- The bytes `strncpy` leaves when it copies a whole string with its
terminator. -/
theorem strncpy_fits (dst : List Nat) (off : Nat) (src : List Nat) (n : Nat)
    (hn : strlen src < n) :
    strncpy dst off src n =
      dst.take off ++ (cstr src ++ 0 :: (List.replicate (n - strlen src - 1) 0 ++
        dst.drop (off + n))) := by
  unfold strncpy
  have h1 : (cstr src).take n = cstr src := List.take_of_length_le (by unfold strlen at hn; omega)
  have h2 : List.replicate (n - strlen src) 0 = 0 :: List.replicate (n - strlen src - 1) 0 := by
    have : n - strlen src = (n - strlen src - 1) + 1 := by omega
    conv => lhs; rw [this, List.replicate_succ]
  rw [h1, h2]
  simp

theorem strncpy_length (dst : List Nat) (src : List Nat) (n : Nat) (hd : dst.length = n)
    (hn : strlen src < n) : (strncpy dst 0 src n).length = n := by
  rw [strncpy_fits dst 0 src n hn]
  simp only [List.take_zero, List.nil_append, List.length_append, List.length_cons,
    List.length_replicate, List.length_drop, hd]
  unfold strlen at hn ⊢
  omega

/-- Copying a buffer over a whole array, as `save_last_cmd` and
`load_last_cmd` do, leaves the string of the source. -/
theorem cstr_copy (dst src : List Nat) (hs : strlen src ≤ CMD_STR_LEN) :
    cstr ((strncpy dst 0 src (CMD_STR_LEN + 1)).set CMD_STR_LEN 0) = cstr src := by
  rw [strncpy_fits dst 0 src (CMD_STR_LEN + 1) (by omega)]
  simp only [List.take_zero, List.nil_append]
  exact cstr_append_zero_set _ _ (cstr_nonzero src) _ hs

theorem copy_length (dst src : List Nat) (hd : dst.length = CMD_STR_LEN + 1)
    (hs : strlen src ≤ CMD_STR_LEN) :
    ((strncpy dst 0 src (CMD_STR_LEN + 1)).set CMD_STR_LEN 0).length = CMD_STR_LEN + 1 := by
  rw [List.length_set]
  exact strncpy_length dst src _ hd (by omega)

theorem getD_strlen (p : List Nat) : p.getD (strlen p) 0 = 0 := by
  rcases cstr_split p with h | ⟨r, h⟩
  · have : strlen p = p.length := by unfold strlen; rw [← h]
    rw [this]
    simp
  · have hl : strlen p = (cstr p).length := rfl
    rw [hl]
    conv => lhs; arg 1; rw [h]
    simp [List.getD_eq_getElem?_getD, List.getElem?_append_right (le_refl _)]

theorem getD_lt_strlen (p : List Nat) (i : Nat) (hi : i < strlen p) :
    p.getD i 0 = (cstr p).getD i 0 := by
  rcases cstr_split p with h | ⟨r, h⟩
  · rw [← h]
  · conv => lhs; arg 1; rw [h]
    unfold strlen at hi
    simp [List.getD_eq_getElem?_getD, List.getElem?_append_left hi]

theorem find_command_cond (cmd name : List Nat) :
    (strncmp_eq cmd name (strlen name) && decide (strlen cmd ≥ strlen name) &&
      (if decide (strlen cmd ≥ strlen name) = true then
        cmd.getD (strlen name) 0 == 32 || cmd.getD (strlen name) 0 == 0
      else false)) = true ↔ Resolves cmd name := by
  unfold Resolves strncmp_eq
  have htk : (cstr name).take (strlen name) = cstr name := by
    unfold strlen; simp
  rw [htk]
  constructor
  · intro h
    simp only [Bool.and_eq_true, beq_iff_eq, decide_eq_true_eq] at h
    obtain ⟨⟨h1, h2⟩, h3⟩ := h
    simp only [h2, decide_True, if_true, Bool.or_eq_true, beq_iff_eq] at h3
    exact ⟨h1, h3⟩
  · intro ⟨h1, h3⟩
    have h2 : strlen cmd ≥ strlen name := by
      have := congrArg List.length h1
      simp only [List.length_take] at this
      unfold strlen
      omega
    simp only [Bool.and_eq_true, beq_iff_eq, decide_eq_true_eq, h1, h2, decide_True, if_true,
      Bool.or_eq_true, true_and]
    exact h3

theorem find_command_none (cmd : List Nat) (names : List (List Nat)) (k : Nat) :
    find_command cmd names k = none ↔ ∀ name ∈ names, ¬ Resolves cmd name := by
  induction names generalizing k with
  | nil => simp [find_command]
  | cons n rest ih =>
    unfold find_command
    simp only []
    by_cases hr : Resolves cmd n
    · have := (find_command_cond cmd n).mpr hr
      rw [if_pos this]
      simp [hr]
    · have : ¬ ((strncmp_eq cmd n (strlen n) && decide (strlen cmd ≥ strlen n) &&
          (if decide (strlen cmd ≥ strlen n) = true then
            cmd.getD (strlen n) 0 == 32 || cmd.getD (strlen n) 0 == 0
          else false)) = true) := fun h => hr ((find_command_cond cmd n).mp h)
      rw [if_neg this, ih]
      simp only [List.mem_cons, forall_eq_or_imp, hr, not_false_eq_true, true_and]

theorem find_command_some (cmd : List Nat) (names : List (List Nat)) (k i : Nat)
    (hi : i < names.length) (hres : Resolves cmd (names.getD i []))
    (hfirst : ∀ j, j < i → ¬ Resolves cmd (names.getD j [])) :
    find_command cmd names k = some (k + i) := by
  induction names generalizing k i with
  | nil => simp at hi
  | cons n rest ih =>
    unfold find_command
    simp only []
    cases i with
    | zero =>
      simp only [List.getD_cons_zero] at hres
      rw [if_pos ((find_command_cond cmd n).mpr hres)]
      rfl
    | succ i =>
      have h0 := hfirst 0 (by omega)
      simp only [List.getD_cons_zero] at h0
      have : ¬ ((strncmp_eq cmd n (strlen n) && decide (strlen cmd ≥ strlen n) &&
          (if decide (strlen cmd ≥ strlen n) = true then
            cmd.getD (strlen n) 0 == 32 || cmd.getD (strlen n) 0 == 0
          else false)) = true) := fun h => h0 ((find_command_cond cmd n).mp h)
      rw [if_neg this]
      simp only [List.getD_cons_succ] at hres
      have hf2 : ∀ j, j < i → ¬ Resolves cmd (rest.getD j []) := by
        intro j hj
        have := hfirst (j + 1) (by omega)
        simpa only [List.getD_cons_succ] using this
      rw [ih (k + 1) i (by simpa using hi) hres hf2]
      congr 1
      omega

/-- C4: command resolution of `execute_command`. For every line buffer and
every command table, if position `i` is the first in table order whose name
resolves the buffer (the name is a beginning of the buffer string and the
buffer byte right after the name is a space or the terminator), then the
call succeeds and invokes exactly one command function, the one at position
`i`; if no name resolves the buffer, no command function is invoked (so the
buffer `helpme` does not run `help`). -/
theorem execute_command_resolution (cmds : Commands) (s : CLI) :
    (∀ i, i < cmds.names.length → Resolves s.current_cmd (cmds.names.getD i []) →
      (∀ j, j < i → ¬ Resolves s.current_cmd (cmds.names.getD j [])) →
      (execute_command cmds s).2 = .ok () ∧
      ∃ c, (execute_command cmds s).1.calls = s.calls ++ [c] ∧ c.command_pos = i) ∧
    ((∀ name ∈ cmds.names, ¬ Resolves s.current_cmd name) →
      (execute_command cmds s).1.calls = s.calls) := by
  constructor
  · intro i hi hres hfirst
    have hf := find_command_some s.current_cmd cmds.names 0 i hi hres hfirst
    have hsz : 0 < cmds.names.length := by omega
    simp only [Nat.zero_add] at hf
    unfold execute_command
    simp only [hsz, not_true_eq_false, if_false, hf]
    exact ⟨trivial, _, rfl, rfl⟩
  · intro hnone
    have hf := (find_command_none s.current_cmd cmds.names 0).mpr hnone
    unfold execute_command
    by_cases hsz : 0 < cmds.names.length
    · simp only [hsz, not_true_eq_false, if_false, hf]
      split <;> rfl
    · simp only [hsz, not_false_eq_true, if_true]

/-- With the names `help`, `tab-one`, `tab-two`, the buffer `helpme` runs no
command. -/
theorem execute_command_resolution_witness :
    (execute_command testCommands (holding boot (str "helpme"))).1.calls = [] :=
  (execute_command_resolution testCommands (holding boot (str "helpme"))).2 (by decide)

/-- C8: invalid command. With a non-empty command table, when the buffer is
not empty and no command name resolves it, `execute_command` invokes no
command function and writes to the console, in this order, CR LF,
`Invalid Command`, CR LF, `Please type 'help' for a list of commands`,
CR LF. -/
theorem invalid_command_output (cmds : Commands) (s : CLI) (hsz : 0 < cmds.names.length)
    (hne : strlen s.current_cmd ≠ 0)
    (hnone : ∀ name ∈ cmds.names, ¬ Resolves s.current_cmd name) :
    (execute_command cmds s).2 = .ok () ∧
    (execute_command cmds s).1.calls = s.calls ∧
    (execute_command cmds s).1.console = s.console ++
      [[13, 10], str "Invalid Command", [13, 10],
        str "Please type " ++ [39] ++ str "help" ++ [39] ++ str " for a list of commands",
        [13, 10]] := by
  have hf := (find_command_none s.current_cmd cmds.names 0).mpr hnone
  unfold execute_command
  simp only [hsz, not_true_eq_false, if_false, hf, hne]
  refine ⟨trivial, rfl, ?_⟩
  have e1 : cstr [13, 10] = [13, 10] := by decide
  have e2 : cstr (str "Invalid Command") = str "Invalid Command" := by decide
  have e3 : cstr (str "Please type " ++ [39] ++ str "help" ++ [39] ++ str " for a list of commands") =
      str "Please type " ++ [39] ++ str "help" ++ [39] ++ str " for a list of commands" := by
    decide
  simp only [write_newline, console_set, save_last_cmd, e1, e2, e3, List.append_assoc]
  rfl

/-- The buffer `helpme` produces the invalid-command text. -/
theorem invalid_command_output_witness :
    (execute_command testCommands (holding boot (str "helpme"))).1.console =
      [[13, 10], str "Invalid Command", [13, 10],
        str "Please type " ++ [39] ++ str "help" ++ [39] ++ str " for a list of commands",
        [13, 10]] :=
  (invalid_command_output testCommands (holding boot (str "helpme")) (by decide) (by decide)
    (by decide)).2.2

/-- C9: what the code does at the failing input. For the buffer `help arg `
the command function receives `argc = 1` and `argv[0] = "arg "`, with the
trailing space left inside the argument; for the buffer `help  arg`, with two
spaces, it receives `argc = 2` and an empty `argv[0]`. -/
theorem get_args_trailing_space :
    (execute_command testCommands (holding boot (str "help arg "))).1.calls =
      [{ command_pos := 0, argc := 1, argv := [str "arg "] }] ∧
    (execute_command testCommands (holding boot (str "help  arg"))).1.calls =
      [{ command_pos := 0, argc := 2, argv := [[], str "arg"] }] := by
  decide

set_option maxRecDepth 100000 in
/-- C10: what the code does at the failing input. For the buffer `help`
followed by 121 spaces, 125 bytes in all, `get_args` counts 120 arguments and
stores 120 pointers, 57 of them past the end of its `arg_list` of
`arg_list_size = 63` slots, and the command function is invoked with
`argc = 120`. -/
theorem get_args_exceeds_arg_list :
    (get_args (holding boot (str "help" ++ List.replicate 121 32)).current_cmd).size = 120 ∧
    (get_args (holding boot (str "help" ++ List.replicate 121 32)).current_cmd).stores.length = 120 ∧
    arg_list_size = 63 ∧
    (str "help" ++ List.replicate 121 32).length ≤ CMD_STR_LEN ∧
    (execute_command testCommands
        (holding boot (str "help" ++ List.replicate 121 32))).1.calls.map Call.argc = [120] := by
  decide

theorem list_matches_loop_frame (cmd_len : Nat) (names : List (List Nat)) (s : CLI) :
    (list_matches_loop cmd_len s names).current_cmd = s.current_cmd ∧
    (list_matches_loop cmd_len s names).current_position = s.current_position ∧
    (list_matches_loop cmd_len s names).last_cmd = s.last_cmd ∧
    (list_matches_loop cmd_len s names).calls = s.calls ∧
    (list_matches_loop cmd_len s names).posted = s.posted ∧
    (list_matches_loop cmd_len s names).current_state = s.current_state := by
  induction names generalizing s with
  | nil => simp [list_matches_loop]
  | cons n rest ih =>
    unfold list_matches_loop
    split
    · simp
    · split
      · have := ih (console_set (console_set s n) (str " "))
        simpa [console_set] using this
      · exact ih s

theorem list_matches_frame (cmds : Commands) (s : CLI) (hsz : 0 < cmds.names.length) :
    (list_matches cmds s).2 = .ok () ∧
    (list_matches cmds s).1.current_cmd = s.current_cmd ∧
    (list_matches cmds s).1.current_position = s.current_position ∧
    (list_matches cmds s).1.last_cmd = s.last_cmd ∧
    (list_matches cmds s).1.calls = s.calls ∧
    (list_matches cmds s).1.posted = s.posted ∧
    (list_matches cmds s).1.current_state = s.current_state := by
  unfold list_matches
  simp only [hsz, not_true_eq_false, if_false]
  have := list_matches_loop_frame (strlen (write_newline s).current_cmd) cmds.names
    (write_newline s)
  simpa [console_set, write_newline, write_prompt] using this

theorem completion_scan_some (cmd line : List Nat) (hc : cstr cmd = line)
    (names : List (List Nat)) (r : List Nat) :
    completion_scan cmd line.length names (some r) =
      if completions names line = [] then some r else none := by
  induction names with
  | nil => simp [completion_scan, completions]
  | cons n rest ih =>
    unfold completion_scan
    have hm : strncmp_eq cmd n line.length = ((cstr n).take line.length == line) := by
      unfold strncmp_eq
      rw [hc, List.take_length]
      exact Bool.beq_comm
    simp only [hm, Option.isSome_some, Bool.not_true, Bool.and_false, Bool.false_eq_true,
      if_false, Bool.and_true]
    by_cases h : ((cstr n).take line.length == line) = true
    · simp [h, completions, List.filter_cons]
    · simp only [h, if_false, ih]
      simp [completions, List.filter_cons, h]

theorem completion_scan_none (cmd line : List Nat) (hc : cstr cmd = line)
    (names : List (List Nat)) :
    completion_scan cmd line.length names none =
      match completions names line with
      | [n] => some (n.drop line.length)
      | _ => none := by
  induction names with
  | nil => simp [completion_scan, completions]
  | cons n rest ih =>
    unfold completion_scan
    have hm : strncmp_eq cmd n line.length = ((cstr n).take line.length == line) := by
      unfold strncmp_eq
      rw [hc, List.take_length]
      exact Bool.beq_comm
    have hl : strlen cmd = line.length := by unfold strlen; rw [hc]
    simp only [hm, Option.isSome_none, Bool.not_false, Bool.and_true, Bool.and_false, hl]
    by_cases h : ((cstr n).take line.length == line) = true
    · simp only [h, if_true]
      rw [completion_scan_some cmd line hc]
      have hcomp : completions (n :: rest) line = n :: completions rest line := by
        simp [completions, List.filter_cons, h]
      rw [hcomp]
      cases hrest : completions rest line with
      | nil => simp
      | cons a b => simp
    · simp only [h, if_false, Bool.false_eq_true]
      rw [ih]
      have hcomp : completions (n :: rest) line = completions rest line := by
        simp [completions, List.filter_cons, h]
      rw [hcomp]

theorem take_strlen (p : List Nat) : p.take (strlen p) = cstr p := by
  rcases cstr_split p with h | ⟨r, h⟩
  · have : strlen p = p.length := by unfold strlen; rw [← h]
    rw [this, List.take_length]
    exact h
  · unfold strlen
    conv => lhs; arg 2; rw [h]
    simp

theorem attempt_completion_unique (cmds : Commands) (s : CLI) (line n : List Nat)
    (hsz : 0 < cmds.names.length) (hc : cstr s.current_cmd = line)
    (hp : s.current_position = line.length)
    (hcomp : completions cmds.names line = [n]) (hn : strlen n ≤ CMD_STR_LEN) :
    (attempt_completion cmds s).2 = .ok true ∧
    cstr (attempt_completion cmds s).1.current_cmd = cstr n ∧
    (attempt_completion cmds s).1.current_position = strlen n ∧
    (attempt_completion cmds s).1.console = s.console ∧
    (attempt_completion cmds s).1.last_cmd = s.last_cmd ∧
    (attempt_completion cmds s).1.calls = s.calls := by
  have hl : strlen s.current_cmd = line.length := by unfold strlen; rw [hc]
  have hmem : n ∈ completions cmds.names line := by rw [hcomp]; exact List.mem_singleton_self n
  have htake : (cstr n).take line.length = line := by
    have := (List.mem_filter.mp hmem).2
    simpa using this
  have hle : line.length ≤ strlen n := by
    have := congrArg List.length htake
    simp only [List.length_take] at this
    unfold strlen
    omega
  have hrem : cstr (n.drop line.length) = (cstr n).drop line.length := cstr_drop n _ hle
  have hrl : strlen (n.drop line.length) = strlen n - line.length := by
    unfold strlen
    rw [hrem, List.length_drop]
  have hscan := completion_scan_none s.current_cmd line hc cmds.names
  rw [hcomp] at hscan
  simp only at hscan
  unfold attempt_completion
  simp only [hsz, not_true_eq_false, if_false, hl, hscan, hrl]
  have hinv : line.length + (strlen n - line.length) ≤ CMD_STR_LEN := by omega
  simp only [hinv, not_true_eq_false, if_false, true_and]
  refine ⟨?_, by rw [hp]; omega, trivial⟩
  rw [strncpy_fits _ _ _ _ (by rw [hrl]; omega), hrem, hp]
  have h1 : s.current_cmd.take line.length = line := by
    rw [← hl, take_strlen, hc]
  rw [h1]
  have h2 : line ++ ((cstr n).drop line.length ++
      0 :: (List.replicate (strlen n - line.length + 1 - strlen (n.drop line.length) - 1) 0 ++
        s.current_cmd.drop (line.length + (strlen n - line.length + 1)))) =
      cstr n ++ 0 :: (List.replicate (strlen n - line.length + 1 - strlen (n.drop line.length) - 1) 0 ++
        s.current_cmd.drop (line.length + (strlen n - line.length + 1))) := by
    rw [← List.append_assoc]
    congr 1
    conv => lhs; arg 1; rw [← htake]
    exact List.take_append_drop _ _
  rw [h2]
  exact cstr_append_zero_set _ _ (cstr_nonzero n) _ hn

theorem attempt_completion_other (cmds : Commands) (s : CLI) (line : List Nat)
    (hsz : 0 < cmds.names.length) (hc : cstr s.current_cmd = line)
    (hcomp : (completions cmds.names line).length ≠ 1) :
    attempt_completion cmds s = (s, .ok false) := by
  have hl : strlen s.current_cmd = line.length := by unfold strlen; rw [hc]
  have hscan := completion_scan_none s.current_cmd line hc cmds.names
  have : completion_scan s.current_cmd line.length cmds.names none = none := by
    rw [hscan]
    cases h : completions cmds.names line with
    | nil => rfl
    | cons a b =>
      cases b with
      | nil => rw [h] at hcomp; simp at hcomp
      | cons c d => rfl
  unfold attempt_completion
  simp only [hsz, not_true_eq_false, if_false, hl, this]

theorem pair_of_snd {α β : Type} (p : α × β) (b : β) (h : p.2 = b) : p = (p.1, b) := by
  cases p
  simp only at h
  rw [h]

theorem line_of_le (s : CLI) (hpos : s.current_position ≤ CMD_STR_LEN) :
    s.line = s.current_cmd.take s.current_position := by
  unfold CLI.line
  rw [Nat.min_eq_left hpos]

theorem tab_unique (cmds : Commands) (s : CLI) (hwf : s.WF)
    (hpos : s.current_position ≤ CMD_STR_LEN) (hsz : 0 < cmds.names.length)
    (n : List Nat) (hcomp : completions cmds.names s.line = [n])
    (hn : strlen n ≤ CMD_STR_LEN) :
    (process_character cmds s 9).2 = .ok false ∧
    cstr (process_character cmds s 9).1.current_cmd = cstr n ∧
    (process_character cmds s 9).1.current_position = strlen n := by
  obtain ⟨hlen, _, hnz⟩ := hwf
  have hline := line_of_le s hpos
  have hp : ¬ s.current_position > CMD_STR_LEN := by omega
  have hc : cstr (s.current_cmd.set s.current_position 0) = s.line := by
    rw [hline]
    exact cstr_set_zero _ _ (by omega) (by rw [← hline]; exact hnz)
  have hpl : s.current_position = s.line.length := by
    rw [hline, List.length_take]
    omega
  obtain ⟨a1, a2, a3, _⟩ := attempt_completion_unique cmds
    { s with current_cmd := s.current_cmd.set s.current_position 0 } s.line n hsz hc hpl hcomp hn
  have heq := pair_of_snd _ _ a1
  unfold process_character
  simp only [hp, if_false]
  simp only [show ((9 : Nat) == 13 || (9 : Nat) == 10) = false by decide,
    show ((9 : Nat) == 9) = true by decide, Bool.false_eq_true, if_false, if_true]
  rw [heq]
  exact ⟨rfl, a2, a3⟩

theorem tab_other (cmds : Commands) (s : CLI) (hwf : s.WF)
    (hpos : s.current_position ≤ CMD_STR_LEN) (hsz : 0 < cmds.names.length)
    (hcomp : (completions cmds.names s.line).length ≠ 1) :
    (process_character cmds s 9).2 = .ok false ∧
    cstr (process_character cmds s 9).1.current_cmd = s.line ∧
    (process_character cmds s 9).1.current_position = s.current_position := by
  obtain ⟨hlen, _, hnz⟩ := hwf
  have hline := line_of_le s hpos
  have hp : ¬ s.current_position > CMD_STR_LEN := by omega
  have hc : cstr (s.current_cmd.set s.current_position 0) = s.line := by
    rw [hline]
    exact cstr_set_zero _ _ (by omega) (by rw [← hline]; exact hnz)
  have hatt := attempt_completion_other cmds
    { s with current_cmd := s.current_cmd.set s.current_position 0 } s.line hsz hc hcomp
  obtain ⟨b1, b2, b3, _⟩ := list_matches_frame cmds
    { s with current_cmd := s.current_cmd.set s.current_position 0 } hsz
  have heq := pair_of_snd _ _ b1
  unfold process_character
  simp only [hp, if_false]
  simp only [show ((9 : Nat) == 13 || (9 : Nat) == 10) = false by decide,
    show ((9 : Nat) == 9) = true by decide, Bool.false_eq_true, if_false, if_true]
  rw [hatt]
  simp only []
  rw [heq]
  refine ⟨rfl, ?_, b3⟩
  simp only [b2]
  exact hc

/-- C5, amended: tab completion on a well-formed editor whose cursor is within
`CMD_STR_LEN`, with a non-empty table of names of at most `CMD_STR_LEN`
characters. Processing HT never requests execution. When exactly one command
name begins with the line, the buffer becomes exactly that name and the
cursor its length; otherwise buffer and cursor are unchanged. So the buffer
is modified if and only if exactly one name begins with the line and that
name is not the line itself; the HT byte is never stored. -/
theorem tab_completion (cmds : Commands) (s : CLI) (hwf : s.WF)
    (hpos : s.current_position ≤ CMD_STR_LEN) (hsz : 0 < cmds.names.length)
    (hnames : ∀ n ∈ cmds.names, strlen n ≤ CMD_STR_LEN) :
    (process_character cmds s 9).2 = .ok false ∧
    (∀ n, completions cmds.names s.line = [n] →
      cstr (process_character cmds s 9).1.current_cmd = cstr n ∧
      (process_character cmds s 9).1.current_position = strlen n) ∧
    ((completions cmds.names s.line).length ≠ 1 →
      cstr (process_character cmds s 9).1.current_cmd = s.line ∧
      (process_character cmds s 9).1.current_position = s.current_position) ∧
    (cstr (process_character cmds s 9).1.current_cmd ≠ s.line ↔
      ∃ n, completions cmds.names s.line = [n] ∧ cstr n ≠ s.line) := by
  have hmem : ∀ n, completions cmds.names s.line = [n] → strlen n ≤ CMD_STR_LEN := by
    intro n hn
    have : n ∈ completions cmds.names s.line := by rw [hn]; exact List.mem_singleton_self n
    exact hnames n (List.mem_filter.mp this).1
  have huniq : ∀ n, completions cmds.names s.line = [n] →
      (process_character cmds s 9).2 = .ok false ∧
      cstr (process_character cmds s 9).1.current_cmd = cstr n ∧
      (process_character cmds s 9).1.current_position = strlen n :=
    fun n hn => tab_unique cmds s hwf hpos hsz n hn (hmem n hn)
  have hother := tab_other cmds s hwf hpos hsz
  refine ⟨?_, fun n hn => (huniq n hn).2, fun h => (hother h).2, ?_⟩
  · by_cases h : (completions cmds.names s.line).length = 1
    · obtain ⟨n, hn⟩ := List.length_eq_one.mp h
      exact (huniq n hn).1
    · exact (hother h).1
  · constructor
    · intro hmod
      by_cases h : (completions cmds.names s.line).length = 1
      · obtain ⟨n, hn⟩ := List.length_eq_one.mp h
        refine ⟨n, hn, ?_⟩
        rw [← (huniq n hn).2.1]
        exact hmod
      · exact absurd (hother h).2.1 hmod
    · intro ⟨n, hn, hne⟩
      rw [(huniq n hn).2.1]
      exact hne

set_option maxRecDepth 100000 in
/-- The line `tab-o` is completed to `tab-one` with the cursor at 7. -/
theorem tab_completion_witness :
    cstr (process_character testCommands (holding boot (str "tab-o")) 9).1.current_cmd =
        cstr (str "tab-one") ∧
      (process_character testCommands (holding boot (str "tab-o")) 9).1.current_position =
        strlen (str "tab-one") :=
  (tab_completion testCommands (holding boot (str "tab-o")) (by decide) (by decide) (by decide)
    (by decide)).2.1 (str "tab-one") (by decide)

set_option maxRecDepth 100000 in
/-- C5, counterexample to the claim as stated: with the names `help`,
`tab-one`, `tab-two` and the line `help`, exactly one name begins with the
line, yet HT leaves the buffer and the cursor as they were. -/
theorem tab_unique_name_unmodified :
    completions testCommands.names (holding boot (str "help")).line = [str "help"] ∧
    (process_character testCommands (holding boot (str "help")) 9).1.current_cmd =
      (holding boot (str "help")).current_cmd ∧
    (process_character testCommands (holding boot (str "help")) 9).1.current_position =
      (holding boot (str "help")).current_position := by
  decide

theorem console_set_current_state (s : CLI) (t : List Nat) :
    (console_set s t).current_state = s.current_state := rfl

theorem console_set_current_cmd (s : CLI) (t : List Nat) :
    (console_set s t).current_cmd = s.current_cmd := rfl

theorem console_set_last_cmd (s : CLI) (t : List Nat) :
    (console_set s t).last_cmd = s.last_cmd := rfl

theorem console_set_current_position (s : CLI) (t : List Nat) :
    (console_set s t).current_position = s.current_position := rfl

theorem console_set_console (s : CLI) (t : List Nat) :
    (console_set s t).console = s.console ++ [cstr t] := rfl

theorem console_set_posted (s : CLI) (t : List Nat) :
    (console_set s t).posted = s.posted := rfl

theorem console_set_calls (s : CLI) (t : List Nat) :
    (console_set s t).calls = s.calls := rfl

theorem write_newline_current_state (s : CLI) :
    (write_newline s).current_state = s.current_state := rfl

theorem write_newline_current_cmd (s : CLI) :
    (write_newline s).current_cmd = s.current_cmd := rfl

theorem write_newline_last_cmd (s : CLI) :
    (write_newline s).last_cmd = s.last_cmd := rfl

theorem write_newline_current_position (s : CLI) :
    (write_newline s).current_position = s.current_position := rfl

theorem write_newline_console (s : CLI) :
    (write_newline s).console = s.console ++ [[13, 10]] := rfl

theorem write_newline_posted (s : CLI) :
    (write_newline s).posted = s.posted := rfl

theorem write_newline_calls (s : CLI) :
    (write_newline s).calls = s.calls := rfl

theorem write_prompt_current_state (s : CLI) :
    (write_prompt s).current_state = s.current_state := rfl

theorem write_prompt_current_cmd (s : CLI) :
    (write_prompt s).current_cmd = s.current_cmd := rfl

theorem write_prompt_last_cmd (s : CLI) :
    (write_prompt s).last_cmd = s.last_cmd := rfl

theorem write_prompt_current_position (s : CLI) :
    (write_prompt s).current_position = s.current_position := rfl

theorem write_prompt_console (s : CLI) :
    (write_prompt s).console = s.console ++ [[13, 10]] ++ [[62]] := rfl

theorem write_prompt_posted (s : CLI) :
    (write_prompt s).posted = s.posted := rfl

theorem write_prompt_calls (s : CLI) :
    (write_prompt s).calls = s.calls := rfl

theorem save_last_cmd_current_state (s : CLI) :
    (save_last_cmd s).current_state = s.current_state := rfl

theorem save_last_cmd_current_cmd (s : CLI) :
    (save_last_cmd s).current_cmd = s.current_cmd := rfl

theorem save_last_cmd_last_cmd (s : CLI) :
    (save_last_cmd s).last_cmd = (strncpy s.last_cmd 0 s.current_cmd (CMD_STR_LEN + 1)).set CMD_STR_LEN 0 := rfl

theorem save_last_cmd_current_position (s : CLI) :
    (save_last_cmd s).current_position = s.current_position := rfl

theorem save_last_cmd_console (s : CLI) :
    (save_last_cmd s).console = s.console := rfl

theorem save_last_cmd_posted (s : CLI) :
    (save_last_cmd s).posted = s.posted := rfl

theorem save_last_cmd_calls (s : CLI) :
    (save_last_cmd s).calls = s.calls := rfl

theorem arrow_response_current_state (s : CLI) :
    (arrow_response s).current_state = s.current_state := rfl

theorem arrow_response_current_cmd (s : CLI) :
    (arrow_response s).current_cmd = s.current_cmd := rfl

theorem arrow_response_last_cmd (s : CLI) :
    (arrow_response s).last_cmd = s.last_cmd := rfl

theorem arrow_response_current_position (s : CLI) :
    (arrow_response s).current_position = s.current_position := rfl

theorem arrow_response_console (s : CLI) :
    (arrow_response s).console = s.console ++ [[66]] := rfl

theorem arrow_response_posted (s : CLI) :
    (arrow_response s).posted = s.posted := rfl

theorem arrow_response_calls (s : CLI) :
    (arrow_response s).calls = s.calls := rfl

theorem advance_state_current_state (s : CLI) (st : CLIState) :
    (advance_state s st true).current_state = st := rfl

theorem advance_state_current_cmd (s : CLI) (st : CLIState) :
    (advance_state s st true).current_cmd = s.current_cmd := rfl

theorem advance_state_last_cmd (s : CLI) (st : CLIState) :
    (advance_state s st true).last_cmd = s.last_cmd := rfl

theorem advance_state_current_position (s : CLI) (st : CLIState) :
    (advance_state s st true).current_position = s.current_position := rfl

theorem advance_state_console (s : CLI) (st : CLIState) :
    (advance_state s st true).console = s.console := rfl

theorem advance_state_posted (s : CLI) (st : CLIState) :
    (advance_state s st true).posted = s.posted ++ [{ id := .control_UpdateCLIState, arg := 0 }] := rfl

theorem advance_state_calls (s : CLI) (st : CLIState) :
    (advance_state s st true).calls = s.calls := rfl

theorem advance_state_false_current_state (s : CLI) (st : CLIState) :
    (advance_state s st false).current_state = st := rfl

theorem advance_state_false_current_cmd (s : CLI) (st : CLIState) :
    (advance_state s st false).current_cmd = s.current_cmd := rfl

theorem advance_state_false_last_cmd (s : CLI) (st : CLIState) :
    (advance_state s st false).last_cmd = s.last_cmd := rfl

theorem advance_state_false_current_position (s : CLI) (st : CLIState) :
    (advance_state s st false).current_position = s.current_position := rfl

theorem advance_state_false_console (s : CLI) (st : CLIState) :
    (advance_state s st false).console = s.console := rfl

theorem advance_state_false_posted (s : CLI) (st : CLIState) :
    (advance_state s st false).posted = s.posted := rfl

theorem advance_state_false_calls (s : CLI) (st : CLIState) :
    (advance_state s st false).calls = s.calls := rfl


theorem clamp_eq_min (p : Nat) :
    (if p > CMD_STR_LEN then CMD_STR_LEN else p) = min p CMD_STR_LEN := by
  split <;> omega

theorem process_input_loop_newline (cmds : Commands) (s : CLI) (nl : Nat) (rest : List Nat)
    (hnl : nl = 13 ∨ nl = 10) :
    process_input_loop cmds s (nl :: rest) =
      ({ s with
          current_cmd := s.current_cmd.set (min s.current_position CMD_STR_LEN) 0
          current_position := 0
          console := s.console ++ [[nl]] }, .ok true) := by
  have hup : (if s.current_position < 2 then Except.ok false else is_up_arrow s nl) =
      .ok false := by
    by_cases h : s.current_position < 2
    · simp [h]
    · rcases hnl with h1 | h1 <;> subst h1 <;> simp [h, is_up_arrow]
  have hdown : (if s.current_position < 2 then Except.ok false else is_down_arrow s nl) =
      .ok false := by
    by_cases h : s.current_position < 2
    · simp [h]
    · rcases hnl with h1 | h1 <;> subst h1 <;> simp [h, is_down_arrow]
  unfold process_input_loop
  simp only [hup, hdown]
  rcases hnl with h1 | h1 <;> subst h1 <;>
    simp [process_character, echo, console_set, cstr, clamp_eq_min]

theorem process_input_newline (cmds : Commands) (s : CLI) (nl : Nat) (rest : List Nat)
    (hnl : nl = 13 ∨ nl = 10) :
    process_input cmds s (some (nl :: rest)) =
      ({ s with
          current_cmd := s.current_cmd.set (min s.current_position CMD_STR_LEN) 0
          current_position := 0
          console := s.console ++ [[nl]] }, .ok true) := by
  have hnz : nl ≠ 0 := by rcases hnl with h | h <;> omega
  have hc : cstr (nl :: rest) = nl :: cstr rest := by
    simp [cstr, List.takeWhile_cons, hnz]
  have hpos : 0 < (if strlen (nl :: rest) > CMD_STR_LEN then CMD_STR_LEN
      else strlen (nl :: rest)) := by
    unfold strlen
    rw [hc]
    simp only [List.length_cons, CMD_STR_LEN]
    split <;> omega
  unfold process_input
  simp only [hc]
  cases h : (if strlen (nl :: rest) > CMD_STR_LEN then CMD_STR_LEN
      else strlen (nl :: rest)) with
  | zero => omega
  | succ k =>
    simp only [List.take_succ_cons]
    exact process_input_loop_newline cmds s nl _ hnl

/-- A newline read while waiting for input: the line is terminated at the
cursor, the cursor goes to zero, the byte is echoed and execution is
requested. -/
theorem handle_newline (cmds : Commands) (mem : Nat → List Nat) (s : CLI) (a nl : Nat)
    (rest : List Nat) (hs : s.current_state = .WaitingForInput) (hnl : nl = 13 ∨ nl = 10) :
    (handle_event cmds mem s { id := .control_UARTInput, arg := a } (nl :: rest)).2 =
      .ok .NotHandled ∧
    (handle_event cmds mem s { id := .control_UARTInput, arg := a } (nl :: rest)).1.current_state =
      .ExecutingCommand ∧
    (handle_event cmds mem s { id := .control_UARTInput, arg := a } (nl :: rest)).1.current_cmd =
      s.current_cmd.set (min s.current_position CMD_STR_LEN) 0 ∧
    (handle_event cmds mem s { id := .control_UARTInput, arg := a } (nl :: rest)).1.last_cmd =
      s.last_cmd ∧
    (handle_event cmds mem s { id := .control_UARTInput, arg := a }
      (nl :: rest)).1.current_position = 0 ∧
    (handle_event cmds mem s { id := .control_UARTInput, arg := a } (nl :: rest)).1.console =
      s.console ++ [[nl]] ∧
    (handle_event cmds mem s { id := .control_UARTInput, arg := a } (nl :: rest)).1.posted =
      s.posted ++ [{ id := .control_UpdateCLIState, arg := 0 }] ∧
    (handle_event cmds mem s { id := .control_UARTInput, arg := a } (nl :: rest)).1.calls =
      s.calls := by
  unfold handle_event handle_state
  simp only [hs, if_true, process_input_newline cmds s nl rest hnl]
  refine ⟨?_, ?_, ?_, ?_, ?_, ?_, ?_, ?_⟩ <;> first | rfl | trivial

theorem handle_execute_found (cmds : Commands) (mem : Nat → List Nat) (s : CLI) (a : Nat)
    (r : List Nat) (i : Nat) (hs : s.current_state = .ExecutingCommand)
    (hsz : 0 < cmds.names.length) (hf : find_command s.current_cmd cmds.names 0 = some i) :
    (handle_event cmds mem s { id := .control_UpdateCLIState, arg := a } r).2 = .ok .Handled ∧
    (handle_event cmds mem s { id := .control_UpdateCLIState, arg := a } r).1.current_state =
      .WritingPrompt ∧
    (handle_event cmds mem s { id := .control_UpdateCLIState, arg := a } r).1.current_cmd =
      (get_args s.current_cmd).current_cmd ∧
    (handle_event cmds mem s { id := .control_UpdateCLIState, arg := a } r).1.last_cmd =
      (strncpy s.last_cmd 0 s.current_cmd (CMD_STR_LEN + 1)).set CMD_STR_LEN 0 ∧
    (handle_event cmds mem s { id := .control_UpdateCLIState, arg := a } r).1.current_position =
      s.current_position ∧
    (handle_event cmds mem s { id := .control_UpdateCLIState, arg := a } r).1.calls =
      s.calls ++ [{ command_pos := i, argc := (get_args s.current_cmd).size,
                    argv := (get_args s.current_cmd).argv }] := by
  unfold handle_event handle_state
  simp only [hs, execute_command, hsz, not_true_eq_false, if_false, hf]
  simp only [console_set_current_state, console_set_current_cmd, console_set_last_cmd,
      console_set_current_position, console_set_console, console_set_posted, console_set_calls,
      write_newline_current_state, write_newline_current_cmd, write_newline_last_cmd,
      write_newline_current_position, write_newline_console, write_newline_posted,
      write_newline_calls, write_prompt_current_state, write_prompt_current_cmd,
      write_prompt_last_cmd, write_prompt_current_position, write_prompt_console,
      write_prompt_posted, write_prompt_calls, save_last_cmd_current_state,
      save_last_cmd_current_cmd, save_last_cmd_last_cmd, save_last_cmd_current_position,
      save_last_cmd_console, save_last_cmd_posted, save_last_cmd_calls,
      arrow_response_current_state, arrow_response_current_cmd, arrow_response_last_cmd,
      arrow_response_current_position, arrow_response_console, arrow_response_posted,
      arrow_response_calls, advance_state_current_state, advance_state_current_cmd,
      advance_state_last_cmd, advance_state_current_position, advance_state_console,
      advance_state_posted, advance_state_calls, advance_state_false_current_state,
      advance_state_false_current_cmd, advance_state_false_last_cmd,
      advance_state_false_current_position, advance_state_false_console,
      advance_state_false_posted, advance_state_false_calls]
  repeat' constructor

theorem handle_execute_invalid (cmds : Commands) (mem : Nat → List Nat) (s : CLI) (a : Nat)
    (r : List Nat) (hs : s.current_state = .ExecutingCommand)
    (hsz : 0 < cmds.names.length) (hf : find_command s.current_cmd cmds.names 0 = none)
    (hne : strlen s.current_cmd ≠ 0) :
    (handle_event cmds mem s { id := .control_UpdateCLIState, arg := a } r).2 = .ok .Handled ∧
    (handle_event cmds mem s { id := .control_UpdateCLIState, arg := a } r).1.current_state =
      .WritingPrompt ∧
    (handle_event cmds mem s { id := .control_UpdateCLIState, arg := a } r).1.current_cmd =
      s.current_cmd ∧
    (handle_event cmds mem s { id := .control_UpdateCLIState, arg := a } r).1.last_cmd =
      (strncpy s.last_cmd 0 s.current_cmd (CMD_STR_LEN + 1)).set CMD_STR_LEN 0 ∧
    (handle_event cmds mem s { id := .control_UpdateCLIState, arg := a } r).1.current_position =
      s.current_position ∧
    (handle_event cmds mem s { id := .control_UpdateCLIState, arg := a } r).1.calls =
      s.calls := by
  unfold handle_event handle_state
  simp only [hs, execute_command, hsz, not_true_eq_false, if_false, hf, hne]
  simp only [console_set_current_state, console_set_current_cmd, console_set_last_cmd,
      console_set_current_position, console_set_console, console_set_posted, console_set_calls,
      write_newline_current_state, write_newline_current_cmd, write_newline_last_cmd,
      write_newline_current_position, write_newline_console, write_newline_posted,
      write_newline_calls, write_prompt_current_state, write_prompt_current_cmd,
      write_prompt_last_cmd, write_prompt_current_position, write_prompt_console,
      write_prompt_posted, write_prompt_calls, save_last_cmd_current_state,
      save_last_cmd_current_cmd, save_last_cmd_last_cmd, save_last_cmd_current_position,
      save_last_cmd_console, save_last_cmd_posted, save_last_cmd_calls,
      arrow_response_current_state, arrow_response_current_cmd, arrow_response_last_cmd,
      arrow_response_current_position, arrow_response_console, arrow_response_posted,
      arrow_response_calls, advance_state_current_state, advance_state_current_cmd,
      advance_state_last_cmd, advance_state_current_position, advance_state_console,
      advance_state_posted, advance_state_calls, advance_state_false_current_state,
      advance_state_false_current_cmd, advance_state_false_last_cmd,
      advance_state_false_current_position, advance_state_false_console,
      advance_state_false_posted, advance_state_false_calls]
  repeat' constructor

theorem handle_execute_empty (cmds : Commands) (mem : Nat → List Nat) (s : CLI) (a : Nat)
    (r : List Nat) (hs : s.current_state = .ExecutingCommand)
    (hsz : 0 < cmds.names.length) (hf : find_command s.current_cmd cmds.names 0 = none)
    (he : strlen s.current_cmd = 0) :
    (handle_event cmds mem s { id := .control_UpdateCLIState, arg := a } r).2 = .ok .Handled ∧
    (handle_event cmds mem s { id := .control_UpdateCLIState, arg := a } r).1.current_state =
      .WritingPrompt ∧
    (handle_event cmds mem s { id := .control_UpdateCLIState, arg := a } r).1.current_cmd =
      s.current_cmd ∧
    (handle_event cmds mem s { id := .control_UpdateCLIState, arg := a } r).1.last_cmd =
      s.last_cmd ∧
    (handle_event cmds mem s { id := .control_UpdateCLIState, arg := a } r).1.current_position =
      s.current_position ∧
    (handle_event cmds mem s { id := .control_UpdateCLIState, arg := a } r).1.console =
      s.console ∧
    (handle_event cmds mem s { id := .control_UpdateCLIState, arg := a } r).1.calls =
      s.calls := by
  unfold handle_event handle_state
  simp only [hs, execute_command, hsz, not_true_eq_false, if_false, hf, he]
  try simp only [console_set_current_state, console_set_current_cmd, console_set_last_cmd,
      console_set_current_position, console_set_console, console_set_posted, console_set_calls,
      write_newline_current_state, write_newline_current_cmd, write_newline_last_cmd,
      write_newline_current_position, write_newline_console, write_newline_posted,
      write_newline_calls, write_prompt_current_state, write_prompt_current_cmd,
      write_prompt_last_cmd, write_prompt_current_position, write_prompt_console,
      write_prompt_posted, write_prompt_calls, save_last_cmd_current_state,
      save_last_cmd_current_cmd, save_last_cmd_last_cmd, save_last_cmd_current_position,
      save_last_cmd_console, save_last_cmd_posted, save_last_cmd_calls,
      arrow_response_current_state, arrow_response_current_cmd, arrow_response_last_cmd,
      arrow_response_current_position, arrow_response_console, arrow_response_posted,
      arrow_response_calls, advance_state_current_state, advance_state_current_cmd,
      advance_state_last_cmd, advance_state_current_position, advance_state_console,
      advance_state_posted, advance_state_calls, advance_state_false_current_state,
      advance_state_false_current_cmd, advance_state_false_last_cmd,
      advance_state_false_current_position, advance_state_false_console,
      advance_state_false_posted, advance_state_false_calls]
  repeat' constructor

theorem handle_prompt (cmds : Commands) (mem : Nat → List Nat) (s : CLI) (a : Nat)
    (r : List Nat) (hs : s.current_state = .WritingPrompt) :
    (handle_event cmds mem s { id := .control_UpdateCLIState, arg := a } r).2 = .ok .Handled ∧
    (handle_event cmds mem s { id := .control_UpdateCLIState, arg := a } r).1.current_state =
      .WaitingForInput ∧
    (handle_event cmds mem s { id := .control_UpdateCLIState, arg := a } r).1.current_cmd =
      s.current_cmd ∧
    (handle_event cmds mem s { id := .control_UpdateCLIState, arg := a } r).1.last_cmd =
      s.last_cmd ∧
    (handle_event cmds mem s { id := .control_UpdateCLIState, arg := a } r).1.current_position =
      s.current_position ∧
    (handle_event cmds mem s { id := .control_UpdateCLIState, arg := a } r).1.console =
      s.console ++ [[13, 10]] ++ [[62]] ∧
    (handle_event cmds mem s { id := .control_UpdateCLIState, arg := a } r).1.calls =
      s.calls := by
  unfold handle_event handle_state
  simp only [hs]
  simp only [console_set_current_state, console_set_current_cmd, console_set_last_cmd,
      console_set_current_position, console_set_console, console_set_posted, console_set_calls,
      write_newline_current_state, write_newline_current_cmd, write_newline_last_cmd,
      write_newline_current_position, write_newline_console, write_newline_posted,
      write_newline_calls, write_prompt_current_state, write_prompt_current_cmd,
      write_prompt_last_cmd, write_prompt_current_position, write_prompt_console,
      write_prompt_posted, write_prompt_calls, save_last_cmd_current_state,
      save_last_cmd_current_cmd, save_last_cmd_last_cmd, save_last_cmd_current_position,
      save_last_cmd_console, save_last_cmd_posted, save_last_cmd_calls,
      arrow_response_current_state, arrow_response_current_cmd, arrow_response_last_cmd,
      arrow_response_current_position, arrow_response_console, arrow_response_posted,
      arrow_response_calls, advance_state_current_state, advance_state_current_cmd,
      advance_state_last_cmd, advance_state_current_position, advance_state_console,
      advance_state_posted, advance_state_calls, advance_state_false_current_state,
      advance_state_false_current_cmd, advance_state_false_last_cmd,
      advance_state_false_current_position, advance_state_false_console,
      advance_state_false_posted, advance_state_false_calls]
  repeat' constructor

theorem process_character_plain (cmds : Commands) (s : CLI) (c : Nat)
    (h1 : (c == 13 || c == 10) = false) (h2 : (c == 9) = false)
    (h3 : (c == 8 || c == 127) = false) :
    process_character cmds s c =
      ({ s with
          current_cmd := (s.current_cmd.set (min s.current_position CMD_STR_LEN) 0).set
            (min s.current_position CMD_STR_LEN) c
          current_position := min s.current_position CMD_STR_LEN + 1 }, .ok false) := by
  unfold process_character
  simp only [h1, h2, h3, clamp_eq_min, Bool.false_eq_true, if_false, Bool.false_and]

theorem loop_plain_char (cmds : Commands) (s : CLI) (c : Nat) (rest : List Nat)
    (hp : s.current_position < 2) (h0 : c ≠ 0)
    (h1 : (c == 13 || c == 10) = false) (h2 : (c == 9) = false)
    (h3 : (c == 8 || c == 127) = false) :
    process_input_loop cmds s (c :: rest) = process_input_loop cmds (typed s c) rest := by
  have hmin : min s.current_position CMD_STR_LEN = s.current_position := by
    simp only [CMD_STR_LEN]; omega
  have hecho : echo s c = { s with console := s.console ++ [[c]] } := by
    have hc : cstr [c, 0] = [c] := by simp [cstr, List.takeWhile_cons, h0]
    have hcont : [9].contains c = false := by simpa using h2
    simp only [echo, hcont, Bool.not_false, if_true, console_set, hc]
  conv => lhs; unfold process_input_loop
  simp only [hp, if_true, hecho, process_character_plain cmds _ c h1 h2 h3, hmin]
  rfl

theorem loop_up_arrow (cmds : Commands) (s : CLI)
    (hp : s.current_position = 2) (h0 : s.current_cmd.getD 0 0 = 27)
    (h1 : s.current_cmd.getD 1 0 = 91) :
    process_input_loop cmds s [65] = (load_last_cmd (arrow_response s), .ok false) := by
  have hup : is_up_arrow s 65 = .ok true := by
    simp only [is_up_arrow, hp, ge_iff_le, le_refl, not_true_eq_false, if_false, Nat.sub_self,
      h0, show (2 : Nat) - 1 = 1 by rfl, h1]
    rfl
  have hdown : is_down_arrow s 65 = .ok false := by
    simp only [is_down_arrow, hp, ge_iff_le, le_refl, not_true_eq_false, if_false, Nat.sub_self,
      h0, show (2 : Nat) - 1 = 1 by rfl, h1]
    rfl
  conv => lhs; unfold process_input_loop
  simp only [hp, show ¬ (2 : Nat) < 2 by omega, if_false, hup, hdown]
  rfl

theorem handle_up_arrow (cmds : Commands) (mem : Nat → List Nat) (s : CLI) (a : Nat)
    (hs : s.current_state = .WaitingForInput) (hp : s.current_position = 0)
    (hl : 2 ≤ s.current_cmd.length) :
    handle_event cmds mem s { id := .control_UARTInput, arg := a } [27, 91, 65] =
      (advance_state (load_last_cmd (arrow_response (typed (typed s 27) 91)))
        .WaitingForInput false, .ok .NotHandled) := by
  have e1 : cstr [27, 91, 65] = [27, 91, 65] := by decide
  have e2 : strlen [27, 91, 65] = 3 := by decide
  have step1 := loop_plain_char cmds s 27 [91, 65] (by omega) (by decide) (by decide)
    (by decide) (by decide)
  have step2 := loop_plain_char cmds (typed s 27) 91 [65]
    (by show s.current_position + 1 < 2; omega) (by decide) (by decide) (by decide) (by decide)
  have hl0 : 0 < s.current_cmd.length := by omega
  have hl1 : 1 < s.current_cmd.length := by omega
  have step3 := loop_up_arrow cmds (typed (typed s 27) 91)
    (by show s.current_position + 1 + 1 = 2; omega)
    (by
      show ((((s.current_cmd.set s.current_position 0).set s.current_position 27).set
        (s.current_position + 1) 0).set (s.current_position + 1) 91).getD 0 0 = 27
      rw [hp]
      simp [List.getElem?_set, hl0])
    (by
      show ((((s.current_cmd.set s.current_position 0).set s.current_position 27).set
        (s.current_position + 1) 0).set (s.current_position + 1) 91).getD 1 0 = 91
      rw [hp]
      simp [List.getElem?_set, hl1])
  unfold handle_event handle_state
  simp only [hs, if_true, process_input, e1, e2, show ¬ (3 : Nat) > CMD_STR_LEN by decide,
    if_false, List.take_succ_cons, List.take_zero, step1, step2, step3]
  rfl

theorem get_args_foldl_length (l : List Nat) (a : Args) :
    (l.foldl get_args_step a).current_cmd.length = a.current_cmd.length := by
  induction l generalizing a with
  | nil => rfl
  | cons i rest ih =>
    rw [List.foldl_cons, ih]
    unfold get_args_step
    split
    · simp
    · rfl

theorem get_args_length (cmd : List Nat) : (get_args cmd).current_cmd.length = cmd.length := by
  unfold get_args
  exact get_args_foldl_length _ _

theorem resolves_congr (a b n : List Nat) (h : cstr a = cstr b) :
    Resolves a n → Resolves b n := by
  intro ⟨h1, h2⟩
  have hlen : strlen n ≤ strlen a := by
    have := congrArg List.length h1
    simp only [List.length_take] at this
    unfold strlen
    omega
  have hsl : strlen a = strlen b := by unfold strlen; rw [h]
  refine ⟨by rw [← h]; exact h1, ?_⟩
  have hget : a.getD (strlen n) 0 = b.getD (strlen n) 0 := by
    by_cases hlt : strlen n < strlen a
    · rw [getD_lt_strlen a _ hlt, getD_lt_strlen b _ (by omega), h]
    · have he : strlen n = strlen a := by omega
      rw [he, getD_strlen a, hsl, getD_strlen b]
  rw [← hget]
  exact h2

theorem find_command_congr (a b : List Nat) (names : List (List Nat)) (k : Nat)
    (h : cstr a = cstr b) : find_command a names k = find_command b names k := by
  induction names generalizing k with
  | nil => rfl
  | cons n rest ih =>
    unfold find_command
    simp only []
    by_cases hr : Resolves a n
    · rw [if_pos ((find_command_cond a n).mpr hr),
        if_pos ((find_command_cond b n).mpr (resolves_congr a b n h hr))]
    · have hb : ¬ Resolves b n := fun hb => hr (resolves_congr b a n h.symm hb)
      rw [if_neg (fun hc => hr ((find_command_cond a n).mp hc)),
        if_neg (fun hc => hb ((find_command_cond b n).mp hc))]
      exact ih (k + 1)

theorem deliver_three (cmds : Commands) (mem : Nat → List Nat) (s : CLI)
    (x y z : Event × List Nat) :
    deliver cmds mem s [x, y, z] =
      ((handle_event cmds mem (handle_event cmds mem (handle_event cmds mem s x.1 x.2).1
          y.1 y.2).1 z.1 z.2).1,
        [(handle_event cmds mem s x.1 x.2).2,
         (handle_event cmds mem (handle_event cmds mem s x.1 x.2).1 y.1 y.2).2,
         (handle_event cmds mem (handle_event cmds mem (handle_event cmds mem s x.1 x.2).1
          y.1 y.2).1 z.1 z.2).2]) := rfl

theorem deliver_one (cmds : Commands) (mem : Nat → List Nat) (s : CLI)
    (x : Event × List Nat) :
    deliver cmds mem s [x] =
      ((handle_event cmds mem s x.1 x.2).1, [(handle_event cmds mem s x.1 x.2).2]) := rfl

/-- What a dispatched line leaves: a resolved command is invoked once, the
line is saved as history, the cursor is at zero and the editor waits. -/
theorem dispatch_found (cmds : Commands) (mem : Nat → List Nat) (s : CLI) (nl i : Nat)
    (hs : s.current_state = .WaitingForInput) (hnl : nl = 13 ∨ nl = 10)
    (hsz : 0 < cmds.names.length)
    (hf : find_command (s.current_cmd.set (min s.current_position CMD_STR_LEN) 0)
      cmds.names 0 = some i) :
    (deliver cmds mem s [uart_input [nl], update_state, update_state]).2 =
      [.ok .NotHandled, .ok .Handled, .ok .Handled] ∧
    (dispatch_line cmds mem s nl).current_state = .WaitingForInput ∧
    (dispatch_line cmds mem s nl).current_position = 0 ∧
    (dispatch_line cmds mem s nl).current_cmd =
      (get_args (s.current_cmd.set (min s.current_position CMD_STR_LEN) 0)).current_cmd ∧
    (dispatch_line cmds mem s nl).last_cmd =
      (strncpy s.last_cmd 0 (s.current_cmd.set (min s.current_position CMD_STR_LEN) 0)
        (CMD_STR_LEN + 1)).set CMD_STR_LEN 0 ∧
    (dispatch_line cmds mem s nl).calls = s.calls ++
      [{ command_pos := i
         argc := (get_args (s.current_cmd.set (min s.current_position CMD_STR_LEN) 0)).size
         argv := (get_args (s.current_cmd.set (min s.current_position CMD_STR_LEN) 0)).argv }] := by
  unfold dispatch_line
  rw [deliver_three]
  simp only [uart_input, update_state]
  obtain ⟨a1, a2, a3, a4, a5, _, _, a8⟩ := handle_newline cmds mem s 0 nl [] hs hnl
  generalize handle_event cmds mem s { id := .control_UARTInput, arg := 0 } [nl] = R1 at *
  rw [← a3] at hf
  obtain ⟨b1, b2, b3, b4, b5, b6⟩ := handle_execute_found cmds mem R1.1 0 [] i a2 hsz hf
  generalize handle_event cmds mem R1.1 { id := .control_UpdateCLIState, arg := 0 } [] = R2 at *
  obtain ⟨c1, c2, c3, c4, c5, _, c7⟩ := handle_prompt cmds mem R2.1 0 [] b2
  generalize handle_event cmds mem R2.1 { id := .control_UpdateCLIState, arg := 0 } [] = R3 at *
  refine ⟨by rw [a1, b1, c1], c2, by rw [c5, b5, a5], by rw [c3, b3, a3],
    by rw [c4, b4, a3, a4], by rw [c7, b6, a3, a8]⟩

theorem dispatch_invalid (cmds : Commands) (mem : Nat → List Nat) (s : CLI) (nl : Nat)
    (hs : s.current_state = .WaitingForInput) (hnl : nl = 13 ∨ nl = 10)
    (hsz : 0 < cmds.names.length)
    (hf : find_command (s.current_cmd.set (min s.current_position CMD_STR_LEN) 0)
      cmds.names 0 = none)
    (hne : strlen (s.current_cmd.set (min s.current_position CMD_STR_LEN) 0) ≠ 0) :
    (deliver cmds mem s [uart_input [nl], update_state, update_state]).2 =
      [.ok .NotHandled, .ok .Handled, .ok .Handled] ∧
    (dispatch_line cmds mem s nl).current_state = .WaitingForInput ∧
    (dispatch_line cmds mem s nl).current_position = 0 ∧
    (dispatch_line cmds mem s nl).current_cmd =
      s.current_cmd.set (min s.current_position CMD_STR_LEN) 0 ∧
    (dispatch_line cmds mem s nl).last_cmd =
      (strncpy s.last_cmd 0 (s.current_cmd.set (min s.current_position CMD_STR_LEN) 0)
        (CMD_STR_LEN + 1)).set CMD_STR_LEN 0 ∧
    (dispatch_line cmds mem s nl).calls = s.calls := by
  unfold dispatch_line
  rw [deliver_three]
  simp only [uart_input, update_state]
  obtain ⟨a1, a2, a3, a4, a5, _, _, a8⟩ := handle_newline cmds mem s 0 nl [] hs hnl
  generalize handle_event cmds mem s { id := .control_UARTInput, arg := 0 } [nl] = R1 at *
  rw [← a3] at hf hne
  obtain ⟨b1, b2, b3, b4, b5, b6⟩ := handle_execute_invalid cmds mem R1.1 0 [] a2 hsz hf hne
  generalize handle_event cmds mem R1.1 { id := .control_UpdateCLIState, arg := 0 } [] = R2 at *
  obtain ⟨c1, c2, c3, c4, c5, _, c7⟩ := handle_prompt cmds mem R2.1 0 [] b2
  generalize handle_event cmds mem R2.1 { id := .control_UpdateCLIState, arg := 0 } [] = R3 at *
  refine ⟨by rw [a1, b1, c1], c2, by rw [c5, b5, a5], by rw [c3, b3, a3],
    by rw [c4, b4, a3, a4], by rw [c7, b6, a8]⟩

theorem dispatch_empty (cmds : Commands) (mem : Nat → List Nat) (s : CLI) (nl : Nat)
    (hs : s.current_state = .WaitingForInput) (hnl : nl = 13 ∨ nl = 10)
    (hsz : 0 < cmds.names.length)
    (hf : find_command (s.current_cmd.set (min s.current_position CMD_STR_LEN) 0)
      cmds.names 0 = none)
    (he : strlen (s.current_cmd.set (min s.current_position CMD_STR_LEN) 0) = 0) :
    (deliver cmds mem s [uart_input [nl], update_state, update_state]).2 =
      [.ok .NotHandled, .ok .Handled, .ok .Handled] ∧
    (dispatch_line cmds mem s nl).current_state = .WaitingForInput ∧
    (dispatch_line cmds mem s nl).current_position = 0 ∧
    (dispatch_line cmds mem s nl).last_cmd = s.last_cmd ∧
    (dispatch_line cmds mem s nl).console = s.console ++ [[nl], [13, 10], [62]] ∧
    (dispatch_line cmds mem s nl).calls = s.calls := by
  unfold dispatch_line
  rw [deliver_three]
  simp only [uart_input, update_state]
  obtain ⟨a1, a2, a3, a4, a5, a6, _, a8⟩ := handle_newline cmds mem s 0 nl [] hs hnl
  generalize handle_event cmds mem s { id := .control_UARTInput, arg := 0 } [nl] = R1 at *
  rw [← a3] at hf he
  obtain ⟨b1, b2, b3, b4, b5, b6, b7⟩ := handle_execute_empty cmds mem R1.1 0 [] a2 hsz hf he
  generalize handle_event cmds mem R1.1 { id := .control_UpdateCLIState, arg := 0 } [] = R2 at *
  obtain ⟨c1, c2, c3, c4, c5, c6, c7⟩ := handle_prompt cmds mem R2.1 0 [] b2
  generalize handle_event cmds mem R2.1 { id := .control_UpdateCLIState, arg := 0 } [] = R3 at *
  refine ⟨by rw [a1, b1, c1], c2, by rw [c5, b5, a5], by rw [c4, b4, a4], ?_,
    by rw [c7, b7, a8]⟩
  rw [c6, b6, a6]
  simp

theorem up_arrow_fields (cmds : Commands) (mem : Nat → List Nat) (s : CLI)
    (hs : s.current_state = .WaitingForInput) (hp : s.current_position = 0)
    (hl : s.current_cmd.length = CMD_STR_LEN + 1) (hlast : strlen s.last_cmd ≤ CMD_STR_LEN) :
    (deliver cmds mem s [uart_input [27, 91, 65]]).2 = [.ok .NotHandled] ∧
    (up_arrow cmds mem s).current_state = .WaitingForInput ∧
    cstr (up_arrow cmds mem s).current_cmd = cstr s.last_cmd ∧
    (up_arrow cmds mem s).current_cmd.length = CMD_STR_LEN + 1 ∧
    (up_arrow cmds mem s).current_position = strlen s.last_cmd ∧
    (up_arrow cmds mem s).last_cmd = s.last_cmd ∧
    (up_arrow cmds mem s).calls = s.calls := by
  unfold up_arrow
  rw [deliver_one]
  simp only [uart_input]
  rw [handle_up_arrow cmds mem s 0 hs hp (by rw [hl]; simp only [CMD_STR_LEN]; omega)]
  refine ⟨rfl, rfl, ?_, ?_, rfl, rfl, rfl⟩
  · show cstr ((strncpy _ 0 s.last_cmd (CMD_STR_LEN + 1)).set CMD_STR_LEN 0) = _
    exact cstr_copy _ _ hlast
  · show ((strncpy (typed (typed s 27) 91).current_cmd 0 s.last_cmd
      (CMD_STR_LEN + 1)).set CMD_STR_LEN 0).length = _
    refine copy_length _ _ ?_ hlast
    show ((((s.current_cmd.set _ 0).set _ 27).set _ 0).set _ 91).length = _
    simp only [List.length_set]
    exact hl

theorem handle_newline_rest (cmds : Commands) (mem : Nat → List Nat) (s : CLI) (a nl : Nat)
    (rest : List Nat) (hs : s.current_state = .WaitingForInput) (hnl : nl = 13 ∨ nl = 10) :
    handle_event cmds mem s { id := .control_UARTInput, arg := a } (nl :: rest) =
      handle_event cmds mem s { id := .control_UARTInput, arg := a } [nl] := by
  unfold handle_event handle_state
  simp only [hs, if_true, process_input_newline cmds s nl rest hnl,
    process_input_newline cmds s nl [] hnl]

/-- The line of a well-formed editor, terminated at the cursor. -/
theorem terminated_line (s : CLI) (hwf : s.WF) :
    cstr (s.current_cmd.set (min s.current_position CMD_STR_LEN) 0) = s.line ∧
    (s.current_cmd.set (min s.current_position CMD_STR_LEN) 0).length = CMD_STR_LEN + 1 ∧
    s.line.length ≤ CMD_STR_LEN := by
  obtain ⟨hlen, _, hnz⟩ := hwf
  have hlt : min s.current_position CMD_STR_LEN < s.current_cmd.length := by
    rw [hlen]
    have := Nat.min_le_right s.current_position CMD_STR_LEN
    omega
  refine ⟨cstr_set_zero _ _ hlt hnz, by rw [List.length_set]; exact hlen, ?_⟩
  unfold CLI.line
  rw [List.length_take]
  have := Nat.min_le_right s.current_position CMD_STR_LEN
  omega

/-- C6: history recall. Let the editor be well formed and wait for input with a
non-empty line `b`, and let the command table be non-empty. After a newline
(CR or LF) and the two state updates it triggers, whether `b` names a
command or not, the history buffer holds `b`; a console read with the
up-arrow sequence ESC `[` `A` then makes the line buffer equal to `b` and the
cursor equal to the length of `b`, with the editor waiting for input; and a
following newline requests execution with the buffer holding `b` again, so
that the command search finds what it found at the first dispatch. No event
raises a fault. -/
theorem history_recall (cmds : Commands) (mem : Nat → List Nat) (s : CLI) (nl nl2 : Nat)
    (hs : s.current_state = .WaitingForInput) (hwf : s.WF) (hne : s.line ≠ [])
    (hsz : 0 < cmds.names.length) (hnl : nl = 13 ∨ nl = 10) (hnl2 : nl2 = 13 ∨ nl2 = 10) :
    (deliver cmds mem s [uart_input [nl], update_state, update_state]).2 =
      [.ok .NotHandled, .ok .Handled, .ok .Handled] ∧
    cstr (dispatch_line cmds mem s nl).last_cmd = s.line ∧
    (deliver cmds mem (dispatch_line cmds mem s nl) [uart_input [27, 91, 65]]).2 =
      [.ok .NotHandled] ∧
    cstr (up_arrow cmds mem (dispatch_line cmds mem s nl)).current_cmd = s.line ∧
    (up_arrow cmds mem (dispatch_line cmds mem s nl)).current_position = s.line.length ∧
    (up_arrow cmds mem (dispatch_line cmds mem s nl)).current_state = .WaitingForInput ∧
    (deliver cmds mem (up_arrow cmds mem (dispatch_line cmds mem s nl))
      [uart_input [nl2]]).1.current_state = .ExecutingCommand ∧
    cstr (deliver cmds mem (up_arrow cmds mem (dispatch_line cmds mem s nl))
      [uart_input [nl2]]).1.current_cmd = s.line ∧
    find_command (deliver cmds mem (up_arrow cmds mem (dispatch_line cmds mem s nl))
      [uart_input [nl2]]).1.current_cmd cmds.names 0 =
      find_command (deliver cmds mem s [uart_input [nl]]).1.current_cmd cmds.names 0 := by
  obtain ⟨t1, t2, t3⟩ := terminated_line s hwf
  have hstr : strlen (s.current_cmd.set (min s.current_position CMD_STR_LEN) 0) =
      s.line.length := by unfold strlen; rw [t1]
  have hne0 : strlen (s.current_cmd.set (min s.current_position CMD_STR_LEN) 0) ≠ 0 := by
    rw [hstr]
    exact fun h => hne (List.length_eq_zero.mp h)
  have hD : (deliver cmds mem s [uart_input [nl], update_state, update_state]).2 =
        [.ok .NotHandled, .ok .Handled, .ok .Handled] ∧
      (dispatch_line cmds mem s nl).current_state = .WaitingForInput ∧
      (dispatch_line cmds mem s nl).current_position = 0 ∧
      (dispatch_line cmds mem s nl).current_cmd.length = CMD_STR_LEN + 1 ∧
      (dispatch_line cmds mem s nl).last_cmd =
        (strncpy s.last_cmd 0 (s.current_cmd.set (min s.current_position CMD_STR_LEN) 0)
          (CMD_STR_LEN + 1)).set CMD_STR_LEN 0 := by
    cases hf : find_command (s.current_cmd.set (min s.current_position CMD_STR_LEN) 0)
        cmds.names 0 with
    | none =>
      obtain ⟨d1, d2, d3, d4, d5, _⟩ := dispatch_invalid cmds mem s nl hs hnl hsz hf hne0
      exact ⟨d1, d2, d3, by rw [d4]; exact t2, d5⟩
    | some i =>
      obtain ⟨d1, d2, d3, d4, d5, _⟩ := dispatch_found cmds mem s nl i hs hnl hsz hf
      exact ⟨d1, d2, d3, by rw [d4, get_args_length]; exact t2, d5⟩
  obtain ⟨d1, d2, d3, d4, d5⟩ := hD
  have hlast : cstr (dispatch_line cmds mem s nl).last_cmd = s.line := by
    rw [d5, cstr_copy _ _ (by rw [hstr]; exact t3)]
    exact t1
  have hlastlen : strlen (dispatch_line cmds mem s nl).last_cmd = s.line.length := by
    unfold strlen; rw [hlast]
  obtain ⟨u1, u2, u3, u4, u5, _, _⟩ := up_arrow_fields cmds mem (dispatch_line cmds mem s nl)
    d2 d3 d4 (by rw [hlastlen]; exact t3)
  have hfinal : cstr (deliver cmds mem (up_arrow cmds mem (dispatch_line cmds mem s nl))
      [uart_input [nl2]]).1.current_cmd = s.line := ?_
  · refine ⟨d1, hlast, u1, by rw [u3]; exact hlast, by rw [u5]; exact hlastlen, u2, ?_, hfinal,
      ?_⟩
    · rw [deliver_one]
      exact (handle_newline cmds mem _ 0 nl2 [] u2 hnl2).2.1
    · refine find_command_congr _ _ cmds.names 0 ?_
      rw [hfinal, deliver_one]
      simp only [uart_input]
      rw [(handle_newline cmds mem s 0 nl [] hs hnl).2.2.1]
      exact t1.symm
  · rw [deliver_one]
    simp only [uart_input]
    rw [(handle_newline cmds mem _ 0 nl2 [] u2 hnl2).2.2.1, u5, hlastlen,
      Nat.min_eq_left t3]
    have hU : cstr (up_arrow cmds mem (dispatch_line cmds mem s nl)).current_cmd = s.line := by
      rw [u3]; exact hlast
    have htake : (up_arrow cmds mem (dispatch_line cmds mem s nl)).current_cmd.take
        s.line.length = s.line := by
      have := take_strlen (up_arrow cmds mem (dispatch_line cmds mem s nl)).current_cmd
      unfold strlen at this
      rw [hU] at this
      exact this
    rw [cstr_set_zero _ _ (by rw [u4]; omega) (by rw [htake]; exact hwf.2.2)]
    exact htake

set_option maxRecDepth 100000 in
/-- After `help arg` is dispatched by CR, the up arrow restores `help arg`. -/
theorem history_recall_witness :
    cstr (up_arrow testCommands (fun _ => [])
        (dispatch_line testCommands (fun _ => []) (waiting (str "help arg")) 13)).current_cmd =
      (waiting (str "help arg")).line ∧
    (up_arrow testCommands (fun _ => [])
        (dispatch_line testCommands (fun _ => []) (waiting (str "help arg")) 13)).current_position =
      (waiting (str "help arg")).line.length :=
  ⟨(history_recall testCommands (fun _ => []) (waiting (str "help arg")) 13 10 rfl (by decide)
      (by decide) (by decide) (by decide) (by decide)).2.2.2.1,
    (history_recall testCommands (fun _ => []) (waiting (str "help arg")) 13 10 rfl (by decide)
      (by decide) (by decide) (by decide) (by decide)).2.2.2.2.1⟩

/-- C7: newline handling. Let the editor be well formed and wait for input
with a line that resolves to the command at position `i`, in a table without
empty names. A newline `nl` (CR or LF) and the two state updates it triggers
raise no fault and invoke exactly one command function, the one at position
`i`; a read holding CR LF does exactly what a read holding CR alone does.
A second newline `nl2` (the LF of a CR-LF pair delivered by a later read) is
dispatched against an empty buffer: it invokes no command function, leaves
the history unchanged and writes only its echo and the next prompt, so no
`Invalid Command` text. -/
theorem newline_once (cmds : Commands) (mem : Nat → List Nat) (s : CLI) (nl nl2 i : Nat)
    (hs : s.current_state = .WaitingForInput) (hwf : s.WF)
    (hi : i < cmds.names.length)
    (hres : Resolves (s.line ++ [0]) (cmds.names.getD i []))
    (hfirst : ∀ j, j < i → ¬ Resolves (s.line ++ [0]) (cmds.names.getD j []))
    (hnames : ∀ n ∈ cmds.names, cstr n ≠ [])
    (hnl : nl = 13 ∨ nl = 10) (hnl2 : nl2 = 13 ∨ nl2 = 10) :
    (deliver cmds mem s [uart_input [nl], update_state, update_state]).2 =
      [.ok .NotHandled, .ok .Handled, .ok .Handled] ∧
    (∃ c, (dispatch_line cmds mem s nl).calls = s.calls ++ [c] ∧ c.command_pos = i) ∧
    (deliver cmds mem s [uart_input [13, 10], update_state, update_state]) =
      (deliver cmds mem s [uart_input [13], update_state, update_state]) ∧
    (deliver cmds mem (dispatch_line cmds mem s nl)
      [uart_input [nl2], update_state, update_state]).2 =
      [.ok .NotHandled, .ok .Handled, .ok .Handled] ∧
    (dispatch_line cmds mem (dispatch_line cmds mem s nl) nl2).calls =
      (dispatch_line cmds mem s nl).calls ∧
    (dispatch_line cmds mem (dispatch_line cmds mem s nl) nl2).last_cmd =
      (dispatch_line cmds mem s nl).last_cmd ∧
    (dispatch_line cmds mem (dispatch_line cmds mem s nl) nl2).console =
      (dispatch_line cmds mem s nl).console ++ [[nl2], [13, 10], [62]] := by
  obtain ⟨t1, t2, t3⟩ := terminated_line s hwf
  have hsz : 0 < cmds.names.length := by omega
  have hcz : cstr (s.line ++ [0]) = s.line := cstr_append_zero _ _ hwf.2.2
  have hf : find_command (s.current_cmd.set (min s.current_position CMD_STR_LEN) 0)
      cmds.names 0 = some i := by
    rw [find_command_congr _ (s.line ++ [0]) cmds.names 0 (by rw [t1, hcz]),
      find_command_some _ cmds.names 0 i hi hres hfirst, Nat.zero_add]
  obtain ⟨d1, d2, d3, d4, _, d6⟩ := dispatch_found cmds mem s nl i hs hnl hsz hf
  have hDlen : (dispatch_line cmds mem s nl).current_cmd.length = CMD_STR_LEN + 1 := by
    rw [d4, get_args_length]; exact t2
  have hempty : cstr ((dispatch_line cmds mem s nl).current_cmd.set
      (min (dispatch_line cmds mem s nl).current_position CMD_STR_LEN) 0) = [] := by
    rw [d3, Nat.zero_min]
    rw [cstr_set_zero _ 0 (by rw [hDlen]; omega) (by simp)]
    rfl
  have he : strlen ((dispatch_line cmds mem s nl).current_cmd.set
      (min (dispatch_line cmds mem s nl).current_position CMD_STR_LEN) 0) = 0 := by
    unfold strlen; rw [hempty]; rfl
  have hnone : find_command ((dispatch_line cmds mem s nl).current_cmd.set
      (min (dispatch_line cmds mem s nl).current_position CMD_STR_LEN) 0) cmds.names 0 =
      none := by
    rw [find_command_none]
    intro n hn hres2
    have h1 := hres2.1
    rw [hempty, List.take_nil] at h1
    exact hnames n hn h1.symm
  obtain ⟨e1, _, _, e4, e5, e6⟩ := dispatch_empty cmds mem (dispatch_line cmds mem s nl) nl2
    d2 hnl2 hsz hnone he
  refine ⟨d1, ⟨_, d6, rfl⟩, ?_, e1, e6, e4, e5⟩
  rw [deliver_three, deliver_three]
  simp only [uart_input]
  rw [handle_newline_rest cmds mem s 0 13 [10] hs (Or.inl rfl)]

set_option maxRecDepth 100000 in
/-- The line `help` terminated by CR invokes the command at position 0 once. -/
theorem newline_once_witness :
    ∃ c, (dispatch_line testCommands (fun _ => []) (waiting (str "help")) 13).calls =
      (waiting (str "help")).calls ++ [c] ∧ c.command_pos = 0 :=
  (newline_once testCommands (fun _ => []) (waiting (str "help")) 13 10 0 rfl (by decide)
    (by decide) (by decide) (fun j hj => absurd hj (Nat.not_lt_zero j)) (by decide)
    (by decide) (by decide)).2.1

end control

namespace control

/-! ### Theorems about event dispatch -/

theorem disperse_loop_ge (evt : event.Event) (cs : List Control) :
    ∀ i k, k ∈ disperse_loop evt cs i → i ≤ k := by
  induction cs with
  | nil => intro i k h; simp [disperse_loop] at h
  | cons c rest ih =>
    intro i k h
    simp only [disperse_loop] at h
    split at h
    · have := ih _ _ h; omega
    · split at h
      · simp at h; omega
      · rcases List.mem_cons.1 h with h | h
        · omega
        · have := ih _ _ h; omega

theorem disperse_loop_nodup (evt : event.Event) (cs : List Control) :
    ∀ i, (disperse_loop evt cs i).Nodup := by
  induction cs with
  | nil => intro i; simp [disperse_loop]
  | cons c rest ih =>
    intro i
    simp only [disperse_loop]
    split
    · exact ih _
    · split
      · simp
      · refine List.nodup_cons.2 ⟨fun h => ?_, ih _⟩
        have := disperse_loop_ge evt rest _ _ h
        omega

theorem disperse_loop_mem (evt : event.Event) (cs : List Control) :
    ∀ i k, k ∈ disperse_loop evt cs i ↔ ∃ n, k = i + n ∧ Reaches cs evt n := by
  induction cs with
  | nil =>
    intro i k
    simp [disperse_loop, Reaches]
  | cons c rest ih =>
    intro i k
    have hshift : ∀ n, Reaches rest evt n →
        (c.enabled = true → c.handle_event evt = HandleStatus.NotHandled) →
        Reaches (c :: rest) evt (n + 1) := by
      intro n ⟨cn, h1, h2, h3⟩ hc
      refine ⟨cn, by simpa using h1, h2, ?_⟩
      intro j cj hj hcj hen
      cases j with
      | zero => simp at hcj; subst hcj; exact hc hen
      | succ j => exact h3 j cj (by omega) (by simpa using hcj) hen
    have hunshift : ∀ n, Reaches (c :: rest) evt (n + 1) →
        Reaches rest evt n ∧
          (c.enabled = true → c.handle_event evt = HandleStatus.NotHandled) := by
      intro n ⟨cn, h1, h2, h3⟩
      refine ⟨⟨cn, by simpa using h1, h2, ?_⟩, fun hen => h3 0 c (by omega) (by simp) hen⟩
      intro j cj hj hcj hen
      exact h3 (j + 1) cj (by omega) (by simpa using hcj) hen
    simp only [disperse_loop]
    split
    · rename_i hdis
      have hdis' : c.enabled = false := by simpa using hdis
      rw [ih]
      constructor
      · rintro ⟨n, rfl, hn⟩
        exact ⟨n + 1, by omega, hshift n hn (by simp [hdis'])⟩
      · rintro ⟨n, rfl, hn⟩
        cases n with
        | zero =>
          obtain ⟨c0, h1, h2, _⟩ := hn
          simp at h1; subst h1; simp [hdis'] at h2
        | succ n => exact ⟨n, by omega, (hunshift n hn).1⟩
    · rename_i hen
      have hen' : c.enabled = true := by simpa using hen
      have h0 : Reaches (c :: rest) evt 0 :=
        ⟨c, by simp, hen', fun j cj hj => absurd hj (Nat.not_lt_zero j)⟩
      split
      · rename_i hst
        have hst' : c.handle_event evt ≠ HandleStatus.NotHandled := by simpa using hst
        constructor
        · intro h
          simp at h
          exact ⟨0, by omega, h0⟩
        · rintro ⟨n, rfl, hn⟩
          cases n with
          | zero => simp
          | succ n => exact absurd ((hunshift n hn).2 hen') hst'
      · rename_i hst
        have hst' : c.handle_event evt = HandleStatus.NotHandled := by simpa using hst
        rw [List.mem_cons, ih]
        constructor
        · rintro (rfl | ⟨n, rfl, hn⟩)
          · exact ⟨0, by omega, h0⟩
          · exact ⟨n + 1, by omega, hshift n hn (fun _ => hst')⟩
        · rintro ⟨n, rfl, hn⟩
          cases n with
          | zero => left; rfl
          | succ n => right; exact ⟨n, by omega, (hunshift n hn).1⟩

/-- C11: for an event with `id < NumEvents`, `disperse_event` returns without
fault, control `i` receives the event if and only if it is enabled and every
enabled control before it returned `NotHandled` (so a disabled control never
receives it), and no control receives it twice. -/
theorem disperse_event_receivers (cfg : event.Config) (controls : List Control)
    (evt : event.Event) (hid : evt.id < cfg.NumEvents) :
    ∃ received, disperse_event cfg controls evt = .ok received ∧ received.Nodup ∧
      (∀ i, i ∈ received ↔ Reaches controls evt i) ∧
      (∀ i c, controls[i]? = some c → c.enabled = false → i ∉ received) := by
  refine ⟨disperse_loop evt controls 0, by simp [disperse_event, hid],
    disperse_loop_nodup evt controls 0, ?_, ?_⟩
  · intro i
    rw [disperse_loop_mem]
    constructor
    · rintro ⟨n, hn, h⟩
      have : i = n := by omega
      subst this; exact h
    · intro h; exact ⟨i, by omega, h⟩
  · intro i c hc hdis hmem
    rw [disperse_loop_mem] at hmem
    obtain ⟨n, hn, c', h1, h2, _⟩ := hmem
    have : i = n := by omega
    subst this
    rw [hc] at h1
    cases h1
    simp [hdis] at h2

/-- Three controls, the second disabled, the third answering `Handled`: the
first and the third receive the event. -/
theorem disperse_event_receivers_witness :
    ∃ received,
      disperse_event event.cfg0
        [⟨true, fun _ => HandleStatus.NotHandled⟩, ⟨false, fun _ => HandleStatus.Handled⟩,
          ⟨true, fun _ => HandleStatus.Handled⟩] ⟨1, 0, 0⟩ = .ok received ∧ received.Nodup ∧
      (∀ i, i ∈ received ↔
        Reaches [⟨true, fun _ => HandleStatus.NotHandled⟩, ⟨false, fun _ => HandleStatus.Handled⟩,
          ⟨true, fun _ => HandleStatus.Handled⟩] ⟨1, 0, 0⟩ i) ∧
      (∀ i c, ([⟨true, fun _ => HandleStatus.NotHandled⟩, ⟨false, fun _ => HandleStatus.Handled⟩,
          ⟨true, fun _ => HandleStatus.Handled⟩] : List Control)[i]? = some c →
        c.enabled = false → i ∉ received) :=
  disperse_event_receivers event.cfg0 _ ⟨1, 0, 0⟩ (by decide)

end control

namespace settings

/-! ### Theorems about the settings engine -/

theorem get_setting_loop_set (id : Nat) (e' : Setting) :
    ∀ (l : List Setting) (i p : Nat) (e : Setting),
      get_setting_loop id l i = some (p, e) → e'.id = e.id →
      get_setting_loop id (l.set (p - i) e') i = some (p, e') ∧ i ≤ p ∧ e.id = id := by
  intro l
  induction l with
  | nil => intro i p e h; simp [get_setting_loop] at h
  | cons a rest ih =>
    intro i p e h he
    simp only [get_setting_loop] at h
    split at h
    · rename_i ha
      simp only [Option.some.injEq, Prod.mk.injEq] at h
      obtain ⟨rfl, rfl⟩ := h
      simp [get_setting_loop, he, ha]
    · rename_i ha
      obtain ⟨h1, h2, h3⟩ := ih (i + 1) p e h he
      have hp : p - i = (p - (i + 1)) + 1 := by omega
      rw [hp]
      simp only [List.set_cons_succ, get_setting_loop, if_neg ha]
      exact ⟨h1, by omega, h3⟩

theorem get_setting_from_id_set {σ : Type} (s : State σ) (id pos : Nat) (setting e' : Setting)
    (h : get_setting_from_id s id = some (pos, setting)) (he : e'.id = setting.id) :
    get_setting_from_id { s with settings_list := s.settings_list.set pos e' } id
      = some (pos, e') := by
  have := (get_setting_loop_set id e' s.settings_list 0 pos setting h he).1
  simpa [get_setting_from_id] using this

theorem set_val_found {σ : Type} (env : Env σ) (c : Codes) (s : State σ) (id pos value : Nat)
    (setting : Setting) (hid : id < NumSettings s)
    (h : get_setting_from_id s id = some (pos, setting)) :
    set_val env c s id value =
      ({ s with modules := (env.set_param setting.module s.modules id value false).1,
                set_calls := s.set_calls ++ [⟨setting.module, id, value, false⟩] },
        .ok (env.set_param setting.module s.modules id value false).2) := by
  simp [set_val, hid, h]

end settings

namespace settings

theorem set_switch_ok {σ : Type} (env : Env σ) (c : Codes) (s : State σ) (id pos : Nat)
    (setting : Setting) (text : List Nat) (hid : id < NumSettings s)
    (hfind : get_setting_from_id s id = some (pos, setting)) (s1 : State σ) (r : Int)
    (h : set_switch env c s id text pos setting = (s1, .ok r)) :
    ∃ v, r = (env.set_param setting.module s.modules id v false).2 ∧
      s1.modules = (env.set_param setting.module s.modules id v false).1 ∧
      s1.set_calls = s.set_calls ++ [⟨setting.module, id, v, false⟩] ∧
      s1.saved = s.saved ∧ s1.get_calls = s.get_calls ∧
      (setting.type = SettingType.INT → v = to_uintptr (strtol text 10)) ∧
      (setting.type = SettingType.UINT → v = strtoul text 10) ∧
      (setting.type = SettingType.HEX → v = strtoul text 16) := by
  unfold set_switch at h
  split at h
  · rename_i ht
    rw [set_val_found env c s id pos _ setting hid hfind] at h
    simp only [Prod.mk.injEq, Except.ok.injEq] at h
    obtain ⟨rfl, rfl⟩ := h
    exact ⟨_, rfl, rfl, rfl, rfl, rfl, fun _ => rfl, by simp [ht], by simp [ht]⟩
  · rename_i ht
    rw [set_val_found env c s id pos _ setting hid hfind] at h
    simp only [Prod.mk.injEq, Except.ok.injEq] at h
    obtain ⟨rfl, rfl⟩ := h
    exact ⟨_, rfl, rfl, rfl, rfl, rfl, by simp [ht], fun _ => rfl, by simp [ht]⟩
  · rename_i ht
    rw [set_val_found env c s id pos _ setting hid hfind] at h
    simp only [Prod.mk.injEq, Except.ok.injEq] at h
    obtain ⟨rfl, rfl⟩ := h
    exact ⟨_, rfl, rfl, rfl, rfl, rfl, by simp [ht], by simp [ht], fun _ => rfl⟩
  · rename_i ht
    split at h
    · simp at h
    · have hf := get_setting_from_id_set s id pos setting
        { setting with str_buf := control.strncpy setting.str_buf 0 text MAX_STR_LEN } hfind rfl
      rw [set_val_found env c _ id pos _ _ (by simpa [NumSettings] using hid) hf] at h
      simp only [Prod.mk.injEq, Except.ok.injEq] at h
      obtain ⟨rfl, rfl⟩ := h
      exact ⟨_, rfl, rfl, rfl, rfl, rfl, by simp [ht], by simp [ht], by simp [ht]⟩
  · rename_i ht
    have hf := get_setting_from_id_set s id pos setting
      { setting with float_val := env.strtof text } hfind rfl
    rw [set_val_found env c _ id pos _ _ (by simpa [NumSettings] using hid) hf] at h
    simp only [Prod.mk.injEq, Except.ok.injEq] at h
    obtain ⟨rfl, rfl⟩ := h
    exact ⟨_, rfl, rfl, rfl, rfl, rfl, by simp [ht], by simp [ht], by simp [ht]⟩
  · simp at h

theorem get_val_found {σ : Type} (env : Env σ) (c : Codes) (s : State σ) (id pos : Nat)
    (setting : Setting) (hid : id < NumSettings s)
    (hfind : get_setting_from_id s id = some (pos, setting)) :
    get_val env c s id =
      ({ s with modules := (env.get_param setting.module s.modules id).1,
                get_calls := s.get_calls ++ [⟨setting.module, id⟩] },
        .ok ((env.get_param setting.module s.modules id).2.1, c.NoError)) := by
  simp [get_val, hid, hfind]

/-- C12: a write to a GET-only setting returns `WriteFailed` and leaves the
whole state as it was (no callback, no `save_setting`); a read of a SET-only
setting returns `ReadFailed` and leaves the state and the caller's buffer as
they were; with any other permission a value returned by `set` is the value
returned by the one call it made of the module's set callback, and a value
returned by `get` is `NoError`. -/
theorem set_get_permissions {σ : Type} (env : Env σ) (c : Codes) (s : State σ) (id pos : Nat)
    (setting : Setting) (text buf : List Nat) (save : Bool) (hid : id < NumSettings s)
    (hfind : get_setting_from_id s id = some (pos, setting)) :
    (setting.permission = Permission.GET →
      set env c s id (some text) save = (s, .ok c.WriteFailed)) ∧
    (setting.permission = Permission.SET →
      get env c s id (some buf) = (s, some buf, .ok c.ReadFailed)) ∧
    (setting.permission ≠ Permission.GET → ∀ r, (set env c s id (some text) save).2 = .ok r →
      ∃ v, r = (env.set_param setting.module s.modules id v false).2 ∧
        (set env c s id (some text) save).1.set_calls
          = s.set_calls ++ [⟨setting.module, id, v, false⟩]) ∧
    (setting.permission ≠ Permission.SET → ∀ r, (get env c s id (some buf)).2.2 = .ok r →
      r = c.NoError ∧ (c.NoError ≠ c.ReadFailed → r ≠ c.ReadFailed)) := by
  refine ⟨?_, ?_, ?_, ?_⟩
  · intro hp
    simp [set, hid, hfind, hp]
  · intro hp
    simp [get, hid, hfind, hp]
  · intro hp r hr
    simp only [set, hid, hfind, hp, decide_True, Bool.not_true, Bool.false_eq_true,
      if_false] at hr ⊢
    generalize hsw : set_switch env c s id text pos setting = R at hr ⊢
    obtain ⟨s1, res⟩ := R
    cases res with
    | error e => simp at hr
    | ok r1 =>
      obtain ⟨v, h1, _, h3, _⟩ := set_switch_ok env c s id pos setting text hid hfind s1 r1 hsw
      refine ⟨v, ?_, ?_⟩
      · simp only at hr
        split at hr <;> simp at hr <;> rw [← hr] <;> exact h1
      · simp only
        split <;> simp [save_setting, h3]
  · intro hp r hr
    simp only [get, hid, hfind, hp, decide_True, Bool.not_true, Bool.false_eq_true,
      if_false] at hr
    generalize get_switch env c s id (control.memset buf 0 MAX_STR_LEN) setting = R at hr
    obtain ⟨s1, b, res⟩ := R
    cases res with
    | error e => simp at hr
    | ok u =>
      simp at hr
      subst hr
      exact ⟨rfl, fun h => h⟩

end settings

namespace settings

/-- A write to the GET-only setting 3 of the example table is refused. -/
theorem set_get_permissions_witness :
    set testEnv testCodes testState 3 (some (control.str "7")) true
      = (testState, .ok testCodes.WriteFailed) :=
  (set_get_permissions testEnv testCodes testState 3 3
    ⟨3, SettingType.INT, 0, Permission.GET, 0, [], 0⟩ (control.str "7") [] true
    (by decide) rfl).1 rfl

end settings

namespace settings

/-! ### Numerals: `strtol`, `strtoul` and `snprintf` on canonical texts -/

theorem decimal_value_snoc (ds : List Nat) (d : Nat) :
    decimal_value (ds ++ [d]) = decimal_value ds * 10 + (d - 48) := by
  simp [decimal_value, List.foldl_append]

theorem hex_value_snoc (ds : List Nat) (d : Nat) :
    hex_value (ds ++ [d]) = hex_value ds * 16 + (if d ≤ 57 then d - 48 else d - 55) := by
  simp [hex_value, List.foldl_append]

theorem digits_value_decimal (ds : List Nat) (hd : ∀ c ∈ ds, 48 ≤ c ∧ c ≤ 57) :
    ∀ acc, digits_value 10 ds acc = ds.foldl (fun a c => a * 10 + (c - 48)) acc := by
  induction ds with
  | nil => intro acc; rfl
  | cons c cs ih =>
    intro acc
    have hc := hd c (List.mem_cons_self _ _)
    have hdv : digit_value c = some (c - 48) := by simp [digit_value, hc.1, hc.2]
    have hlt : c - 48 < 10 := by omega
    simp only [digits_value, hdv, hlt, if_true, List.foldl_cons]
    exact ih (fun x hx => hd x (List.mem_cons_of_mem _ hx)) _

theorem is_decimal_head (ds : List Nat) (h : IsDecimal ds) :
    ∃ c cs, ds = c :: cs ∧ 48 ≤ c ∧ c ≤ 57 := by
  obtain ⟨h1, h2, _⟩ := h
  cases ds with
  | nil => exact absurd rfl h1
  | cons c cs => exact ⟨c, cs, rfl, h2 c (List.mem_cons_self _ _)⟩

theorem magnitude_decimal (ds : List Nat) (h : IsDecimal ds) :
    magnitude ds 10 = (false, decimal_value ds) := by
  obtain ⟨c, cs, rfl, hc1, hc2⟩ := is_decimal_head ds h
  have hsp : isspace c = false := by
    simp only [isspace, Bool.or_eq_false_iff, beq_eq_false_iff_ne, ne_eq,
      Bool.and_eq_false_iff, decide_eq_false_iff_not]
    constructor <;> omega
  have h45 : c ≠ 45 := by omega
  have h43 : c ≠ 43 := by omega
  have hsk : skip_0x 10 (c :: cs) = c :: cs := by
    cases cs with
    | nil => rfl
    | cons x xs => simp [skip_0x]
  simp only [magnitude, skip_space, hsp, split_sign, h45, h43, if_false, hsk,
    Bool.false_eq_true]
  rw [digits_value_decimal _ h.2.1]
  rfl

theorem magnitude_minus (ds : List Nat) (h : IsDecimal ds) :
    magnitude (45 :: ds) 10 = (true, decimal_value ds) := by
  obtain ⟨c, cs, rfl, hc1, hc2⟩ := is_decimal_head ds h
  have hsk : skip_0x 10 (c :: cs) = c :: cs := by
    cases cs with
    | nil => rfl
    | cons x xs => simp [skip_0x]
  have hsp : isspace 45 = false := by decide
  simp only [magnitude, skip_space, hsp, split_sign, if_true, hsk, Bool.false_eq_true,
    if_false]
  rw [digits_value_decimal _ h.2.1]
  rfl

theorem is_decimal_init (ds : List Nat) (d : Nat) (hne : ds ≠ [])
    (h : IsDecimal (ds ++ [d])) : IsDecimal ds ∧ 1 ≤ decimal_value ds := by
  obtain ⟨_, h2, h3⟩ := h
  have hds : ∀ c ∈ ds, 48 ≤ c ∧ c ≤ 57 := fun c hc => h2 c (List.mem_append_left _ hc)
  cases ds with
  | nil => exact absurd rfl hne
  | cons c cs =>
    have hc48 : c ≠ 48 := by
      intro hc
      have := h3 (by simp [hc])
      simp at this
    refine ⟨⟨hne, hds, fun hh => absurd (by simpa using hh) hc48⟩, ?_⟩
    have hc := hds c (List.mem_cons_self _ _)
    have hmono : ∀ (l : List Nat) (a : Nat), 1 ≤ a →
        1 ≤ l.foldl (fun a c => a * 10 + (c - 48)) a := by
      intro l
      induction l with
      | nil => intro a ha; exact ha
      | cons x xs ih => intro a ha; exact ih (a * 10 + (x - 48)) (by omega)
    simp only [decimal_value, List.foldl_cons]
    exact hmono cs (0 * 10 + (c - 48)) (by omega)

theorem dec_digits_canonical (ds : List Nat) :
    ∀ fuel, IsDecimal ds → decimal_value ds < 10 ^ (fuel + 1) →
      dec_digits (fuel + 1) (decimal_value ds) = ds := by
  induction ds using List.reverseRecOn with
  | nil => intro fuel h; exact absurd rfl h.1
  | append_singleton init d ih =>
    intro fuel h hlt
    have hd := h.2.1 d (by simp)
    by_cases hne : init = []
    · subst hne
      have hv : decimal_value ([] ++ [d]) = d - 48 := by simp [decimal_value]
      rw [hv]
      have : d - 48 < 10 := by omega
      simp only [dec_digits, this, if_true, List.nil_append]
      congr 1; omega
    · obtain ⟨hinit, hge⟩ := is_decimal_init init d hne h
      rw [decimal_value_snoc] at hlt ⊢
      have hnlt : ¬ decimal_value init * 10 + (d - 48) < 10 := by omega
      cases fuel with
      | zero => simp at hlt; omega
      | succ f =>
        have hdiv : (decimal_value init * 10 + (d - 48)) / 10 = decimal_value init := by omega
        have hmod : (decimal_value init * 10 + (d - 48)) % 10 = d - 48 := by omega
        have hlt2 : decimal_value init < 10 ^ (f + 1) := by
          rw [pow_succ] at hlt; omega
        rw [dec_digits]
        simp only [hnlt, if_false, hdiv, hmod]
        rw [ih f hinit hlt2]
        congr 2; omega

theorem dec_digits_length : ∀ fuel n, (dec_digits fuel n).length ≤ fuel := by
  intro fuel
  induction fuel with
  | zero => intro n; simp [dec_digits]
  | succ f ih =>
    intro n
    simp only [dec_digits]
    split
    · simp
    · have := ih (n / 10)
      simp only [List.length_append, List.length_singleton]
      omega

theorem dec_digits_chars : ∀ fuel n c, c ∈ dec_digits fuel n → 48 ≤ c ∧ c ≤ 57 := by
  intro fuel
  induction fuel with
  | zero => intro n c h; simp [dec_digits] at h
  | succ f ih =>
    intro n c h
    simp only [dec_digits] at h
    split at h
    · simp at h; omega
    · rcases List.mem_append.1 h with h | h
      · exact ih _ _ h
      · simp at h; omega

theorem hex_digits_length : ∀ fuel n, (hex_digits fuel n).length ≤ fuel := by
  intro fuel
  induction fuel with
  | zero => intro n; simp [hex_digits]
  | succ f ih =>
    intro n
    simp only [hex_digits]
    split
    · simp
    · have := ih (n / 16)
      simp only [List.length_append, List.length_singleton]
      omega

theorem hex_char_range (d : Nat) (h : d < 16) :
    ((48 ≤ hex_char d ∧ hex_char d ≤ 57) ∨ (65 ≤ hex_char d ∧ hex_char d ≤ 70)) ∧
      (if hex_char d ≤ 57 then hex_char d - 48 else hex_char d - 55) = d ∧
      (hex_char d = 48 → d = 0) := by
  unfold hex_char
  by_cases h10 : d < 10
  · simp only [h10, if_true]
    refine ⟨Or.inl (by omega), ?_, by omega⟩
    have : 48 + d ≤ 57 := by omega
    simp only [this, if_true]; omega
  · simp only [h10, if_false]
    refine ⟨Or.inr (by omega), ?_, by omega⟩
    have : ¬ 55 + d ≤ 57 := by omega
    simp only [this, if_false]; omega

theorem hex_digits_canonical : ∀ fuel n, n < 16 ^ (fuel + 1) →
    IsUpperHex (hex_digits (fuel + 1) n) ∧ hex_value (hex_digits (fuel + 1) n) = n ∧
      ((hex_digits (fuel + 1) n).head? = some 48 → n = 0) := by
  intro fuel
  induction fuel with
  | zero =>
    intro n hn
    have hn16 : n < 16 := by simpa using hn
    obtain ⟨h1, h2, h3⟩ := hex_char_range n hn16
    simp only [hex_digits, hn16, if_true]
    refine ⟨⟨by simp, ?_, ?_⟩, ?_, ?_⟩
    · intro c hc
      simp at hc; subst hc; exact h1
    · intro hh; simp at hh; simp [hh]
    · simpa [hex_value] using h2
    · intro hh
      simp at hh
      exact h3 hh
  | succ f ih =>
    intro n hn
    rw [hex_digits]
    by_cases hn16 : n < 16
    · obtain ⟨h1, h2, h3⟩ := hex_char_range n hn16
      simp only [hn16, if_true]
      refine ⟨⟨by simp, ?_, ?_⟩, ?_, ?_⟩
      · intro c hc
        simp at hc; subst hc; exact h1
      · intro hh; simp at hh; simp [hh]
      · simpa [hex_value] using h2
      · intro hh
        simp at hh
        exact h3 hh
    · simp only [hn16, if_false]
      have hdiv : n / 16 < 16 ^ (f + 1) := by
        rw [pow_succ] at hn; omega
      obtain ⟨⟨g1, g2, g3⟩, g4, g5⟩ := ih (n / 16) hdiv
      obtain ⟨h1, h2, _⟩ := hex_char_range (n % 16) (Nat.mod_lt _ (by omega))
      have hhead : (hex_digits (f + 1) (n / 16) ++ [hex_char (n % 16)]).head?
          = (hex_digits (f + 1) (n / 16)).head? := by
        cases hh : hex_digits (f + 1) (n / 16) with
        | nil => exact absurd hh g1
        | cons a l => rfl
      have hne0 : (hex_digits (f + 1) (n / 16) ++ [hex_char (n % 16)]).head? ≠ some 48 := by
        rw [hhead]
        intro hh
        have := g5 hh
        omega
      refine ⟨⟨by simp, ?_, fun hh => absurd hh hne0⟩, ?_, fun hh => absurd hh hne0⟩
      · intro c hc
        rcases List.mem_append.1 hc with hc | hc
        · exact g2 c hc
        · simp at hc; subst hc; exact h1
      · rw [hex_value_snoc, g4, h2]; omega

theorem cstr_snprintf (dst text : List Nat) (n : Nat) (h0 : ∀ c ∈ text, c ≠ 0)
    (hlen : text.length ≤ n - 1) : control.cstr (snprintf dst n text) = text := by
  have htake : text.take (n - 1) = text := List.take_of_length_le hlen
  simp only [snprintf, htake, control.cstr, List.append_assoc]
  rw [List.takeWhile_append_of_pos]
  · simp
  · intro c hc
    simpa using h0 c hc

end settings

namespace settings

theorem strtoul_lt (s : List Nat) (base : Nat) : strtoul s base < 4294967296 := by
  unfold strtoul
  simp only
  split
  · omega
  · split
    · split <;> omega
    · omega

theorem round_trip_int (text : List Nat) (n : Int) (h : CanonicalInt text n)
    (hlo : -2147483648 ≤ n) (hhi : n < 2147483648) :
    format_i32 (to_int32 (to_uintptr (strtol text 10))) = text ∧
      (∀ c ∈ text, c ≠ 0) ∧ text.length ≤ 11 := by
  rcases h with ⟨h0, hdec, hv⟩ | ⟨h0, ds, rfl, hdec, hv⟩
  · have hst : strtol text 10 = n := by
      simp only [strtol, magnitude_decimal text hdec, Bool.false_eq_true, if_false]
      split
      · omega
      · exact hv
    have hcast : to_int32 (to_uintptr n) = n := by
      unfold to_uintptr to_int32
      have h1 : ¬ n < 0 := by omega
      simp only [h1, if_false]
      split <;> omega
    have hfmt : format_i32 n = text := by
      unfold format_i32
      have h1 : ¬ n < 0 := by omega
      simp only [h1, if_false]
      have h2 : n.toNat = decimal_value text := by omega
      rw [h2]
      exact dec_digits_canonical text 9 hdec (by omega)
    rw [hst, hcast]
    refine ⟨hfmt, ?_, ?_⟩
    · intro c hc
      have := hdec.2.1 c hc
      omega
    · have := dec_digits_length 10 (decimal_value text)
      rw [dec_digits_canonical text 9 hdec (by omega)] at this
      omega
  · have hst : strtol (45 :: ds) 10 = n := by
      simp only [strtol, magnitude_minus ds hdec, if_true]
      split
      · omega
      · omega
    have hcast : to_int32 (to_uintptr n) = n := by
      unfold to_uintptr to_int32
      simp only [h0, if_true]
      split <;> omega
    have hfmt : format_i32 n = 45 :: ds := by
      unfold format_i32
      simp only [h0, if_true]
      have h2 : (-n).toNat = decimal_value ds := by omega
      rw [h2]
      congr 1
      exact dec_digits_canonical ds 9 hdec (by omega)
    rw [hst, hcast]
    refine ⟨hfmt, ?_, ?_⟩
    · intro c hc
      rcases List.mem_cons.1 hc with rfl | hc
      · omega
      · have := hdec.2.1 c hc
        omega
    · have := dec_digits_length 10 (decimal_value ds)
      rw [dec_digits_canonical ds 9 hdec (by omega)] at this
      simp only [List.length_cons]
      omega

theorem round_trip_uint (text : List Nat) (hdec : IsDecimal text)
    (hhi : decimal_value text < 4294967296) :
    format_u32 (strtoul text 10) = text ∧ (∀ c ∈ text, c ≠ 0) ∧ text.length ≤ 10 := by
  have hst : strtoul text 10 = decimal_value text := by
    simp only [strtoul, magnitude_decimal text hdec, Bool.false_eq_true, if_false]
    split
    · omega
    · rfl
  have hfmt : dec_digits 10 (decimal_value text) = text :=
    dec_digits_canonical text 9 hdec (by omega)
  rw [hst, format_u32, hfmt]
  refine ⟨rfl, ?_, ?_⟩
  · intro c hc
    have := hdec.2.1 c hc
    omega
  · have := dec_digits_length 10 (decimal_value text)
    rw [hfmt] at this
    exact this

theorem set_numeric {σ : Type} (env : Env σ) (c : Codes) (s : State σ) (id pos : Nat)
    (setting : Setting) (text : List Nat) (hid : id < NumSettings s)
    (hfind : get_setting_from_id s id = some (pos, setting))
    (hperm : setting.permission ≠ Permission.GET)
    (htype : setting.type = SettingType.INT ∨ setting.type = SettingType.UINT ∨
      setting.type = SettingType.HEX) :
    (set env c s id (some text) false).1
      = { s with modules := (env.set_param setting.module s.modules id
                    (parsed_value setting.type text) false).1,
                 set_calls := s.set_calls ++
                    [⟨setting.module, id, parsed_value setting.type text, false⟩] } := by
  have hsw : set_switch env c s id text pos setting
      = ({ s with modules := (env.set_param setting.module s.modules id
                    (parsed_value setting.type text) false).1,
                  set_calls := s.set_calls ++
                    [⟨setting.module, id, parsed_value setting.type text, false⟩] },
         .ok (env.set_param setting.module s.modules id
            (parsed_value setting.type text) false).2) := by
    rcases htype with ht | ht | ht <;>
      simp only [set_switch, ht, parsed_value] <;>
      exact set_val_found env c s id pos _ setting hid hfind
  simp [set, hid, hfind, hperm, hsw]

theorem get_numeric {σ : Type} (env : Env σ) (c : Codes) (s : State σ) (id pos : Nat)
    (setting : Setting) (buf : List Nat) (hid : id < NumSettings s)
    (hfind : get_setting_from_id s id = some (pos, setting))
    (hperm : setting.permission ≠ Permission.SET) :
    (setting.type = SettingType.INT → (get env c s id (some buf)).2.1
      = some (snprintf (control.memset buf 0 MAX_STR_LEN) MAX_STR_LEN
          (format_i32 (to_int32 ((env.get_param setting.module s.modules id).2.1.getD 0))))) ∧
    (setting.type = SettingType.UINT → (get env c s id (some buf)).2.1
      = some (snprintf (control.memset buf 0 MAX_STR_LEN) MAX_STR_LEN
          (format_u32 ((env.get_param setting.module s.modules id).2.1.getD 0)))) ∧
    (setting.type = SettingType.HEX → (get env c s id (some buf)).2.1
      = some (snprintf (control.memset buf 0 MAX_STR_LEN) MAX_STR_LEN
          ([48, 120] ++ format_X32 ((env.get_param setting.module s.modules id).2.1.getD 0)))) := by
  refine ⟨?_, ?_, ?_⟩ <;> intro ht <;>
    simp [get, hid, hfind, hperm, get_switch, ht, get_val_found env c s id pos setting hid hfind]

end settings

namespace settings

/-- C14: when the module's get callback yields the word last passed to its set
callback, then for a setting that may be written and read, `set(id, text,
false)` followed by `get(id, buf)` leaves in `buf` the string `text` if the
setting is INT and `text` is the canonical decimal text of a signed 32-bit
integer, or the setting is UINT and `text` is the canonical decimal text of an
unsigned 32-bit integer; if the setting is HEX, `buf` holds `0x` followed by
the upper-case hexadecimal numeral, without leading zeros, of the value
`strtoul` parsed from `text`. -/
theorem text_round_trip {σ : Type} (env : Env σ) (c : Codes) (s : State σ) (id pos : Nat)
    (setting : Setting) (text buf : List Nat) (hid : id < NumSettings s)
    (hfind : get_setting_from_id s id = some (pos, setting))
    (hset : setting.permission ≠ Permission.GET) (hget : setting.permission ≠ Permission.SET)
    (hcb : ∀ m st i v b, (env.get_param m (env.set_param m st i v b).1 i).2.1 = some v) :
    (setting.type = SettingType.INT → ∀ n : Int, CanonicalInt text n →
      -2147483648 ≤ n → n < 2147483648 →
      (get env c (set env c s id (some text) false).1 id (some buf)).2.1.map control.cstr
        = some text) ∧
    (setting.type = SettingType.UINT → IsDecimal text → decimal_value text < 4294967296 →
      (get env c (set env c s id (some text) false).1 id (some buf)).2.1.map control.cstr
        = some text) ∧
    (setting.type = SettingType.HEX → ∃ ds, IsUpperHex ds ∧ hex_value ds = strtoul text 16 ∧
      (get env c (set env c s id (some text) false).1 id (some buf)).2.1.map control.cstr
        = some ([48, 120] ++ ds)) := by
  have key : ∀ ht : setting.type = SettingType.INT ∨ setting.type = SettingType.UINT ∨
      setting.type = SettingType.HEX,
      id < NumSettings (set env c s id (some text) false).1 ∧
      get_setting_from_id (set env c s id (some text) false).1 id = some (pos, setting) ∧
      (env.get_param setting.module (set env c s id (some text) false).1.modules id).2.1
        = some (parsed_value setting.type text) := by
    intro ht
    rw [set_numeric env c s id pos setting text hid hfind hset ht]
    exact ⟨hid, hfind, hcb _ _ _ _ _⟩
  refine ⟨?_, ?_, ?_⟩
  · intro ht n hcan hlo hhi
    obtain ⟨k1, k2, k3⟩ := key (Or.inl ht)
    obtain ⟨r1, r2, r3⟩ := round_trip_int text n hcan hlo hhi
    rw [(get_numeric env c _ id pos setting buf k1 k2 hget).1 ht, k3, ht]
    simp only [Option.map_some', Option.getD_some, parsed_value, r1]
    rw [cstr_snprintf _ _ _ r2 (by simp only [MAX_STR_LEN]; omega)]
  · intro ht hdec hhi
    obtain ⟨k1, k2, k3⟩ := key (Or.inr (Or.inl ht))
    obtain ⟨r1, r2, r3⟩ := round_trip_uint text hdec hhi
    rw [(get_numeric env c _ id pos setting buf k1 k2 hget).2.1 ht, k3, ht]
    simp only [Option.map_some', Option.getD_some, parsed_value, r1]
    rw [cstr_snprintf _ _ _ r2 (by simp only [MAX_STR_LEN]; omega)]
  · intro ht
    obtain ⟨k1, k2, k3⟩ := key (Or.inr (Or.inr ht))
    obtain ⟨g1, g2, _⟩ := hex_digits_canonical 7 (strtoul text 16)
      (by have := strtoul_lt text 16; omega)
    refine ⟨hex_digits 8 (strtoul text 16), g1, g2, ?_⟩
    rw [(get_numeric env c _ id pos setting buf k1 k2 hget).2.2 ht, k3, ht]
    simp only [Option.map_some', Option.getD_some, parsed_value, format_X32]
    rw [cstr_snprintf]
    · intro ch hch
      rcases List.mem_append.1 hch with hch | hch
      · simp at hch; omega
      · have := g1.2.1 ch hch
        omega
    · have := hex_digits_length 8 (strtoul text 16)
      simp only [MAX_STR_LEN, List.length_append, List.length_cons, List.length_nil]
      omega

/-- The text `-5` set on the INT setting 0 of the example table is read back
as `-5` into a buffer that held 64 letters. -/
theorem text_round_trip_witness :
    (get testEnv testCodes (set testEnv testCodes testState 0 (some (control.str "-5")) false).1
      0 (some (List.replicate 64 65))).2.1.map control.cstr = some (control.str "-5") :=
  (text_round_trip testEnv testCodes testState 0 0
    ⟨0, SettingType.INT, 0, Permission.SET_GET, 0, [], 0⟩ (control.str "-5")
    (List.replicate 64 65) (by decide) rfl (by decide) (by decide)
    (fun m st i v b => by simp [testEnv])).1 rfl (-5)
    (Or.inr ⟨by decide, [53], rfl, by simp [IsDecimal], by decide⟩) (by decide) (by decide)

end settings

namespace command

/-! ### The settings commands -/

/-- C15 (the code departs from it): after `setting-set 0 -5` on the INT setting
0 of the example table, `setting-get 0` leaves `-5`, CR, a zero byte, LF and a
zero byte at the start of its static array, so the string it returns is `-5`
followed by CR alone: the second and third `strlen` see the CR just stored and
the zero byte after it, and the LF lands one byte past that terminator. -/
theorem setting_get_result_lacks_line_feed :
    (setting_get settings.testEnv settings.testCodes
      (setting_set settings.testEnv settings.testCodes settings.testState 2
        [control.str "0", control.str "-5"]).1
      (List.replicate 67 0) 1 [control.str "0"]).2.2.toOption.map control.cstr
      = some [45, 53, 13] ∧
    ((setting_get settings.testEnv settings.testCodes
      (setting_set settings.testEnv settings.testCodes settings.testState 2
        [control.str "0", control.str "-5"]).1
      (List.replicate 67 0) 1 [control.str "0"]).2.1.take 6)
      = [45, 53, 13, 0, 10, 0] := by
  constructor <;> decide

end command

namespace settings_backend

/-! ### Theorems about the flash backend -/

theorem store_inside (mem : Nat → Nat) (a : Nat) (buf : List Nat) (k : Nat)
    (h : k < buf.length) : store mem a buf (a + k) = buf.getD k 0 := by
  have h1 : a ≤ a + k ∧ a + k < a + buf.length := ⟨by omega, by omega⟩
  simp only [store, h1, and_self, if_true, Nat.add_sub_cancel_left]

theorem store_outside (mem : Nat → Nat) (a : Nat) (buf : List Nat) (x : Nat)
    (h : x < a ∨ a + buf.length ≤ x) : store mem a buf x = mem x := by
  have h1 : ¬ (a ≤ x ∧ x < a + buf.length) := by omega
  simp only [store, h1, if_false]

theorem word_congr (m1 m2 : Nat → Nat) (a : Nat)
    (h : ∀ x, a ≤ x → x < a + 4 → m1 x = m2 x) : word m1 a = word m2 a := by
  simp only [word]
  rw [h a (by omega) (by omega), h (a + 1) (by omega) (by omega),
    h (a + 2) (by omega) (by omega), h (a + 3) (by omega) (by omega)]

theorem read_header_congr (m1 m2 : Nat → Nat) (a : Nat)
    (h : ∀ x, a ≤ x → x < a + 16 → m1 x = m2 x) : read_header m1 a = read_header m2 a := by
  simp only [read_header]
  rw [word_congr m1 m2 a (fun x h1 h2 => h x h1 (by omega)),
    word_congr m1 m2 (a + 4) (fun x h1 h2 => h x (by omega) (by omega)),
    word_congr m1 m2 (a + 8) (fun x h1 h2 => h x (by omega) (by omega)),
    word_congr m1 m2 (a + 12) (fun x h1 h2 => h x (by omega) (by omega))]

theorem flash_read_congr (m1 m2 : Nat → Nat) (a n : Nat)
    (h : ∀ x, a ≤ x → x < a + n → m1 x = m2 x) : flash_read m1 a n = flash_read m2 a n := by
  simp only [flash_read]
  apply List.map_congr_left
  intro k hk
  have := List.mem_range.1 hk
  exact h (a + k) (by omega) (by omega)

theorem header_bytes_length (h : SettingFlashHeader) : (header_bytes h).length = 16 := by
  simp [header_bytes, word_bytes]

theorem word_bytes_value (w : Nat) (hw : w < 4294967296) :
    w % 256 + 256 * (w / 256 % 256) + 65536 * (w / 65536 % 256)
      + 16777216 * (w / 16777216 % 256) = w := by
  omega

theorem read_header_store (mem : Nat → Nat) (a : Nat) (h : SettingFlashHeader)
    (h1 : h.id < 4294967296) (h2 : h.size < 4294967296) (h3 : h.deleted < 4294967296)
    (h4 : h.reserved < 4294967296) : read_header (store mem a (header_bytes h)) a = h := by
  have hl := header_bytes_length h
  have e : ∀ k, k < 16 → store mem a (header_bytes h) (a + k) = (header_bytes h).getD k 0 :=
    fun k hk => store_inside mem a _ k (by omega)
  have e0 := e 0 (by omega)
  simp only [Nat.add_zero] at e0
  obtain ⟨i, s, d, r⟩ := h
  simp only [read_header, word, Nat.add_assoc, e0, e 1 (by omega), e 2 (by omega),
    e 3 (by omega), e 4 (by omega), e 5 (by omega), e 6 (by omega), e 7 (by omega),
    e 8 (by omega), e 9 (by omega), e 10 (by omega), e 11 (by omega), e 12 (by omega),
    e 13 (by omega), e 14 (by omega), e 15 (by omega), Nat.reduceAdd]
  simp only [header_bytes, word_bytes, List.cons_append, List.nil_append, List.getD_cons_zero,
    List.getD_cons_succ]
  simp only at h1 h2 h3 h4
  have g1 := word_bytes_value i h1
  have g2 := word_bytes_value s h2
  have g3 := word_bytes_value d h3
  have g4 := word_bytes_value r h4
  congr 1 <;> omega

theorem flash_read_store (mem : Nat → Nat) (a : Nat) (buf : List Nat) :
    flash_read (store mem a buf) a buf.length = buf := by
  apply List.ext_getElem
  · simp [flash_read]
  · intro k h1 h2
    simp only [flash_read, List.getElem_map, List.getElem_range]
    rw [store_inside mem a buf k h2]
    simp [List.getD_eq_getElem?_getD, h2]

theorem increment_bounds (a : Nat) (h : SettingFlashHeader) (ha : a < 2147483648)
    (hs : h.size < MAX_SETTING_SIZE) :
    a + 16 + h.size ≤ increment a h ∧ increment a h < a + 16 + h.size + 8 ∧
      increment a h % 8 = 0 := by
  simp only [MAX_SETTING_SIZE] at hs
  simp only [increment, align, add32, header_size]
  have h1 : a + 16 < 4294967296 := by omega
  have h2 : a + 16 + h.size < 4294967296 := by omega
  have h3 : a + 16 + h.size + 7 < 4294967296 := by omega
  simp only [h1, h2, h3, if_true]
  omega

theorem sector_end_eq (p : Platform) (start x : Nat) (hs : SectorAt p start)
    (h1 : start ≤ x) (h2 : x < start + p.sector_size) :
    sector_end p x = start + p.sector_size := by
  obtain ⟨hpos, _, hmax, hst⟩ := hs
  have hlt : x + p.sector_size < 4294967296 := by omega
  simp only [sector_end, add32, hlt, if_true]
  rcases hst with rfl | rfl
  · have : (x + p.sector_size) % p.sector_size = x := by
      rw [Nat.add_mod_right]; exact Nat.mod_eq_of_lt (by omega)
    rw [this]; omega
  · have hx : x = p.sector_size + (x - p.sector_size) := by omega
    have : (x + p.sector_size) % p.sector_size = x - p.sector_size := by
      rw [Nat.add_mod_right]
      conv_lhs => rw [hx]
      rw [Nat.add_mod_left]; exact Nat.mod_eq_of_lt (by omega)
    rw [this]; omega

end settings_backend

namespace settings_backend

theorem holds_cons_inc (mem : Nat → Nat) (stop a : Nat) (r : Record) (rs : List Record)
    (h : Holds mem stop a (r :: rs)) (hstop : stop ≤ 2147483648) :
    a + 16 + r.payload.length ≤ increment a r.header ∧
      increment a r.header < a + 16 + r.payload.length + 8 ∧
      increment a r.header % 8 = 0 := by
  obtain ⟨h1, _, _, _, _, h6, _⟩ := h
  exact increment_bounds a r.header (by omega) h6

theorem end_addr_ge (mem : Nat → Nat) (stop : Nat) (hstop : stop ≤ 2147483648)
    (rs : List Record) : ∀ a, Holds mem stop a rs → a ≤ end_addr a rs := by
  induction rs with
  | nil => intro a _; exact Nat.le_refl _
  | cons r rs ih =>
    intro a h
    have hb := holds_cons_inc mem stop a r rs h hstop
    have := ih _ h.2.2.2.2.2.2.2
    simp only [end_addr]
    omega

theorem empty_iff (x : Nat) : empty x = true ↔ x = UNSET_FLASH := by
  simp [empty]

theorem next_empty_loop_holds (mem : Nat → Nat) (stop : Nat) (rs : List Record) :
    ∀ a fuel, Holds mem stop a rs → rs.length + 1 ≤ fuel →
      next_empty_loop mem stop fuel a
        = some (if end_addr a rs < stop then end_addr a rs else UINT32_MAX) := by
  induction rs with
  | nil =>
    intro a fuel h hf
    obtain ⟨f, rfl⟩ : ∃ f, fuel = f + 1 := ⟨fuel - 1, by simp at hf; omega⟩
    simp only [next_empty_loop, end_addr]
    by_cases ha : a < stop
    · have hw : word mem a = UNSET_FLASH := by
        rcases h with h | h
        · omega
        · exact h
      have he : empty (read_header mem a).id = true := by
        rw [empty_iff]; exact hw
      simp only [ha, if_true, he]
    · simp only [ha, if_false]
  | cons r rs ih =>
    intro a fuel h hf
    obtain ⟨f, rfl⟩ : ∃ f, fuel = f + 1 := ⟨fuel - 1, by simp at hf; omega⟩
    obtain ⟨h1, h2, h3, _, _, _, _, h8⟩ := h
    have he : empty (read_header mem a).id = false := by
      rw [h2]
      simp only [Record.header, empty, beq_eq_false_iff_ne, ne_eq]
      omega
    simp only [next_empty_loop, h1, if_true, he, Bool.false_eq_true, if_false, end_addr]
    rw [h2]
    exact ih _ f h8 (by simp at hf; omega)

theorem next_entry_loop_holds (mem : Nat → Nat) (stop : Nat) (rs : List Record) :
    ∀ a fuel, Holds mem stop a rs → rs.length + 1 ≤ fuel →
      next_entry_loop mem stop fuel a = some (first_live a rs) := by
  induction rs with
  | nil =>
    intro a fuel h hf
    obtain ⟨f, rfl⟩ : ∃ f, fuel = f + 1 := ⟨fuel - 1, by simp at hf; omega⟩
    simp only [next_entry_loop, first_live]
    by_cases ha : a < stop
    · have hw : word mem a = UNSET_FLASH := by
        rcases h with h | h
        · omega
        · exact h
      have he : empty (read_header mem a).id = true := by
        rw [empty_iff]; exact hw
      simp only [ha, if_true, he]
    · simp only [ha, if_false]
  | cons r rs ih =>
    intro a fuel h hf
    obtain ⟨f, rfl⟩ : ∃ f, fuel = f + 1 := ⟨fuel - 1, by simp at hf; omega⟩
    obtain ⟨h1, h2, h3, _, _, _, _, h8⟩ := h
    have he : empty (read_header mem a).id = false := by
      rw [h2]
      simp only [Record.header, empty, beq_eq_false_iff_ne, ne_eq]
      omega
    simp only [next_entry_loop, h1, if_true, he, Bool.false_eq_true, if_false, first_live]
    rw [h2]
    by_cases hl : r.live = true
    · have hl' : empty r.header.deleted = true := hl
      simp only [hl, hl', if_true]
    · have hl' : empty r.header.deleted = false := by
        simpa [Record.live, Record.header] using hl
      simp only [hl, hl', Bool.false_eq_true, if_false]
      exact ih _ f h8 (by simp at hf; omega)

theorem first_live_lt (mem : Nat → Nat) (stop : Nat) (rs : List Record) :
    ∀ a, Holds mem stop a rs → (∃ r ∈ rs, r.live = true) → first_live a rs < stop := by
  induction rs with
  | nil => intro a _ ⟨r, hr, _⟩; simp at hr
  | cons r rs ih =>
    intro a h hex
    simp only [first_live]
    by_cases hl : r.live = true
    · simp only [hl, if_true]; exact h.1
    · simp only [hl, Bool.false_eq_true, if_false]
      apply ih _ h.2.2.2.2.2.2.2
      obtain ⟨r', hr', hlive⟩ := hex
      rcases List.mem_cons.1 hr' with rfl | hr'
      · exact absurd hlive hl
      · exact ⟨r', hr', hlive⟩

theorem first_live_none (rs : List Record) :
    ∀ a, (∀ r ∈ rs, r.live = false) → first_live a rs = UINT32_MAX := by
  induction rs with
  | nil => intro a _; rfl
  | cons r rs ih =>
    intro a h
    have hr := h r (List.mem_cons_self _ _)
    simp only [first_live, hr, Bool.false_eq_true, if_false]
    exact ih _ (fun r' hr' => h r' (List.mem_cons_of_mem _ hr'))

theorem holds_congr (m1 m2 : Nat → Nat) (stop : Nat) (hstop : stop ≤ 2147483648)
    (rs : List Record) :
    ∀ a, Holds m1 stop a rs → (∀ x, a ≤ x → x < end_addr a rs + 4 → m2 x = m1 x) →
      Holds m2 stop a rs := by
  induction rs with
  | nil =>
    intro a h hag
    rcases h with h | h
    · exact Or.inl h
    · right
      rw [word_congr m2 m1 a (fun x h1 h2 => hag x h1 (by simpa [end_addr] using h2))]
      exact h
  | cons r rs ih =>
    intro a h hag
    have hb := holds_cons_inc m1 stop a r rs h hstop
    obtain ⟨h1, h2, h3, h4, h5, h6, h7, h8⟩ := h
    have hge := end_addr_ge m1 stop hstop rs _ h8
    simp only [end_addr] at hag
    simp only [header_size] at h7 ⊢
    refine ⟨h1, ?_, h3, h4, h5, h6, ?_, ?_⟩
    · rw [read_header_congr m2 m1 a (fun x g1 g2 => hag x g1 (by omega))]
      exact h2
    · show flash_read m2 (a + 16) r.payload.length = r.payload
      rw [flash_read_congr m2 m1 (a + 16) r.payload.length
        (fun x g1 g2 => hag x (by omega) (by omega))]
      exact h7
    · exact ih _ h8 (fun x g1 g2 => hag x (by omega) g2)

theorem holds_snoc (m1 m2 : Nat → Nat) (stop : Nat) (hstop : stop ≤ 2147483648)
    (r : Record) (rs : List Record) :
    ∀ a, Holds m1 stop a rs → (∀ x, a ≤ x → x < end_addr a rs → m2 x = m1 x) →
      Holds m2 stop (end_addr a rs) [r] → Holds m2 stop a (rs ++ [r]) := by
  induction rs with
  | nil => intro a _ _ h; exact h
  | cons r0 rs ih =>
    intro a h hag hnew
    have hb := holds_cons_inc m1 stop a r0 rs h hstop
    obtain ⟨h1, h2, h3, h4, h5, h6, h7, h8⟩ := h
    have hge := end_addr_ge m1 stop hstop rs _ h8
    simp only [end_addr] at hag hnew
    simp only [header_size] at h7 ⊢
    refine ⟨h1, ?_, h3, h4, h5, h6, ?_, ?_⟩
    · rw [read_header_congr m2 m1 a (fun x g1 g2 => hag x g1 (by omega))]
      exact h2
    · show flash_read m2 (a + 16) r0.payload.length = r0.payload
      rw [flash_read_congr m2 m1 (a + 16) r0.payload.length
        (fun x g1 g2 => hag x (by omega) (by omega))]
      exact h7
    · exact ih _ h8 (fun x g1 g2 => hag x (by omega) g2) hnew

theorem end_addr_tombstone (id : Nat) (rs : List Record) :
    ∀ a, end_addr a (tombstone id rs) = end_addr a rs := by
  induction rs with
  | nil => intro a; rfl
  | cons r rs ih =>
    intro a
    simp only [tombstone, List.map_cons, end_addr]
    have : (if r.live = true ∧ r.id = id then { r with deleted := 0 } else r).header.size
        = r.header.size := by
      split <;> rfl
    have hinc : increment a (if r.live = true ∧ r.id = id then { r with deleted := 0 }
        else r).header = increment a r.header := by
      simp only [increment, this]
    rw [hinc]
    exact ih _

end settings_backend

namespace settings_backend

theorem next_entry_eq (p : Platform) (start a fuel : Nat) (mem : Nat → Nat)
    (hs : SectorAt p start) (h1 : start ≤ a) (h2 : a < start + p.sector_size) :
    next_entry p fuel mem a = next_entry_loop mem (start + p.sector_size) fuel a := by
  simp only [next_entry, sector_end_eq p start a hs h1 h2]

theorem next_empty_addr_eq (p : Platform) (start a fuel : Nat) (mem : Nat → Nat)
    (hs : SectorAt p start) (h1 : start ≤ a) (h2 : a < start + p.sector_size) :
    next_empty_addr p fuel mem a = next_empty_loop mem (start + p.sector_size) fuel a := by
  simp only [next_empty_addr, sector_end_eq p start a hs h1 h2]

theorem tombstone_mem_holds (id stop : Nat) (hstop : stop ≤ 2147483648) (rs : List Record) :
    ∀ (mem : Nat → Nat) (a : Nat), Holds mem stop a rs →
      Holds (tombstone_mem id mem a rs) stop a (tombstone id rs) ∧
      (∀ x, x < a ∨ end_addr a rs ≤ x → tombstone_mem id mem a rs x = mem x) := by
  induction rs with
  | nil =>
    intro mem a h
    exact ⟨h, fun x _ => rfl⟩
  | cons r rs ih =>
    intro mem a h
    have hb := holds_cons_inc mem stop a r rs h hstop
    obtain ⟨h1, h2, h3, h4, h5, h6, h7, h8⟩ := h
    have hge := end_addr_ge mem stop hstop rs _ h8
    simp only [header_size] at h7
    have hlen := header_bytes_length r.deleted_header
    by_cases hc : r.live = true ∧ r.id = id
    · have hm1 : Holds (store mem a (header_bytes r.deleted_header)) stop
          (increment a r.header) rs :=
        holds_congr mem _ stop hstop rs _ h8
          (fun x g1 g2 => store_outside mem a _ x (by omega))
      obtain ⟨i1, i2⟩ := ih _ _ hm1
      simp only [tombstone_mem, tombstone, List.map_cons, if_pos hc, end_addr]
      refine ⟨⟨h1, ?_, h3, Nat.zero_le _, h5, h6, ?_, i1⟩, ?_⟩
      · rw [read_header_congr _ (store mem a (header_bytes r.deleted_header)) a
          (fun x g1 g2 => i2 x (Or.inl (by omega)))]
        simp only [UNSET_FLASH, MAX_SETTING_SIZE] at h3 h5 h6
        exact read_header_store mem a r.deleted_header
          (by simp only [Record.deleted_header, Record.header]; omega)
          (by simp only [Record.deleted_header, Record.header]; omega)
          (by simp only [Record.deleted_header, Record.header]; omega)
          (by simp only [Record.deleted_header, Record.header]; omega)
      · show flash_read _ (a + 16) r.payload.length = r.payload
        rw [flash_read_congr _ mem (a + 16) r.payload.length
          (fun x g1 g2 => by
            rw [i2 x (Or.inl (by omega))]
            exact store_outside mem a _ x (by omega))]
        exact h7
      · intro x hx
        rw [i2 x (by omega)]
        exact store_outside mem a _ x (by omega)
    · obtain ⟨i1, i2⟩ := ih _ _ h8
      simp only [tombstone_mem, tombstone, List.map_cons, if_neg hc, end_addr]
      refine ⟨⟨h1, ?_, h3, h4, h5, h6, ?_, i1⟩, ?_⟩
      · rw [read_header_congr _ mem a (fun x g1 g2 => i2 x (Or.inl (by omega)))]
        exact h2
      · show flash_read _ (a + 16) r.payload.length = r.payload
        rw [flash_read_congr _ mem (a + 16) r.payload.length
          (fun x g1 g2 => i2 x (Or.inl (by omega)))]
        exact h7
      · intro x hx
        exact i2 x (by omega)

theorem delete_loop_holds (p : Platform) (id start : Nat) (hs : SectorAt p start)
    (hw : ∀ n, p.write_fails n = false) (rs : List Record) :
    ∀ (b : Backend) (a f1 f2 : Nat), start ≤ a →
      Holds b.mem (start + p.sector_size) a rs → end_addr a rs < start + p.sector_size →
      rs.length + 1 ≤ f1 → rs.length + 1 ≤ f2 →
      ∃ i, next_entry p f1 b.mem a = some i ∧
        delete_loop p id f2 b i
          = some ({ b with mem := tombstone_mem id b.mem a rs,
                           writes := b.writes + live_count id rs }, true) := by
  have hstop : start + p.sector_size ≤ 2147483648 := by
    obtain ⟨_, _, h3, h4⟩ := hs
    omega
  induction rs with
  | nil =>
    intro b a f1 f2 ha h hend hf1 hf2
    simp only [end_addr] at hend
    obtain ⟨g, rfl⟩ : ∃ g, f2 = g + 1 := ⟨f2 - 1, by simp at hf2; omega⟩
    refine ⟨UINT32_MAX, ?_, ?_⟩
    · rw [next_entry_eq p start a f1 b.mem hs ha hend,
        next_entry_loop_holds b.mem _ [] a f1 h hf1]
      rfl
    · simp [delete_loop, tombstone_mem, live_count]
  | cons r rs ih =>
    intro b a f1 f2 ha h hend hf1 hf2
    have hb := holds_cons_inc b.mem _ a r rs h hstop
    have h' := h
    obtain ⟨h1, h2, h3, h4, h5, h6, h7, h8⟩ := h
    have hge := end_addr_ge b.mem _ hstop rs _ h8
    simp only [end_addr] at hend
    obtain ⟨g1, rfl⟩ : ∃ g, f1 = g + 1 := ⟨f1 - 1, by simp at hf1; omega⟩
    obtain ⟨g2, rfl⟩ : ∃ g, f2 = g + 1 := ⟨f2 - 1, by simp at hf2; omega⟩
    simp only [List.length_cons] at hf1 hf2
    have hid : empty (read_header b.mem a).id = false := by
      rw [h2]
      simp only [Record.header, empty, beq_eq_false_iff_ne, ne_eq]
      omega
    have hinc : increment a r.deleted_header = increment a r.header := rfl
    have hamax : a ≠ UINT32_MAX := by simp only [UINT32_MAX]; omega
    by_cases hl : r.live = true
    · have hl' : empty (read_header b.mem a).deleted = true := by rw [h2]; exact hl
      have hscan : next_entry p (g1 + 1) b.mem a = some a := by
        rw [next_entry_eq p start a _ b.mem hs ha (by omega)]
        simp only [next_entry_loop, h1, if_true, hid, hl', Bool.false_eq_true, if_false]
      refine ⟨a, hscan, ?_⟩
      by_cases hi : r.id = id
      · have hhid : r.header.id = id := hi
        have hm1 : Holds (store b.mem a (header_bytes r.deleted_header))
            (start + p.sector_size) (increment a r.header) rs :=
          holds_congr b.mem _ _ hstop rs _ h8
            (fun x g1 g2 => store_outside b.mem a _ x
              (by have := header_bytes_length r.deleted_header; omega))
        obtain ⟨j, key1, key⟩ := ih
          ⟨store b.mem a (header_bytes r.deleted_header), b.writes + 1, b.erases,
            b.curr_sector_addr, b.fail_sector, b.failt_sector_set, b.set_calls, b.messages⟩
          (increment a r.header) g2 g2 (by omega) hm1 hend (by omega) (by omega)
        have hcnt : live_count id (r :: rs) = live_count id rs + 1 := by
          simp [live_count, hl, hi]
        have e : (⟨id, r.header.size, 0, r.header.reserved⟩ : SettingFlashHeader)
            = r.deleted_header := by
          simp [Record.deleted_header, Record.header, hi]
        have hmem : tombstone_mem id b.mem a (r :: rs)
            = tombstone_mem id (store b.mem a (header_bytes r.deleted_header))
                (increment a r.header) rs := by
          simp only [tombstone_mem, hl, hi, and_self, if_true]
        simp only [] at key key1
        have hadd : b.writes + 1 + live_count id rs = b.writes + (live_count id rs + 1) := by
          omega
        simp only [delete_loop, hamax, if_false, h2, hhid, if_true, flash_write, hw,
          Bool.false_eq_true, Bool.not_true, e, hinc, key1]
        rw [key, hmem, hcnt, hadd]
      · have hhid : ¬ r.header.id = id := hi
        obtain ⟨j, key1, key⟩ :=
          ih b (increment a r.header) g2 g2 (by omega) h8 hend (by omega) (by omega)
        have hcnt : live_count id (r :: rs) = live_count id rs := by
          simp [live_count, hl, hi]
        have hmem : tombstone_mem id b.mem a (r :: rs)
            = tombstone_mem id b.mem (increment a r.header) rs := by
          simp only [tombstone_mem, hi, and_false, if_false]
        simp only [delete_loop, hamax, if_false, h2, hhid, key1]
        rw [key, hmem, hcnt]
    · have hl' : empty (read_header b.mem a).deleted = false := by
        rw [h2]; simpa [Record.live, Record.header] using hl
      have hscan : next_entry p (g1 + 1) b.mem a
          = next_entry p g1 b.mem (increment a r.header) := by
        rw [next_entry_eq p start a _ b.mem hs ha (by omega),
          next_entry_eq p start _ _ b.mem hs (by omega) (by omega)]
        simp only [next_entry_loop, h1, if_true, hid, hl', Bool.false_eq_true, if_false]
        rw [h2]
      obtain ⟨j, key1, key⟩ := ih b (increment a r.header) g1 (g2 + 1) (by omega) h8 hend
        (by omega) (by omega)
      have hcnt : live_count id (r :: rs) = live_count id rs := by
        simp [live_count, hl]
      have hmem : tombstone_mem id b.mem a (r :: rs)
          = tombstone_mem id b.mem (increment a r.header) rs := by
        simp only [tombstone_mem, hl, Bool.false_eq_true, false_and, if_false]
      refine ⟨j, by rw [hscan, key1], ?_⟩
      rw [key, hmem, hcnt]

end settings_backend

namespace settings_backend

theorem tombstone_filter (id : Nat) (rs : List Record) :
    (tombstone id rs).filter (fun r => r.live && r.id == id) = [] := by
  induction rs with
  | nil => rfl
  | cons r rs ih =>
    simp only [tombstone, List.map_cons] at ih ⊢
    by_cases hc : r.live = true ∧ r.id = id
    · simp only [if_pos hc]
      rw [List.filter_cons_of_neg]
      · exact ih
      · simp [Record.live, empty, UNSET_FLASH]
    · simp only [if_neg hc]
      rw [List.filter_cons_of_neg]
      · exact ih
      · simpa using hc

theorem word_erased (mem : Nat → Nat) (a : Nat) (h : ∀ x, a ≤ x → x < a + 4 → mem x = 255) :
    word mem a = UNSET_FLASH := by
  simp only [word, h a (by omega) (by omega), h (a + 1) (by omega) (by omega),
    h (a + 2) (by omega) (by omega), h (a + 3) (by omega) (by omega), UNSET_FLASH]

/-- The memory `save_setting` leaves when no switchover and no failure occurs. -/
theorem save_setting_run (p : Platform) (b : Backend) (recs : List Record) (id : Nat)
    (v : List Nat) (hs : SectorAt p b.curr_sector_addr) (hw : ∀ n, p.write_fails n = false)
    (hid : id < p.NumSettings) (hv0 : ∀ c ∈ v, c ≠ 0) (hvlen : v.length < MAX_SETTING_SIZE)
    (hholds : Holds b.mem (b.curr_sector_addr + p.sector_size) b.curr_sector_addr recs)
    (hroom : end_addr b.curr_sector_addr recs + header_size + v.length
      ≤ b.curr_sector_addr + p.sector_size)
    (fuel : Nat) (hfuel : recs.length + 2 ≤ fuel) :
    save_setting p fuel b id (some v)
      = some (⟨store (store (tombstone_mem id b.mem b.curr_sector_addr recs)
                  (end_addr b.curr_sector_addr recs)
                  (header_bytes ⟨id, v.length, UNSET_FLASH, UNSET_FLASH⟩))
                (end_addr b.curr_sector_addr recs + 16) v,
              b.writes + live_count id recs + 2, b.erases, b.curr_sector_addr, b.fail_sector,
              b.failt_sector_set, b.set_calls, b.messages⟩, .ok ()) := by
  obtain ⟨f, rfl⟩ : ∃ f, fuel = f + 1 := ⟨fuel - 1, by omega⟩
  have hs' := hs
  obtain ⟨hpos, h8, hmax, hst⟩ := hs'
  have hstop : b.curr_sector_addr + p.sector_size ≤ 2147483648 := by omega
  simp only [header_size, MAX_SETTING_SIZE] at hroom hvlen
  have hcstr : control.cstr v = v := control.cstr_of_nonzero v hv0
  have hlen : control.strlen v = v.length := by simp only [control.strlen, hcstr]
  have hempty : next_empty_addr p f b.mem b.curr_sector_addr
      = some (end_addr b.curr_sector_addr recs) := by
    rw [next_empty_addr_eq p _ _ f b.mem hs (Nat.le_refl _) (by omega),
      next_empty_loop_holds b.mem _ recs _ f hholds (by omega)]
    have : end_addr b.curr_sector_addr recs < b.curr_sector_addr + p.sector_size := by omega
    simp only [this, if_true]
  obtain ⟨i, hscan, hloop⟩ := delete_loop_holds p id _ hs hw recs b b.curr_sector_addr f f
    (Nat.le_refl _) hholds (by omega) (by omega) (by omega)
  have hnn : add32 (end_addr b.curr_sector_addr recs + 16) v.length
      = end_addr b.curr_sector_addr recs + 16 + v.length := by
    simp only [add32]
    have h2 : end_addr b.curr_sector_addr recs + 16 + v.length < 4294967296 := by omega
    simp only [h2, if_true]
  have hcs : add32 b.curr_sector_addr p.sector_size = b.curr_sector_addr + p.sector_size := by
    simp only [add32]
    have h1 : b.curr_sector_addr + p.sector_size < 4294967296 := by omega
    simp only [h1, if_true]
  have ha16 : add32 (end_addr b.curr_sector_addr recs) 16
      = end_addr b.curr_sector_addr recs + 16 := by
    simp only [add32]
    have h1 : end_addr b.curr_sector_addr recs + 16 < 4294967296 := by omega
    simp only [h1, if_true]
  have hne : (UINT32_MAX == end_addr b.curr_sector_addr recs) = false := by
    simp only [UINT32_MAX, beq_eq_false_iff_ne, ne_eq]
    omega
  have hpast : decide (end_addr b.curr_sector_addr recs + 16 + v.length
      > b.curr_sector_addr + p.sector_size) = false := by
    simp only [decide_eq_false_iff_not]
    omega
  have hadd : b.writes + live_count id recs + 1 + 1 = b.writes + live_count id recs + 2 := by
    omega
  simp only [save_setting, hid, hlen, hvlen, hempty, header_size, MAX_SETTING_SIZE, hnn, hcs,
    hne, hpast, hscan, hloop, flash_write, hw, ha16, hcstr, hadd, decide_True, Bool.not_true,
    Bool.false_eq_true, if_false, Bool.or_self]

end settings_backend

namespace settings_backend

/-- C16: when the active sector holds the log `recs` followed by erased flash,
the first empty slot has room for the header and the value, and no write
fails, then `save_setting(id, v)` returns `NoError` with enough fuel, leaves
the active sector as it was, and the active sector then holds the log in
which every live entry with the id has `deleted = 0` and is otherwise as
before, every other entry is unchanged, and the entry
`{id, len(v), 0xFFFFFFFF, 0xFFFFFFFF}` with payload `v` follows at the first
empty slot; that entry is the only live one with the id, and no byte outside
the active sector has changed. -/
theorem save_setting_without_switchover (p : Platform) (b : Backend) (recs : List Record)
    (id : Nat) (v : List Nat) (hs : SectorAt p b.curr_sector_addr)
    (hw : ∀ n, p.write_fails n = false) (hid : id < p.NumSettings)
    (hnum : p.NumSettings ≤ UNSET_FLASH) (hv0 : ∀ c ∈ v, c ≠ 0)
    (hvlen : v.length < MAX_SETTING_SIZE)
    (hholds : Holds b.mem (b.curr_sector_addr + p.sector_size) b.curr_sector_addr recs)
    (hroom : end_addr b.curr_sector_addr recs + header_size + v.length
      ≤ b.curr_sector_addr + p.sector_size)
    (herased : ∀ x, end_addr b.curr_sector_addr recs ≤ x →
      x < b.curr_sector_addr + p.sector_size → b.mem x = 255) :
    ∃ b', (∀ fuel, recs.length + 2 ≤ fuel →
        save_setting p fuel b id (some v) = some (b', .ok ())) ∧
      b'.curr_sector_addr = b.curr_sector_addr ∧
      Holds b'.mem (b.curr_sector_addr + p.sector_size) b.curr_sector_addr
        (tombstone id recs ++ [Record.fresh id v]) ∧
      read_header b'.mem (end_addr b.curr_sector_addr recs)
        = ⟨id, v.length, UNSET_FLASH, UNSET_FLASH⟩ ∧
      flash_read b'.mem (end_addr b.curr_sector_addr recs + header_size) v.length = v ∧
      (tombstone id recs ++ [Record.fresh id v]).filter (Record.live_with id)
        = [Record.fresh id v] ∧
      (∀ x, x < b.curr_sector_addr ∨ b.curr_sector_addr + p.sector_size ≤ x →
        b'.mem x = b.mem x) := by
  have hs' := hs
  obtain ⟨hpos, h8, hmax, hst⟩ := hs'
  have hstop : b.curr_sector_addr + p.sector_size ≤ 2147483648 := by omega
  obtain ⟨t1, t2⟩ := tombstone_mem_holds id _ hstop recs b.mem b.curr_sector_addr hholds
  have hge := end_addr_ge b.mem _ hstop recs _ hholds
  have hhl := header_bytes_length ⟨id, v.length, UNSET_FLASH, UNSET_FLASH⟩
  have hroom' := hroom
  have hvlen' := hvlen
  simp only [header_size, MAX_SETTING_SIZE] at hroom' hvlen'
  have hhdr : read_header
      (store (store (tombstone_mem id b.mem b.curr_sector_addr recs)
        (end_addr b.curr_sector_addr recs)
        (header_bytes ⟨id, v.length, UNSET_FLASH, UNSET_FLASH⟩))
        (end_addr b.curr_sector_addr recs + 16) v) (end_addr b.curr_sector_addr recs)
      = ⟨id, v.length, UNSET_FLASH, UNSET_FLASH⟩ := by
    rw [read_header_congr _ (store (tombstone_mem id b.mem b.curr_sector_addr recs)
        (end_addr b.curr_sector_addr recs)
        (header_bytes ⟨id, v.length, UNSET_FLASH, UNSET_FLASH⟩))
        _ (fun x g1 g2 => store_outside _ _ _ x (Or.inl g2))]
    simp only [UNSET_FLASH] at hnum ⊢
    exact read_header_store _ _ _ (by simp only; omega) (by simp only; omega)
      (by simp only; omega) (by simp only; omega)
  have hpay : flash_read
      (store (store (tombstone_mem id b.mem b.curr_sector_addr recs)
        (end_addr b.curr_sector_addr recs)
        (header_bytes ⟨id, v.length, UNSET_FLASH, UNSET_FLASH⟩))
        (end_addr b.curr_sector_addr recs + 16) v)
      (end_addr b.curr_sector_addr recs + 16) v.length = v := flash_read_store _ _ v
  refine ⟨_, fun fuel hfuel =>
    save_setting_run p b recs id v hs hw hid hv0 hvlen hholds hroom fuel hfuel,
    rfl, ?_, hhdr, hpay, ?_, ?_⟩
  · apply holds_snoc (tombstone_mem id b.mem b.curr_sector_addr recs) _ _ hstop _ _ _ t1
    · intro x g1 g2
      rw [end_addr_tombstone] at g2
      show store (store _ _ _) _ v x = _
      rw [store_outside _ _ v x (Or.inl (by omega)),
        store_outside _ _ _ x (Or.inl g2)]
    · rw [end_addr_tombstone]
      refine ⟨by omega, hhdr, ?_, Nat.le_refl _, Nat.le_refl _, hvlen, hpay, ?_⟩
      · show id < UNSET_FLASH
        omega
      · have hb := increment_bounds (end_addr b.curr_sector_addr recs)
          ⟨id, v.length, UNSET_FLASH, UNSET_FLASH⟩ (by omega) hvlen
        simp only at hb
        by_cases hlt : increment (end_addr b.curr_sector_addr recs)
            (Record.fresh id v).header
            < b.curr_sector_addr + p.sector_size
        · right
          have hinc : increment (end_addr b.curr_sector_addr recs)
              (Record.fresh id v).header
              = increment (end_addr b.curr_sector_addr recs)
                  ⟨id, v.length, UNSET_FLASH, UNSET_FLASH⟩ := rfl
          rw [hinc] at hlt ⊢
          have hstop8 : (b.curr_sector_addr + p.sector_size) % 8 = 0 := by
            rcases hst with h0 | h0 <;> omega
          apply word_erased
          intro x g1 g2
          show store (store _ _ _) _ v x = 255
          rw [store_outside _ _ v x (Or.inr (by omega)),
            store_outside _ _ _ x (Or.inr (by omega)), t2 x (Or.inr (by omega))]
          exact herased x (by omega) (by omega)
        · left
          omega
  · have hf : Record.live_with id = (fun r : Record => r.live && r.id == id) := rfl
    rw [hf, List.filter_append, tombstone_filter]
    simp [Record.live, empty, Record.fresh]
  · intro x hx
    show store (store _ _ _) _ v x = _
    rw [store_outside _ _ v x (by omega), store_outside _ _ _ x (by omega),
      t2 x (by omega)]

end settings_backend

namespace settings_backend

/-- Saving the value `2` of setting 1 over the example backend, which holds
the value `1` of the same setting, appends the new entry at offset 24. -/
theorem save_setting_without_switchover_witness :
    ∃ b', (∀ fuel, 3 ≤ fuel →
        save_setting testPlatform fuel testBackend 1 (some [50]) = some (b', .ok ())) ∧
      Holds b'.mem 2048 0 [⟨1, 0, UNSET_FLASH, [49]⟩, ⟨1, UNSET_FLASH, UNSET_FLASH, [50]⟩] ∧
      read_header b'.mem 24 = ⟨1, 1, UNSET_FLASH, UNSET_FLASH⟩ :=
  have h := save_setting_without_switchover testPlatform testBackend
    [⟨1, UNSET_FLASH, UNSET_FLASH, [49]⟩] 1 [50]
    ⟨by decide, by decide, by decide, Or.inl rfl⟩ (fun _ => rfl) (by decide) (by decide)
    (by decide) (by decide)
    ⟨by decide, by decide, by decide, by decide, by decide, by decide, by decide,
      Or.inr (by decide)⟩
    (by decide)
    (fun x h1 h2 => by
      have e : end_addr testBackend.curr_sector_addr [⟨1, UNSET_FLASH, UNSET_FLASH, [49]⟩]
          = 24 := by decide
      rw [e] at h1
      show store (store (fun _ => 255) 0 _) 16 [49] x = 255
      rw [store_outside _ _ _ x (Or.inr (by simp only [List.length_singleton]; omega)),
        store_outside _ _ _ x (Or.inr (by rw [header_bytes_length]; omega))])
  h.elim fun b' hb => ⟨b', hb.1, hb.2.2.1, hb.2.2.2.1⟩

theorem first_live_ne (mem : Nat → Nat) (stop : Nat) (hstop : stop ≤ 2147483648)
    (rs : List Record) (a : Nat) (h : Holds mem stop a rs) :
    first_live a rs ≠ UINT32_MAX ↔ ∃ r ∈ rs, r.live = true := by
  constructor
  · intro hne
    by_contra hex
    apply hne
    apply first_live_none
    intro r hr
    by_contra hl
    exact hex ⟨r, hr, by simpa using hl⟩
  · intro hex
    have := first_live_lt mem stop rs a h hex
    simp only [UINT32_MAX]
    omega

/-- C19: when each of the two sectors holds a log, `backend_init` returns with
enough fuel and makes sector 0 the active sector if a scan of sector 0 finds a
live entry or an empty header before the end of the sector; otherwise sector
1 if a scan of sector 1 finds one; otherwise sector 0. -/
theorem backend_init_selects (p : Platform) (b : Backend) (recs0 recs1 : List Record)
    (hs : SectorAt p 0) (h0 : Holds b.mem p.sector_size 0 recs0)
    (h1 : Holds b.mem (p.sector_size + p.sector_size) p.sector_size recs1)
    (fuel : Nat) (hfuel : recs0.length + recs1.length + 4 ≤ fuel) :
    (ScanFinds 0 p.sector_size recs0 →
      backend_init p fuel b = some { b with curr_sector_addr := 0 }) ∧
    (¬ ScanFinds 0 p.sector_size recs0 →
      ScanFinds p.sector_size (p.sector_size + p.sector_size) recs1 →
      backend_init p fuel b = some { b with curr_sector_addr := p.sector_size }) ∧
    (¬ ScanFinds 0 p.sector_size recs0 →
      ¬ ScanFinds p.sector_size (p.sector_size + p.sector_size) recs1 →
      backend_init p fuel b = some { b with curr_sector_addr := 0 }) := by
  obtain ⟨hpos, h8, hmax, _⟩ := hs
  have hs0 : SectorAt p 0 := ⟨hpos, h8, hmax, Or.inl rfl⟩
  have hs1 : SectorAt p p.sector_size := ⟨hpos, h8, hmax, Or.inr rfl⟩
  obtain ⟨f, rfl⟩ : ∃ f, fuel = f + 3 := ⟨fuel - 3, by omega⟩
  have hlt0 : 0 < p.sector_size * NUM_SECTORS := by simp only [NUM_SECTORS]; omega
  have hlt1 : p.sector_size < p.sector_size * NUM_SECTORS := by simp only [NUM_SECTORS]; omega
  have hlt2 : ¬ p.sector_size + p.sector_size < p.sector_size * NUM_SECTORS := by
    simp only [NUM_SECTORS]; omega
  have e0 : ∀ g, recs0.length + 1 ≤ g →
      next_entry p g b.mem 0 = some (first_live 0 recs0) := by
    intro g hg
    rw [next_entry_eq p 0 0 g b.mem hs0 (Nat.le_refl _) (by omega)]
    simp only [Nat.zero_add]
    exact next_entry_loop_holds b.mem _ recs0 0 g h0 hg
  have m0 : ∀ g, recs0.length + 1 ≤ g → next_empty_addr p g b.mem 0
      = some (if end_addr 0 recs0 < p.sector_size then end_addr 0 recs0 else UINT32_MAX) := by
    intro g hg
    rw [next_empty_addr_eq p 0 0 g b.mem hs0 (Nat.le_refl _) (by omega)]
    simp only [Nat.zero_add]
    exact next_empty_loop_holds b.mem _ recs0 0 g h0 hg
  have e1 : ∀ g, recs1.length + 1 ≤ g →
      next_entry p g b.mem p.sector_size = some (first_live p.sector_size recs1) := by
    intro g hg
    rw [next_entry_eq p p.sector_size p.sector_size g b.mem hs1 (Nat.le_refl _) (by omega)]
    exact next_entry_loop_holds b.mem _ recs1 _ g h1 hg
  have m1 : ∀ g, recs1.length + 1 ≤ g → next_empty_addr p g b.mem p.sector_size
      = some (if end_addr p.sector_size recs1 < p.sector_size + p.sector_size
          then end_addr p.sector_size recs1 else UINT32_MAX) := by
    intro g hg
    rw [next_empty_addr_eq p p.sector_size p.sector_size g b.mem hs1 (Nat.le_refl _)
      (by omega)]
    exact next_empty_loop_holds b.mem _ recs1 _ g h1 hg
  have se0 : sector_end p 0 = p.sector_size := by
    rw [sector_end_eq p 0 0 hs0 (Nat.le_refl _) (by omega)]; omega
  have se1 : sector_end p p.sector_size = p.sector_size + p.sector_size :=
    sector_end_eq p p.sector_size p.sector_size hs1 (Nat.le_refl _) (by omega)
  have l0 := first_live_ne b.mem p.sector_size (by omega) recs0 0 h0
  have l1 := first_live_ne b.mem (p.sector_size + p.sector_size) (by omega) recs1
    p.sector_size h1
  have g0 := end_addr_ge b.mem p.sector_size (by omega) recs0 0 h0
  have hmaxlt : ∀ x, x < p.sector_size + p.sector_size → x ≠ UINT32_MAX := by
    intro x hx; simp only [UINT32_MAX]; omega
  have skip0 : ¬ ScanFinds 0 p.sector_size recs0 →
      backend_init p (f + 3) b = backend_init_loop p (f + 2)
        { b with curr_sector_addr := 0 } p.sector_size := by
    intro hn
    have hn1 : first_live 0 recs0 = UINT32_MAX := by
      by_contra hc
      exact hn (Or.inl (l0.1 hc))
    have hn2 : ¬ end_addr 0 recs0 < p.sector_size := fun hc => hn (Or.inr hc)
    simp only [backend_init, STARTING_OFFSET, backend_init_loop, hlt0, if_true,
      e0 (f + 2) (by omega), hn1, ne_eq, not_true_eq_false, if_false,
      m0 (f + 2) (by omega), hn2, se0]
  refine ⟨?_, ?_, ?_⟩
  · intro hf
    rcases hf with hf | hf
    · have hne := l0.2 hf
      simp only [backend_init, STARTING_OFFSET, backend_init_loop, hlt0, if_true,
        e0 (f + 2) (by omega), ne_eq, hne, not_false_eq_true]
    · by_cases hne : first_live 0 recs0 = UINT32_MAX
      · simp only [backend_init, STARTING_OFFSET, backend_init_loop, hlt0, if_true,
          e0 (f + 2) (by omega), hne, ne_eq, not_true_eq_false, if_false,
          m0 (f + 2) (by omega), hf, hmaxlt _ (by omega : end_addr 0 recs0
            < p.sector_size + p.sector_size), not_false_eq_true]
      · simp only [backend_init, STARTING_OFFSET, backend_init_loop, hlt0, if_true,
          e0 (f + 2) (by omega), ne_eq, hne, not_false_eq_true]
  · intro hn hf
    rw [skip0 hn]
    rcases hf with hf | hf
    · have hne := l1.2 hf
      simp only [backend_init_loop, hlt1, if_true, e1 (f + 1) (by omega), ne_eq, hne,
        not_false_eq_true]
    · by_cases hne : first_live p.sector_size recs1 = UINT32_MAX
      · simp only [backend_init_loop, hlt1, if_true, e1 (f + 1) (by omega), hne, ne_eq,
          not_true_eq_false, if_false, m1 (f + 1) (by omega), hf, hmaxlt _ hf,
          not_false_eq_true]
      · simp only [backend_init_loop, hlt1, if_true, e1 (f + 1) (by omega), ne_eq, hne,
          not_false_eq_true]
  · intro hn hn'
    rw [skip0 hn]
    have hn1 : first_live p.sector_size recs1 = UINT32_MAX := by
      by_contra hc
      exact hn' (Or.inl (l1.1 hc))
    have hn2 : ¬ end_addr p.sector_size recs1 < p.sector_size + p.sector_size :=
      fun hc => hn' (Or.inr hc)
    simp only [backend_init_loop, hlt1, if_true, e1 (f + 1) (by omega), hn1, ne_eq,
      not_true_eq_false, if_false, m1 (f + 1) (by omega), hn2, se1, hlt2]

end settings_backend

namespace settings_backend

set_option maxRecDepth 100000 in
/-- With sector 0 filled to its last byte by deleted entries and sector 1
erased, sector 1 becomes the active sector; with both sectors erased,
sector 0. -/
theorem backend_init_selects_witness :
    backend_init testPlatform 20 fullBackend
      = some { fullBackend with curr_sector_addr := 2048 } ∧
    backend_init testPlatform 4 { erased with curr_sector_addr := 2048 }
      = some { erased with curr_sector_addr := 0 } :=
  ⟨(backend_init_selects testPlatform fullBackend
      (List.replicate 16 ⟨0, 0, UNSET_FLASH, List.replicate 112 65⟩) []
      ⟨by decide, by decide, by decide, Or.inl rfl⟩ (by decide) (by decide) 20
      (by decide)).2.1 (by decide) (by decide),
   (backend_init_selects testPlatform { erased with curr_sector_addr := 2048 } [] []
      ⟨by decide, by decide, by decide, Or.inl rfl⟩ (by decide) (by decide) 4
      (by decide)).1 (by decide)⟩

end settings_backend

namespace settings_backend

set_option maxRecDepth 100000 in
/-- C17 (the code departs from it): `load_settings` reads `size` bytes of
payload into the array `buf` and passes `buf` to `settings::set` without
storing a terminator after them. With the entries `123` of setting 0 and `7`
of setting 1 and a zeroed stack, the second call receives `723`; with the one
entry `1` of setting 1 and the bytes `A`, `B`, 0 on the stack, the call
receives `1B`. -/
theorem load_settings_value_not_terminated :
    (load_settings testPlatform 4 twoBackend (List.replicate 128 0)).map
        (fun r => r.1.set_calls)
      = some [⟨0, [49, 50, 51], false⟩, ⟨1, [55, 50, 51], false⟩] ∧
    Holds twoBackend.mem 2048 0
        [⟨0, UNSET_FLASH, UNSET_FLASH, [49, 50, 51]⟩, ⟨1, UNSET_FLASH, UNSET_FLASH, [55]⟩] ∧
    (load_settings testPlatform 4 testBackend ([65, 66, 0] ++ List.replicate 125 0)).map
        (fun r => r.1.set_calls)
      = some [⟨1, [49, 66], false⟩] := by
  refine ⟨by decide, by decide, by decide⟩

set_option maxRecDepth 100000 in
/-- C20 (the code departs from it): `next_sector` writes the copies at
`curr_sector_addr + curr_sector_ptr` with `curr_sector_ptr` starting at
`curr_sector_addr` and advancing by the unaligned size of each entry. From
sector 0 with one live entry, the copy lands at offset 4096, past both
sectors, and a scan of the new active sector 1 finds an empty header at its
start and no entry. From sector 1 with two live entries, the second copy
lands at the unaligned offset 17 of sector 0, the scan that follows the first
copy at the aligned offset 24 finds no entry, and `load_settings` replays the
first entry alone. -/
theorem next_sector_copies_misplaced :
    (next_sector testPlatform 3 testBackend).map
        (fun b => (b.curr_sector_addr, read_header b.mem 4096, flash_read b.mem 4112 1,
          next_empty_addr testPlatform 3 b.mem 2048, next_entry testPlatform 3 b.mem 2048))
      = some (2048, ⟨1, 1, UNSET_FLASH, UNSET_FLASH⟩, [49], some 2048, some UINT32_MAX) ∧
    (next_sector testPlatform 4 upperBackend).map
        (fun b => (b.curr_sector_addr, read_header b.mem 0, read_header b.mem 17,
          next_entry testPlatform 4 b.mem 24))
      = some (0, ⟨0, 1, UNSET_FLASH, UNSET_FLASH⟩, ⟨1, 1, UNSET_FLASH, UNSET_FLASH⟩,
          some UINT32_MAX) ∧
    ((next_sector testPlatform 4 upperBackend).bind
        (fun b => (load_settings testPlatform 4 b (List.replicate 128 0)).map
          (fun r => r.1.set_calls)))
      = some [⟨0, [49], false⟩] := by
  refine ⟨by decide, by decide, by decide⟩

end settings_backend

namespace settings_backend

set_option maxRecDepth 1000000 in
/-- C18 (the code departs from it): on erased flash, saving the value `x` of
setting 1 and then fifteen times a value of 127 characters of setting 0
fills sector 0 and forces a switchover at the last save; after a power cycle
`load_settings` replays setting 0 alone, and the value of setting 1 is lost.
One save fewer, and both settings are replayed. -/
theorem power_cycle_loses_setting_after_switchover :
    ((save_all testPlatform 20 erased
        ((1, [120]) :: List.replicate 15 (0, List.replicate 127 65))).bind
        (fun b => power_cycle testPlatform 20 b (List.replicate 128 0)))
      = some [⟨0, List.replicate 127 65, false⟩] ∧
    ((save_all testPlatform 20 erased
        ((1, [120]) :: List.replicate 14 (0, List.replicate 127 65))).bind
        (fun b => power_cycle testPlatform 20 b (List.replicate 128 0)))
      = some [⟨1, [120], false⟩, ⟨0, List.replicate 127 65, false⟩] := by
  refine ⟨by decide, by decide⟩

end settings_backend

namespace periodic

/-! ### Theorems about the periodic callbacks -/

/-- C21: with `id < NumIDs`, `period > 0` and a callback that is not null,
`create` stores the period and the callback in an entry that is not enabled
and leaves every other entry and field alone; on an enabled entry it changes
nothing in the table and returns if both values equal the stored ones, and
raises the fault `TooManyAttempts` if one differs. -/
theorem create_cases (s : State) (id period_ms func : Nat) (hid : id < NumIDs)
    (hp : 0 < period_ms) (hf : func ≠ 0) :
    ((s.periodic_list id).enabled = false →
      (create s id period_ms func).2 = .ok () ∧
      (create s id period_ms func).1.periodic_list id
        = ⟨period_ms, func, false, (s.periodic_list id).last_call_ms⟩ ∧
      ∀ j, j ≠ id → (create s id period_ms func).1.periodic_list j = s.periodic_list j) ∧
    ((s.periodic_list id).enabled = true → (s.periodic_list id).period_ms = period_ms →
      (s.periodic_list id).callback = func →
      (create s id period_ms func).2 = .ok () ∧
      (create s id period_ms func).1.periodic_list = s.periodic_list) ∧
    ((s.periodic_list id).enabled = true →
      ((s.periodic_list id).period_ms ≠ period_ms ∨ (s.periodic_list id).callback ≠ func) →
      (create s id period_ms func).2 = .error Error.TooManyAttempts ∧
      (create s id period_ms func).1.periodic_list = s.periodic_list) := by
  refine ⟨?_, ?_, ?_⟩
  · intro he
    refine ⟨?_, ?_, ?_⟩
    · simp [create, hid, hp, hf, he]
    · have h := he
      cases hx : s.periodic_list id with
      | mk p c e l =>
        rw [hx] at h
        simp only at h
        subst h
        simp [create, hid, hp, hf, hx, set_entry]
    · intro j hj
      simp [create, hid, hp, hf, he, set_entry, hj]
  · intro he h1 h2
    simp [create, hid, hp, hf, he, h1, h2]
  · intro he hne
    by_cases h1 : (s.periodic_list id).period_ms = period_ms
    · have h2 : (s.periodic_list id).callback ≠ func := by
        rcases hne with h | h
        · exact absurd h1 h
        · exact h
      simp [create, hid, hp, hf, he, h1, h2]
    · simp [create, hid, hp, hf, he, h1]

/-- After `create(Test, 10, 7)` and `start` at time 0, a second `create` with
period 20 raises the fault and the stored period stays 10. -/
theorem create_cases_witness :
    (create (start (create boot 0 10 7).1 0 0 true).1 0 20 7).2
        = .error Error.TooManyAttempts ∧
    (create (start (create boot 0 10 7).1 0 0 true).1 0 20 7).1.periodic_list
        = (start (create boot 0 10 7).1 0 0 true).1.periodic_list :=
  (create_cases (start (create boot 0 10 7).1 0 0 true).1 0 20 7 (by decide) (by decide)
    (by decide)).2.2 (by decide) (Or.inl (by decide))

theorem sub32_eq_mod (a b : Nat) (ha : a < 4294967296) (hb : b < 4294967296) :
    sub32 a b = (a + 4294967296 - b) % 4294967296 := by
  unfold sub32
  split <;> omega

theorem call_step (s : State) (now i n : Nat) (hnow : now < 4294967296)
    (hl : (s.periodic_list i).last_call_ms < 4294967296)
    (hc : (s.periodic_list i).enabled = true → (s.periodic_list i).callback ≠ 0) :
    call_callbacks_loop now (n + 1) i s
      = call_callbacks_loop now n (i + 1)
          (if Due s now i = true then
            { s with calls := s.calls ++ [⟨i, (s.periodic_list i).callback, now⟩] }
          else s) := by
  have hsub := sub32_eq_mod now _ hnow hl
  by_cases hd : Due s now i = true
  · have hd' := hd
    simp only [Due, Bool.and_eq_true, decide_eq_true_eq] at hd'
    have hcb := hc hd'.1
    simp only [call_callbacks_loop, hsub, hd'.1, hd'.2, hd, decide_True, Bool.and_self, if_true,
      hcb, if_false]
  · have hd' : ¬ ((s.periodic_list i).enabled = true ∧
        (now + 4294967296 - (s.periodic_list i).last_call_ms) % 4294967296
          ≥ (s.periodic_list i).period_ms) := by
      simpa [Due] using hd
    have : ((s.periodic_list i).enabled &&
        decide ((now + 4294967296 - (s.periodic_list i).last_call_ms) % 4294967296
          ≥ (s.periodic_list i).period_ms)) = false := by
      simpa [Due] using hd
    simp only [call_callbacks_loop, hsub, this, hd, Bool.false_eq_true, if_false]

theorem call_loop_due (now : Nat) (hnow : now < 4294967296) :
    ∀ (n i : Nat) (s : State),
      (∀ j, i ≤ j → j < i + n → (s.periodic_list j).last_call_ms < 4294967296 ∧
        ((s.periodic_list j).enabled = true → (s.periodic_list j).callback ≠ 0)) →
      (call_callbacks_loop now n i s).2 = .ok () ∧
      (call_callbacks_loop now n i s).1.periodic_list = s.periodic_list ∧
      (call_callbacks_loop now n i s).1.calls
        = s.calls ++ ((List.range' i n).filter (Due s now)).map
            (fun j => ⟨j, (s.periodic_list j).callback, now⟩) := by
  intro n
  induction n with
  | zero => intro i s _; simp [call_callbacks_loop]
  | succ n ih =>
    intro i s hv
    obtain ⟨hl, hc⟩ := hv i (Nat.le_refl _) (by omega)
    rw [call_step s now i n hnow hl hc]
    by_cases hd : Due s now i = true
    · rw [if_pos hd]
      obtain ⟨r1, r2, r3⟩ := ih (i + 1)
        ⟨s.periodic_list, s.timer_created, s.timer_running,
          s.calls ++ [⟨i, (s.periodic_list i).callback, now⟩], s.mutex_calls, s.timer_calls⟩
        (fun j h1 h2 => hv j (by omega) (by omega))
      refine ⟨r1, r2, ?_⟩
      rw [r3]
      have hdue : ∀ j, Due ⟨s.periodic_list, s.timer_created, s.timer_running,
          s.calls ++ [⟨i, (s.periodic_list i).callback, now⟩], s.mutex_calls, s.timer_calls⟩
          now j = Due s now j := fun j => rfl
      have hf : List.filter (Due ⟨s.periodic_list, s.timer_created, s.timer_running,
          s.calls ++ [⟨i, (s.periodic_list i).callback, now⟩], s.mutex_calls, s.timer_calls⟩
          now) (List.range' (i + 1) n) = List.filter (Due s now) (List.range' (i + 1) n) :=
        List.filter_congr (fun j _ => hdue j)
      rw [hf]
      simp only [List.range'_succ, List.filter_cons, hd, if_true, List.map_cons,
        List.append_assoc, List.singleton_append]
    · rw [if_neg hd]
      obtain ⟨r1, r2, r3⟩ := ih (i + 1) s (fun j h1 h2 => hv j (by omega) (by omega))
      refine ⟨r1, r2, ?_⟩
      rw [r3]
      simp only [List.range'_succ, List.filter_cons, hd, Bool.false_eq_true, if_false]

/-- C22: on a table whose enabled entries have a callback, a tick at time
`now` returns without fault, leaves the table as it was, and invokes, in
table order and each once with argument `now`, the callbacks of exactly the
entries that are enabled and whose time since the last call, modulo `2 ^ 32`,
has reached the period. -/
theorem call_callbacks_due (s : State) (now : Nat) (hnow : now < 4294967296) (hv : Valid s) :
    (call_callbacks s now).2 = .ok () ∧
    (call_callbacks s now).1.periodic_list = s.periodic_list ∧
    (call_callbacks s now).1.calls
      = s.calls ++ ((List.range NumIDs).filter (Due s now)).map
          (fun i => ⟨i, (s.periodic_list i).callback, now⟩) := by
  have h := call_loop_due now hnow NumIDs 0 s (fun j _ h2 => hv j (by omega))
  rw [List.range_eq_range']
  exact h

/-- With period 10 created and started at time 0, a tick at 5 invokes
nothing and ticks at 10 and at 25 invoke the callback. -/
theorem call_callbacks_due_witness :
    (call_callbacks (start (create boot 0 10 7).1 0 0 true).1 5).1.calls = [] ∧
    (call_callbacks (start (create boot 0 10 7).1 0 0 true).1 10).1.calls = [⟨0, 7, 10⟩] ∧
    (call_callbacks (start (create boot 0 10 7).1 0 0 true).1 25).1.calls = [⟨0, 7, 25⟩] :=
  ⟨(call_callbacks_due (start (create boot 0 10 7).1 0 0 true).1 5 (by decide)
      (fun i hi => by
        have : i = 0 ∨ i = 1 := by simp only [NumIDs] at hi; omega
        rcases this with rfl | rfl <;> decide)).2.2,
   (call_callbacks_due (start (create boot 0 10 7).1 0 0 true).1 10 (by decide)
      (fun i hi => by
        have : i = 0 ∨ i = 1 := by simp only [NumIDs] at hi; omega
        rcases this with rfl | rfl <;> decide)).2.2,
   (call_callbacks_due (start (create boot 0 10 7).1 0 0 true).1 25 (by decide)
      (fun i hi => by
        have : i = 0 ∨ i = 1 := by simp only [NumIDs] at hi; omega
        rcases this with rfl | rfl <;> decide)).2.2⟩

end periodic

namespace input

/-! ### Theorems about typed inputs and outputs -/

/-- C23: `get<T>` raises `InvalidPointer` when the element has no input type
token and `InvalidType` when the token differs from `T`, in both cases with no
call of the device; `set<T>(v)` does the same against the output type token.
When the token equals `T`, `get<T>` calls the device read once and returns
its value converted to `T`, and `set<T>(v)` calls the device write once with
`v`; the print hook is called, on that value, if and only if `print_io` is
set. -/
theorem typed_access (T : io.TypeToken) (e : io.IOElement) (v : Nat) (log : List io.Access) :
    (e.input_type = none → get T e v log = (log, .error Error.InvalidPointer)) ∧
    (∀ t, e.input_type = some t → t ≠ T → get T e v log = (log, .error Error.InvalidType)) ∧
    (e.output_type = none → output.set T e v log = (log, .error Error.InvalidPointer)) ∧
    (∀ t, e.output_type = some t → t ≠ T →
      output.set T e v log = (log, .error Error.InvalidType)) ∧
    (e.input_type = some T →
      get T e v log
        = (log ++ [io.Access.get_by_id] ++
            (if e.print_io = true then [io.Access.print (io.cast T v) io.IODirection.input]
             else []),
           .ok (io.cast T v))) ∧
    (e.output_type = some T →
      output.set T e v log
        = (log ++ (if e.print_io = true then [io.Access.print v io.IODirection.output]
              else []) ++ [io.Access.set_output v],
           .ok ())) := by
  refine ⟨?_, ?_, ?_, ?_, ?_, ?_⟩
  · intro h; simp [get, h]
  · intro t h hne
    have : ¬ T = t := fun h' => hne h'.symm
    simp [get, h, this]
  · intro h; simp [output.set, h]
  · intro t h hne
    have : ¬ T = t := fun h' => hne h'.symm
    simp [output.set, h, this]
  · intro h
    by_cases hp : e.print_io = true <;> simp [get, h, hp]
  · intro h
    by_cases hp : e.print_io = true <;> simp [output.set, h, hp]

/-- A `bool` input is not read as `uint32_t`; read as `bool` with `print_io`
set, the device is read once and the value printed. -/
theorem typed_access_witness :
    get io.TypeToken.uint32_t
        ⟨io.IOType.GPIO, 3, io.IODirection.input, [], true, false, some io.TypeToken.bool, none⟩
        1 [] = ([], .error Error.InvalidType) ∧
    get io.TypeToken.bool
        ⟨io.IOType.GPIO, 3, io.IODirection.input, [], true, false, some io.TypeToken.bool, none⟩
        1 []
      = ([io.Access.get_by_id, io.Access.print 1 io.IODirection.input], .ok 1) :=
  ⟨(typed_access io.TypeToken.uint32_t
      ⟨io.IOType.GPIO, 3, io.IODirection.input, [], true, false, some io.TypeToken.bool, none⟩
      1 []).2.1 io.TypeToken.bool rfl (by decide),
   (typed_access io.TypeToken.bool
      ⟨io.IOType.GPIO, 3, io.IODirection.input, [], true, false, some io.TypeToken.bool, none⟩
      1 []).2.2.2.2.1 rfl⟩

/-- C24: from direction `none`, `init_input_info` gives `input`,
`init_output_info` gives `output`, and both in either order give
`input_output`; `input_output` is kept by either function; and calling either
function twice gives the direction one call gives. -/
theorem direction_fusion (e : io.IOElement) (tin tout : Option io.TypeToken) (ki ko : io.IOType) :
    (e.direction = io.IODirection.none →
      (init_input_info e tin ki).direction = io.IODirection.input ∧
      (output.init_output_info e tout ko).direction = io.IODirection.output ∧
      (output.init_output_info (init_input_info e tin ki) tout ko).direction
        = io.IODirection.input_output ∧
      (init_input_info (output.init_output_info e tout ko) tin ki).direction
        = io.IODirection.input_output) ∧
    (e.direction = io.IODirection.input_output →
      (init_input_info e tin ki).direction = io.IODirection.input_output ∧
      (output.init_output_info e tout ko).direction = io.IODirection.input_output) ∧
    (init_input_info (init_input_info e tin ki) tin ki).direction
      = (init_input_info e tin ki).direction ∧
    (output.init_output_info (output.init_output_info e tout ko) tout ko).direction
      = (output.init_output_info e tout ko).direction := by
  obtain ⟨ty, id, d, nm, pr, rg, it, ot⟩ := e
  cases d <;> simp [init_input_info, output.init_output_info]

/-- An element that starts with direction `none` and is initialised as output
and then as input has direction `input_output`. -/
theorem direction_fusion_witness :
    (init_input_info (output.init_output_info
        ⟨io.IOType.UART, 0, io.IODirection.none, [], false, false, none, none⟩
        (some io.TypeToken.const_char_ptr) io.IOType.UART)
      (some io.TypeToken.const_char_ptr) io.IOType.UART).direction
      = io.IODirection.input_output :=
  ((direction_fusion ⟨io.IOType.UART, 0, io.IODirection.none, [], false, false, none, none⟩
    (some io.TypeToken.const_char_ptr) (some io.TypeToken.const_char_ptr) io.IOType.UART
    io.IOType.UART).1 rfl).2.2.2

end input

namespace task_open

/-! ### Theorems about the open task -/

theorem fold_lower_bits (n : Nat) :
    (List.range n).foldl (fun ret_val i => ret_val ||| (1 <<< i)) 0 = 2 ^ n - 1 := by
  induction n with
  | zero => rfl
  | succ n ih =>
    rw [List.range_succ, List.foldl_append, ih]
    simp only [List.foldl_cons, List.foldl_nil]
    apply Nat.eq_of_testBit_eq
    intro i
    rw [Nat.testBit_lor, Nat.testBit_two_pow_sub_one, Nat.testBit_two_pow_sub_one,
      Nat.one_shiftLeft, Nat.testBit_two_pow]
    by_cases h1 : i < n
    · have h2 : i < n + 1 := by omega
      simp [h1, h2]
    · by_cases h3 : n = i
      · have h2 : i < n + 1 := by omega
        simp [h1, h2, h3]
      · have h2 : ¬ i < n + 1 := by omega
        simp [h1, h2, h3]

theorem set_lower_bits_eq (n : Nat) (hn : n < 32) : set_lower_bits n = 2 ^ n - 1 := by
  have h : n < 4 * 8 := by omega
  simp only [set_lower_bits, h, decide_True, if_true]
  exact fold_lower_bits n

theorem not32_testBit (r i : Nat) (hi : i < 32) : (not32 r).testBit i = !r.testBit i := by
  unfold not32
  rw [Nat.testBit_xor]
  have h : (4294967295 : Nat) = 2 ^ 32 - 1 := by norm_num
  rw [h, Nat.testBit_two_pow_sub_one]
  simp [hi]

theorem required_zero_iff (n req acc : Nat)
    (h : ∀ i, req.testBit i = (decide (1 ≤ i ∧ i < n) && !acc.testBit i)) :
    req = 0 ↔ Covers n acc := by
  constructor
  · intro h0 i h1 h2
    have hi := h i
    rw [h0, Nat.zero_testBit] at hi
    have hd : decide (1 ≤ i ∧ i < n) = true := decide_eq_true ⟨h1, h2⟩
    rw [hd] at hi
    cases hb : acc.testBit i
    · rw [hb] at hi; simp at hi
    · rfl
  · intro hc
    apply Nat.eq_of_testBit_eq
    intro i
    rw [h i, Nat.zero_testBit]
    by_cases hd : 1 ≤ i ∧ i < n
    · rw [hc i hd.1 hd.2]; simp
    · simp [hd]

theorem required_step (n req acc r : Nat) (hn : n < 32)
    (h : ∀ i, req.testBit i = (decide (1 ≤ i ∧ i < n) && !acc.testBit i)) :
    ∀ i, (req &&& not32 r).testBit i
      = (decide (1 ≤ i ∧ i < n) && !(acc ||| r).testBit i) := by
  intro i
  rw [Nat.testBit_land, h i, Nat.testBit_lor]
  by_cases hd : 1 ≤ i ∧ i < n
  · have hi : i < 32 := by omega
    rw [not32_testBit r i hi]
    cases acc.testBit i <;> cases r.testBit i <;> simp [hd]
  · simp [hd]

theorem wait_loop_spec (n : Nat) (hn : n < 32) :
    ∀ (rest : List Nat) (req acc m r : Nat),
      (∀ i, req.testBit i = (decide (1 ≤ i ∧ i < n) && !acc.testBit i)) →
      (wait_loop rest req m = some r ↔
        ∃ k, r = m + k ∧ k ≤ rest.length ∧
          Covers n ((rest.take k).foldl (fun a x => a ||| x) acc) ∧
          ∀ j, j < k → ¬ Covers n ((rest.take j).foldl (fun a x => a ||| x) acc)) := by
  intro rest
  induction rest with
  | nil =>
    intro req acc m r h
    have hz := required_zero_iff n req acc h
    simp only [wait_loop]
    constructor
    · intro hw
      by_cases h0 : req = 0
      · rw [if_pos h0] at hw
        refine ⟨0, ?_, Nat.le_refl _, ?_, ?_⟩
        · simp at hw; omega
        · simpa using hz.1 h0
        · intro j hj; omega
      · rw [if_neg h0] at hw; cases hw
    · rintro ⟨k, hr, hk, hc, _⟩
      have hk0 : k = 0 := by simpa using hk
      subst hk0
      have h0 : req = 0 := hz.2 (by simpa using hc)
      rw [if_pos h0, hr]; rfl
  | cons x rest ih =>
    intro req acc m r h
    have hz := required_zero_iff n req acc h
    simp only [wait_loop]
    by_cases h0 : req = 0
    · rw [if_pos h0]
      have hc0 := hz.1 h0
      constructor
      · intro hw
        refine ⟨0, ?_, Nat.zero_le _, ?_, ?_⟩
        · simp at hw; omega
        · simpa using hc0
        · intro j hj; omega
      · rintro ⟨k, hr, _, _, hmin⟩
        have hk0 : k = 0 := by
          by_contra hne
          exact hmin 0 (Nat.pos_of_ne_zero hne) (by simpa using hc0)
        subst hk0
        rw [hr]; rfl
    · rw [if_neg h0]
      have hnc : ¬ Covers n acc := fun hc => h0 (hz.2 hc)
      rw [ih (req &&& not32 x) (acc ||| x) (m + 1) r (required_step n req acc x hn h)]
      constructor
      · rintro ⟨k, hr, hk, hc, hmin⟩
        refine ⟨k + 1, by omega, by simpa using hk, ?_, ?_⟩
        · simpa using hc
        · intro j hj
          cases j with
          | zero => simpa using hnc
          | succ j =>
            have := hmin j (by omega)
            simpa using this
      · rintro ⟨k, hr, hk, hc, hmin⟩
        cases k with
        | zero => exact absurd (by simpa using hc) hnc
        | succ k =>
          refine ⟨k, by omega, by simpa using hk, by simpa using hc, ?_⟩
          intro j hj
          have := hmin (j + 1) (by omega)
          simpa using this

theorem initial_required (n : Nat) (hn : n < 32) :
    ∀ i, (set_lower_bits n &&& not32 1).testBit i
      = (decide (1 ≤ i ∧ i < n) && !(0 : Nat).testBit i) := by
  intro i
  rw [set_lower_bits_eq n hn, Nat.testBit_land, Nat.testBit_two_pow_sub_one, Nat.zero_testBit]
  by_cases h1 : i < n
  · have hi : i < 32 := by omega
    rw [not32_testBit 1 i hi]
    cases i with
    | zero => simp
    | succ i =>
      have : (1 : Nat).testBit (i + 1) = false := by
        rw [Nat.testBit_succ]; simp
      simp [h1, this]
  · simp [h1]

/-- C26: for `n < 32` tasks, `set_lower_bits n` is `2 ^ n - 1`; the open
task calls `setup::open`, broadcasts `GlobalOpen`, and then calls `wait_any`
exactly `k` times before it broadcasts `GlobalRun`, where `k` is the least
number of calls for which the OR of the signal sets returned so far has
every bit `1 .. n - 1` (bit 0 is not asked for); and while the sets returned
do not cover these bits it goes on waiting and does not broadcast
`GlobalRun`. -/
theorem open_barrier (n : Nat) (signals : List Nat) (hn : n < 32) :
    set_lower_bits n = 2 ^ n - 1 ∧
    (∀ k, k ≤ signals.length → Covers n (received signals k) →
      (∀ j, j < k → ¬ Covers n (received signals j)) →
      task_func n signals
        = [Action.setup_open, Action.broadcast task.Signal.GlobalOpen] ++
            List.replicate k Action.wait_any ++
            [Action.broadcast task.Signal.GlobalRun,
             Action.wait_strict task.Signal.GlobalInvalid]) ∧
    ((∀ k, k ≤ signals.length → ¬ Covers n (received signals k)) →
      task_func n signals
        = [Action.setup_open, Action.broadcast task.Signal.GlobalOpen] ++
            List.replicate (signals.length + 1) Action.wait_any) := by
  have spec := fun r => wait_loop_spec n hn signals (set_lower_bits n &&& not32 1) 0 0 r
    (initial_required n hn)
  refine ⟨set_lower_bits_eq n hn, ?_, ?_⟩
  · intro k hk hc hmin
    have hw : wait_loop signals (set_lower_bits n &&& not32 1) 0 = some k :=
      (spec k).2 ⟨k, by omega, hk, hc, hmin⟩
    simp only [task_func, hw]
  · intro hno
    have hw : wait_loop signals (set_lower_bits n &&& not32 1) 0 = none := by
      cases hx : wait_loop signals (set_lower_bits n &&& not32 1) 0 with
      | none => rfl
      | some r =>
        obtain ⟨k, _, hk, hc, _⟩ := (spec r).1 hx
        exact absurd hc (hno k hk)
    simp only [task_func, hw]

/-- With four tasks and the sets `2`, `4`, `8 + 2`, `1` returned by
`wait_any`, `GlobalRun` is broadcast after the third call. -/
theorem open_barrier_witness :
    task_func 4 [2, 4, 10, 1]
      = [Action.setup_open, Action.broadcast task.Signal.GlobalOpen,
         Action.wait_any, Action.wait_any, Action.wait_any,
         Action.broadcast task.Signal.GlobalRun,
         Action.wait_strict task.Signal.GlobalInvalid] :=
  (open_barrier 4 [2, 4, 10, 1] (by decide)).2.1 3 (by decide)
    (by
      intro i h1 h2
      have : i = 1 ∨ i = 2 ∨ i = 3 := by omega
      rcases this with rfl | rfl | rfl <;> decide)
    (by
      intro j hj hc
      have : j = 0 ∨ j = 1 ∨ j = 2 := by omega
      rcases this with rfl | rfl | rfl
      · exact absurd (hc 1 (by decide) (by decide)) (by decide)
      · exact absurd (hc 2 (by decide) (by decide)) (by decide)
      · exact absurd (hc 3 (by decide) (by decide)) (by decide))

end task_open

namespace uart

/-! ### Theorems about the UART receive ring -/

theorem isr_read_ok (M : Nat) (hM : 64 ∣ M) (s : State) (c f j : Nat) (_hf : f < 64)
    (hfront : s.rcvd_queue_front = f) (hrear : s.rcvd_queue_rear % 64 = (f + j) % 64)
    (hlt : s.rcvd_queue_rear < M) (hj : j + 1 ≤ 63) :
    (isr_read M s c).2 = .ok () ∧
    (isr_read M s c).1.rcvd_queue_front = f ∧
    (isr_read M s c).1.rcvd_queue_rear % 64 = (f + (j + 1)) % 64 ∧
    (isr_read M s c).1.rcvd_queue_rear < M ∧
    (isr_read M s c).1.rcvd_queue
      = (fun i => if i = (f + j) % 64 then c else s.rcvd_queue i) ∧
    (isr_read M s c).1.isr_enabled = s.isr_enabled ∧
    (isr_read M s c).1.posted
      = s.posted ++ (if s.isr_enabled = true then [⟨control.EventID.control_UARTInput, 0⟩]
          else []) := by
  obtain ⟨q, hq⟩ := hM
  have hnext : (s.rcvd_queue_rear % 64 + 1) % 64 ≠ f % 64 := by omega
  have hr' : (if s.rcvd_queue_rear + 1 = M then 0 else s.rcvd_queue_rear + 1) % 64
      = (f + (j + 1)) % 64 := by
    split <;> omega
  have hl' : (if s.rcvd_queue_rear + 1 = M then 0 else s.rcvd_queue_rear + 1) < M := by
    split <;> omega
  have hnext' : ¬ (f + j + 1) % 64 = f % 64 := by omega
  cases he : s.isr_enabled <;>
    simp [isr_read, RCVD_QUEUE_SIZE, hfront, hnext, hnext', he, hr', hl', hrear]

theorem isr_reads_ok (M : Nat) (hM : 64 ∣ M) (f : Nat) (hf : f < 64) :
    ∀ (bytes : List Nat) (s : State) (j : Nat),
      s.rcvd_queue_front = f → s.rcvd_queue_rear % 64 = (f + j) % 64 →
      s.rcvd_queue_rear < M → j + bytes.length ≤ 63 →
      (isr_reads M s bytes).2 = .ok () ∧
      (isr_reads M s bytes).1.rcvd_queue_front = f ∧
      (isr_reads M s bytes).1.rcvd_queue_rear % 64 = (f + (j + bytes.length)) % 64 ∧
      (isr_reads M s bytes).1.rcvd_queue_rear < M ∧
      (∀ i (h : i < bytes.length),
        (isr_reads M s bytes).1.rcvd_queue ((f + (j + i)) % 64) = bytes.get ⟨i, h⟩) ∧
      (∀ p, (∀ i, i < bytes.length → p ≠ (f + (j + i)) % 64) →
        (isr_reads M s bytes).1.rcvd_queue p = s.rcvd_queue p) ∧
      (isr_reads M s bytes).1.isr_enabled = s.isr_enabled ∧
      (isr_reads M s bytes).1.posted
        = s.posted ++ (if s.isr_enabled = true then
            List.replicate bytes.length ⟨control.EventID.control_UARTInput, 0⟩ else []) := by
  intro bytes
  induction bytes with
  | nil =>
    intro s j hfront hrear hlt _
    refine ⟨rfl, hfront, by simpa using hrear, hlt, ?_, ?_, rfl, ?_⟩
    · intro i h; simp at h
    · intro p _; rfl
    · simp [isr_reads]
  | cons c cs ih =>
    intro s j hfront hrear hlt hlen
    simp only [List.length_cons] at hlen
    obtain ⟨h1, h2, h3, h4, h5, h6, h7⟩ :=
      isr_read_ok M hM s c f j hf hfront hrear hlt (by omega)
    have hstep : isr_reads M s (c :: cs) = isr_reads M (isr_read M s c).1 cs := by
      rw [isr_reads]
      cases hx : isr_read M s c with
      | mk s1 r =>
        rw [hx] at h1
        simp only at h1
        subst h1
        rfl
    obtain ⟨g1, g2, g3, g4, g5, g6, g7, g8⟩ :=
      ih (isr_read M s c).1 (j + 1) h2 h3 h4 (by omega)
    rw [hstep]
    refine ⟨g1, g2, ?_, g4, ?_, ?_, ?_, ?_⟩
    · rw [g3]; simp only [List.length_cons]; congr 1; omega
    · intro i h
      cases i with
      | zero =>
        rw [g6 ((f + (j + 0)) % 64) (by intro i hi; omega), h5]
        simp
      | succ i =>
        have hi : i < cs.length := by simpa using h
        have := g5 i hi
        have e : (f + (j + 1 + i)) % 64 = (f + (j + (i + 1))) % 64 := by congr 1; omega
        rw [e] at this
        rw [this]
        simp
    · intro p hp
      rw [g6 p (by
        intro i hi
        have := hp (i + 1) (by simp only [List.length_cons]; omega)
        have e : (f + (j + 1 + i)) % 64 = (f + (j + (i + 1))) % 64 := by congr 1; omega
        rw [e]; exact this), h5]
      have := hp 0 (by simp)
      simp only [Nat.add_zero] at this
      simp [this]
    · rw [g7, h6]
    · rw [g8, h7, h6]
      cases s.isr_enabled <;> simp [List.replicate_succ]

theorem get_by_id_loop_ok (r : Nat) :
    ∀ (bytes : List Nat) (s : State) (pre : List Nat) (fuel : Nat),
      s.rcvd_queue_front < 64 → bytes.length ≤ 63 →
      r = (s.rcvd_queue_front + bytes.length) % 64 →
      (∀ i (h : i < bytes.length),
        s.rcvd_queue ((s.rcvd_queue_front + i) % 64) = bytes.get ⟨i, h⟩) →
      pre.length + bytes.length ≤ 64 →
      s.ret_buf = pre ++ List.replicate (65 - pre.length) 0 →
      bytes.length + 1 ≤ fuel →
      get_by_id_loop r fuel s pre.length
        = some (⟨s.isr_enabled, r, s.rcvd_queue_rear, s.rcvd_queue,
            pre ++ bytes ++ List.replicate (65 - pre.length - bytes.length) 0, s.posted,
            s.printed, s.opens⟩, .ok ()) := by
  intro bytes
  induction bytes with
  | nil =>
    intro s pre fuel hf _ hr _ _ hbuf hfuel
    obtain ⟨fuel, rfl⟩ : ∃ k, fuel = k + 1 := ⟨fuel - 1, by simp at hfuel; omega⟩
    have hr' : s.rcvd_queue_front = r := by simp at hr; omega
    simp only [get_by_id_loop, hr', ne_eq, not_true_eq_false, if_false, List.append_nil,
      List.length_nil, Nat.sub_zero]
    rw [← hbuf, ← hr']
  | cons c cs ih =>
    intro s pre fuel hf hlen hr hq hpre hbuf hfuel
    simp only [List.length_cons] at hlen hr hpre hfuel
    obtain ⟨fuel, rfl⟩ : ∃ k, fuel = k + 1 := ⟨fuel - 1, by omega⟩
    have hne : s.rcvd_queue_front ≠ r := by omega
    have hcnt : pre.length ≤ RCVD_QUEUE_SIZE := by simp only [RCVD_QUEUE_SIZE]; omega
    have hq0 : s.rcvd_queue s.rcvd_queue_front = c := by
      have := hq 0 (by simp)
      simp only [Nat.add_zero, Nat.mod_eq_of_lt hf] at this
      simpa using this
    have hset : s.ret_buf.set pre.length (s.rcvd_queue s.rcvd_queue_front)
        = (pre ++ [c]) ++ List.replicate (65 - (pre ++ [c]).length) 0 := by
      rw [hbuf, hq0]
      have h65 : 65 - pre.length = (64 - pre.length) + 1 := by omega
      rw [h65, List.replicate_succ, List.set_append_right _ _ (Nat.le_refl _)]
      simp only [Nat.sub_self, List.set_cons_zero, List.length_append, List.length_singleton,
        List.append_assoc, List.singleton_append]
      congr 3
      omega
    have key := ih
      ⟨s.isr_enabled, (s.rcvd_queue_front + 1) % RCVD_QUEUE_SIZE, s.rcvd_queue_rear,
        s.rcvd_queue, s.ret_buf.set pre.length (s.rcvd_queue s.rcvd_queue_front), s.posted,
        s.printed, s.opens⟩
      (pre ++ [c]) fuel
      (by simp only [RCVD_QUEUE_SIZE]; omega)
      (by omega)
      (by simp only [RCVD_QUEUE_SIZE]; omega)
      (by
        intro i h
        have := hq (i + 1) (by simp only [List.length_cons]; omega)
        simp only [RCVD_QUEUE_SIZE]
        have e : ((s.rcvd_queue_front + 1) % 64 + i) % 64 = (s.rcvd_queue_front + (i + 1)) % 64 := by
          omega
        rw [e, this]
        simp)
      (by simp only [List.length_append, List.length_singleton]; omega)
      hset
      (by omega)
    rw [get_by_id_loop]
    simp only [hne, ne_eq, not_false_eq_true, if_true, hcnt, decide_True, Bool.not_true,
      Bool.false_eq_true, if_false]
    have hl : (pre ++ [c]).length = pre.length + 1 := by simp
    rw [hl] at key
    rw [key]
    simp only [List.append_assoc, List.singleton_append, List.length_cons]
    congr 6
    omega

theorem cstr_bytes (bytes : List Nat) (n : Nat) (h0 : ∀ c ∈ bytes, c ≠ 0) (hn : 0 < n) :
    control.cstr (bytes ++ List.replicate n 0) = bytes := by
  induction bytes with
  | nil =>
    obtain ⟨m, rfl⟩ : ∃ m, n = m + 1 := ⟨n - 1, by omega⟩
    simp [control.cstr, List.replicate_succ]
  | cons c cs ih =>
    have hc : c ≠ 0 := h0 c (by simp)
    have ih' := ih (fun x hx => h0 x (by simp [hx]))
    simp only [control.cstr] at ih' ⊢
    simp [List.takeWhile_cons, hc, ih']

theorem get_drained (e : io.IOElement) (s : State) (bytes : List Nat)
    (he : e.input_type = some io.TypeToken.const_char_ptr)
    (hf : s.rcvd_queue_front < 64) (hlen : bytes.length ≤ 63)
    (hq : ∀ i (h : i < bytes.length),
      s.rcvd_queue ((s.rcvd_queue_front + i) % 64) = bytes.get ⟨i, h⟩)
    (hr : s.rcvd_queue_rear % 64 = (s.rcvd_queue_front + bytes.length) % 64)
    (h0 : ∀ c ∈ bytes, c ≠ 0) :
    ∃ s1, get io.TypeToken.const_char_ptr e (RCVD_QUEUE_SIZE + 1) s = some (s1, .ok bytes) ∧
      s1.rcvd_queue_front = s.rcvd_queue_rear % 64 ∧ s1.rcvd_queue_rear = s.rcvd_queue_rear ∧
      s1.posted = s.posted := by
  have key := get_by_id_loop_ok (s.rcvd_queue_rear % 64) bytes
    ⟨s.isr_enabled, s.rcvd_queue_front, s.rcvd_queue_rear, s.rcvd_queue,
      List.replicate (RCVD_QUEUE_SIZE + 1) 0, s.posted, s.printed, s.opens⟩
    [] (RCVD_QUEUE_SIZE + 1) hf hlen hr hq (by simp; omega) (by simp [RCVD_QUEUE_SIZE])
    (by simp only [RCVD_QUEUE_SIZE]; omega)
  simp only [List.length_nil, List.nil_append, Nat.sub_zero] at key
  have hc := cstr_bytes bytes (65 - bytes.length) h0 (by omega)
  have hg : get_by_id (RCVD_QUEUE_SIZE + 1) s
      = some (⟨s.isr_enabled, s.rcvd_queue_rear % 64, s.rcvd_queue_rear, s.rcvd_queue,
          bytes ++ List.replicate (65 - bytes.length) 0, s.posted, s.printed, s.opens⟩,
          .ok ()) := key
  cases hp : e.print_io
  · refine ⟨⟨s.isr_enabled, s.rcvd_queue_rear % 64, s.rcvd_queue_rear, s.rcvd_queue,
      bytes ++ List.replicate (65 - bytes.length) 0, s.posted, s.printed, s.opens⟩,
      ?_, rfl, rfl, rfl⟩
    simp [get, he, hg, hp, hc]
  · refine ⟨⟨s.isr_enabled, s.rcvd_queue_rear % 64, s.rcvd_queue_rear, s.rcvd_queue,
      bytes ++ List.replicate (65 - bytes.length) 0, s.posted, s.printed ++ [bytes],
      s.opens⟩, ?_, rfl, rfl, rfl⟩
    simp [get, he, hg, hp, hc]

/-- C27: from a drained ring, the interrupt stores `k ≤ 63` bytes, none of
them NUL, without a fault and, when the UART is initialised, posts one
`control_UARTInput` event for each; `get<const char *>` then returns exactly
these bytes in arrival order, a `get` right after it returns the empty
string and leaves the ring drained, and when `k = 63` one more byte raises
`QueueOverflow`. The number `M` of values of the counter type is a multiple
of 64, as every power of two from `2 ^ 6` on is. -/
theorem receive_ring (M : Nat) (e : io.IOElement) (s : State) (bytes : List Nat) (hM : 64 ∣ M)
    (he : e.input_type = some io.TypeToken.const_char_ptr) (hd : Drained M s)
    (hlen : bytes.length ≤ RCVD_QUEUE_SIZE - 1) (h0 : ∀ c ∈ bytes, c ≠ 0) :
    (isr_reads M s bytes).2 = .ok () ∧
    (s.isr_enabled = true →
      (isr_reads M s bytes).1.posted
        = s.posted ++ List.replicate bytes.length ⟨control.EventID.control_UARTInput, 0⟩) ∧
    (∃ s1 s2,
      get io.TypeToken.const_char_ptr e (RCVD_QUEUE_SIZE + 1) (isr_reads M s bytes).1
        = some (s1, .ok bytes) ∧
      get io.TypeToken.const_char_ptr e (RCVD_QUEUE_SIZE + 1) s1 = some (s2, .ok []) ∧
      Drained M s2) ∧
    (bytes.length = RCVD_QUEUE_SIZE - 1 →
      ∀ c, (isr_read M (isr_reads M s bytes).1 c).2 = .error Error.QueueOverflow) := by
  obtain ⟨hf, hlt, hr⟩ := hd
  simp only [RCVD_QUEUE_SIZE] at hf hr hlen
  have hlen' : bytes.length ≤ 63 := hlen
  obtain ⟨g1, g2, g3, g4, g5, g6, g7, g8⟩ :=
    isr_reads_ok M hM s.rcvd_queue_front hf bytes s 0 rfl (by omega) hlt (by omega)
  simp only [Nat.zero_add] at g3 g5
  refine ⟨g1, ?_, ?_, ?_⟩
  · intro hen
    rw [g8, if_pos hen]
  · obtain ⟨s1, e1, f1, r1, _⟩ := get_drained e (isr_reads M s bytes).1 bytes he
      (by rw [g2]; exact hf) hlen' (by rw [g2]; exact g5) (by rw [g2]; exact g3) h0
    obtain ⟨s2, e2, f2, r2, _⟩ := get_drained e s1 [] he
      (by rw [f1]; omega) (by simp) (by intro i h; simp at h)
      (by rw [f1, r1]; simp) (by simp)
    refine ⟨s1, s2, e1, e2, ?_, ?_, ?_⟩
    · rw [f2]; simp only [RCVD_QUEUE_SIZE]; omega
    · rw [r2, r1]; exact g4
    · rw [f2, r2]; rfl
  · intro h63 c
    simp only [RCVD_QUEUE_SIZE] at h63
    have hnext : ((isr_reads M s bytes).1.rcvd_queue_rear % 64 + 1) % 64
        = s.rcvd_queue_front % 64 := by omega
    simp [isr_read, RCVD_QUEUE_SIZE, g2, hnext]

/-- After `init`, the four bytes of "Test" are stored with four events
posted, and `get<const char *>` returns "Test". -/
theorem receive_ring_witness :
    (isr_reads 4294967296
      (init ⟨io.IOType.UART, 0, io.IODirection.none, [], false, false, none, none⟩ boot
        true true).2.1 [84, 101, 115, 116]).2 = .ok () ∧
    (isr_reads 4294967296
      (init ⟨io.IOType.UART, 0, io.IODirection.none, [], false, false, none, none⟩ boot
        true true).2.1 [84, 101, 115, 116]).1.posted
      = List.replicate 4 ⟨control.EventID.control_UARTInput, 0⟩ :=
  ⟨(receive_ring 4294967296
      (init ⟨io.IOType.UART, 0, io.IODirection.none, [], false, false, none, none⟩ boot
        true true).1
      (init ⟨io.IOType.UART, 0, io.IODirection.none, [], false, false, none, none⟩ boot
        true true).2.1
      [84, 101, 115, 116] (by decide) rfl ⟨by decide, by decide, by decide⟩ (by decide)
      (by decide)).1,
   (receive_ring 4294967296
      (init ⟨io.IOType.UART, 0, io.IODirection.none, [], false, false, none, none⟩ boot
        true true).1
      (init ⟨io.IOType.UART, 0, io.IODirection.none, [], false, false, none, none⟩ boot
        true true).2.1
      [84, 101, 115, 116] (by decide) rfl ⟨by decide, by decide, by decide⟩ (by decide)
      (by decide)).2.1 rfl⟩

end uart

namespace command

/-! ### The command `io-get` -/

/-- C25 (the code departs from it): called with one argument, `io-get`
returns 'Invalid Number of Arguments' whatever the argument is and reads no
input, because `get_input` asks for `argc >= 2`; on the example table the
value of input 1 is returned only when a second argument, which is never
looked at, is added, and a number that is not below `NumIDs` then raises the
fault `InvalidID` of `input::get_by_id` instead of giving 'Invalid Input'. -/
theorem get_input_rejects_one_argument :
    (∀ (env : input.Inputs) (log : List io.Access) (argv : List (List Nat)),
      get_input env log 1 argv = (log, .ok (control.str "Invalid Number of Arguments\r\n"))) ∧
    get_input testInputs [] 1 [control.str "1"]
      = ([], .ok (control.str "Invalid Number of Arguments\r\n")) ∧
    get_input testInputs [] 2 [control.str "1", control.str "x"]
      = ([io.Access.get_by_id], .ok (control.str "5\r\n")) ∧
    get_input testInputs [] 2 [control.str "adc", control.str "x"]
      = ([io.Access.get_by_id], .ok (control.str "5\r\n")) ∧
    get_input testInputs [] 2 [control.str "nothing", control.str "x"]
      = ([], .ok (control.str "Invalid Input\r\n")) ∧
    get_input testInputs [] 2 [control.str "7", control.str "x"]
      = ([], .error Error.InvalidID) := by
  refine ⟨fun env log argv => rfl, ?_, ?_, ?_, ?_, ?_⟩ <;> rfl

end command

namespace control

/-! ### The cursor bound and the back-pressure of the line editor -/

set_option maxRecDepth 100000 in
/-- C28 (the code departs from it): after a read of 255 `a` characters, of
which `process_input` takes 128, and a read of one more `a`, the cursor is
129, above `CMD_STR_LEN`, and all 129 bytes of the line buffer hold `a`, so
the array has no terminator: `process_character` clamps the cursor when it is
entered, then stores the character at index 128 and advances the cursor.
Neither read raises a fault. -/
theorem cursor_exceeds_cmd_str_len :
    (deliver testCommands (fun _ => []) (waiting [])
      [uart_input (List.replicate 255 97)]).1.current_position = 128 ∧
    (deliver testCommands (fun _ => []) (waiting [])
      [uart_input (List.replicate 255 97), uart_input [97]]).1.current_position = 129 ∧
    (deliver testCommands (fun _ => []) (waiting [])
      [uart_input (List.replicate 255 97), uart_input [97]]).1.current_cmd
      = List.replicate 129 97 ∧
    (deliver testCommands (fun _ => []) (waiting [])
      [uart_input (List.replicate 255 97), uart_input [97]]).2.map Except.toOption
      = [some .NotHandled, some .NotHandled] := by
  refine ⟨?_, ?_, ?_, ?_⟩ <;> decide

theorem attempt_completion_posted (cmds : Commands) (s : CLI) :
    (attempt_completion cmds s).1.posted = s.posted := by
  unfold attempt_completion
  dsimp only
  split
  · rfl
  · split
    · rfl
    · split <;> rfl

theorem list_matches_posted (cmds : Commands) (s : CLI) :
    (list_matches cmds s).1.posted = s.posted := by
  by_cases hsz : 0 < cmds.names.length
  · exact (list_matches_frame cmds s hsz).2.2.2.2.2.1
  · simp [list_matches, hsz]

theorem process_character_posted (cmds : Commands) (s : CLI) (c : Nat) :
    (process_character cmds s c).1.posted = s.posted := by
  unfold process_character
  dsimp only
  generalize (if s.current_position > CMD_STR_LEN then CMD_STR_LEN else s.current_position) = p
  by_cases h1 : (c == 13 || c == 10) = true
  · rw [if_pos h1]
  · rw [if_neg h1]
    by_cases h2 : (c == 9) = true
    · rw [if_pos h2]
      have ha := attempt_completion_posted cmds
        ⟨s.current_state, s.current_cmd.set p 0, s.last_cmd, p, s.console, s.posted, s.calls⟩
      split
      · rename_i s2 e h
        rw [h] at ha; exact ha
      · rename_i s2 h
        rw [h] at ha; exact ha
      · rename_i s2 h
        rw [h] at ha
        have hl := list_matches_posted cmds s2
        split
        · rename_i s3 e h3
          rw [h3] at hl; exact hl.trans ha
        · rename_i s3 u h3
          rw [h3] at hl; exact hl.trans ha
    · rw [if_neg h2]
      by_cases h3 : ((c == 8 || c == 127) && p == 0) = true
      · rw [if_pos h3]; rfl
      · rw [if_neg h3]
        by_cases h4 : (c == 8 || c == 127) = true
        · rw [if_pos h4]
        · rw [if_neg h4]

theorem process_input_loop_posted (cmds : Commands) (cs : List Nat) :
    ∀ s : CLI, (process_input_loop cmds s cs).1.posted = s.posted := by
  induction cs with
  | nil => intro s; rfl
  | cons c rest ih =>
    intro s
    rw [process_input_loop]
    split
    · rfl
    · rfl
    · rw [ih]
      unfold load_last_cmd
      dsimp only
      split <;> rfl
    · rfl
    · have hp := process_character_posted cmds (echo s c) c
      have he : (echo s c).posted = s.posted := by
        unfold echo; dsimp only; split <;> rfl
      split
      · rename_i s1 e h
        rw [h] at hp; exact hp.trans he
      · rename_i s1 h
        rw [h] at hp; exact hp.trans he
      · rename_i s1 h
        rw [h] at hp
        rw [ih]; exact hp.trans he

theorem process_input_posted (cmds : Commands) (s : CLI) (cmd : Option (List Nat)) :
    (process_input cmds s cmd).1.posted = s.posted := by
  cases cmd with
  | none => rfl
  | some p => exact process_input_loop_posted cmds _ s

/-- C29: a `control_UARTInput` event handled while the state is not
`WaitingForInput` is posted again, once, with the same id and the same
argument; nothing else of the editor changes and the result does not depend
on what a console read would return. Handled in `WaitingForInput`, the only
event that can be posted is `control_UpdateCLIState`. -/
theorem uart_input_back_pressure (cmds : Commands) (mem : Nat → List Nat) (s : CLI)
    (evt : Event) (console_in : List Nat) (hid : evt.id = EventID.control_UARTInput) :
    (s.current_state ≠ CLIState.WaitingForInput →
      handle_event cmds mem s evt console_in
        = (⟨s.current_state, s.current_cmd, s.last_cmd, s.current_position, s.console,
            s.posted ++ [⟨evt.id, evt.arg⟩], s.calls⟩, .ok HandleStatus.NotHandled)) ∧
    (s.current_state = CLIState.WaitingForInput →
      ∃ l, (handle_event cmds mem s evt console_in).1.posted = s.posted ++ l ∧
        ∀ e ∈ l, e.id = EventID.control_UpdateCLIState) := by
  constructor
  · intro hne
    simp only [handle_event, hid, if_neg hne]
  · intro hw
    have hp := process_input_posted cmds s (some console_in)
    simp only [handle_event, hid, hw, if_true, handle_state]
    cases hx : process_input cmds s (some console_in) with
    | mk s1 r =>
      rw [hx] at hp
      simp only at hp
      cases r with
      | error e => exact ⟨[], by simp [hp], by simp⟩
      | ok b =>
        cases b with
        | false => exact ⟨[], by simp [advance_state, hp], by simp⟩
        | true =>
          exact ⟨[⟨EventID.control_UpdateCLIState, 0⟩], by simp [advance_state, hp], by simp⟩

/-- While a command is executed, a key press is posted again and the editor
is otherwise as it was. -/
theorem uart_input_back_pressure_witness :
    handle_event testCommands (fun _ => [])
        ⟨CLIState.ExecutingCommand, boot.current_cmd, boot.last_cmd, 0, [], [], []⟩
        ⟨EventID.control_UARTInput, 0⟩ [97]
      = (⟨CLIState.ExecutingCommand, boot.current_cmd, boot.last_cmd, 0, [],
          [⟨EventID.control_UARTInput, 0⟩], []⟩, .ok HandleStatus.NotHandled) :=
  (uart_input_back_pressure testCommands (fun _ => [])
    ⟨CLIState.ExecutingCommand, boot.current_cmd, boot.last_cmd, 0, [], [], []⟩
    ⟨EventID.control_UARTInput, 0⟩ [97] rfl).1 (by decide)

end control

namespace settings_backend

set_option maxRecDepth 100000 in
/-- C30 (the code departs from it): on a sector that holds the values of
settings 0 and 1, `save_setting(1, "1")` with one failing write. When the
header write fails (write 1), `next_sector` is called and no write is tried
again: the function returns with sector 1 active, and a scan of sector 1
finds no entry. When the payload write fails (write 2) the outcome is the
same. Only a failed tombstone write (write 0) is followed by a second
attempt, which leaves the live entry of setting 1 with payload `1` at the
start of sector 1. With no failing write the entry is written in sector 0
with three writes. -/
theorem save_setting_write_failure_not_retried :
    (save_setting (failingWrite 1) 10 twoBackend 1 (some [49])).map
        (fun r => (r.1.curr_sector_addr, r.1.erases, r.1.writes, r.2.toOption,
          next_entry (failingWrite 1) 10 r.1.mem r.1.curr_sector_addr))
      = some (2048, 1, 6, some (), some UINT32_MAX) ∧
    (save_setting (failingWrite 2) 10 twoBackend 1 (some [49])).map
        (fun r => (r.1.curr_sector_addr, r.1.erases, r.1.writes, r.2.toOption,
          next_entry (failingWrite 2) 10 r.1.mem r.1.curr_sector_addr))
      = some (2048, 1, 9, some (), some UINT32_MAX) ∧
    (save_setting (failingWrite 0) 10 twoBackend 1 (some [49])).map
        (fun r => (r.1.curr_sector_addr, r.1.erases, r.1.writes, r.2.toOption,
          next_entry (failingWrite 0) 10 r.1.mem r.1.curr_sector_addr))
      = some (2048, 1, 9, some (), some 2048) ∧
    (save_setting (failingWrite 0) 10 twoBackend 1 (some [49])).map
        (fun r => (read_header r.1.mem 2048, flash_read r.1.mem 2064 1))
      = some (⟨1, 1, UNSET_FLASH, UNSET_FLASH⟩, [49]) ∧
    (save_setting testPlatform 10 twoBackend 1 (some [49])).map
        (fun r => (r.1.curr_sector_addr, r.1.erases, r.1.writes, r.2.toOption,
          read_header r.1.mem 48))
      = some (0, 0, 3, some (), ⟨1, 1, UNSET_FLASH, UNSET_FLASH⟩) := by
  refine ⟨by decide, by decide, by decide, by decide, by decide⟩

end settings_backend

namespace settings_backend

/-! ### Erase failures -/

theorem erase_fails_step (p : Platform) (b : Backend) (he : ∀ n, p.erase_fails n = true)
    (a : Nat) :
    flash_erase p b a
      = (⟨b.mem, b.writes, b.erases + 1, b.curr_sector_addr, b.fail_sector, b.failt_sector_set,
          b.set_calls, b.messages⟩, false) := by
  simp [flash_erase, he]

/-- C31: when every erase fails, `next_sector` called with sector 0 or
sector 1 active and with bookkeeping that is either clear or names a sector
tried first (1 or 2, the values the function stores) returns after one to
three erase attempts, prints `All sectors failed` once, and leaves the flash
bytes and the write count as they were: nothing is copied or marked
deleted. -/
theorem next_sector_all_erases_fail (p : Platform) (b : Backend) (fuel : Nat)
    (hfuel : 4 ≤ fuel) (he : ∀ n, p.erase_fails n = true) (hs : 0 < p.sector_size)
    (haddr : b.curr_sector_addr = 0 ∨ b.curr_sector_addr = p.sector_size)
    (hset : b.failt_sector_set = true → b.fail_sector = 1 ∨ b.fail_sector = 2) :
    ∃ b1, next_sector p fuel b = some b1 ∧ b1.mem = b.mem ∧ b1.writes = b.writes ∧
      b1.messages = b.messages + 1 ∧ b.erases < b1.erases ∧
      b1.erases ≤ b.erases + (NUM_SECTORS + 1) := by
  obtain ⟨f, rfl⟩ : ∃ f, fuel = f + 4 := ⟨fuel - 4, by omega⟩
  obtain ⟨mem, writes, erases, addr, fs, set, calls, msgs⟩ := b
  simp only at haddr hset
  have hdiv : p.sector_size / p.sector_size = 1 := Nat.div_self hs
  rcases haddr with rfl | rfl
  · cases set with
    | false =>
      simp [next_sector, erase_loop, erase_fails_step, he, NUM_SECTORS, STARTING_OFFSET]
      try omega
    | true =>
      rcases hset rfl with rfl | rfl <;>
        (simp [next_sector, erase_loop, erase_fails_step, he, NUM_SECTORS, STARTING_OFFSET]
         try omega)
  · cases set with
    | false =>
      simp [next_sector, erase_loop, erase_fails_step, he, NUM_SECTORS, STARTING_OFFSET, hdiv]
      try omega
    | true =>
      rcases hset rfl with rfl | rfl <;>
        simp [next_sector, erase_loop, erase_fails_step, he, NUM_SECTORS, STARTING_OFFSET, hdiv] <;>
        omega

/-- With sector 1 active and the bookkeeping clear, three erases are tried
(sector 0, sector 0 again, sector 1) before the function gives up. -/
theorem next_sector_all_erases_fail_witness :
    ∃ b1, next_sector ⟨2048, 4, fun _ => false, fun _ => true⟩ 4 upperBackend = some b1 ∧
      b1.mem = upperBackend.mem ∧ b1.writes = upperBackend.writes ∧
      b1.messages = upperBackend.messages + 1 ∧ upperBackend.erases < b1.erases ∧
      b1.erases ≤ upperBackend.erases + (NUM_SECTORS + 1) :=
  next_sector_all_erases_fail ⟨2048, 4, fun _ => false, fun _ => true⟩ upperBackend 4
    (by decide) (fun _ => rfl) (by decide) (Or.inr rfl) (fun h => absurd h (by decide))

end settings_backend

namespace uart

/-! ### Device initialisation -/

/-- C32 (the code departs from it): `init` called on an element whose
`reentry_guard` is already set runs in full again, because the guard macro
clears the member before it tests it. `UART::init` resets `print_io`, sets
the receive index `rcvd_queue_rear` back to zero and opens the port once
more; `GPIO::init` resets `print_io`; and a second `ADC::init` at time 50
takes the mutex for `periodic::create` and `periodic::start` again and
moves `last_call_ms` of the conversion periodic from 0 to 50. -/
theorem init_runs_again_when_guard_set :
    (∀ (e : io.IOElement) (s : State),
      (init ⟨e.type, e.id, e.direction, e.name, true, true, e.input_type, e.output_type⟩
          s true true).1.print_io = false ∧
      (init ⟨e.type, e.id, e.direction, e.name, true, true, e.input_type, e.output_type⟩
          s true true).2.1.rcvd_queue_rear = 0 ∧
      (init ⟨e.type, e.id, e.direction, e.name, true, true, e.input_type, e.output_type⟩
          s true true).2.1.opens = s.opens + 1 ∧
      (gpio.init ⟨e.type, e.id, e.direction, e.name, true, true, e.input_type,
          e.output_type⟩).print_io = false) ∧
    (init ⟨io.IOType.UART, 0, io.IODirection.none, [], false, false, none, none⟩ boot
        true true).1.reentry_guard = true ∧
    ((isr_reads 4294967296
        (init ⟨io.IOType.UART, 0, io.IODirection.none, [], false, false, none, none⟩ boot
          true true).2.1 [97, 98, 99]).1.rcvd_queue_rear = 3 ∧
      (init
        (init ⟨io.IOType.UART, 0, io.IODirection.none, [], false, false, none, none⟩ boot
          true true).1
        (isr_reads 4294967296
          (init ⟨io.IOType.UART, 0, io.IODirection.none, [], false, false, none, none⟩ boot
            true true).2.1 [97, 98, 99]).1 true true).2.1.rcvd_queue_rear = 0 ∧
      (init
        (init ⟨io.IOType.UART, 0, io.IODirection.none, [], false, false, none, none⟩ boot
          true true).1
        (isr_reads 4294967296
          (init ⟨io.IOType.UART, 0, io.IODirection.none, [], false, false, none, none⟩ boot
            true true).2.1 [97, 98, 99]).1 true true).2.1.opens = 2) ∧
    ((adc.init ⟨io.IOType.ADC, 1, io.IODirection.none, [], false, false, none, none⟩
        periodic.boot 7 0 true).1.reentry_guard = true ∧
      ((adc.init ⟨io.IOType.ADC, 1, io.IODirection.none, [], false, false, none, none⟩
        periodic.boot 7 0 true).2.1.periodic_list adc.ADCConversion).last_call_ms = 0 ∧
      (adc.init ⟨io.IOType.ADC, 1, io.IODirection.none, [], false, false, none, none⟩
        periodic.boot 7 0 true).2.1.mutex_calls.length = 4 ∧
      ((adc.init
        (adc.init ⟨io.IOType.ADC, 1, io.IODirection.none, [], false, false, none, none⟩
          periodic.boot 7 0 true).1
        (adc.init ⟨io.IOType.ADC, 1, io.IODirection.none, [], false, false, none, none⟩
          periodic.boot 7 0 true).2.1 7 50 true).2.1.periodic_list
          adc.ADCConversion).last_call_ms = 50 ∧
      (adc.init
        (adc.init ⟨io.IOType.ADC, 1, io.IODirection.none, [], false, false, none, none⟩
          periodic.boot 7 0 true).1
        (adc.init ⟨io.IOType.ADC, 1, io.IODirection.none, [], false, false, none, none⟩
          periodic.boot 7 0 true).2.1 7 50 true).2.1.mutex_calls.length = 8) := by
  refine ⟨fun e s => ⟨rfl, rfl, rfl, rfl⟩, by decide, ⟨by decide, by decide, by decide⟩,
    ⟨by decide, by decide, by decide, by decide, by decide⟩⟩

end uart

namespace error

/-! ### Error descriptions -/

/-- C33 (the code departs from it): the tag of the last line of `errors.def`
has its own entry at the end of the error table, yet `get_default` returns
the generic entry for it and a failed check with that tag is reported as
'Unknown Error': the search loop stops one entry before the end of the
table. The tag of every earlier line is answered with the entry of its first
line. -/
theorem get_default_misses_last_entry (defs : List (Int × List Nat)) (d : Int × List Nat)
    (file func : List Nat) (line : Nat)
    (hnew : ∀ x ∈ defs, x.1 ≠ d.1) (hu : d.1 ≠ Unknown) :
    (⟨d.1, d.2, none, none, 0⟩ : ErrorInfo) ∈ error_defaults (defs ++ [d]) ∧
    get_default (error_defaults (defs ++ [d])) d.1
      = ⟨Unknown, control.str "Unknown Error", none, none, 0⟩ ∧
    do_assert (error_defaults (defs ++ [d])) false d.1 file func line
      = some ⟨Unknown, control.str "Unknown Error", some file, some func, line⟩ ∧
    (∀ (pre post : List (Int × List Nat)) (x : Int × List Nat),
      defs = pre ++ x :: post → (∀ y ∈ pre, y.1 ≠ x.1) → x.1 ≠ Unknown →
      get_default (error_defaults (defs ++ [d])) x.1 = ⟨x.1, x.2, none, none, 0⟩) := by
  have htake : (error_defaults (defs ++ [d])).take ((error_defaults (defs ++ [d])).length - 1)
      = ⟨Unknown, control.str "Unknown Error", none, none, 0⟩ ::
          defs.map (fun d => (⟨d.1, d.2, none, none, 0⟩ : ErrorInfo)) := by
    simp [error_defaults, List.take_append_eq_append_take]
  have hfind : ((⟨Unknown, control.str "Unknown Error", none, none, 0⟩ : ErrorInfo) ::
      defs.map (fun d => (⟨d.1, d.2, none, none, 0⟩ : ErrorInfo))).find?
        (fun x => x.error == d.1) = none := by
    rw [List.find?_eq_none]
    intro x hx
    simp only [List.mem_cons, List.mem_map] at hx
    rcases hx with rfl | ⟨y, hy, rfl⟩
    · simpa using fun h => hu h.symm
    · simpa using hnew y hy
  have hget : get_default (error_defaults (defs ++ [d])) d.1
      = ⟨Unknown, control.str "Unknown Error", none, none, 0⟩ := by
    unfold get_default
    simp only [htake, hfind]
    rfl
  refine ⟨by simp [error_defaults], hget, by simp [do_assert, hget], ?_⟩
  intro pre post x hdefs hpre hxu
  unfold get_default
  simp only [htake]
  have : ((⟨Unknown, control.str "Unknown Error", none, none, 0⟩ : ErrorInfo) ::
      defs.map (fun d => (⟨d.1, d.2, none, none, 0⟩ : ErrorInfo))).find?
        (fun y => y.error == x.1) = some ⟨x.1, x.2, none, none, 0⟩ := by
    have hne : ¬ (Unknown == x.1) = true := by simpa using fun h => hxu h.symm
    rw [List.find?_cons]
    simp only [hne]
    rw [hdefs, List.map_append, List.find?_append]
    have hnone : (pre.map (fun d => (⟨d.1, d.2, none, none, 0⟩ : ErrorInfo))).find?
        (fun y => y.error == x.1) = none := by
      rw [List.find?_eq_none]
      intro y hy
      simp only [List.mem_map] at hy
      obtain ⟨z, hz, rfl⟩ := hy
      simpa using hpre z hz
    rw [hnone]
    simp
  rw [this]

/-- With the two lines `NoError` (0) and `TestFailed` (1), a failed check
with `TestFailed` is reported as 'Unknown Error'. -/
theorem get_default_misses_last_entry_witness :
    do_assert (error_defaults [(0, control.str "No Error"), (1, control.str "Test Failed")])
        false 1 (control.str "t.cpp") (control.str "f") 9
      = some ⟨Unknown, control.str "Unknown Error", some (control.str "t.cpp"),
          some (control.str "f"), 9⟩ :=
  (get_default_misses_last_entry [(0, control.str "No Error")] (1, control.str "Test Failed")
    (control.str "t.cpp") (control.str "f") 9 (by decide) (by decide)).2.2.1

end error

namespace event

/-! ### The queue after a failed post -/

theorem mod_counter_queue (n : Nat) : n % COUNTER_MOD % QUEUE_SIZE = n % QUEUE_SIZE := by
  simp only [COUNTER_MOD, QUEUE_SIZE]
  omega

theorem post_overflow_rear (cfg : Config) (s : State) (e a : Nat)
    (hover : (post cfg s e a).2 = .error .QueueOverflow) :
    (post cfg s e a).1.queue_rears (get_associated_task s e)
      = (s.queue_rears (get_associated_task s e) + 1) % COUNTER_MOD := by
  have h := (post_overflow_iff cfg s e a).1 hover
  unfold get_associated_task at h ⊢
  unfold post
  simp only [h.1, not_true_eq_false, if_false, ne_eq, not_not, h.2, if_true,
    not_false_eq_true, Function.update_same]

theorem post_overflow_slots (cfg : Config) (s : State) (e a : Nat)
    (hover : (post cfg s e a).2 = .error .QueueOverflow) :
    (post cfg s e a).1.task_queues = s.task_queues := by
  have h := (post_overflow_iff cfg s e a).1 hover
  unfold get_associated_task at h
  unfold post
  simp only [h.1, not_true_eq_false, if_false, ne_eq, not_not, h.2, if_true,
    not_false_eq_true]

theorem post_overflow_handle (cfg : Config) (s : State) (e a : Nat)
    (ht : get_associated_task s e < cfg.numTasks)
    (hover : (post cfg s e a).2 = .error .QueueOverflow) :
    (handle cfg (post cfg s e a).1 (get_associated_task s e)).2
      = .ok ⟨NullEvent, cfg.numTasks, 0⟩ ∧
    (handle cfg (post cfg s e a).1 (get_associated_task s e)).1 = (post cfg s e a).1 := by
  have hr := post_overflow_rear cfg s e a hover
  have hf := (post_frame cfg s e a).2.1
  have hc := ((post_overflow_iff cfg s e a).1 hover).2
  have hne : cfg.NumEvents ≠ 0 := by simp [Config.NumEvents]
  have h0 : 0 < cfg.NumEvents := Nat.pos_of_ne_zero hne
  have heq : (post cfg s e a).1.queue_fronts (get_associated_task s e) % QUEUE_SIZE
      = (post cfg s e a).1.queue_rears (get_associated_task s e) % QUEUE_SIZE := by
    rw [hr, hf, mod_counter_queue]
    simp only [QUEUE_SIZE] at hc ⊢
    omega
  refine ⟨?_, ?_⟩
  · unfold handle
    simp only [ht, not_true_eq_false, if_false, heq, ne_eq, not_true_eq_false, NullEvent]
    simp [h0]
  · unfold handle
    simp only [ht, not_true_eq_false, if_false, heq, ne_eq, not_true_eq_false, NullEvent]
    simp [h0]

theorem cfg0_overflow_scenario (es : List (Nat × Nat)) (a : Nat) (hlen : es.length = 255)
    (hall : ∀ y ∈ es, y.1 = 1) :
    (postAll cfg0 (init cfg0 boot).1 es).2 = List.replicate 255 (.ok ()) ∧
    get_associated_task (postAll cfg0 (init cfg0 boot).1 es).1 3 = 1 ∧
    (post cfg0 (postAll cfg0 (init cfg0 boot).1 es).1 3 a).2 = .error .QueueOverflow ∧
    (handle cfg0 (postAll cfg0 (init cfg0 boot).1 es).1 1).2
      = .ok ⟨1, 1, (es.headD (0, 0)).2⟩ ∧
    (handle cfg0 (post cfg0 (postAll cfg0 (init cfg0 boot).1 es).1 3 a).1 1).2
      = .ok ⟨NullEvent, 2, 0⟩ := by
  have hinv := inv_init cfg0 cfg0_wf boot rfl
  obtain ⟨r1, r2⟩ := postAll_refines cfg0 cfg0_wf 1 es _ _ hinv
    (by
      intro y hy
      rw [hall y hy]
      exact ⟨by decide, rfl⟩)
    (by simp only [emptyFifo, List.length_nil, hlen, QUEUE_SIZE]; omega)
  have hassoc : get_associated_task (postAll cfg0 (init cfg0 boot).1 es).1 3 = 1 := by
    unfold get_associated_task
    rw [r2.1 3 (by decide)]
    rfl
  have hrear := (r2.2 1 (by decide)).2.1
  rw [Function.update_same] at hrear
  simp only [emptyFifo, List.nil_append, hlen] at hrear
  have hover : (post cfg0 (postAll cfg0 (init cfg0 boot).1 es).1 3 a).2
      = .error .QueueOverflow := by
    refine (post_overflow_iff cfg0 _ 3 a).2 ⟨by decide, ?_⟩
    rw [hassoc, hrear]
    simp only [QUEUE_SIZE]
    omega
  have hbefore := (handle_refines cfg0 _ _ 1 r2 (by decide)).1
  rw [Function.update_same] at hbefore
  simp only [emptyFifo, List.nil_append] at hbefore
  have hafter := (post_overflow_handle cfg0 _ 3 a (by rw [hassoc]; decide) hover).1
  rw [hassoc] at hafter
  refine ⟨?_, hassoc, hover, ?_, hafter⟩
  · rw [r1, hlen]
  · rw [hbefore]
    cases es with
    | nil => simp at hlen
    | cons x xs =>
      have hx := hall x (List.mem_cons_self _ _)
      simp only [List.headD_cons, hx]

/-- C37, amended: a failed post is not atomic. When `event::post` raises
`QueueOverflow` the rear counter of the owner task has already been advanced
by one, so it differs from its value before the call; the slots of every
ring, the front counters, the rear counters of the other tasks, the owner
table and the signals sent are as before the call. Rear and front of the
owner then agree modulo `QUEUE_SIZE`, which is the empty condition: the next
`handle` on the owner returns the sentinel event, not the oldest queued
event, and leaves the state as it found it, so every further `handle` does
the same until a post succeeds. -/
theorem failed_post_advances_rear (cfg : Config) (s : State) (e a : Nat)
    (ht : get_associated_task s e < cfg.numTasks)
    (hover : (post cfg s e a).2 = .error .QueueOverflow) :
    (post cfg s e a).1.queue_rears (get_associated_task s e)
      = (s.queue_rears (get_associated_task s e) + 1) % COUNTER_MOD ∧
    (post cfg s e a).1.queue_rears (get_associated_task s e)
      ≠ s.queue_rears (get_associated_task s e) ∧
    (∀ t2, t2 ≠ get_associated_task s e →
      (post cfg s e a).1.queue_rears t2 = s.queue_rears t2) ∧
    (post cfg s e a).1.queue_fronts = s.queue_fronts ∧
    (post cfg s e a).1.task_queues = s.task_queues ∧
    (post cfg s e a).1.event_task_assoc = s.event_task_assoc ∧
    (post cfg s e a).1.signals = s.signals ∧
    (handle cfg (post cfg s e a).1 (get_associated_task s e)).2
      = .ok ⟨NullEvent, cfg.numTasks, 0⟩ ∧
    (handle cfg (post cfg s e a).1 (get_associated_task s e)).1 = (post cfg s e a).1 := by
  have hr := post_overflow_rear cfg s e a hover
  have hfr := post_frame cfg s e a
  have hh := post_overflow_handle cfg s e a ht hover
  refine ⟨hr, ?_, fun t2 h2 => (hfr.2.2.1 t2 h2).1, hfr.2.1,
    post_overflow_slots cfg s e a hover, hfr.1, ?_, hh.1, hh.2⟩
  · rw [hr]
    simp only [COUNTER_MOD]
    omega
  · refine hfr.2.2.2.2.2 ?_
    rw [hover]
    intro h
    cases h

/-- After `event::init` and 255 posts to task 1, the post that overflows
leaves a queue from which `handle` returns the sentinel without changing the
state. -/
theorem failed_post_advances_rear_witness :
    (handle cfg0 (post cfg0 (postAll cfg0 (init cfg0 boot).1 (List.replicate 255 (1, 0))).1
        3 9).1
      (get_associated_task (postAll cfg0 (init cfg0 boot).1 (List.replicate 255 (1, 0))).1
        3)).1
      = (post cfg0 (postAll cfg0 (init cfg0 boot).1 (List.replicate 255 (1, 0))).1 3 9).1 :=
  (failed_post_advances_rear cfg0
      (postAll cfg0 (init cfg0 boot).1 (List.replicate 255 (1, 0))).1 3 9
      (by
        rw [(cfg0_overflow_scenario _ 9 (List.length_replicate _ _)
          (fun y hy => by rw [(List.mem_replicate.1 hy).2])).2.1]
        decide)
      (cfg0_overflow_scenario _ 9 (List.length_replicate 255 ((1 : Nat), (0 : Nat)))
          (fun y hy => by rw [(List.mem_replicate.1 hy).2])).2.2.1).2.2.2.2.2.2.2.2

/-- C37, counterexample to the claim as stated: after `event::init`, 255
posts of event 1 with argument 7 to task 1 all succeed and the next post to
task 1 raises `QueueOverflow` (the sequence of the unit test
`EventTest.Overflow`). On the state before the failed post `handle` on task 1
returns the oldest queued event; on the state after it `handle` returns the
sentinel: the queue was not left as it was and the queued events are not
returned. -/
theorem failed_post_queue_reads_empty :
    (postAll cfg0 (init cfg0 boot).1 (List.replicate 255 (1, 7))).2
      = List.replicate 255 (.ok ()) ∧
    (post cfg0 (postAll cfg0 (init cfg0 boot).1 (List.replicate 255 (1, 7))).1 3 8).2
      = .error .QueueOverflow ∧
    (handle cfg0 (postAll cfg0 (init cfg0 boot).1 (List.replicate 255 (1, 7))).1 1).2
      = .ok ⟨1, 1, 7⟩ ∧
    (handle cfg0
        (post cfg0 (postAll cfg0 (init cfg0 boot).1 (List.replicate 255 (1, 7))).1 3 8).1 1).2
      = .ok ⟨NullEvent, 2, 0⟩ :=
  ⟨(cfg0_overflow_scenario (List.replicate 255 (1, 7)) 8 (List.length_replicate _ _)
      (fun y hy => by rw [(List.mem_replicate.1 hy).2])).1,
   (cfg0_overflow_scenario (List.replicate 255 (1, 7)) 8 (List.length_replicate _ _)
      (fun y hy => by rw [(List.mem_replicate.1 hy).2])).2.2.1,
   (cfg0_overflow_scenario (List.replicate 255 (1, 7)) 8 (List.length_replicate _ _)
      (fun y hy => by rw [(List.mem_replicate.1 hy).2])).2.2.2.1,
   (cfg0_overflow_scenario (List.replicate 255 (1, 7)) 8 (List.length_replicate _ _)
      (fun y hy => by rw [(List.mem_replicate.1 hy).2])).2.2.2.2⟩

end event

namespace periodic

/-! ### Ticks leave the table alone -/

theorem call_loop_table (now : Nat) :
    ∀ (n i : Nat) (s : State), (call_callbacks_loop now n i s).1.periodic_list = s.periodic_list := by
  intro n
  induction n with
  | zero => intro i s; rfl
  | succ n ih =>
    intro i s
    rw [call_callbacks_loop]
    dsimp only
    split
    · split
      · rfl
      · rw [ih]
    · rw [ih]

theorem due_eq_sub32 (s : State) (i t : Nat) (ht : t < 4294967296)
    (hl : (s.periodic_list i).last_call_ms < 4294967296) :
    Due s t i = ((s.periodic_list i).enabled &&
      decide (sub32 t (s.periodic_list i).last_call_ms ≥ (s.periodic_list i).period_ms)) := by
  simp only [Due, sub32_eq_mod t _ ht hl]

theorem sub32_elapsed (l d : Nat) (hl : l < 4294967296) :
    sub32 ((l + d) % 4294967296) l = d % 4294967296 := by
  unfold sub32
  split <;> omega

theorem calls_of_entry (s : State) (i t : Nat) (hi : i < NumIDs) :
    (((List.range' 0 NumIDs).filter (Due s t)).map
        (fun j => (⟨j, (s.periodic_list j).callback, t⟩ : Call))).filter
        (fun c => c.entry == i)
      = if Due s t i = true then [⟨i, (s.periodic_list i).callback, t⟩] else [] := by
  have hr : List.range' 0 NumIDs = [0, 1] := rfl
  rw [hr]
  have hi2 : i = 0 ∨ i = 1 := by simp only [NumIDs] at hi; omega
  rcases hi2 with rfl | rfl
  · cases h0 : Due s t 0 <;> cases h1 : Due s t 1 <;> simp [List.filter_cons, h0, h1]
  · cases h0 : Due s t 0 <;> cases h1 : Due s t 1 <;> simp [List.filter_cons, h0, h1]

theorem run_ticks_calls (i : Nat) (hi : i < NumIDs) :
    ∀ (ts : List Nat) (s : State), Valid s → (∀ t ∈ ts, t < 4294967296) →
      (run_ticks s ts).2 = .ok () ∧
      (run_ticks s ts).1.periodic_list = s.periodic_list ∧
      (run_ticks s ts).1.calls.filter (fun c => c.entry == i)
        = s.calls.filter (fun c => c.entry == i) ++
            (ts.filter (fun t => (s.periodic_list i).enabled &&
                decide (sub32 t (s.periodic_list i).last_call_ms
                  ≥ (s.periodic_list i).period_ms))).map
              (fun t => ⟨i, (s.periodic_list i).callback, t⟩) := by
  intro ts
  induction ts with
  | nil => intro s _ _; simp [run_ticks]
  | cons t ts ih =>
    intro s hv hts
    have ht := hts t (List.mem_cons_self _ _)
    obtain ⟨r1, r2, r3⟩ := call_loop_due t ht NumIDs 0 s (fun j _ h2 => hv j (by omega))
    have hstep : run_ticks s (t :: ts) = run_ticks (call_callbacks s t).1 ts := by
      rw [run_ticks]
      cases hx : call_callbacks s t with
      | mk s1 r =>
        have : r = .ok () := by
          have := r1
          unfold call_callbacks at hx
          rw [hx] at this
          exact this
        subst this
        rfl
    have hpl : (call_callbacks s t).1.periodic_list = s.periodic_list := r2
    have hv1 : Valid (call_callbacks s t).1 := by
      intro j hj
      rw [hpl]
      exact hv j hj
    obtain ⟨g1, g2, g3⟩ := ih (call_callbacks s t).1 hv1
      (fun x hx => hts x (List.mem_cons_of_mem _ hx))
    rw [hstep]
    refine ⟨g1, g2.trans hpl, ?_⟩
    rw [g3, hpl]
    have hc : (call_callbacks s t).1.calls
        = s.calls ++ ((List.range' 0 NumIDs).filter (Due s t)).map
            (fun j => ⟨j, (s.periodic_list j).callback, t⟩) := r3
    rw [hc, List.filter_append, calls_of_entry s i t hi,
      due_eq_sub32 s i t ht (hv i hi).1, List.filter_cons]
    split <;> simp

/-- C38, amended: a tick never changes the table of periodics, whatever its
outcome, so the callback of an enabled entry is invoked at exactly the ticks
whose time `t` has `(t - last_call_ms) mod 2 ^ 32 >= period_ms`. Over any list
of ticks none raises a fault, the table stays as it was, and the calls of
entry `i` are one for each tick that meets this test, in order, with the tick
time as argument. The tick that comes `d` milliseconds after `last_call_ms`
meets the test exactly when `d mod 2 ^ 32 >= period_ms`: once the period has
elapsed every tick invokes the callback until the 32-bit millisecond counter
is back at `last_call_ms`, and the `period_ms` ticks from there on invoke
nothing. -/
theorem tick_keeps_table (s : State) (i : Nat) (ts : List Nat) (hv : Valid s)
    (hi : i < NumIDs) (hts : ∀ t ∈ ts, t < 4294967296) :
    (∀ (s1 : State) (t : Nat), (call_callbacks s1 t).1.periodic_list = s1.periodic_list) ∧
    (run_ticks s ts).2 = .ok () ∧
    (run_ticks s ts).1.periodic_list = s.periodic_list ∧
    (run_ticks s ts).1.calls.filter (fun c => c.entry == i)
      = s.calls.filter (fun c => c.entry == i) ++
          (ts.filter (fun t => (s.periodic_list i).enabled &&
              decide (sub32 t (s.periodic_list i).last_call_ms
                ≥ (s.periodic_list i).period_ms))).map
            (fun t => ⟨i, (s.periodic_list i).callback, t⟩) ∧
    (∀ d : Nat,
      (call_callbacks s (((s.periodic_list i).last_call_ms + d) % 4294967296)).1.calls.filter
          (fun c => c.entry == i)
        = s.calls.filter (fun c => c.entry == i) ++
            if (s.periodic_list i).enabled = true ∧
                (s.periodic_list i).period_ms ≤ d % 4294967296 then
              [⟨i, (s.periodic_list i).callback,
                ((s.periodic_list i).last_call_ms + d) % 4294967296⟩]
            else []) := by
  refine ⟨fun s1 t => call_loop_table t NumIDs 0 s1,
    (run_ticks_calls i hi ts s hv hts).1, (run_ticks_calls i hi ts s hv hts).2.1,
    (run_ticks_calls i hi ts s hv hts).2.2, ?_⟩
  intro d
  have hl := (hv i hi).1
  have ht : ((s.periodic_list i).last_call_ms + d) % 4294967296 < 4294967296 :=
    Nat.mod_lt _ (by decide)
  obtain ⟨_, _, r3⟩ := call_loop_due _ ht NumIDs 0 s (fun j _ h2 => hv j (by omega))
  have hc : (call_callbacks s (((s.periodic_list i).last_call_ms + d) % 4294967296)).1.calls
      = s.calls ++ ((List.range' 0 NumIDs).filter
          (Due s (((s.periodic_list i).last_call_ms + d) % 4294967296))).map
          (fun j => ⟨j, (s.periodic_list j).callback,
            ((s.periodic_list i).last_call_ms + d) % 4294967296⟩) := r3
  rw [hc, List.filter_append, calls_of_entry s i _ hi, due_eq_sub32 s i _ ht hl,
    sub32_elapsed _ d hl]
  simp only [Bool.and_eq_true, decide_eq_true_eq, ge_iff_le]

/-- With period 10 started at time 4294967290, the counter wraps before the
period has elapsed: of the ticks at 4294967295, 3, 4 and 100 the last two
invoke the callback. -/
theorem tick_keeps_table_witness :
    (run_ticks (start (create boot 0 10 7).1 0 4294967290 true).1
        [4294967295, 3, 4, 100]).1.calls.filter (fun c => c.entry == 0)
      = [⟨0, 7, 4⟩, ⟨0, 7, 100⟩] :=
  (tick_keeps_table (start (create boot 0 10 7).1 0 4294967290 true).1 0
    [4294967295, 3, 4, 100]
    (fun i hi => by
      have : i = 0 ∨ i = 1 := by simp only [NumIDs] at hi; omega
      rcases this with rfl | rfl <;> decide)
    (by decide) (by decide)).2.2.2.1

/-- C38, counterexample to the claim as stated: entry 0 has period 10 and
was started at time 0; at the tick at time 10 its period has elapsed and the
callback is invoked. The entry is not stopped or started again and stays
enabled, yet after the millisecond counter has passed 4294967295 and wrapped,
the ticks at times 0, 5 and 9 invoke nothing; the tick at 10 invokes the
callback again. -/
theorem tick_after_wrap_skipped :
    (start (create boot 0 10 7).1 0 0 true).1.periodic_list 0 = ⟨10, 7, true, 0⟩ ∧
    sub32 10 0 ≥ 10 ∧
    (run_ticks (start (create boot 0 10 7).1 0 0 true).1
        [10, 4294967295, 0, 5, 9, 10]).1.calls
      = [⟨0, 7, 10⟩, ⟨0, 7, 4294967295⟩, ⟨0, 7, 10⟩] ∧
    (run_ticks (start (create boot 0 10 7).1 0 0 true).1
        [10, 4294967295, 0, 5, 9, 10]).1.periodic_list 0 = ⟨10, 7, true, 0⟩ := by
  decide

end periodic

namespace settings

/-! ### The result of `get` -/

/-- C39: for a setting that may be read and has one of the five types, `get`
with a valid id and a buffer returns `NoError` whatever the get callback of
the module returns; and when the callback stores no value, the buffer holds
the text of the zero the local was initialised with: `0` for INT and UINT,
`0x0` for HEX. -/
theorem get_ignores_callback_result {σ : Type} (env : Env σ) (c : Codes) (s : State σ)
    (id pos : Nat) (setting : Setting) (buf : List Nat) (hid : id < NumSettings s)
    (hfind : get_setting_from_id s id = some (pos, setting))
    (hperm : setting.permission ≠ Permission.SET)
    (htype : setting.type ≠ SettingType.NumTypes) :
    (get env c s id (some buf)).2.2 = .ok c.NoError ∧
    ((env.get_param setting.module s.modules id).2.1 = none →
      (setting.type = SettingType.INT →
        (get env c s id (some buf)).2.1.map control.cstr = some (control.str "0")) ∧
      (setting.type = SettingType.UINT →
        (get env c s id (some buf)).2.1.map control.cstr = some (control.str "0")) ∧
      (setting.type = SettingType.HEX →
        (get env c s id (some buf)).2.1.map control.cstr = some (control.str "0x0"))) := by
  have hv := get_val_found env c s id pos setting hid hfind
  constructor
  · cases ht : setting.type <;>
      first
      | exact absurd ht htype
      | simp [get, hid, hfind, hperm, get_switch, ht, hv]
  · intro hnone
    obtain ⟨h1, h2, h3⟩ := get_numeric env c s id pos setting buf hid hfind hperm
    refine ⟨?_, ?_, ?_⟩
    · intro ht
      rw [h1 ht, hnone]
      simp only [Option.map_some', Option.getD_none]
      rw [cstr_snprintf _ _ _ (by decide) (by decide)]
      decide
    · intro ht
      rw [h2 ht, hnone]
      simp only [Option.map_some', Option.getD_none]
      rw [cstr_snprintf _ _ _ (by decide) (by decide)]
      decide
    · intro ht
      rw [h3 ht, hnone]
      simp only [Option.map_some', Option.getD_none]
      rw [cstr_snprintf _ _ _ (by decide) (by decide)]
      decide

/-- With a module whose get callback fails, `get` of the HEX setting 2 of the
example table returns `NoError` and the text `0x0`. -/
theorem get_ignores_callback_result_witness :
    (get failingEnv testCodes testState 2 (some (List.replicate 64 255))).2.2
      = .ok testCodes.NoError ∧
    (get failingEnv testCodes testState 2 (some (List.replicate 64 255))).2.1.map control.cstr
      = some (control.str "0x0") :=
  ⟨(get_ignores_callback_result failingEnv testCodes testState 2 2
      ⟨2, SettingType.HEX, 0, Permission.SET_GET, 0, [], 0⟩ (List.replicate 64 255)
      (by decide) rfl (by decide) (by decide)).1,
   ((get_ignores_callback_result failingEnv testCodes testState 2 2
      ⟨2, SettingType.HEX, 0, Permission.SET_GET, 0, [], 0⟩ (List.replicate 64 255)
      (by decide) rfl (by decide) (by decide)).2 rfl).2.2 rfl⟩

end settings

namespace control

/-! ### The rest of a read after a byte that asks for execution -/

theorem process_input_loop_stops (cmds : Commands) (b : List Nat) :
    ∀ (a : List Nat) (s : CLI), (process_input_loop cmds s a).2 = .ok true →
      process_input_loop cmds s (a ++ b) = process_input_loop cmds s a := by
  intro a
  induction a with
  | nil =>
    intro s h
    simp [process_input_loop] at h
  | cons c rest ih =>
    intro s h
    rw [List.cons_append]
    rw [process_input_loop] at h
    rw [process_input_loop, process_input_loop]
    generalize (if s.current_position < 2 then Except.ok false else is_up_arrow s c) = u at h ⊢
    generalize (if s.current_position < 2 then Except.ok false else is_down_arrow s c) = d at h ⊢
    cases u with
    | error e => rfl
    | ok ub =>
      cases d with
      | error e => cases ub <;> rfl
      | ok db =>
        cases ub with
        | true => exact ih _ h
        | false =>
          cases db with
          | true => rfl
          | false =>
            simp only at h ⊢
            cases hx : process_character cmds (echo s c) c with
            | mk s1 r =>
              rw [hx] at h
              cases r with
              | error e => rfl
              | ok x =>
                cases x with
                | true => rfl
                | false => exact ih _ h

theorem cstr_append_prefix (a b : List Nat) : ∃ r, cstr (a ++ b) = cstr a ++ r := by
  induction a with
  | nil => exact ⟨cstr b, by simp [cstr]⟩
  | cons x xs ih =>
    by_cases hx : x = 0
    · subst hx
      exact ⟨[], by simp [cstr]⟩
    · obtain ⟨r, hr⟩ := ih
      refine ⟨r, ?_⟩
      simp only [cstr] at hr ⊢
      simp [List.takeWhile_cons, hx, hr]

theorem taken_prefix (a b : List Nat) :
    ∃ r, (cstr (a ++ b)).take (if strlen (a ++ b) > CMD_STR_LEN then CMD_STR_LEN
        else strlen (a ++ b))
      = (cstr a).take (if strlen a > CMD_STR_LEN then CMD_STR_LEN else strlen a) ++ r := by
  obtain ⟨r0, hr0⟩ := cstr_append_prefix a b
  have h1 : ∀ l : List Nat, l.take (if l.length > CMD_STR_LEN then CMD_STR_LEN else l.length)
      = l.take CMD_STR_LEN := by
    intro l
    split
    · rfl
    · rw [List.take_of_length_le (Nat.le_refl _), List.take_of_length_le (by omega)]
  unfold strlen
  rw [h1, h1, hr0, List.take_append_eq_append_take]
  exact ⟨_, rfl⟩

theorem process_input_stops (cmds : Commands) (s : CLI) (a b : List Nat)
    (h : (process_input cmds s (some a)).2 = .ok true) :
    process_input cmds s (some (a ++ b)) = process_input cmds s (some a) := by
  obtain ⟨r, hr⟩ := taken_prefix a b
  unfold process_input at h ⊢
  simp only at h ⊢
  rw [hr]
  exact process_input_loop_stops cmds r _ s h

/-- C35: when the bytes `a` of a console read end in a byte that asks for
execution (`process_input` on `a` returns true: a CR, a LF, or the last byte
of a down-arrow sequence), a read that goes on with any bytes `b` after them
is handled exactly as the read of `a` alone: the same line buffer, cursor,
console output and posted events, so the bytes of `b` are not stored, not
echoed and not posted again; and the state is `ExecutingCommand`. -/
theorem input_after_execute_dropped (cmds : Commands) (mem : Nat → List Nat) (s : CLI)
    (evt : Event) (a b : List Nat) (hid : evt.id = EventID.control_UARTInput)
    (hw : s.current_state = CLIState.WaitingForInput)
    (hexec : (process_input cmds s (some a)).2 = .ok true) :
    handle_event cmds mem s evt (a ++ b) = handle_event cmds mem s evt a ∧
    (handle_event cmds mem s evt (a ++ b)).1.current_state = CLIState.ExecutingCommand := by
  have hp := process_input_stops cmds s a b hexec
  have h1 : handle_event cmds mem s evt (a ++ b) = handle_event cmds mem s evt a := by
    simp only [handle_event, hid, hw, if_true, handle_state, hp]
  refine ⟨h1, ?_⟩
  rw [h1]
  simp only [handle_event, hid, hw, if_true, handle_state]
  cases hx : process_input cmds s (some a) with
  | mk s1 r =>
    rw [hx] at hexec
    simp only at hexec
    subst hexec
    rfl

set_option maxRecDepth 100000 in
/-- The read `help`, CR, `abc` on an empty line is handled as the read
`help`, CR; the command `help` is then dispatched once, with no argument, and
no `a`, `b` or `c` is echoed. -/
theorem input_after_execute_dropped_witness :
    handle_event testCommands (fun _ => []) (waiting []) ⟨EventID.control_UARTInput, 0⟩
        (str "help\rabc")
      = handle_event testCommands (fun _ => []) (waiting []) ⟨EventID.control_UARTInput, 0⟩
        (str "help\r") ∧
    (deliver testCommands (fun _ => []) (waiting [])
      [uart_input (str "help\rabc"), update_state, update_state]).1.calls = [⟨0, 0, []⟩] ∧
    (deliver testCommands (fun _ => []) (waiting [])
      [uart_input (str "help\rabc"), update_state, update_state]).1.console
      = [[104], [101], [108], [112], [13], [13, 10], [], [13, 10], str ">"] :=
  ⟨(input_after_execute_dropped testCommands (fun _ => []) (waiting [])
      ⟨EventID.control_UARTInput, 0⟩ (str "help\r") (str "abc") rfl rfl rfl).1,
    by decide, by decide⟩

end control

namespace control

/-! ### One pending update while the editor is busy -/

theorem pending_updates_append (a b : List Event) :
    pending_updates (a ++ b) = pending_updates a + pending_updates b := by
  simp [pending_updates, List.filter_append]

theorem pending_updates_cons (e : Event) (r : List Event) :
    pending_updates (e :: r)
      = (if e.id = EventID.control_UpdateCLIState then 1 else 0) + pending_updates r := by
  by_cases h : e.id = EventID.control_UpdateCLIState
  · simp [pending_updates, List.filter_cons, h, Nat.add_comm]
  · simp [pending_updates, List.filter_cons, h]

theorem pending_updates_nil : pending_updates [] = 0 := rfl

theorem execute_command_posted (cmds : Commands) (s : CLI) :
    (execute_command cmds s).1.posted = s.posted := by
  unfold execute_command
  dsimp only
  split
  · rfl
  · split
    · split <;> rfl
    · rfl

theorem handle_event_pending (cmds : Commands) (mem : Nat → List Nat) (s : CLI) (evt : Event)
    (console_in : List Nat) (r : HandleStatus) (rest : List Event)
    (h : (handle_event cmds mem s evt console_in).2 = .ok r)
    (hinv : pending_updates (evt :: rest)
      = if s.current_state = CLIState.WaitingForInput then 0 else 1) :
    pending_updates
        (rest ++ (handle_event cmds mem s evt console_in).1.posted.drop s.posted.length)
      = if (handle_event cmds mem s evt console_in).1.current_state
          = CLIState.WaitingForInput then 0 else 1 := by
  rw [pending_updates_cons] at hinv
  rw [pending_updates_append]
  cases hid : evt.id with
  | control_UARTInput =>
    simp only [hid, reduceCtorEq, if_false, Nat.zero_add] at hinv
    by_cases hw : s.current_state = CLIState.WaitingForInput
    · rw [if_pos hw] at hinv
      have hp := process_input_posted cmds s (some console_in)
      simp only [handle_event, hid, hw, if_true, handle_state] at h ⊢
      cases hx : process_input cmds s (some console_in) with
      | mk p1 pr =>
        rw [hx] at hp h
        simp only at hp
        cases pr with
        | error e => simp at h
        | ok exec =>
          cases exec with
          | false =>
            simp [advance_state, hp, hinv, pending_updates_cons, pending_updates_nil]
          | true =>
            simp [advance_state, hp, hinv, pending_updates_cons, pending_updates_nil]
    · rw [if_neg hw] at hinv
      simp only [handle_event, hid, hw, if_false]
      simp [hinv, pending_updates_cons, pending_updates_nil, hid, hw]
  | control_UpdateCLIState =>
    simp only [hid, if_true] at hinv
    simp only [handle_event, hid, handle_state] at h ⊢
    cases hst : s.current_state with
    | WaitingForInput =>
      rw [hst] at h
      simp [process_input] at h
    | ExecutingCommand =>
      rw [hst] at hinv h
      simp only [reduceCtorEq, if_false] at hinv
      have hr : pending_updates rest = 0 := by omega
      have hp := execute_command_posted cmds s
      cases hx : execute_command cmds s with
      | mk p1 pr =>
        rw [hx] at hp h
        simp only at hp
        cases pr with
        | error e => simp at h
        | ok u => simp [advance_state, hp, hr, pending_updates_cons, pending_updates_nil]
    | WritingPrompt =>
      rw [hst] at hinv
      simp only [reduceCtorEq, if_false] at hinv
      have hr : pending_updates rest = 0 := by omega
      simp [advance_state, write_prompt, write_newline, console_set, hr, pending_updates_nil]
  | control_CLIOutput =>
    simp only [hid, reduceCtorEq, if_false, Nat.zero_add] at hinv
    simp [handle_event, hid, console_set, hinv, pending_updates_nil]
  | other =>
    simp only [hid, reduceCtorEq, if_false, Nat.zero_add] at hinv
    simp [handle_event, hid, hinv, pending_updates_nil]

theorem step_pending (cmds : Commands) (mem : Nat → List Nat) (y y1 : System) (x : Step)
    (hx : ∀ evt, x = Step.post evt → evt.id ≠ EventID.control_UpdateCLIState)
    (hstep : System.step cmds mem y x = some y1)
    (hinv : pending_updates y.queue
      = if y.cli.current_state = CLIState.WaitingForInput then 0 else 1) :
    pending_updates y1.queue
      = if y1.cli.current_state = CLIState.WaitingForInput then 0 else 1 := by
  cases x with
  | post evt =>
    simp only [System.step, Option.some.injEq] at hstep
    subst hstep
    have hne := hx evt rfl
    simp only [pending_updates_append, pending_updates_cons, hne, if_false, hinv,
      pending_updates_nil, Nat.add_zero]
  | handle console_in =>
    unfold System.step at hstep
    cases hq : y.queue with
    | nil =>
      rw [hq] at hstep
      simp only [Option.some.injEq] at hstep
      subst hstep
      exact hinv
    | cons evt rest =>
      rw [hq] at hstep hinv
      simp only at hstep
      have key := handle_event_pending cmds mem y.cli evt console_in
      cases hh : handle_event cmds mem y.cli evt console_in with
      | mk s1 pr =>
        rw [hh] at hstep key
        cases pr with
        | error e => simp at hstep
        | ok r =>
          simp only [Option.some.injEq] at hstep
          subst hstep
          exact key r rest rfl hinv

theorem run_pending (cmds : Commands) (mem : Nat → List Nat) :
    ∀ (steps : List Step) (y y1 : System), External steps →
      System.run cmds mem y steps = some y1 →
      pending_updates y.queue
        = (if y.cli.current_state = CLIState.WaitingForInput then 0 else 1) →
      pending_updates y1.queue
        = if y1.cli.current_state = CLIState.WaitingForInput then 0 else 1 := by
  intro steps
  induction steps with
  | nil =>
    intro y y1 _ hrun hinv
    simp only [System.run, Option.some.injEq] at hrun
    subst hrun
    exact hinv
  | cons x xs ih =>
    intro y y1 hext hrun hinv
    rw [System.run] at hrun
    cases hs : System.step cmds mem y x with
    | none => rw [hs] at hrun; simp at hrun
    | some y2 =>
      rw [hs] at hrun
      simp only at hrun
      have h2 := step_pending cmds mem y y2 x
        (fun evt he => hext evt (by rw [he]; exact List.mem_cons_self _ _)) hs hinv
      exact ih y2 y1 (fun evt he => hext evt (List.mem_cons_of_mem _ he)) hrun h2

theorem start_pending (cmds : Commands) (y0 : System) (h : System.start cmds = some y0) :
    pending_updates y0.queue
      = if y0.cli.current_state = CLIState.WaitingForInput then 0 else 1 := by
  simp only [System.start, init_control, handle_state, advance_state, Bool.false_eq_true,
    if_false, Option.some.injEq] at h
  subst h
  rfl

theorem attempt_completion_error (cmds : Commands) (s : CLI) (e : Error)
    (h : (attempt_completion cmds s).2 = .error e) : e ≠ Error.InvalidPointer := by
  unfold attempt_completion at h
  dsimp only at h
  split at h
  · cases h; simp
  · split at h
    · cases h
    · split at h
      · cases h; simp
      · cases h

theorem list_matches_error (cmds : Commands) (s : CLI) (e : Error)
    (h : (list_matches cmds s).2 = .error e) : e ≠ Error.InvalidPointer := by
  unfold list_matches at h
  dsimp only at h
  split at h
  · cases h; simp
  · cases h

theorem process_character_error (cmds : Commands) (s : CLI) (c : Nat) (e : Error)
    (h : (process_character cmds s c).2 = .error e) : e ≠ Error.InvalidPointer := by
  unfold process_character at h
  dsimp only at h
  generalize (if s.current_position > CMD_STR_LEN then CMD_STR_LEN else s.current_position) = p
    at h
  by_cases h1 : (c == 13 || c == 10) = true
  · rw [if_pos h1] at h; cases h
  · rw [if_neg h1] at h
    by_cases h2 : (c == 9) = true
    · rw [if_pos h2] at h
      have ha := attempt_completion_error cmds
        ⟨s.current_state, s.current_cmd.set p 0, s.last_cmd, p, s.console, s.posted, s.calls⟩
      split at h
      · rename_i s2 e2 hx
        rw [hx] at ha
        cases h
        exact ha e rfl
      · cases h
      · rename_i s2 hx
        have hl := list_matches_error cmds s2
        split at h
        · rename_i s3 e3 h3
          rw [h3] at hl
          cases h
          exact hl e rfl
        · cases h
    · rw [if_neg h2] at h
      by_cases h3 : ((c == 8 || c == 127) && p == 0) = true
      · rw [if_pos h3] at h; cases h
      · rw [if_neg h3] at h
        by_cases h4 : (c == 8 || c == 127) = true
        · rw [if_pos h4] at h; cases h
        · rw [if_neg h4] at h; cases h

theorem arrow_guard (s : CLI) (c : Nat) (e : Error) :
    (if s.current_position < 2 then Except.ok false else is_up_arrow s c) ≠ .error e ∧
    (if s.current_position < 2 then Except.ok false else is_down_arrow s c) ≠ .error e := by
  by_cases h : s.current_position < 2
  · simp [h]
  · have h2 : s.current_position ≥ 2 := by omega
    simp [h, is_up_arrow, is_down_arrow, h2]

theorem process_input_loop_error (cmds : Commands) (cs : List Nat) :
    ∀ (s : CLI) (e : Error), (process_input_loop cmds s cs).2 = .error e →
      e ≠ Error.InvalidPointer := by
  induction cs with
  | nil => intro s e h; cases h
  | cons c rest ih =>
    intro s e h
    rw [process_input_loop] at h
    have hg := arrow_guard s c
    generalize (if s.current_position < 2 then Except.ok false else is_up_arrow s c) = u
      at h hg
    generalize (if s.current_position < 2 then Except.ok false else is_down_arrow s c) = d
      at h hg
    cases u with
    | error e1 => exact absurd rfl (hg e1).1
    | ok ub =>
      cases d with
      | error e1 => exact absurd rfl (hg e1).2
      | ok db =>
        cases ub with
        | true => exact ih _ e h
        | false =>
          cases db with
          | true => cases h
          | false =>
            simp only at h
            have hp := process_character_error cmds (echo s c) c
            cases hx : process_character cmds (echo s c) c with
            | mk s1 r =>
              rw [hx] at h hp
              cases r with
              | error e1 =>
                cases h
                exact hp e rfl
              | ok x =>
                cases x with
                | true => cases h
                | false => exact ih _ e h

theorem execute_command_error (cmds : Commands) (s : CLI) (e : Error)
    (h : (execute_command cmds s).2 = .error e) : e ≠ Error.InvalidPointer := by
  unfold execute_command at h
  dsimp only at h
  split at h
  · cases h; simp
  · split at h
    · split at h <;> cases h
    · cases h

theorem handle_event_invalid_pointer (cmds : Commands) (mem : Nat → List Nat) (s : CLI)
    (evt : Event) (console_in : List Nat)
    (h : (handle_event cmds mem s evt console_in).2 = .error Error.InvalidPointer) :
    evt.id = EventID.control_UpdateCLIState ∧ s.current_state = CLIState.WaitingForInput := by
  cases hid : evt.id with
  | control_UARTInput =>
    exfalso
    simp only [handle_event, hid] at h
    by_cases hw : s.current_state = CLIState.WaitingForInput
    · simp only [hw, if_true, handle_state] at h
      have hp := process_input_loop_error cmds
      unfold process_input at h
      simp only at h
      generalize ((cstr console_in).take (if strlen console_in > CMD_STR_LEN then CMD_STR_LEN
        else strlen console_in)) = cs at h
      have hp2 := hp cs s
      cases hx : process_input_loop cmds s cs with
      | mk s1 r =>
        rw [hx] at h hp2
        cases r with
        | error e1 =>
          simp only [Except.error.injEq] at h
          exact hp2 e1 rfl h
        | ok b => cases h
    · simp only [hw, if_false] at h
      cases h
  | control_UpdateCLIState =>
    refine ⟨rfl, ?_⟩
    by_contra hw
    simp only [handle_event, hid, handle_state] at h
    cases hst : s.current_state with
    | WaitingForInput => exact hw hst
    | ExecutingCommand =>
      rw [hst] at h
      simp only at h
      have hp := execute_command_error cmds s
      cases hx : execute_command cmds s with
      | mk s1 r =>
        rw [hx] at h hp
        cases r with
        | error e1 =>
          simp only [Except.error.injEq] at h
          exact hp e1 rfl h
        | ok b => cases h
    | WritingPrompt =>
      rw [hst] at h
      cases h
  | control_CLIOutput =>
    simp only [handle_event, hid] at h
    cases h
  | other =>
    simp only [handle_event, hid] at h
    cases h

/-- C34: in every state the system reaches from `init_control` by posts of
other events and by handling the queued events in order, without a fault, the
queue holds exactly one `control_UpdateCLIState` event when the editor is in
`ExecutingCommand` or `WritingPrompt` and none when it is in
`WaitingForInput`; so the event at the front of the queue is never a
`control_UpdateCLIState` while the editor waits for input, `handle_state` is
not called with the null string in that state, and handling the event at the
front of the queue does not raise the fault `InvalidPointer` of
`process_input`. -/
theorem one_update_pending (cmds : Commands) (mem : Nat → List Nat) (steps : List Step)
    (y0 y : System) (hstart : System.start cmds = some y0) (hext : External steps)
    (hrun : System.run cmds mem y0 steps = some y) :
    pending_updates y.queue
      = (if y.cli.current_state = CLIState.WaitingForInput then 0 else 1) ∧
    (∀ evt rest, y.queue = evt :: rest → evt.id = EventID.control_UpdateCLIState →
      y.cli.current_state ≠ CLIState.WaitingForInput) ∧
    (∀ evt rest console_in, y.queue = evt :: rest →
      (handle_event cmds mem y.cli evt console_in).2 ≠ .error Error.InvalidPointer) := by
  have hinv := run_pending cmds mem steps y0 y hext hrun (start_pending cmds y0 hstart)
  have h2 : ∀ evt rest, y.queue = evt :: rest → evt.id = EventID.control_UpdateCLIState →
      y.cli.current_state ≠ CLIState.WaitingForInput := by
    intro evt rest hq hid hw
    rw [hq, pending_updates_cons, if_pos hid, if_pos hw] at hinv
    omega
  refine ⟨hinv, h2, ?_⟩
  intro evt rest console_in hq herr
  obtain ⟨hid, hw⟩ := handle_event_invalid_pointer cmds mem y.cli evt console_in herr
  exact h2 evt rest hq hid hw

/-- After `init_control`, a key press is queued, the read `help`, CR is
handled, and another key press is queued: the editor is in
`ExecutingCommand` and one `control_UpdateCLIState` event is pending. -/
theorem one_update_pending_witness :
    pending_updates
        ((System.run testCommands (fun _ => []) ((System.start testCommands).get rfl)
          exampleSteps).get rfl).queue
      = if ((System.run testCommands (fun _ => []) ((System.start testCommands).get rfl)
          exampleSteps).get rfl).cli.current_state = CLIState.WaitingForInput then 0 else 1 :=
  (one_update_pending testCommands (fun _ => []) exampleSteps
    ((System.start testCommands).get rfl)
    ((System.run testCommands (fun _ => []) ((System.start testCommands).get rfl)
      exampleSteps).get rfl)
    (Option.some_get _).symm (by decide) (Option.some_get _).symm).1

end control

namespace control

/-! ### The buffers of the line editor stay inside their arrays -/

theorem cstr_length_le (a : List Nat) : (cstr a).length ≤ a.length := by
  unfold cstr
  exact (List.takeWhile_sublist _).length_le

theorem cstr_before_zero (a r : List Nat) : cstr (a ++ 0 :: r) = cstr a := by
  induction a with
  | nil => simp [cstr]
  | cons x xs ih =>
    by_cases hx : x = 0
    · subst hx; simp [cstr]
    · simp only [cstr] at ih ⊢
      simp [List.takeWhile_cons, hx, ih]

theorem strlen_set_zero_le (l : List Nat) (i : Nat) (hi : i < l.length) :
    strlen (l.set i 0) ≤ i := by
  rw [List.set_eq_take_append_cons_drop, if_pos hi]
  unfold strlen
  rw [cstr_before_zero]
  have := cstr_length_le (l.take i)
  rw [List.length_take] at this
  omega

theorem take_set_of_le (l : List Nat) (m n v : Nat) (h : m ≤ n) :
    (l.set n v).take m = l.take m := by
  induction l generalizing m n with
  | nil => simp
  | cons x xs ih =>
    cases m with
    | zero => simp
    | succ m =>
      cases n with
      | zero => omega
      | succ n =>
        simp only [List.set_cons_succ, List.take_succ_cons]
        rw [ih m n (by omega)]

end control

namespace control

theorem attempt_completion_core (cmds : Commands) (s : CLI)
    (hlen : s.current_cmd.length = CMD_STR_LEN + 1) (hpos : s.current_position ≤ CMD_STR_LEN)
    (hc : cstr s.current_cmd = s.current_cmd.take s.current_position) :
    (attempt_completion cmds s).1.current_cmd.length = CMD_STR_LEN + 1 ∧
    (attempt_completion cmds s).1.current_position ≤ CMD_STR_LEN ∧
    (∀ c ∈ (attempt_completion cmds s).1.current_cmd.take
        (attempt_completion cmds s).1.current_position, c ≠ 0) ∧
    (attempt_completion cmds s).1.last_cmd = s.last_cmd ∧
    (attempt_completion cmds s).1.current_state = s.current_state ∧
    strlen (attempt_completion cmds s).1.current_cmd ≤ CMD_STR_LEN ∧
    (∀ i ∈ attempt_completion_indices cmds s, i ≤ CMD_STR_LEN) := by
  have hnz : ∀ c ∈ s.current_cmd.take s.current_position, c ≠ 0 := by
    rw [← hc]; exact cstr_nonzero _
  have hsl : strlen s.current_cmd = s.current_position := by
    unfold strlen
    rw [hc, List.length_take, hlen]
    omega
  have hterm : strlen s.current_cmd ≤ CMD_STR_LEN := by rw [hsl]; exact hpos
  unfold attempt_completion attempt_completion_indices
  dsimp only
  by_cases hsz : 0 < cmds.names.length
  · simp only [hsz, not_true_eq_false, if_false]
    cases hscan : completion_scan s.current_cmd (strlen s.current_cmd) cmds.names none with
    | none =>
      simp only
      exact ⟨hlen, hpos, hnz, trivial, trivial, hterm, by simp⟩
    | some rem =>
      simp only
      by_cases hfit : strlen s.current_cmd + strlen rem ≤ CMD_STR_LEN
      · simp only [hfit, not_true_eq_false, if_false]
        rw [hsl] at hfit
        have hcopy := strncpy_fits s.current_cmd s.current_position rem (strlen rem + 1)
          (by omega)
        have hcl : (strncpy s.current_cmd s.current_position rem (strlen rem + 1)).length
            = CMD_STR_LEN + 1 := by
          rw [hcopy]
          simp only [List.length_append, List.length_take, List.length_cons,
            List.length_replicate, List.length_drop, hlen]
          have : (cstr rem).length = strlen rem := rfl
          simp only [CMD_STR_LEN] at hfit hpos ⊢
          omega
        refine ⟨?_, hfit, ?_, trivial, trivial, ?_, ?_⟩
        · rw [List.length_set]; exact hcl
        · intro c hcm
          rw [take_set_of_le _ _ _ _ hfit, hcopy] at hcm
          have htl : (s.current_cmd.take s.current_position).length = s.current_position := by
            rw [List.length_take, hlen]; omega
          rw [List.take_append_eq_append_take, htl] at hcm
          have h2 : s.current_position + strlen rem - s.current_position = strlen rem := by
            omega
          rw [h2, List.take_append_eq_append_take] at hcm
          simp only [List.mem_append] at hcm
          rcases hcm with h | h | h
          · exact hnz c (List.mem_of_mem_take h)
          · exact cstr_nonzero rem c (List.mem_of_mem_take h)
          · have : strlen rem - (cstr rem).length = 0 := by
              have : (cstr rem).length = strlen rem := rfl
              omega
            rw [this] at h
            simp at h
        · exact strlen_set_zero_le _ _ (by rw [hcl]; simp [CMD_STR_LEN])
        · intro i hi
          simp only [List.mem_append, List.mem_range', List.mem_singleton] at hi
          rcases hi with ⟨k, hk, rfl⟩ | rfl
          · simp only [Nat.one_mul]; omega
          · exact Nat.le_refl _
      · simp only [hfit, not_false_eq_true, if_true]
        exact ⟨hlen, hpos, hnz, trivial, trivial, hterm, by simp⟩
  · simp only [hsz, not_false_eq_true, if_true]
    exact ⟨hlen, hpos, hnz, trivial, trivial, hterm, by simp⟩

end control

namespace control

theorem list_matches_fields (cmds : Commands) (s : CLI) :
    (list_matches cmds s).1.current_cmd = s.current_cmd ∧
    (list_matches cmds s).1.current_position = s.current_position ∧
    (list_matches cmds s).1.last_cmd = s.last_cmd ∧
    (list_matches cmds s).1.current_state = s.current_state := by
  by_cases hsz : 0 < cmds.names.length
  · obtain ⟨_, h1, h2, h3, _, _, h6⟩ := list_matches_frame cmds s hsz
    exact ⟨h1, h2, h3, h6⟩
  · simp [list_matches, hsz]

theorem take_set_succ (l : List Nat) (p c : Nat) (hp : p < l.length) :
    (l.set p c).take (p + 1) = l.take p ++ [c] := by
  induction l generalizing p with
  | nil => simp at hp
  | cons x xs ih =>
    cases p with
    | zero => simp
    | succ p =>
      simp only [List.length_cons] at hp
      simp only [List.set_cons_succ, List.take_succ_cons, List.cons_append]
      rw [ih p (by omega)]

theorem core_of_fields (s t : CLI) (h1 : t.current_cmd = s.current_cmd)
    (h2 : t.current_position = s.current_position) (h3 : t.last_cmd = s.last_cmd)
    (hs : s.Core) : t.Core := by
  unfold CLI.Core CLI.line at hs ⊢
  rw [h1, h2, h3]
  exact hs

theorem process_character_core (cmds : Commands) (s : CLI) (c : Nat) (hcore : s.Core)
    (hc : c ≠ 0) :
    (process_character cmds s c).1.Core ∧
    (process_character cmds s c).1.current_state = s.current_state ∧
    ((process_character cmds s c).2 = .ok true →
      (process_character cmds s c).1.current_position = 0 ∧
      strlen (process_character cmds s c).1.current_cmd ≤ CMD_STR_LEN) ∧
    (∀ i ∈ process_character_indices cmds s c, i ≤ CMD_STR_LEN) ∧
    ((c == 9) = true → strlen (process_character cmds s c).1.current_cmd ≤ CMD_STR_LEN) := by
  obtain ⟨h1, h2, h3, h4, h5⟩ := hcore
  unfold CLI.line at h5
  unfold process_character process_character_indices
  dsimp only
  rw [clamp_eq_min]
  generalize hp : min s.current_position CMD_STR_LEN = p at h5 ⊢
  have hp128 : p ≤ CMD_STR_LEN := by rw [← hp]; exact Nat.min_le_right _ _
  have hplt : p < s.current_cmd.length := by rw [h1]; omega
  have hset_len : (s.current_cmd.set p 0).length = CMD_STR_LEN + 1 := by
    rw [List.length_set]; exact h1
  have hterm : strlen (s.current_cmd.set p 0) ≤ CMD_STR_LEN :=
    Nat.le_trans (strlen_set_zero_le _ _ hplt) hp128
  have hmin : ∀ q, q ≤ CMD_STR_LEN → min q CMD_STR_LEN = q := fun q hq => Nat.min_eq_left hq
  by_cases hn : (c == 13 || c == 10) = true
  · rw [if_pos hn, if_pos hn]
    refine ⟨⟨hset_len, h2, Nat.zero_le _, h4, ?_⟩, rfl, fun _ => ⟨rfl, hterm⟩, ?_,
      fun _ => hterm⟩
    · intro x hx
      simp [CLI.line] at hx
    · intro i hi
      simp only [List.mem_singleton] at hi
      rw [hi]; exact hp128
  · rw [if_neg hn, if_neg hn]
    by_cases ht : (c == 9) = true
    · rw [if_pos ht, if_pos ht]
      have hcs : cstr (s.current_cmd.set p 0) = (s.current_cmd.set p 0).take p := by
        rw [cstr_set_zero _ _ hplt h5, take_set_of_le _ _ _ _ (Nat.le_refl _)]
      obtain ⟨a1, a2, a3, a4, a5, a6, a7⟩ := attempt_completion_core cmds
        ⟨s.current_state, s.current_cmd.set p 0, s.last_cmd, p, s.console, s.posted, s.calls⟩
        hset_len hp128 hcs
      have hidx : ∀ i ∈ p :: attempt_completion_indices cmds
          ⟨s.current_state, s.current_cmd.set p 0, s.last_cmd, p, s.console, s.posted,
            s.calls⟩, i ≤ CMD_STR_LEN := by
        intro i hi
        simp only [List.mem_cons] at hi
        rcases hi with rfl | hi
        · exact hp128
        · exact a7 i hi
      cases hx : attempt_completion cmds
        ⟨s.current_state, s.current_cmd.set p 0, s.last_cmd, p, s.console, s.posted, s.calls⟩
        with
      | mk s2 r =>
        rw [hx] at a1 a2 a3 a4 a5 a6
        simp only at a1 a2 a3 a4 a5 a6
        have hcore2 : s2.Core := by
          refine ⟨a1, by rw [a4]; exact h2, Nat.le_succ_of_le a2, by rw [a4]; exact h4, ?_⟩
          unfold CLI.line
          rw [hmin _ a2]
          exact a3
        cases r with
        | error e =>
          simp only
          exact ⟨hcore2, a5, (fun h => by cases h), hidx, fun _ => a6⟩
        | ok b =>
          cases b with
          | true =>
            simp only
            refine ⟨?_, a5, (fun h => by cases h), hidx, fun _ => a6⟩
            exact core_of_fields s2 (write_current_cmd s2) rfl rfl rfl hcore2
          | false =>
            simp only
            obtain ⟨l1, l2, l3, l4⟩ := list_matches_fields cmds s2
            have hcore3 : (list_matches cmds s2).1.Core :=
              core_of_fields s2 _ l1 l2 l3 hcore2
            cases hy : list_matches cmds s2 with
            | mk s3 r3 =>
              rw [hy] at hcore3 l4 l1
              simp only at l1
              cases r3 with
              | error e =>
                simp only
                exact ⟨hcore3, l4.trans a5, (fun h => by cases h), hidx,
                  fun _ => by rw [l1]; exact a6⟩
              | ok u =>
                simp only
                exact ⟨hcore3, l4.trans a5, (fun h => by cases h), hidx,
                  fun _ => by rw [l1]; exact a6⟩
    · rw [if_neg ht, if_neg ht]
      have hidx2 : ∀ i ∈ [p, p], i ≤ CMD_STR_LEN := by
        intro i hi
        simp only [List.mem_cons, List.mem_singleton, List.not_mem_nil, or_false, or_self] at hi
        rw [hi]; exact hp128
      have hidx1 : ∀ i ∈ [p], i ≤ CMD_STR_LEN := by
        intro i hi
        simp only [List.mem_singleton] at hi
        rw [hi]; exact hp128
      by_cases hb0 : ((c == 8 || c == 127) && p == 0) = true
      · rw [if_pos hb0, if_pos hb0]
        have hp0 : p = 0 := by
          simp only [Bool.and_eq_true, beq_iff_eq] at hb0
          exact hb0.2
        refine ⟨⟨hset_len, h2, by show p ≤ CMD_STR_LEN + 1; omega, h4, ?_⟩, rfl,
          (fun h => by cases h), hidx1, fun h9 => absurd h9 ht⟩
        intro x hx
        have : x ∈ (s.current_cmd.set p 0).take (min p CMD_STR_LEN) := hx
        rw [hp0] at this
        simp at this
      · rw [if_neg hb0, if_neg hb0]
        by_cases hb : (c == 8 || c == 127) = true
        · rw [if_pos hb]
          refine ⟨⟨by rw [List.length_set]; exact hset_len, h2,
            by show p - 1 ≤ CMD_STR_LEN + 1; omega, h4, ?_⟩, rfl, (fun h => by cases h), hidx2,
            fun h9 => absurd h9 ht⟩
          intro x hx
          have hx2 : x ∈ ((s.current_cmd.set p 0).set p 0).take (min (p - 1) CMD_STR_LEN) := hx
          rw [hmin _ (by omega), take_set_of_le _ _ _ _ (by omega),
            take_set_of_le _ _ _ _ (by omega)] at hx2
          have hsub : s.current_cmd.take (p - 1) = (s.current_cmd.take p).take (p - 1) := by
            rw [List.take_take, Nat.min_eq_left (by omega)]
          rw [hsub] at hx2
          exact h5 x (List.mem_of_mem_take hx2)
        · rw [if_neg hb]
          refine ⟨⟨by rw [List.length_set]; exact hset_len, h2,
            by show p + 1 ≤ CMD_STR_LEN + 1; omega, h4, ?_⟩, rfl, (fun h => by cases h), hidx2,
            fun h9 => absurd h9 ht⟩
          intro x hx
          have hx2 : x ∈ ((s.current_cmd.set p 0).set p c).take (min (p + 1) CMD_STR_LEN) := hx
          by_cases hlt : p < CMD_STR_LEN
          · rw [hmin _ (by omega), take_set_succ _ _ _ (by rw [hset_len]; omega),
              take_set_of_le _ _ _ _ (Nat.le_refl _)] at hx2
            simp only [List.mem_append, List.mem_singleton] at hx2
            rcases hx2 with h | h
            · exact h5 x h
            · rw [h]; exact hc
          · have hpe : p = CMD_STR_LEN := by omega
            rw [hpe, Nat.min_eq_right (by omega), take_set_of_le _ _ _ _ (Nat.le_refl _),
              take_set_of_le _ _ _ _ (Nat.le_refl _)] at hx2
            rw [hpe] at h5
            exact h5 x hx2

end control

namespace control

theorem load_last_cmd_fields (s : CLI) :
    (load_last_cmd s).current_cmd
      = (strncpy s.current_cmd 0 s.last_cmd (CMD_STR_LEN + 1)).set CMD_STR_LEN 0 ∧
    (load_last_cmd s).current_position = strlen s.last_cmd ∧
    (load_last_cmd s).last_cmd = s.last_cmd ∧
    (load_last_cmd s).current_state = s.current_state := by
  unfold load_last_cmd
  dsimp only
  split <;> exact ⟨rfl, rfl, rfl, rfl⟩

theorem load_last_cmd_core (s : CLI) (hs : s.Core) :
    (load_last_cmd s).Core ∧ (load_last_cmd s).current_state = s.current_state := by
  obtain ⟨h1, h2, h3, h4, h5⟩ := hs
  obtain ⟨f1, f2, f3, f4⟩ := load_last_cmd_fields s
  have hcopy := cstr_copy s.current_cmd s.last_cmd h4
  have hlen := copy_length s.current_cmd s.last_cmd h1 h4
  refine ⟨⟨by rw [f1]; exact hlen, by rw [f3]; exact h2, by rw [f2]; omega,
    by rw [f3]; exact h4, ?_⟩, f4⟩
  unfold CLI.line
  rw [f1, f2, Nat.min_eq_left h4]
  have hsl : strlen s.last_cmd
      = strlen ((strncpy s.current_cmd 0 s.last_cmd (CMD_STR_LEN + 1)).set CMD_STR_LEN 0) := by
    unfold strlen
    rw [hcopy]
  rw [hsl, take_strlen]
  exact cstr_nonzero _

theorem reset_cmd_core (s : CLI) (hs : s.Core) :
    (reset_cmd s).Core ∧ (reset_cmd s).current_state = s.current_state ∧
    (reset_cmd s).current_position = 0 ∧ strlen (reset_cmd s).current_cmd ≤ CMD_STR_LEN := by
  obtain ⟨h1, h2, h3, h4, h5⟩ := hs
  have hc : (reset_cmd s).current_cmd = memset s.current_cmd 0 CMD_STR_LEN := rfl
  have hp : (reset_cmd s).current_position = 0 := rfl
  have hl : (reset_cmd s).last_cmd = s.last_cmd := rfl
  refine ⟨⟨?_, by rw [hl]; exact h2, by rw [hp]; omega, by rw [hl]; exact h4, ?_⟩, rfl, hp, ?_⟩
  · rw [hc]
    simp only [memset, List.length_append, List.length_replicate, List.length_drop, h1]
    simp [CMD_STR_LEN]
  · unfold CLI.line
    rw [hp]
    simp
  · rw [hc]
    have : strlen (memset s.current_cmd 0 CMD_STR_LEN) = 0 := by
      simp [strlen, cstr, memset, CMD_STR_LEN, List.replicate_succ]
    omega

theorem echo_fields (s : CLI) (c : Nat) :
    (echo s c).current_cmd = s.current_cmd ∧ (echo s c).current_position = s.current_position ∧
    (echo s c).last_cmd = s.last_cmd ∧ (echo s c).current_state = s.current_state := by
  unfold echo
  dsimp only
  split <;> exact ⟨rfl, rfl, rfl, rfl⟩

theorem process_input_loop_core (cmds : Commands) (cs : List Nat) :
    ∀ (s : CLI), (∀ x ∈ cs, x ≠ 0) → s.Core →
      (process_input_loop cmds s cs).1.Core ∧
      (process_input_loop cmds s cs).1.current_state = s.current_state ∧
      ((process_input_loop cmds s cs).2 = .ok true →
        (process_input_loop cmds s cs).1.current_position = 0 ∧
        strlen (process_input_loop cmds s cs).1.current_cmd ≤ CMD_STR_LEN) := by
  induction cs with
  | nil =>
    intro s _ hs
    exact ⟨hs, rfl, fun h => by cases h⟩
  | cons c rest ih =>
    intro s hnz hs
    have hc : c ≠ 0 := hnz c (List.mem_cons_self _ _)
    have hrest : ∀ x ∈ rest, x ≠ 0 := fun x hx => hnz x (List.mem_cons_of_mem _ hx)
    rw [process_input_loop]
    generalize (if s.current_position < 2 then Except.ok false else is_up_arrow s c) = u
    generalize (if s.current_position < 2 then Except.ok false else is_down_arrow s c) = d
    have harrow : (arrow_response s).Core := core_of_fields s _ rfl rfl rfl hs
    cases u with
    | error e => exact ⟨hs, rfl, fun h => by cases h⟩
    | ok ub =>
      cases d with
      | error e => cases ub <;> exact ⟨hs, rfl, fun h => by cases h⟩
      | ok db =>
        cases ub with
        | true =>
          obtain ⟨l1, l2⟩ := load_last_cmd_core (arrow_response s) harrow
          obtain ⟨i1, i2, i3⟩ := ih (load_last_cmd (arrow_response s)) hrest l1
          exact ⟨i1, i2.trans l2, i3⟩
        | false =>
          cases db with
          | true =>
            obtain ⟨r1, r2, r3, r4⟩ := reset_cmd_core (arrow_response s) harrow
            exact ⟨r1, r2, fun _ => ⟨r3, r4⟩⟩
          | false =>
            simp only
            obtain ⟨e1, e2, e3, e4⟩ := echo_fields s c
            have hecho : (echo s c).Core := core_of_fields s _ e1 e2 e3 hs
            obtain ⟨p1, p2, p3, _, _⟩ := process_character_core cmds (echo s c) c hecho hc
            cases hx : process_character cmds (echo s c) c with
            | mk s1 r =>
              rw [hx] at p1 p2 p3
              simp only at p1 p2 p3
              cases r with
              | error e => exact ⟨p1, p2.trans e4, fun h => by cases h⟩
              | ok x =>
                cases x with
                | true => exact ⟨p1, p2.trans e4, fun _ => p3 rfl⟩
                | false =>
                  obtain ⟨i1, i2, i3⟩ := ih s1 hrest p1
                  exact ⟨i1, i2.trans (p2.trans e4), i3⟩

end control

namespace control

theorem save_last_cmd_core (s : CLI) (hs : s.Core) :
    (save_last_cmd s).last_cmd.length = CMD_STR_LEN + 1 ∧
    strlen (save_last_cmd s).last_cmd ≤ CMD_STR_LEN := by
  obtain ⟨h1, h2, h3, h4, h5⟩ := hs
  have hl : (save_last_cmd s).last_cmd
      = (strncpy s.last_cmd 0 s.current_cmd (CMD_STR_LEN + 1)).set CMD_STR_LEN 0 := rfl
  have hcl : (strncpy s.last_cmd 0 s.current_cmd (CMD_STR_LEN + 1)).length = CMD_STR_LEN + 1 := by
    simp only [strncpy, List.take_zero, List.nil_append, List.length_append, List.length_take,
      List.length_replicate, List.length_drop, h2, Nat.zero_add, Nat.sub_self, Nat.add_zero]
    have : (cstr s.current_cmd).length = strlen s.current_cmd := rfl
    omega
  rw [hl]
  exact ⟨by rw [List.length_set]; exact hcl,
    strlen_set_zero_le _ _ (by rw [hcl]; exact Nat.lt_succ_self _)⟩

theorem execute_command_core (cmds : Commands) (s : CLI) (hs : s.Core)
    (hp : s.current_position = 0) :
    (execute_command cmds s).1.Core ∧
    (execute_command cmds s).1.current_position = 0 ∧
    (execute_command cmds s).1.current_state = s.current_state := by
  obtain ⟨s1, s2⟩ := save_last_cmd_core s hs
  obtain ⟨h1, h2, h3, h4, h5⟩ := hs
  have hline : ∀ (t : CLI), t.current_position = 0 → ∀ c ∈ t.line, c ≠ 0 := by
    intro t ht c hc
    unfold CLI.line at hc
    rw [ht] at hc
    simp at hc
  unfold execute_command
  dsimp only
  split
  · exact ⟨⟨h1, h2, h3, h4, h5⟩, hp, rfl⟩
  · split
    · split
      · exact ⟨⟨h1, h2, h3, h4, h5⟩, hp, rfl⟩
      · exact ⟨⟨h1, s1, by show s.current_position ≤ _; omega, s2, hline _ hp⟩, hp, rfl⟩
    · refine ⟨⟨?_, s1, by show s.current_position ≤ _; omega, s2, hline _ hp⟩, hp, rfl⟩
      show (get_args s.current_cmd).current_cmd.length = CMD_STR_LEN + 1
      rw [get_args_length]; exact h1

theorem handle_event_safe (cmds : Commands) (mem : Nat → List Nat) (s : CLI) (evt : Event)
    (console_in : List Nat) (hs : s.Safe) :
    (handle_event cmds mem s evt console_in).1.Safe := by
  obtain ⟨hcore, hpos, hexec⟩ := hs
  cases hid : evt.id with
  | control_UARTInput =>
    simp only [handle_event, hid]
    by_cases hw : s.current_state = CLIState.WaitingForInput
    · simp only [hw, if_true, handle_state]
      unfold process_input
      simp only
      have hnz : ∀ x ∈ (cstr console_in).take (if strlen console_in > CMD_STR_LEN
          then CMD_STR_LEN else strlen console_in), x ≠ 0 :=
        fun x hx => cstr_nonzero _ x (List.mem_of_mem_take hx)
      generalize ((cstr console_in).take (if strlen console_in > CMD_STR_LEN then CMD_STR_LEN
        else strlen console_in)) = cs at hnz
      obtain ⟨l1, l2, l3⟩ := process_input_loop_core cmds cs s hnz hcore
      cases hx : process_input_loop cmds s cs with
      | mk s1 r =>
        rw [hx] at l1 l2 l3
        simp only at l1 l2 l3
        cases r with
        | error e =>
          simp only
          exact ⟨l1, fun h => absurd (l2.trans hw) h, fun h => by rw [l2, hw] at h; cases h⟩
        | ok exec =>
          cases exec with
          | false =>
            simp only
            exact ⟨core_of_fields s1 _ rfl rfl rfl l1, fun h => absurd rfl h,
              fun h => by cases h⟩
          | true =>
            simp only
            obtain ⟨q1, q2⟩ := l3 rfl
            exact ⟨core_of_fields s1 _ rfl rfl rfl l1, fun _ => q1, fun _ => q2⟩
    · simp only [hw, if_false]
      exact ⟨core_of_fields s _ rfl rfl rfl hcore, hpos, hexec⟩
  | control_UpdateCLIState =>
    simp only [handle_event, hid, handle_state]
    cases hst : s.current_state with
    | WaitingForInput =>
      simp only [process_input]
      exact ⟨hcore, fun h => absurd hst h, fun h => by rw [hst] at h; cases h⟩
    | ExecutingCommand =>
      simp only
      have hp0 : s.current_position = 0 := hpos (by rw [hst]; simp)
      obtain ⟨e1, e2, e3⟩ := execute_command_core cmds s hcore hp0
      cases hx : execute_command cmds s with
      | mk s1 r =>
        rw [hx] at e1 e2 e3
        simp only at e1 e2 e3
        cases r with
        | error e =>
          simp only
          have hterm := hexec hst
          refine ⟨e1, fun _ => e2, ?_⟩
          intro _
          have : s1 = s := by
            unfold execute_command at hx
            dsimp only at hx
            split at hx
            · cases hx; rfl
            · split at hx
              · split at hx <;> cases hx
              · cases hx
          rw [this]; exact hterm
        | ok u =>
          simp only
          exact ⟨core_of_fields s1 _ rfl rfl rfl e1, fun _ => e2, fun h => by cases h⟩
    | WritingPrompt =>
      simp only
      exact ⟨core_of_fields s _ rfl rfl rfl hcore, fun h => absurd rfl h, fun h => by cases h⟩
  | control_CLIOutput =>
    simp only [handle_event, hid]
    exact ⟨core_of_fields s _ rfl rfl rfl hcore, hpos, hexec⟩
  | other =>
    simp only [handle_event, hid]
    exact ⟨hcore, hpos, hexec⟩

theorem deliver_safe (cmds : Commands) (mem : Nat → List Nat) :
    ∀ (evs : List (Event × List Nat)) (s : CLI), s.Safe → (deliver cmds mem s evs).1.Safe := by
  intro evs
  induction evs with
  | nil => intro s hs; exact hs
  | cons x xs ih =>
    intro s hs
    rw [deliver]
    exact ih _ (handle_event_safe cmds mem s x.1 x.2 hs)

theorem init_control_safe (cmds : Commands) : (init_control cmds boot).1.Safe := by
  have h1 : (init_control cmds boot).1.current_cmd = List.replicate (CMD_STR_LEN + 1) 0 := rfl
  have h2 : (init_control cmds boot).1.last_cmd = List.replicate (CMD_STR_LEN + 1) 0 := rfl
  have h3 : (init_control cmds boot).1.current_position = 0 := rfl
  have h4 : (init_control cmds boot).1.current_state = CLIState.WaitingForInput := rfl
  refine ⟨⟨by rw [h1, List.length_replicate], by rw [h2, List.length_replicate],
    by rw [h3]; omega, ?_, ?_⟩, fun h => absurd h4 h, fun h => by rw [h4] at h; cases h⟩
  · rw [h2]
    have : strlen (List.replicate (CMD_STR_LEN + 1) 0) = 0 := by
      simp [strlen, cstr, List.replicate_succ]
    omega
  · unfold CLI.line
    rw [h3]
    simp

/-- C36: in every state the editor reaches from `init_control` by any
sequence of events and console reads, and after any number of bytes of a
further read, both buffers have the `CMD_STR_LEN + 1` bytes of their arrays
(no `strncpy` or `memset` has gone past them), the cursor is at most
`CMD_STR_LEN + 1`, and `last_cmd` holds a terminator; every index at which
`is_up_arrow`, `is_down_arrow`, `process_character` and `attempt_completion`
then load from or store to `current_cmd` is at most `CMD_STR_LEN`; the
string in `current_cmd` that a tab makes `attempt_completion` and
`list_matches` read ends at or before `CMD_STR_LEN`, so does the string the
tab leaves for `write_current_cmd`, and so does the string `execute_command`
reads in `ExecutingCommand`. -/
theorem buffers_in_bounds (cmds : Commands) (mem : Nat → List Nat)
    (evs : List (Event × List Nat)) (read : List Nat) (k c : Nat) :
    (deliver cmds mem (init_control cmds boot).1 evs).1.Safe ∧
    (process_input_loop cmds (deliver cmds mem (init_control cmds boot).1 evs).1
      ((cstr read).take k)).1.Core ∧
    (∀ i ∈ arrow_indices (process_input_loop cmds
          (deliver cmds mem (init_control cmds boot).1 evs).1 ((cstr read).take k)).1 ++
        process_character_indices cmds (echo (process_input_loop cmds
          (deliver cmds mem (init_control cmds boot).1 evs).1 ((cstr read).take k)).1 c) c,
      i ≤ CMD_STR_LEN) ∧
    strlen ((process_input_loop cmds (deliver cmds mem (init_control cmds boot).1 evs).1
        ((cstr read).take k)).1.current_cmd.set
      (min (process_input_loop cmds (deliver cmds mem (init_control cmds boot).1 evs).1
        ((cstr read).take k)).1.current_position CMD_STR_LEN) 0) ≤ CMD_STR_LEN ∧
    strlen (process_character cmds (echo (process_input_loop cmds
        (deliver cmds mem (init_control cmds boot).1 evs).1 ((cstr read).take k)).1 9)
      9).1.current_cmd ≤ CMD_STR_LEN := by
  have hsafe := deliver_safe cmds mem evs _ (init_control_safe cmds)
  have hnz : ∀ x ∈ (cstr read).take k, x ≠ 0 :=
    fun x hx => cstr_nonzero _ x (List.mem_of_mem_take hx)
  obtain ⟨hcore, _, _⟩ := process_input_loop_core cmds _
    (deliver cmds mem (init_control cmds boot).1 evs).1 hnz hsafe.1
  generalize (process_input_loop cmds (deliver cmds mem (init_control cmds boot).1 evs).1
    ((cstr read).take k)).1 = t at hcore
  refine ⟨hsafe, hcore, ?_, ?_, ?_⟩
  · intro i hi
    simp only [List.mem_append] at hi
    rcases hi with hi | hi
    · unfold arrow_indices at hi
      obtain ⟨_, _, h3, _, _⟩ := hcore
      split at hi
      · simp at hi
      · simp only [List.mem_cons, List.mem_singleton, List.not_mem_nil, or_false] at hi
        rcases hi with rfl | rfl <;> omega
    · obtain ⟨e1, e2, e3, _⟩ := echo_fields t c
      have hecho : (echo t c).Core := core_of_fields t _ e1 e2 e3 hcore
      by_cases hc0 : c = 0
      · subst hc0
        unfold process_character_indices at hi
        simp only [clamp_eq_min] at hi
        have hm : min (echo t 0).current_position CMD_STR_LEN ≤ CMD_STR_LEN :=
          Nat.min_le_right _ _
        simp at hi
        rw [hi]; exact hm
      · exact (process_character_core cmds (echo t c) c hecho hc0).2.2.2.1 i hi
  · obtain ⟨h1, _, _, _, _⟩ := hcore
    have hm : min t.current_position CMD_STR_LEN ≤ CMD_STR_LEN := Nat.min_le_right _ _
    exact Nat.le_trans (strlen_set_zero_le _ _ (by rw [h1]; omega)) hm
  · obtain ⟨e1, e2, e3, _⟩ := echo_fields t 9
    have hecho : (echo t 9).Core := core_of_fields t _ e1 e2 e3 hcore
    exact (process_character_core cmds (echo t 9) 9 hecho (by decide)).2.2.2.2 rfl

end control
